import Mathlib

/-! # The record store, the access rules and the data service of `src/server.js`

A shallow embedding of the storage plugin (`createInstance` and its helpers
`assignSystemProps`, `assignClean`, `deepCopy`, lines 904-1127 of `src/server.js`),
of the rule engine (`canAccess`, `getRule`, lines 1322-1419) and of the handlers of the
data service (lines 502-787), together with the properties of their operations.

Modelling conventions.

* A JavaScript value is a `JSValue`.  Numbers are modelled by integers (the store only
  ever computes timestamps); an object is the list of its own enumerable properties in
  the order in which the engine enumerates them.
* A `Map` is the list of its entries in insertion order.
* `Date.now()` is an argument `now` of every operation that reads the clock, and the
  successive results of `uuid()` are an argument `uuids`, the list of the values the
  generator is going to produce.
* An operation that can throw after it has changed the store returns the store together
  with an `Except`; an error is the thrown JavaScript exception.
* An object has the prototype `Object.prototype`.  A field named `hasOwnProperty` hides
  the method of that name, and a call of the method on such an object throws; the key
  `__proto__`, with which a payload would change the prototype of the copy made of it, is
  excluded by the predicate `protoFree` where a statement says what a write stores.
-/

namespace Storage

/-! ## Values -/

/-- JavaScript values, as far as records hold them. -/
inductive JSValue where
  | undefined
  | null
  | bool (b : Bool)
  | num (n : Int)
  | str (s : String)
  | arr (xs : List JSValue)
  | obj (ps : List (String × JSValue))

/-- Property list of an object: own enumerable properties in enumeration order. -/
abbrev Props := List (String × JSValue)

mutual
/-- Structural equality test on values. -/
def JSValue.beq : JSValue → JSValue → Bool
  | .undefined, .undefined => true
  | .null, .null => true
  | .bool a, .bool b => a == b
  | .num a, .num b => a == b
  | .str a, .str b => a == b
  | .arr a, .arr b => beqList a b
  | .obj a, .obj b => beqProps a b
  | _, _ => false
/-- Structural equality test on lists of values. -/
def beqList : List JSValue → List JSValue → Bool
  | [], [] => true
  | a :: s, b :: t => JSValue.beq a b && beqList s t
  | _, _ => false
/-- Structural equality test on property lists. -/
def beqProps : Props → Props → Bool
  | [], [] => true
  | (k, a) :: s, (l, b) :: t => k == l && JSValue.beq a b && beqProps s t
  | _, _ => false
end

mutual
theorem JSValue.beq_iff : ∀ a b : JSValue, JSValue.beq a b = true ↔ a = b
  | .undefined, b => by cases b <;> simp [JSValue.beq]
  | .null, b => by cases b <;> simp [JSValue.beq]
  | .bool _, b => by cases b <;> simp [JSValue.beq]
  | .num _, b => by cases b <;> simp [JSValue.beq]
  | .str _, b => by cases b <;> simp [JSValue.beq]
  | .arr xs, b => by cases b <;> simp [JSValue.beq, beqList_iff xs]
  | .obj xs, b => by cases b <;> simp [JSValue.beq, beqProps_iff xs]
theorem beqList_iff : ∀ a b : List JSValue, beqList a b = true ↔ a = b
  | [], b => by cases b <;> simp [beqList]
  | x :: xs, b => by cases b <;> simp [beqList, JSValue.beq_iff x, beqList_iff xs]
theorem beqProps_iff : ∀ a b : Props, beqProps a b = true ↔ a = b
  | [], b => by cases b <;> simp [beqProps]
  | (k, x) :: xs, b => by
    cases b with
    | nil => simp [beqProps]
    | cons p t =>
      obtain ⟨l, y⟩ := p
      simp [beqProps, JSValue.beq_iff x, beqProps_iff xs, and_assoc]
end

instance : DecidableEq JSValue := fun a b =>
  decidable_of_iff _ (JSValue.beq_iff a b)

instance instDecidableEqProps : DecidableEq Props := fun a b =>
  decidable_of_iff _ (beqProps_iff a b)

/-- Exceptions thrown by the store: the `ReferenceError`s it raises itself, and the
`TypeError` of the engine. -/
inductive JSError where
  | referenceError (message : String)
  | typeError (message : String)
  deriving DecidableEq

instance instDecidableEqExcept {ε α : Type} [DecidableEq ε] [DecidableEq α] :
    DecidableEq (Except ε α)
  | .ok a, .ok b => decidable_of_iff (a = b) (by simp)
  | .error a, .error b => decidable_of_iff (a = b) (by simp)
  | .ok _, .error _ => isFalse (by simp)
  | .error _, .ok _ => isFalse (by simp)

/-- The store's own errors all read "... does not exist: ...": they are the NotFound
condition of the specification (the request layer tests `err.message.includes('does not
exist')`). -/
def JSError.isNotFound : JSError → Bool
  | .referenceError _ => true
  | .typeError _ => false

/-! ## Association lists: object properties and `Map` entries -/

/-- Value stored under key `k` (`map.get(k)`, `obj[k]` for an own property). -/
def lookup {α : Type} (k : String) : List (String × α) → Option α
  | [] => none
  | (a, v) :: t => if a = k then some v else lookup k t

/-- Presence test: `map.has(k)`, `obj.hasOwnProperty(k)`. -/
def has {α : Type} (l : List (String × α)) (k : String) : Bool :=
  (lookup k l).isSome

/-- Overwrite the value of an existing key, keeping its position. -/
def replace {α : Type} (k : String) (v : α) : List (String × α) → List (String × α)
  | [] => []
  | (a, w) :: t => if a = k then (a, v) :: t else (a, w) :: replace k v t

/-- Write `map.set(k, v)`: an existing key keeps its position, a new key goes last. -/
def mapSet {α : Type} (l : List (String × α)) (k : String) (v : α) : List (String × α) :=
  if has l k then replace k v l else l ++ [(k, v)]

/-- Removal `map.delete(k)`. -/
def mapDelete {α : Type} (l : List (String × α)) (k : String) : List (String × α) :=
  l.filter (fun e => !decide (e.1 = k))

/-- Value of a decimal digit. -/
def digitValue (c : Char) : Option Nat :=
  if 48 ≤ c.toNat ∧ c.toNat ≤ 57 then some (c.toNat - 48) else none

/-- Value of a string of decimal digits (`none` when a character is not a digit). -/
def digitsValue : List Char → Nat → Option Nat
  | [], acc => some acc
  | c :: cs, acc =>
    match digitValue c with
    | some d => digitsValue cs (10 * acc + d)
    | none => none

/-- Array index denoted by a property key: the key is the canonical decimal numeral of a
number below `2^32 - 1`.  Such keys are enumerated first, in ascending numeric order. -/
def arrayIndex (k : String) : Option Nat :=
  match k.data with
  | [] => none
  | c :: cs =>
    if c = '0' ∧ cs ≠ [] then none
    else
      match digitsValue (c :: cs) 0 with
      | some n => if n < 4294967295 then some n else none
      | none => none

/-- Enumeration order of property keys: an existing key `a` is enumerated before a newly
created key `k` unless `k` is an array index and `a` is not a smaller array index (two
different keys never denote the same index). -/
def precedes (a k : String) : Bool :=
  match arrayIndex a, arrayIndex k with
  | some m, some n => decide (m ≤ n)
  | some _, none => true
  | none, some _ => false
  | none, none => true

/-- Create a property that the object does not have yet. -/
def insertProp (k : String) (v : JSValue) : Props → Props
  | [] => [(k, v)]
  | (a, w) :: t => if precedes a k then (a, w) :: insertProp k v t else (k, v) :: (a, w) :: t

/-- Assignment `obj[k] = v` (also `Object.assign(obj, {[k]: v})`). -/
def setProp (o : Props) (k : String) (v : JSValue) : Props :=
  if has o k then replace k v o else insertProp k v o

/-- Read `obj[k]`: `undefined` when the property is absent. -/
def getProp (o : Props) (k : String) : JSValue :=
  (lookup k o).getD .undefined

/-- Keys in enumeration order: array indices first, ascending, then the other keys, and no
key twice.  Every property list of an actual object satisfies this. -/
def keysOK : List String → Bool
  | [] => true
  | a :: t => t.all (fun b => precedes a b && !decide (a = b)) && keysOK t

mutual
/-- Representation invariant: every object inside the value lists its properties in
enumeration order, without repetition. -/
def JSValue.wf : JSValue → Bool
  | .arr xs => wfList xs
  | .obj ps => keysOK (ps.map Prod.fst) && wfProps ps
  | .undefined => true
  | .null => true
  | .bool _ => true
  | .num _ => true
  | .str _ => true
/-- All elements satisfy `JSValue.wf`. -/
def wfList : List JSValue → Bool
  | [] => true
  | x :: xs => x.wf && wfList xs
/-- All property values satisfy `JSValue.wf`. -/
def wfProps : Props → Bool
  | [] => true
  | (_, v) :: t => v.wf && wfProps t
end

mutual
/-- The value contains no `null`, at any depth. -/
def JSValue.nullFree : JSValue → Bool
  | .arr xs => nullFreeList xs
  | .obj ps => nullFreeProps ps
  | .null => false
  | .undefined => true
  | .bool _ => true
  | .num _ => true
  | .str _ => true
/-- No element contains `null`. -/
def nullFreeList : List JSValue → Bool
  | [] => true
  | x :: xs => x.nullFree && nullFreeList xs
/-- No property value contains `null`. -/
def nullFreeProps : Props → Bool
  | [] => true
  | (_, v) :: t => v.nullFree && nullFreeProps t
end

/-- A record as an actual object: properties in enumeration order, values well formed. -/
def wfRecord (r : Props) : Bool :=
  keysOK (r.map Prod.fst) && wfProps r

/-! ## `deepCopy`, `assignClean`, `assignSystemProps` -/

mutual
/-- Source `deepCopy(value)`: an array is mapped, anything whose `typeof` is `'object'` is
rebuilt from `Object.entries(value)`, which throws a `TypeError` on `null`; other values are
returned as they are. -/
def deepCopy : JSValue → Except JSError JSValue
  | .arr xs =>
    match deepCopyMap xs with
    | .ok ys => .ok (.arr ys)
    | .error e => .error e
  | .obj ps =>
    match deepCopyReduce ps [] with
    | .ok qs => .ok (.obj qs)
    | .error e => .error e
  | .null => .error (.typeError "Cannot convert undefined or null to object")
  | .undefined => .ok .undefined
  | .bool b => .ok (.bool b)
  | .num n => .ok (.num n)
  | .str s => .ok (.str s)
/-- The call `value.map(deepCopy)`. -/
def deepCopyMap : List JSValue → Except JSError (List JSValue)
  | [] => .ok []
  | x :: xs =>
    match deepCopy x with
    | .error e => .error e
    | .ok y =>
      match deepCopyMap xs with
      | .error e => .error e
      | .ok ys => .ok (y :: ys)
/-- The call `entries.reduce((p, [k, v]) => Object.assign(p, {[k]: deepCopy(v)}), p)`. -/
def deepCopyReduce : Props → Props → Except JSError Props
  | [], p => .ok p
  | (k, v) :: rest, p =>
    match deepCopy v with
    | .error e => .error e
    | .ok w => deepCopyReduce rest (setProp p k w)
end

/-- Copy `deepCopy(record)` of a value known to be an object. -/
def deepCopyObj (record : Props) : Except JSError Props :=
  deepCopyReduce record []

/-- The system fields (`whitelist` of `assignSystemProps`, `blacklist` of `assignClean`). -/
def systemProps : List String := ["_id", "_createdOn", "_updatedOn", "_ownerId"]

/-- Source `assignSystemProps(target, entry)` (the store never passes `rest`): the loop over
the properties `props` of the whitelist still to be handled.  The call
`entry.hasOwnProperty(prop)` reaches the method of `Object.prototype` unless the record
has a field named `hasOwnProperty`: the field hides the method, its value is data and
never a function, and the call throws a `TypeError`. -/
def assignSystemPropsLoop (entry : Props) : List String → Props → Except JSError Props
  | [], target => .ok target
  | prop :: props, target =>
    if has entry "hasOwnProperty" then
      .error (.typeError "entry.hasOwnProperty is not a function")
    else if has entry prop then
      match deepCopy (getProp entry prop) with
      | .error e => .error e
      | .ok w => assignSystemPropsLoop entry props (setProp target prop w)
    else assignSystemPropsLoop entry props target

/-- Source `assignSystemProps(target, entry)`. -/
def assignSystemProps (target entry : Props) : Except JSError Props :=
  assignSystemPropsLoop entry systemProps target

/-- Source `assignClean(target, entry)` (the store never passes `rest`): `for (let key in
entry)` runs through the properties of `entry` in enumeration order. -/
def assignClean (target : Props) : Props → Except JSError Props
  | [] => .ok target
  | (key, v) :: rest =>
    if systemProps.contains key == false then
      match deepCopy v with
      | .error e => .error e
      | .ok w => assignClean (setProp target key w) rest
    else assignClean target rest

/-! ## The store -/

/-- A collection: `Map` from record id to record. -/
abbrev Collection := List (String × Props)

/-- The variable `collections` of `createInstance`: `Map` from name to collection. -/
abbrev Collections := List (String × Collection)

instance instDecidableEqCollection : DecidableEq Collection :=
  inferInstanceAs (DecidableEq (List (String × Props)))

instance instDecidableEqCollections : DecidableEq Collections :=
  inferInstanceAs (DecidableEq (List (String × Collection)))

/-- JavaScript `!x` for an optional string argument: true for `undefined` and for `''`. -/
def falsy : Option String → Bool
  | none => true
  | some s => s = ""

/-- The loop `entries.map(([k, v]) => Object.assign(deepCopy(v), { _id: k }))`. -/
def getEntries : Collection → Except JSError (List JSValue)
  | [] => .ok []
  | (k, v) :: rest =>
    match deepCopyObj v with
    | .error e => .error e
    | .ok c =>
      match getEntries rest with
      | .error e => .error e
      | .ok cs => .ok (.obj (setProp c "_id" (.str k)) :: cs)

/-- Source `get(collection, id)`. -/
def get (collections : Collections) (collection id : Option String) : Except JSError JSValue :=
  if falsy collection then .ok (.arr (collections.map (fun e => .str e.1)))
  else
    let name := collection.getD ""
    match lookup name collections with
    | none => .error (.referenceError ("Collection does not exist: " ++ name))
    | some targetCollection =>
      if falsy id then
        match getEntries targetCollection with
        | .error e => .error e
        | .ok result => .ok (.arr result)
      else
        let key := id.getD ""
        match lookup key targetCollection with
        | none => .error (.referenceError ("Entry does not exist: " ++ key))
        | some entry =>
          match deepCopyObj entry with
          | .error e => .error e
          | .ok c => .ok (.obj (setProp c "_id" (.str key)))

/-- The loop `let id = uuid(); while (targetCollection.has(id)) id = uuid();` run on the
values `uuids` the generator is going to produce: the id found and the values left, or
`none` when every value of the list collides. -/
def freshId (targetCollection : Collection) : List String → Option (String × List String)
  | [] => none
  | id :: rest => if has targetCollection id then freshId targetCollection rest else some (id, rest)

/-- What a call leaves behind: the store, the generator values not yet consumed, and the
value returned or the exception thrown. -/
structure Outcome where
  collections : Collections
  uuids : List String
  result : Except JSError JSValue
  deriving DecidableEq

/-- Source `add(collection, data)`; `none` when the id loop does not end within `uuids`. -/
def add (collections : Collections) (collection : String) (data : Props) (now : Int)
    (uuids : List String) : Option Outcome :=
  match assignClean [("_ownerId", getProp data "_ownerId")] data with
  | .error e => some ⟨collections, uuids, .error e⟩
  | .ok record =>
    let targetCollection := (lookup collection collections).getD []
    let collections1 :=
      if has collections collection then collections else mapSet collections collection []
    match freshId targetCollection uuids with
    | none => none
    | some (id, rest) =>
      let record1 := setProp record "_createdOn" (.num now)
      let collections2 := mapSet collections1 collection (mapSet targetCollection id record1)
      match deepCopyObj record1 with
      | .error e => some ⟨collections2, rest, .error e⟩
      | .ok c => some ⟨collections2, rest, .ok (.obj (setProp c "_id" (.str id)))⟩

/-- Source `set(collection, id, data)`. -/
def set (collections : Collections) (collection id : String) (data : Props) (now : Int) :
    Collections × Except JSError JSValue :=
  match lookup collection collections with
  | none => (collections, .error (.referenceError ("Collection does not exist: " ++ collection)))
  | some targetCollection =>
    match lookup id targetCollection with
    | none => (collections, .error (.referenceError ("Entry does not exist: " ++ id)))
    | some existing =>
      match deepCopyObj data with
      | .error e => (collections, .error e)
      | .ok copy =>
        match assignSystemProps copy existing with
        | .error e => (collections, .error e)
        | .ok record =>
          let record1 := setProp record "_updatedOn" (.num now)
          let collections1 := mapSet collections collection (mapSet targetCollection id record1)
          match deepCopyObj record1 with
          | .error e => (collections1, .error e)
          | .ok c => (collections1, .ok (.obj (setProp c "_id" (.str id))))

/-- Source `merge(collection, id, data)`. -/
def merge (collections : Collections) (collection id : String) (data : Props) (now : Int) :
    Collections × Except JSError JSValue :=
  match lookup collection collections with
  | none => (collections, .error (.referenceError ("Collection does not exist: " ++ collection)))
  | some targetCollection =>
    match lookup id targetCollection with
    | none => (collections, .error (.referenceError ("Entry does not exist: " ++ id)))
    | some stored =>
      match deepCopyObj stored with
      | .error e => (collections, .error e)
      | .ok existing =>
        match assignClean existing data with
        | .error e => (collections, .error e)
        | .ok record =>
          let record1 := setProp record "_updatedOn" (.num now)
          let collections1 := mapSet collections collection (mapSet targetCollection id record1)
          match deepCopyObj record1 with
          | .error e => (collections1, .error e)
          | .ok c => (collections1, .ok (.obj (setProp c "_id" (.str id))))

/-- Source `del(collection, id)`, exported as `delete`. -/
def del (collections : Collections) (collection id : String) (now : Int) :
    Collections × Except JSError JSValue :=
  match lookup collection collections with
  | none => (collections, .error (.referenceError ("Collection does not exist: " ++ collection)))
  | some targetCollection =>
    match lookup id targetCollection with
    | none => (collections, .error (.referenceError ("Entry does not exist: " ++ id)))
    | some _ =>
      (mapSet collections collection (mapDelete targetCollection id),
        .ok (.obj [("_deletedOn", .num now)]))

end Storage

namespace Storage

/-- The comparison made by `query` between a value of the query object and a value of a
record: two strings are compared after `toLocaleLowerCase()`, anything else with `!=`.
The operator `!=` of the language and the lower-casing function are the parameters `ne`
and `lower`. -/
def mismatch (ne : JSValue → JSValue → Bool) (lower : String → String) :
    JSValue → JSValue → Bool
  | .str targetValue, .str entryValue => lower targetValue != lower entryValue
  | targetValue, entryValue => ne targetValue entryValue

/-- The inner loop of `query`, `for (let prop in entry)`, over the properties of `entry`
still to be visited: the final value of `match`.  The call `query.hasOwnProperty(prop)`
throws a `TypeError` when the query object has a field named `hasOwnProperty`, which hides
the method. -/
def queryMatch (ne : JSValue → JSValue → Bool) (lower : String → String)
    (query entry : Props) : Props → Except JSError Bool
  | [] => .ok true
  | (prop, _) :: rest =>
    if has query "hasOwnProperty" then
      .error (.typeError "query.hasOwnProperty is not a function")
    else if has query prop then
      if mismatch ne lower (getProp query prop) (getProp entry prop) then .ok false
      else queryMatch ne lower query entry rest
    else queryMatch ne lower query entry rest

/-- The outer loop of `query` over the entries of the collection. -/
def queryEntries (ne : JSValue → JSValue → Bool) (lower : String → String)
    (query : Props) : Collection → Except JSError (List JSValue)
  | [] => .ok []
  | (key, entry) :: rest =>
    match queryMatch ne lower query entry entry with
    | .error e => .error e
    | .ok true =>
      match deepCopyObj entry with
      | .error e => .error e
      | .ok c =>
        match queryEntries ne lower query rest with
        | .error e => .error e
        | .ok result => .ok (.obj (setProp c "_id" (.str key)) :: result)
    | .ok false => queryEntries ne lower query rest

/-- Source `query(collection, query)`. -/
def query (ne : JSValue → JSValue → Bool) (lower : String → String)
    (collections : Collections) (collection : String) (query : Props) :
    Except JSError JSValue :=
  match lookup collection collections with
  | none => .error (.referenceError ("Collection does not exist: " ++ collection))
  | some targetCollection =>
    match queryEntries ne lower query targetCollection with
    | .error e => .error e
    | .ok result => .ok (.arr result)

/-- The records of a collection (none when the collection is absent). -/
def records (collections : Collections) (collection : String) : Collection :=
  (lookup collection collections).getD []

/-- The call failed with one of the store's "does not exist" errors. -/
def failsNotFound {α : Type} : Except JSError α → Bool
  | .error e => e.isNotFound
  | .ok _ => false

/-- The call threw (any exception). -/
def fails {α : Type} : Except JSError α → Bool
  | .error _ => true
  | .ok _ => false

/-- The `_id` field of a returned value. -/
def returnedId : JSValue → JSValue
  | .obj ps => getProp ps "_id"
  | _ => .undefined

/-- Consecutive calls `add(collection, data)`, one for each element of `calls` (the payload
and the value of the clock at the call): the store, the generator values left and the
values returned, or `none` as soon as a call throws or does not return. -/
def addAll (collections : Collections) (collection : String) :
    List (Props × Int) → List String → Option (Collections × List String × List JSValue)
  | [], uuids => some (collections, uuids, [])
  | (data, now) :: rest, uuids =>
    match add collections collection data now uuids with
    | some ⟨collections1, uuids1, .ok r⟩ =>
      match addAll collections1 collection rest uuids1 with
      | some (collections2, uuids2, rs) => some (collections2, uuids2, r :: rs)
      | none => none
    | _ => none

/-- The payload fields that `assignClean` copies: those that are not system fields. -/
def cleanFields (entry : Props) : Props :=
  entry.filter (fun p => systemProps.contains p.1 == false)

/-- The assignments `target[k] = v` for the properties `ps`, in order. -/
def assignAll (target ps : Props) : Props :=
  ps.foldl (fun acc p => setProp acc p.1 p.2) target

/-- Two payloads with the same keys in the same order whose values differ at most under
the keys selected by `P`. -/
def agreeOutside (P : String → Bool) : Props → Props → Bool
  | [], [] => true
  | (a, v) :: s, (b, w) :: t =>
    decide (a = b) && (P a || decide (v = w)) && agreeOutside P s t
  | _, _ => false

/-- Every stored record is an actual object (properties in enumeration order). -/
def wfCollection (t : Collection) : Bool :=
  t.all (fun e => wfRecord e.2)

/-- No stored record of the collection contains `null`. -/
def nullFreeCollection (t : Collection) : Bool :=
  t.all (fun e => nullFreeProps e.2)

end Storage

/-! ## The rule engine (`initPlugin$3`, lines 1287-1420 of `src/server.js`)

Modelling conventions.

* A rule is a boolean, a string (an expression handed to `eval`) or an array of role tags.
  A rule set is typed: a collection entry holds action rules (keys `.create`, `.read`,
  `.update`, `.delete`), the field group `*` and sub-entries keyed by record id; a group
  holds action rules and, per field, the action rules of that field.
* `eval(rule)` is the parameter `ev`: it receives the text, `user`, `data` and `newData`
  and returns the value of the expression together with `data` and `newData` as the
  expression leaves them, or the exception it throws.  Effects of an expression on anything
  else are not modelled.
* The conversion of a string to a number inside `==` is the parameter `toNumber` (`none`
  when the string denotes no integer).
-/

namespace Rules

open Storage

/-- The subclasses of `ServiceError`. -/
inductive ErrorKind where
  | notFound
  | request
  | conflict
  | authorization
  | credential
  deriving DecidableEq

/-- What a request handler throws: a `ServiceError` of some kind with its message, or any
other exception (which the server reports as status 500). -/
inductive Failure where
  | service (kind : ErrorKind) (message : String)
  | fault (e : JSError)
  deriving DecidableEq

/-- Status code of a `ServiceError` (`this.status`). -/
def ErrorKind.status : ErrorKind → Nat
  | .notFound => 404
  | .request => 400
  | .conflict => 409
  | .authorization => 401
  | .credential => 403

/-- The exception `new NotFoundError()`. -/
def notFoundError : Failure := .service .notFound "Resource not found"

/-- The exception `new RequestError(message)`, `'Request error'` by default. -/
def requestError (message : String := "Request error") : Failure := .service .request message

/-- The exception `new AuthorizationError()`. -/
def authorizationError : Failure := .service .authorization "Unauthorized"

/-- The exception `new CredentialError()`. -/
def credentialError : Failure := .service .credential "Forbidden"

/-- Message of an exception (`err.message`). -/
def JSError.message : JSError → String
  | .referenceError m => m
  | .typeError m => m

/-- JavaScript truthiness (`!!v`). -/
def truthy : JSValue → Bool
  | .undefined => false
  | .null => false
  | .bool b => b
  | .num n => n != 0
  | .str s => s != ""
  | .arr _ => true
  | .obj _ => true

mutual
/-- String conversion `String(v)` (numbers are integers here). -/
def toStringJS : JSValue → String
  | .undefined => "undefined"
  | .null => "null"
  | .bool b => if b then "true" else "false"
  | .num n => toString n
  | .str s => s
  | .arr xs => joinJS xs
  | .obj _ => "[object Object]"
/-- The call `xs.join(',')`: `undefined` and `null` elements give the empty string. -/
def joinJS : List JSValue → String
  | [] => ""
  | [x] => elementString x
  | x :: y :: rest => elementString x ++ "," ++ joinJS (y :: rest)
/-- One element of `join`. -/
def elementString : JSValue → String
  | .undefined => ""
  | .null => ""
  | .bool b => if b then "true" else "false"
  | .num n => toString n
  | .str s => s
  | .arr xs => joinJS xs
  | .obj _ => "[object Object]"
end

/-- Equality `a == b` between two primitive values other than booleans. -/
def primitiveEq (toNumber : String → Option Int) : JSValue → JSValue → Bool
  | .undefined, .undefined => true
  | .undefined, .null => true
  | .null, .undefined => true
  | .null, .null => true
  | .num a, .num b => a == b
  | .str a, .str b => a == b
  | .num a, .str b => toNumber b == some a
  | .str a, .num b => toNumber a == some b
  | _, _ => false

/-- The primitive that `==` compares in place of its operand: a boolean becomes a number,
an array or object its string conversion. -/
def toPrimitive : JSValue → JSValue
  | .bool b => .num (if b then 1 else 0)
  | .arr xs => .str (joinJS xs)
  | .obj _ => .str "[object Object]"
  | v => v

/-- Whether the value is an array or an object. -/
def isObject : JSValue → Bool
  | .arr _ => true
  | .obj _ => true
  | _ => false

/-- Loose equality `a == b`.  Two arrays or objects are equal only when they are the same
object, which never happens between the values compared here (they come from different
copies); `undefined` and `null` equal only each other. -/
def looseEq (toNumber : String → Option Int) (a b : JSValue) : Bool :=
  if isObject a && isObject b then false
  else
    match a, b with
    | .undefined, _ => primitiveEq toNumber a b
    | .null, _ => primitiveEq toNumber a b
    | _, .undefined => primitiveEq toNumber a b
    | _, .null => primitiveEq toNumber a b
    | _, _ => primitiveEq toNumber (toPrimitive a) (toPrimitive b)

/-- Property read `v[k]` as far as own properties, `length` and indices go; reading a
property of `undefined` or `null` throws. -/
def getMember (v : JSValue) (k : String) : Except JSError JSValue :=
  match v with
  | .undefined => .error (.typeError ("Cannot read properties of undefined (reading '" ++ k ++ "')"))
  | .null => .error (.typeError ("Cannot read properties of null (reading '" ++ k ++ "')"))
  | .obj ps => .ok (getProp ps k)
  | .arr xs =>
    if k = "length" then .ok (.num xs.length)
    else
      match arrayIndex k with
      | some i => .ok (xs.getD i .undefined)
      | none => .ok .undefined
  | .str s =>
    if k = "length" then .ok (.num s.length)
    else
      match arrayIndex k with
      | some i =>
        match s.data.get? i with
        | some c => .ok (.str (String.mk [c]))
        | none => .ok .undefined
      | none => .ok .undefined
  | .bool _ => .ok .undefined
  | .num _ => .ok .undefined

/-- Removal `delete v[k]` (strict mode): deleting from `undefined` or `null`, or deleting
the length or a character of a string or the length of an array, throws; an array element
is left as a hole, read back as `undefined`. -/
def deleteMember (v : JSValue) (k : String) : Except JSError JSValue :=
  match v with
  | .undefined => .error (.typeError "Cannot convert undefined or null to object")
  | .null => .error (.typeError "Cannot convert undefined or null to object")
  | .obj ps => .ok (.obj (mapDelete ps k))
  | .arr xs =>
    if k = "length" then .error (.typeError "Cannot delete property 'length' of [object Array]")
    else
      match arrayIndex k with
      | some i => .ok (.arr (xs.set i .undefined))
      | none => .ok (.arr xs)
  | .str s =>
    if k = "length" then .error (.typeError "Cannot delete property 'length' of [object String]")
    else
      match arrayIndex k with
      | some i =>
        if i < s.length then
          .error (.typeError ("Cannot delete property '" ++ k ++ "' of [object String]"))
        else .ok (.str s)
      | none => .ok (.str s)
  | .bool b => .ok (.bool b)
  | .num n => .ok (.num n)

/-- A rule value. -/
inductive Rule where
  | bool (b : Bool)
  | expr (source : String)
  | roles (tags : List String)
  deriving DecidableEq

/-- The rules of one object, by action (`.create`, `.read`, `.update`, `.delete`). -/
abbrev ActionRules := List (String × Rule)

/-- A group of rules: the field group `*` of a collection or a sub-entry keyed by a record
id.  `fields` lists, in enumeration order, the properties of the group that are objects,
each with its rules by action. -/
structure Group where
  actions : ActionRules
  fields : List (String × ActionRules)
  deriving DecidableEq

/-- The entry of a collection in the rule set. -/
structure CollectionRules where
  actions : ActionRules
  wildcard : Option Group
  records : List (String × Group)
  deriving DecidableEq

/-- A rule set: collection name (or `*`) to entry. -/
abbrev RuleSet := List (String × CollectionRules)

/-- The built-in entry `*`. -/
def defaultRules : CollectionRules :=
  { actions := [(".create", .roles ["User"]), (".update", .roles ["Owner"]),
      (".delete", .roles ["Owner"])],
    wildcard := none,
    records := [] }

/-- The variable `rules` of `initPlugin$3`: `Object.assign({'*': ...}, settings.rules)`. -/
def initRules (settings : RuleSet) : RuleSet :=
  settings.foldl (fun acc e => mapSet acc e.1 e.2) [("*", defaultRules)]

/-- The action `actions[request.method]` of each method the data service registers. -/
inductive Method where
  | GET
  | POST
  | PUT
  | PATCH
  | DELETE
  deriving DecidableEq

/-- The table `actions`. -/
def actions : Method → String
  | .GET => ".read"
  | .POST => ".create"
  | .PUT => ".update"
  | .PATCH => ".update"
  | .DELETE => ".delete"

/-- The property `rule.length` of a rule (`undefined` for a boolean). -/
def Rule.length : Rule → Option Nat
  | .bool _ => none
  | .expr source => some source.length
  | .roles tags => some tags.length

/-- Source `ruleOrDefault(current, rule)`; `length` reads `rule.length`. -/
def ruleOrDefault {α : Type} (length : α → Option Nat) (current : α) (rule : Option α) : α :=
  match rule with
  | none => current
  | some r => if length r = some 0 then current else r

/-- Source `getPropRule(record, action)`: the pairs `[field, rule]`. -/
def getPropRule (record : Group) (action : String) : List (String × Rule) :=
  ((record.fields.filter (fun e => e.1.data.head? != some '.')).filter
      (fun e => has e.2 action)).filterMap
    (fun e => (lookup action e.2).map (fun r => (e.1, r)))

/-- The read `collectionRules[key]` for the key made from `data._id`: the field group under
`*`, nothing usable under a key that starts with a dot (there the property is a rule, not a
group), and otherwise the sub-entry of that key. -/
def recordRules (collectionRules : CollectionRules) (key : String) : Option Group :=
  if key = "*" then collectionRules.wildcard
  else if key.data.head? = some '.' then none
  else lookup key collectionRules.records

/-- Result of `getRule`. -/
structure Resolved where
  rule : Rule
  propRules : List (String × Rule)
  deriving DecidableEq

/-- Source `getRule(action, collection, data)`; `id` is `data._id` and `collection` the
property key made from `context.params.collection`.  Reading `rules['*'][action]` throws
when `rules` has no entry `*`. -/
def getRule (rules : RuleSet) (action collection : String) (id : JSValue) :
    Except JSError Resolved :=
  match lookup "*" rules with
  | none => .error (.typeError ("Cannot read properties of undefined (reading '" ++ action ++ "')"))
  | some defaults =>
    let currentRule := ruleOrDefault Rule.length (.bool true) (lookup action defaults.actions)
    let propRules : List (String × Rule) := []
    match lookup collection rules with
    | none => .ok ⟨currentRule, propRules⟩
    | some collectionRules =>
      let currentRule1 :=
        ruleOrDefault Rule.length currentRule (lookup action collectionRules.actions)
      let propRules1 :=
        match collectionRules.wildcard with
        | none => propRules
        | some allPropRules =>
          ruleOrDefault (fun l => some l.length) propRules (some (getPropRule allPropRules action))
      match recordRules collectionRules (toStringJS id) with
      | none => .ok ⟨currentRule1, propRules1⟩
      | some record =>
        .ok ⟨ruleOrDefault Rule.length currentRule1 (lookup action record.actions),
          ruleOrDefault (fun l => some l.length) propRules1 (some (getPropRule record action))⟩

/-- What `eval(rule)` yields: the value of the expression and the objects `data` and
`newData` as it leaves them. -/
structure Evaluated where
  value : JSValue
  data : JSValue
  newData : Option Props

/-- The interpretation of `eval`: text, `user`, `data`, `newData`. -/
abbrev Eval := String → Option Props → JSValue → Option Props → Except JSError Evaluated

/-- What is fixed during one request: the principal, the admin header, the rule set of the
settings, and the interpretations of `eval` and of string-to-number conversion. -/
structure Access where
  user : Option Props
  isAdmin : Bool
  settings : RuleSet
  ev : Eval
  toNumber : String → Option Int

/-- Source `checkRoles(roles, data)`. -/
def checkRoles (a : Access) (roles : List String) (data : JSValue) : Except Failure Bool :=
  if roles.contains "Guest" then .ok true
  else if a.user.isNone && !a.isAdmin then .error authorizationError
  else if roles.contains "User" then .ok true
  else
    match a.user with
    | some user =>
      if roles.contains "Owner" then
        match getMember data "_ownerId" with
        | .error e => .error (.fault e)
        | .ok owner => .ok (looseEq a.toNumber (getProp user "_id") owner)
      else .ok false
    | none => .ok false

/-- The objects `data` and `newData` of a call of `canAccess`, as they stand. -/
structure Payloads where
  data : JSValue
  newData : Option Props

/-- Source `applyPropRule(action, [prop, rule], user, data, newData)`. -/
def applyPropRule (a : Access) (action : String) (entry : String × Rule) (p : Payloads) :
    Except Failure Payloads :=
  let evaluated : Except Failure (JSValue × Payloads) :=
    match entry.2 with
    | .expr source =>
      match a.ev source a.user p.data p.newData with
      | .error e => .error (.fault e)
      | .ok r => .ok (.bool (truthy r.value), ⟨r.data, r.newData⟩)
    | .bool b => .ok (.bool b, p)
    | .roles tags => .ok (.arr (tags.map JSValue.str), p)
  match evaluated with
  | .error e => .error e
  | .ok (rule, q) =>
    if looseEq a.toNumber rule (.bool false) then
      if action = ".create" ∨ action = ".update" then
        match q.newData with
        | none => .error (.fault (.typeError "Cannot convert undefined or null to object"))
        | some newData => .ok ⟨q.data, some (mapDelete newData entry.1)⟩
      else if action = ".read" then
        match deleteMember q.data entry.1 with
        | .error e => .error (.fault e)
        | .ok data => .ok ⟨data, q.newData⟩
      else .ok q
    else .ok q

/-- The call `propRules.map((r) => applyPropRule(action, r, user, data, newData))`. -/
def applyPropRules (a : Access) (action : String) :
    List (String × Rule) → Payloads → Except Failure Payloads
  | [], p => .ok p
  | r :: rest, p =>
    match applyPropRule a action r p with
    | .error e => .error e
    | .ok q => applyPropRules a action rest q

/-- The value `data._id` that `getRule` reads, `data` being `{}` when it is `undefined`. -/
def dataId (data : JSValue) : Except JSError JSValue :=
  match data with
  | .undefined => .ok .undefined
  | v => getMember v "_id"

/-- Property key made from `context.params.collection`. -/
def collectionKey : Option String → String
  | none => "undefined"
  | some c => c

/-- Source `canAccess(data, newData)` for a request of method `method` on `collection`:
the objects `data` and `newData` as the call leaves them, or the exception thrown. -/
def canAccess (a : Access) (method : Method) (collection : Option String) (data : JSValue)
    (newData : Option Props) : Except Failure Payloads :=
  match dataId data with
  | .error e => .error (.fault e)
  | .ok id =>
    match getRule (initRules a.settings) (actions method) (collectionKey collection) id with
    | .error e => .error (.fault e)
    | .ok resolved =>
      let evaluated : Except Failure (Bool × Payloads) :=
        match resolved.rule with
        | .roles tags =>
          match checkRoles a tags data with
          | .error e => .error e
          | .ok b => .ok (b, ⟨data, newData⟩)
        | .expr source =>
          match a.ev source a.user data newData with
          | .error e => .error (.fault e)
          | .ok r => .ok (truthy r.value, ⟨r.data, r.newData⟩)
        | .bool b => .ok (b, ⟨data, newData⟩)
      match evaluated with
      | .error e => .error e
      | .ok (rule, p) =>
        if !rule && !a.isAdmin then .error credentialError
        else applyPropRules a (actions method) resolved.propRules p

/-- The `catch` block of `handler` (lines 116-126): the status and the message of the
response; an exception that is no `ServiceError` is answered with status 500 and the fixed
message `'Server Error'`. -/
def report : Failure → Nat × String
  | .service kind message => (kind.status, message)
  | .fault _ => (500, "Server Error")

/-- The variable `rules$1` (lines 1991-2011): the rule set of the shipped settings. -/
def shippedRules : RuleSet :=
  [("users", ⟨[(".create", .bool false), (".read", .roles ["Owner"]),
      (".update", .bool false), (".delete", .bool false)], none, []⟩),
    ("members", ⟨[(".update", .expr "isOwner(user, get('teams', data.teamId))"),
      (".delete",
        .expr "isOwner(user, get('teams', data.teamId)) || isOwner(user, data)")],
      some ⟨[], [("teamId", [(".update", .expr "newData.teamId = data.teamId")]),
        ("status", [(".create", .expr "newData.status = 'pending'")])]⟩, []⟩)]

end Rules

/-! ## The data service (`crud`, lines 502-787 of `src/server.js`)

Modelling conventions.

* A handler receives the store, the request's `Access`, the collection named by the
  route, the remaining path `tokens`, the query and the body (a JSON object), and returns
  the store it leaves together with the value returned or the exception thrown.
* The query options `where`, `sortBy`, `offset`, `pageSize`, `distinct` and `select` are
  the parameters `Stages`: each maps the option's text and `responseData` to the new
  `responseData`, or to the message of the exception it throws.
-/

namespace Crud

open Storage Rules

/-- Whether the characters `pat` start the characters `l`. -/
def startsWithChars : List Char → List Char → Bool
  | [], _ => true
  | _ :: _, [] => false
  | p :: ps, c :: cs => p == c && startsWithChars ps cs

/-- Whether the characters `pat` occur inside `l`. -/
def containsChars (pat : List Char) : List Char → Bool
  | [] => pat.isEmpty
  | c :: cs => startsWithChars pat (c :: cs) || containsChars pat cs

/-- The call `message.includes(pat)`. -/
def includes (message pat : String) : Bool :=
  containsChars pat.data message.data

/-- The call `s.split(sep)` for a separator of one character, on characters. -/
def splitChars (sep : Char) : List Char → List (List Char)
  | [] => [[]]
  | c :: cs =>
    if c = sep then [] :: splitChars sep cs
    else
      match splitChars sep cs with
      | [] => [[c]]
      | h :: t => (c :: h) :: t

/-- The call `s.split(sep)` for a separator of one character. -/
def split (s : String) (sep : Char) : List String :=
  (splitChars sep s.data).map String.mk

/-- The query of a request, `undefined` options being `none`. -/
structure Query where
  where_ : Option String := none
  sortBy : Option String := none
  offset : Option String := none
  pageSize : Option String := none
  distinct : Option String := none
  count : Option String := none
  select : Option String := none
  load : Option String := none

/-- The query options that are parameters here: the option's text and `responseData` to
the new `responseData`, or to the message of the exception thrown. -/
structure Stages where
  where_ : String → JSValue → Except String JSValue
  sortBy : String → JSValue → Except String JSValue
  offset : String → JSValue → Except String JSValue
  pageSize : String → JSValue → Except String JSValue
  distinct : String → JSValue → Except String JSValue
  select : String → JSValue → Except String JSValue

/-- Run a stage when its option is present and not the empty string (`if (query.x)`). -/
def runStage (stage : String → JSValue → Except String JSValue) (option : Option String)
    (responseData : JSValue) : Except String JSValue :=
  match option with
  | none => .ok responseData
  | some text => if text = "" then .ok responseData else stage text responseData

/-- The call `storage.get(collection, id)` with an id that is any value: a falsy id lists
the collection, and an id that is not a string is the key of no entry. -/
def getByValue (collections : Collections) (collection : Option String) (id : JSValue) :
    Except JSError JSValue :=
  if !truthy id then Storage.get collections collection none
  else
    match id with
    | .str key => Storage.get collections collection (some key)
    | v =>
      if falsy collection then Storage.get collections collection none
      else
        match lookup (collection.getD "") collections with
        | none => Storage.get collections collection none
        | some _ => .error (.referenceError ("Entry does not exist: " ++ toStringJS v))

/-- Assignment `r[k] = v` (strict mode) on a record; assigning to a property of a
primitive, of `undefined` or of `null` throws.  Arrays with named properties are outside
the value model: an element of `responseData` is never an array. -/
def setMember (r : JSValue) (k : String) (v : JSValue) : Except JSError JSValue :=
  match r with
  | .obj ps => .ok (.obj (setProp ps k v))
  | .undefined => .error (.typeError ("Cannot set properties of undefined (setting '" ++ k ++ "')"))
  | .null => .error (.typeError ("Cannot set properties of null (setting '" ++ k ++ "')"))
  | _ => .error (.typeError ("Cannot create property '" ++ k ++ "'"))

/-- The function `transform(r)` of the `load` option. -/
def loadTransform (storageSource : Collections) (propName idSource : String)
    (collection : Option String) (r : JSValue) : Except JSError JSValue :=
  match getMember r idSource with
  | .error e => .error e
  | .ok seekId =>
    match getByValue storageSource collection seekId with
    | .error e => .error e
    | .ok related =>
      match deleteMember related "hashedPassword" with
      | .error e => .error e
      | .ok related1 => setMember r propName related1

/-- The call `responseData.map(transform)`. -/
def loadMap (storageSource : Collections) (propName idSource : String)
    (collection : Option String) : List JSValue → Except JSError (List JSValue)
  | [] => .ok []
  | r :: rest =>
    match loadTransform storageSource propName idSource collection r with
    | .error e => .error e
    | .ok r1 =>
      match loadMap storageSource propName idSource collection rest with
      | .error e => .error e
      | .ok rest1 => .ok (r1 :: rest1)

/-- One round of `props.map((prop) => ...)` of the `load` option. -/
def loadProp (storage protectedStorage : Collections) (prop : String)
    (responseData : JSValue) : Except JSError JSValue :=
  match split prop '=' with
  | propName :: relationTokens :: _ =>
    let idSource := (split relationTokens ':').headD ""
    let collection := (split relationTokens ':').tail.head?
    let storageSource := if collection = some "users" then protectedStorage else storage
    match responseData with
    | .arr rs =>
      match loadMap storageSource propName idSource collection rs with
      | .error e => .error e
      | .ok rs1 => .ok (.arr rs1)
    | r => loadTransform storageSource propName idSource collection r
  | _ => .error (.typeError "Cannot read properties of undefined (reading 'split')")

/-- The rounds of the `load` option over the specifiers `props`. -/
def loadProps (storage protectedStorage : Collections) :
    List String → JSValue → Except JSError JSValue
  | [], responseData => .ok responseData
  | prop :: rest, responseData =>
    match loadProp storage protectedStorage prop responseData with
    | .error e => .error e
    | .ok responseData1 => loadProps storage protectedStorage rest responseData1

/-- The `load` option of `get`. -/
def load (storage protectedStorage : Collections) (text : String) (responseData : JSValue) :
    Except String JSValue :=
  match loadProps storage protectedStorage ((split text ',').filter (fun p => p != ""))
      responseData with
  | .error e => .error (JSError.message e)
  | .ok r => .ok r

/-- What the `try` block of `get` yields: what to return at once, or the `responseData`
to hand to `canAccess`. -/
inductive Fetched where
  | returned (value : JSValue)
  | responseData (value : JSValue)

/-- The `try` block of `get` (lines 565-660), an exception being its message. -/
def fetch (stages : Stages) (storage protectedStorage : Collections)
    (collection : Option String) (tokens : List String) (query : Query) :
    Except String Fetched :=
  let first : Except String Fetched :=
    if query.where_.isSome && query.where_ != some "" then
      match Storage.get storage collection none with
      | .error e => .error (JSError.message e)
      | .ok all =>
        match stages.where_ (query.where_.getD "") all with
        | .error m => .error m
        | .ok r => .ok (.responseData r)
    else if !falsy collection then
      match Storage.get storage collection tokens.head? with
      | .error e => .error (JSError.message e)
      | .ok r => .ok (.responseData r)
    else
      match Storage.get storage none none with
      | .error e => .error (JSError.message e)
      | .ok r => .ok (.returned r)
  match first with
  | .error m => .error m
  | .ok (.returned v) => .ok (.returned v)
  | .ok (.responseData r0) =>
    match runStage stages.sortBy query.sortBy r0 with
    | .error m => .error m
    | .ok r1 =>
      match runStage stages.offset query.offset r1 with
      | .error m => .error m
      | .ok r2 =>
        match runStage stages.pageSize query.pageSize r2 with
        | .error m => .error m
        | .ok r3 =>
          match runStage stages.distinct query.distinct r3 with
          | .error m => .error m
          | .ok r4 =>
            if query.count.isSome && query.count != some "" then
              match getMember r4 "length" with
              | .error e => .error (JSError.message e)
              | .ok n => .ok (.returned n)
            else
              match runStage stages.select query.select r4 with
              | .error m => .error m
              | .ok r5 =>
                match runStage (load storage protectedStorage) query.load r5 with
                | .error m => .error m
                | .ok r6 => .ok (.responseData r6)

/-- Source `validateRequest(context, tokens)`. -/
def validateRequest (tokens : List String) : Except Failure Unit :=
  if tokens.length > 1 then .error (requestError) else .ok ()

/-- Source `get(context, tokens, query, body)`. -/
def get (stages : Stages) (a : Access) (storage protectedStorage : Collections)
    (collection : Option String) (tokens : List String) (query : Query) :
    Except Failure JSValue :=
  match validateRequest tokens with
  | .error e => .error e
  | .ok _ =>
    match fetch stages storage protectedStorage collection tokens query with
    | .error message =>
      if includes message "does not exist" then .error notFoundError
      else .error (requestError message)
    | .ok (.returned v) => .ok v
    | .ok (.responseData responseData) =>
      match canAccess a .GET collection responseData none with
      | .error e => .error e
      | .ok p => .ok p.data

/-- What a writing handler leaves: the store and the value returned or the exception. -/
structure Response where
  storage : Collections
  result : Except Failure JSValue

/-- What `post` leaves: the store, the generator values not yet consumed, and the value
returned or the exception. -/
structure Created where
  storage : Collections
  uuids : List String
  result : Except Failure JSValue

/-- Source `post(context, tokens, query, body)`; `none` when the id loop of `add` runs
through all of `uuids`. -/
def post (a : Access) (storage : Collections) (collection : String) (tokens : List String)
    (body : Props) (now : Int) (uuids : List String) : Option Created :=
  match validateRequest tokens with
  | .error e => some ⟨storage, uuids, .error e⟩
  | .ok _ =>
    if tokens.length > 0 then
      some ⟨storage, uuids, .error (requestError "Use PUT to update records")⟩
    else
      match canAccess a .POST (some collection) .undefined (some body) with
      | .error e => some ⟨storage, uuids, .error e⟩
      | .ok p =>
        match a.user with
        | none =>
          some ⟨storage, uuids, .error (.fault
            (.typeError "Cannot read properties of undefined (reading '_id')"))⟩
        | some user =>
          let body1 := setProp (p.newData.getD body) "_ownerId" (getProp user "_id")
          match Storage.add storage collection body1 now uuids with
          | none => none
          | some o =>
            match o.result with
            | .error _ => some ⟨o.collections, o.uuids, .error requestError⟩
            | .ok responseData => some ⟨o.collections, o.uuids, .ok responseData⟩

/-- The common course of `put` and `patch`: `write` is `storage.set` or `storage.merge`. -/
def update (write : Collections → String → String → Props → Int →
      Collections × Except JSError JSValue)
    (method : Method) (a : Access) (storage : Collections) (collection : String)
    (tokens : List String) (body : Props) (now : Int) : Response :=
  match validateRequest tokens with
  | .error e => ⟨storage, .error e⟩
  | .ok _ =>
    match tokens with
    | [id] =>
      match Storage.get storage (some collection) (some id) with
      | .error _ => ⟨storage, .error notFoundError⟩
      | .ok existing =>
        match canAccess a method (some collection) existing (some body) with
        | .error e => ⟨storage, .error e⟩
        | .ok p =>
          match write storage collection id (p.newData.getD body) now with
          | (storage1, .error _) => ⟨storage1, .error requestError⟩
          | (storage1, .ok responseData) => ⟨storage1, .ok responseData⟩
    | _ => ⟨storage, .error (requestError "Missing entry ID")⟩

/-- Source `put(context, tokens, query, body)`. -/
def put (a : Access) (storage : Collections) (collection : String) (tokens : List String)
    (body : Props) (now : Int) : Response :=
  update Storage.set .PUT a storage collection tokens body now

/-- Source `patch(context, tokens, query, body)`. -/
def patch (a : Access) (storage : Collections) (collection : String) (tokens : List String)
    (body : Props) (now : Int) : Response :=
  update Storage.merge .PATCH a storage collection tokens body now

/-- Source `del(context, tokens, query, body)`, registered for `DELETE`. -/
def del (a : Access) (storage : Collections) (collection : String) (tokens : List String)
    (now : Int) : Response :=
  match validateRequest tokens with
  | .error e => ⟨storage, .error e⟩
  | .ok _ =>
    match tokens with
    | [id] =>
      match Storage.get storage (some collection) (some id) with
      | .error _ => ⟨storage, .error notFoundError⟩
      | .ok existing =>
        match canAccess a .DELETE (some collection) existing none with
        | .error e => ⟨storage, .error e⟩
        | .ok _ =>
          match Storage.del storage collection id now with
          | (storage1, .error _) => ⟨storage1, .error requestError⟩
          | (storage1, .ok responseData) => ⟨storage1, .ok responseData⟩
    | _ => ⟨storage, .error (requestError "Missing entry ID")⟩

end Crud

/-! ## The query options of `get` (lines 513-558 and 566-636 of `src/server.js`)

Modelling conventions.

* The library functions that the options call are the fields of an `Engine`:
  `JSON.parse` (a value, or the message of the `SyntaxError`), `Number` on strings
  (`none` is `NaN`), `String.prototype.toLowerCase` and `String.prototype.localeCompare`.
* A regular expression is modelled by the function that computes its match; the flag `i`
  folds the letters `A`-`Z` only (no other character canonicalises to an ASCII letter),
  and `.` matches every character but the four line terminators.
* `Array.prototype.sort` is a stable sort (ECMAScript 2019).  The model is insertion
  sort; it is the result the standard fixes whenever the comparator neither throws nor is
  inconsistent, and the theorems on sorting are about such comparators.
* Every option computes on the array, or the single record, that `storage.get` returned;
  an exception is the message that `get` tests and passes to `RequestError`.
* The property key `__proto__` is outside the model.
-/

namespace Crud

open Storage Rules

/-- The library functions left uninterpreted. -/
structure Engine where
  jsonParse : String → Except String JSValue
  toNumber : String → Option Int
  toLowerCase : String → String
  localeCompare : String → String → Int

/-! ### Strings and patterns -/

/-- The character class `.` (no flag `s`). -/
def dotChar (c : Char) : Bool :=
  !(c == '\n' || c == '\r' || c.toNat == 0x2028 || c.toNat == 0x2029)

/-- White space and line terminators, the characters that `trim` strips. -/
def isSpaceJS (c : Char) : Bool :=
  let n := c.toNat
  (9 ≤ n && n ≤ 13) || n == 0x20 || n == 0xA0 || n == 0x1680 || (0x2000 ≤ n && n ≤ 0x200A)
    || n == 0x2028 || n == 0x2029 || n == 0x202F || n == 0x205F || n == 0x3000 || n == 0xFEFF

/-- The call `s.trim()`, on characters. -/
def trimChars (l : List Char) : List Char :=
  ((l.dropWhile isSpaceJS).reverse.dropWhile isSpaceJS).reverse

/-- The call `s.trim()`. -/
def trim (s : String) : String :=
  String.mk (trimChars s.data)

/-- Case folding of the flag `i` on an ASCII letter. -/
def foldChar (c : Char) : Char :=
  if 65 ≤ c.toNat ∧ c.toNat ≤ 90 then Char.ofNat (c.toNat + 32) else c

/-- Whether the pattern characters `pat` (lower case) match at the start of `l` under the
flag `i`. -/
def startsWithFold : List Char → List Char → Bool
  | [], _ => true
  | _ :: _, [] => false
  | p :: ps, c :: cs => p == foldChar c && startsWithFold ps cs

/-- Whether the pattern `pat` occurs in `l` under the flag `i` (`s.match(/pat/gi)`). -/
def containsFold (pat : List Char) : List Char → Bool
  | [] => pat.isEmpty
  | c :: cs => startsWithFold pat (c :: cs) || containsFold pat cs

/-- The call `s.split(/pat/gi)` for a pattern of fixed text, on characters; `skip` counts
the characters of a matched occurrence still to be passed over. -/
def splitFoldAux (pat : List Char) : Nat → List Char → List (List Char)
  | _, [] => [[]]
  | skip + 1, _ :: cs => splitFoldAux pat skip cs
  | 0, c :: cs =>
    if startsWithFold pat (c :: cs) then [] :: splitFoldAux pat (pat.length - 1) cs
    else
      match splitFoldAux pat 0 cs with
      | [] => [[c]]
      | h :: t => (c :: h) :: t

/-- The call `s.split(/pat/gi)` for a pattern of fixed, non-empty text. -/
def splitFold (pat s : String) : List String :=
  (splitFoldAux pat.data 0 s.data).map String.mk

/-- The keys of `operators`, in the order in which the pattern lists them. -/
def operatorNames : List String := ["<=", "<", ">=", ">", "=", " like ", " in "]

/-- The alternatives of the pattern's second group at one position: the first operator
that matches there and is followed by at least one character, all of them matched by
`.`; with it the text that the third group captures. -/
def matchOperator (rest : List Char) : List String → Option (String × List Char)
  | [] => none
  | op :: ops =>
    if startsWithFold op.data rest && !(rest.drop op.length).isEmpty
        && (rest.drop op.length).all dotChar then
      some (op, rest.drop op.length)
    else matchOperator rest ops

/-- The match of `pattern` from the first character on: the first group takes as few
characters as possible, at least one; `propRev` holds the characters it has taken. -/
def execFrom (propRev : List Char) : List Char → Option (List Char × String × List Char)
  | [] => none
  | c :: rest =>
    if dotChar c then
      match matchOperator rest operatorNames with
      | some (op, value) => some ((c :: propRev).reverse, op, value)
      | none => execFrom (c :: propRev) rest
    else none

/-- The call `pattern.exec(clause)`: the three groups, the operator in lower case. -/
def exec (clause : String) : Option (String × String × String) :=
  (execFrom [] clause.data).map (fun m => (String.mk m.1, m.2.1, String.mk m.2.2))

/-- The first group of `/\((.+?)\)/` when the match starts at this `(`: the characters up
to the first `)` that follows at least one character. -/
def parenBody (acc : List Char) : List Char → Option (List Char)
  | [] => none
  | c :: rest =>
    if c == ')' && !acc.isEmpty then some acc.reverse
    else if dotChar c then parenBody (c :: acc) rest
    else none

/-- The call `/\((.+?)\)/.exec(value)[1]`: `none` when there is no match. -/
def parenGroup : List Char → Option (List Char)
  | [] => none
  | c :: rest =>
    if c == '(' then
      match parenBody [] rest with
      | some g => some g
      | none => parenGroup rest
    else parenGroup rest

/-! ### Comparisons -/

/-- The UTF-16 code units of a character. -/
def utf16 (c : Char) : List Nat :=
  if c.toNat < 65536 then [c.toNat]
  else [55296 + (c.toNat - 65536) / 1024, 56320 + (c.toNat - 65536) % 1024]

/-- The code units of a string. -/
def codeUnits (s : String) : List Nat :=
  (s.data.map utf16).flatten

/-- Whether a sequence of code units is less than another one (`<` on strings). -/
def unitsLt : List Nat → List Nat → Bool
  | _, [] => false
  | [], _ :: _ => true
  | a :: as, b :: bs => if a = b then unitsLt as bs else decide (a < b)

/-- Number conversion of a primitive (`none` is `NaN`). -/
def toNumeric (toNumber : String → Option Int) : JSValue → Option Int
  | .undefined => none
  | .null => some 0
  | .bool b => some (if b then 1 else 0)
  | .num n => some n
  | .str s => toNumber s
  | .arr _ => none
  | .obj _ => none

/-- The abstract relational comparison `x < y`: `none` is its result `undefined`. -/
def lessThan (toNumber : String → Option Int) (x y : JSValue) : Option Bool :=
  match toPrimitive x, toPrimitive y with
  | .str a, .str b => some (unitsLt (codeUnits a) (codeUnits b))
  | px, py =>
    match toNumeric toNumber px, toNumeric toNumber py with
    | some m, some n => some (decide (m < n))
    | _, _ => none

/-- The comparison of `Array.prototype.includes` (SameValueZero); an array or object of
the literal is a fresh object, equal to no value of a record. -/
def sameValueZero : JSValue → JSValue → Bool
  | .undefined, .undefined => true
  | .null, .null => true
  | .bool a, .bool b => a == b
  | .num a, .num b => a == b
  | .str a, .str b => a == b
  | _, _ => false

/-! ### The option `where` -/

/-- A clause that `createChecker` has taken apart. -/
structure Clause where
  prop : String
  operator : String
  value : String
  deriving DecidableEq

/-- How the results of the clauses are combined (`check` and `acc`). -/
inductive Connective where
  | single
  | all
  | any
  deriving DecidableEq

/-- Source `createChecker(clause)` as far as the pattern goes: `none` when the pattern
does not match (the destructuring then throws). -/
def createChecker (clause : String) : Option Clause :=
  (exec clause).map (fun m => ⟨trim m.1, m.2.1, trim m.2.2⟩)

/-- The clauses of an expression and their connective. -/
def splitClauses (query : String) : Connective × List String :=
  if containsFold " and ".data query.data then (.all, splitFold " and " query)
  else if containsFold " or ".data query.data then (.any, splitFold " or " query)
  else (.single, [trim query])

/-- The call `clauses.map(createChecker)`. -/
def createCheckers : List String → Option (List Clause)
  | [] => some []
  | c :: cs =>
    match createChecker c with
    | none => none
    | some k =>
      match createCheckers cs with
      | none => none
      | some ks => some (k :: ks)

/-- Source `parseWhere(query)`: the checkers, or the exception of the `catch` block. -/
def parseWhere (query : String) : Except String (Connective × List Clause) :=
  match createCheckers (splitClauses query).2 with
  | none => .error "Could not parse WHERE clause, check your syntax."
  | some ks => .ok ((splitClauses query).1, ks)

/-- The checker of the operator ` like `. -/
def likeChecker (e : Engine) (prop value : String) (record : JSValue) : Except String Bool :=
  match getMember record prop with
  | .error err => .error (JSError.message err)
  | .ok (.str s) =>
    match e.jsonParse value with
    | .error m => .error m
    | .ok (.str t) => .ok (containsChars (e.toLowerCase t).data (e.toLowerCase s).data)
    | .ok .null => .error "Cannot read properties of null (reading 'toLowerCase')"
    | .ok _ => .error "JSON.parse(...).toLowerCase is not a function"
  | .ok .undefined => .error "Cannot read properties of undefined (reading 'toLowerCase')"
  | .ok .null => .error "Cannot read properties of null (reading 'toLowerCase')"
  | .ok _ => .error "record[prop].toLowerCase is not a function"

/-- The checker of the operator ` in `. -/
def inChecker (e : Engine) (prop value : String) (record : JSValue) : Except String Bool :=
  match parenGroup value.data with
  | none => .error "Cannot read properties of null (reading '1')"
  | some g =>
    match e.jsonParse ("[" ++ String.mk g ++ "]") with
    | .error m => .error m
    | .ok (.arr xs) =>
      match getMember record prop with
      | .error err => .error (JSError.message err)
      | .ok v => .ok (xs.any (fun x => sameValueZero x v))
    | .ok _ => .error "JSON.parse(...).includes is not a function"

/-- The checker of a relational operator or of `=`: `test` compares `record[prop]` with
the parsed literal. -/
def compareChecker (e : Engine) (test : JSValue → JSValue → Bool) (prop value : String)
    (record : JSValue) : Except String Bool :=
  match getMember record prop with
  | .error err => .error (JSError.message err)
  | .ok v =>
    match e.jsonParse value with
    | .error m => .error m
    | .ok w => .ok (test v w)

/-- The checker `operators[operator](prop, value)` applied to a record. -/
def runChecker (e : Engine) (c : Clause) (record : JSValue) : Except String Bool :=
  if c.operator = "<=" then
    compareChecker e (fun v w => lessThan e.toNumber w v == some false) c.prop c.value record
  else if c.operator = "<" then
    compareChecker e (fun v w => lessThan e.toNumber v w == some true) c.prop c.value record
  else if c.operator = ">=" then
    compareChecker e (fun v w => lessThan e.toNumber v w == some false) c.prop c.value record
  else if c.operator = ">" then
    compareChecker e (fun v w => lessThan e.toNumber w v == some true) c.prop c.value record
  else if c.operator = "=" then
    compareChecker e (fun v w => looseEq e.toNumber v w) c.prop c.value record
  else if c.operator = " like " then likeChecker e c.prop c.value record
  else inChecker e c.prop c.value record

/-- The call `clauses.map((c) => c(record))`. -/
def runCheckers (e : Engine) (record : JSValue) : List Clause → Except String (List Bool)
  | [] => .ok []
  | c :: cs =>
    match runChecker e c record with
    | .error m => .error m
    | .ok b =>
      match runCheckers e record cs with
      | .error m => .error m
      | .ok bs => .ok (b :: bs)

/-- The call `results.reduce(check, acc)`. -/
def combine : Connective → List Bool → Bool
  | .single, bs => bs.foldl (fun _ b => b) true
  | .all, bs => bs.foldl (fun a b => a && b) true
  | .any, bs => bs.foldl (fun a b => a || b) false

/-- The call `records.filter(checker)`. -/
def filterRecords (e : Engine) (conn : Connective) (clauses : List Clause) :
    List JSValue → Except String (List JSValue)
  | [] => .ok []
  | r :: rest =>
    match runCheckers e r clauses with
    | .error m => .error m
    | .ok bs =>
      match filterRecords e conn clauses rest with
      | .error m => .error m
      | .ok kept => .ok (if combine conn bs then r :: kept else kept)

/-- The option `where`: `storage.get(collection).filter(parseWhere(query.where))`. -/
def whereStage (e : Engine) (text : String) (all : JSValue) : Except String JSValue :=
  match all with
  | .arr records =>
    match parseWhere text with
    | .error m => .error m
    | .ok (conn, clauses) =>
      match filterRecords e conn clauses records with
      | .error m => .error m
      | .ok kept => .ok (.arr kept)
  | _ => .error "context.storage.get(...).filter is not a function"

end Crud

namespace Crud

open Storage Rules

/-! ### The option `sortBy` -/

/-- One element of `props`: the key that `{ [prop]: propA }` reads and the flag `desc`. -/
structure SortSpec where
  prop : String
  desc : Bool
  deriving DecidableEq

/-- The specifiers of `query.sortBy`: a specifier without a word reads the key
`undefined`, and any second word sets `desc`. -/
def parseSortBy (text : String) : List SortSpec :=
  ((split text ',').filter (fun p => p != "")).map (fun p =>
    let words := (split p ' ').filter (fun w => w != "")
    ⟨words.head?.getD "undefined", words.tail.head?.isSome⟩)

/-- The comparator that `get` passes to `sort`. -/
def compareBy (e : Engine) (spec : SortSpec) (a b : JSValue) : Except String Int :=
  match getMember a spec.prop with
  | .error err => .error (JSError.message err)
  | .ok propA =>
    match getMember b spec.prop with
    | .error err => .error (JSError.message err)
    | .ok propB =>
      match propA, propB with
      | .num m, .num n => .ok ((m - n) * (if spec.desc then -1 else 1))
      | .str s, _ => .ok (e.localeCompare s (toStringJS propB) * (if spec.desc then -1 else 1))
      | .undefined, _ => .error "Cannot read properties of undefined (reading 'localeCompare')"
      | .null, _ => .error "Cannot read properties of null (reading 'localeCompare')"
      | _, _ => .error "propA.localeCompare is not a function"

/-- Insertion of `x` before the first element that it does not follow. -/
def insertSorted (cmp : JSValue → JSValue → Except String Int) (x : JSValue) :
    List JSValue → Except String (List JSValue)
  | [] => .ok [x]
  | y :: ys =>
    match cmp x y with
    | .error m => .error m
    | .ok n =>
      if n ≤ 0 then .ok (x :: y :: ys)
      else
        match insertSorted cmp x ys with
        | .error m => .error m
        | .ok zs => .ok (y :: zs)

/-- Stable sort with a comparator that may throw. -/
def sortWith (cmp : JSValue → JSValue → Except String Int) :
    List JSValue → Except String (List JSValue)
  | [] => .ok []
  | x :: xs =>
    match sortWith cmp xs with
    | .error m => .error m
    | .ok ys => insertSorted cmp x ys

/-- The call `array.sort(cmp)`: elements that are `undefined` go to the end and are not
compared. -/
def arraySort (cmp : JSValue → JSValue → Except String Int) (xs : List JSValue) :
    Except String (List JSValue) :=
  match sortWith cmp (xs.filter (fun x => x != .undefined)) with
  | .error m => .error m
  | .ok ys => .ok (ys ++ xs.filter (fun x => x == .undefined))

/-- The loop `for (let i = props.length - 1; i >= 0; i--)`: the last specifier sorts
first. -/
def sortLoop (e : Engine) : List SortSpec → List JSValue → Except String (List JSValue)
  | [], xs => .ok xs
  | spec :: rest, xs =>
    match sortLoop e rest xs with
    | .error m => .error m
    | .ok ys => arraySort (compareBy e spec) ys

/-- The option `sortBy`. -/
def sortByStage (e : Engine) (text : String) (responseData : JSValue) :
    Except String JSValue :=
  match parseSortBy text with
  | [] => .ok responseData
  | spec :: rest =>
    match responseData with
    | .arr xs =>
      match sortLoop e (spec :: rest) xs with
      | .error m => .error m
      | .ok ys => .ok (.arr ys)
    | _ => .error "responseData.sort is not a function"

/-! ### The options `offset` and `pageSize` -/

/-- The index that `slice` makes of a relative position: counted from the end when
negative, and kept within the array. -/
def sliceIndex (length : Nat) (k : Int) : Nat :=
  if k < 0 then (length + k).toNat else min k.toNat length

/-- The option `offset`: `responseData.slice(Number(query.offset) || 0)`. -/
def offsetStage (e : Engine) (text : String) (responseData : JSValue) :
    Except String JSValue :=
  match responseData with
  | .arr xs => .ok (.arr (xs.drop (sliceIndex xs.length ((e.toNumber text).getD 0))))
  | _ => .error "responseData.slice is not a function"

/-- The constant `pageSize`: `Number(query.pageSize) || 10`. -/
def pageSizeOf (e : Engine) (text : String) : Int :=
  match e.toNumber text with
  | none => 10
  | some n => if n = 0 then 10 else n

/-- The option `pageSize`: `responseData.slice(0, pageSize)`. -/
def pageSizeStage (e : Engine) (text : String) (responseData : JSValue) :
    Except String JSValue :=
  match responseData with
  | .arr xs => .ok (.arr (xs.take (sliceIndex xs.length (pageSizeOf e text))))
  | _ => .error "responseData.slice is not a function"

/-! ### The option `distinct` -/

/-- The call `values.join(sep)`. -/
def joinSep (sep : String) : List JSValue → String
  | [] => ""
  | [x] => elementString x
  | x :: y :: rest => elementString x ++ sep ++ joinSep sep (y :: rest)

/-- The call `props.map((p) => c[p])`. -/
def readProps (c : JSValue) : List String → Except String (List JSValue)
  | [] => .ok []
  | p :: ps =>
    match getMember c p with
    | .error err => .error (JSError.message err)
    | .ok v =>
      match readProps c ps with
      | .error m => .error m
      | .ok vs => .ok (v :: vs)

/-- One call of the reducer: `distinct` is the object built so far.  Once a key is
`hasOwnProperty`, the method is hidden by a record and the next call throws. -/
def distinctStep (props : List String) (distinct : Props) (c : JSValue) :
    Except String Props :=
  match readProps c props with
  | .error m => .error m
  | .ok values =>
    if has distinct "hasOwnProperty" then .error "distinct.hasOwnProperty is not a function"
    else if has distinct (joinSep "::" values) == false then
      .ok (setProp distinct (joinSep "::" values) c)
    else .ok distinct

/-- The call `responseData.reduce(..., {})`. -/
def distinctReduce (props : List String) : Props → List JSValue → Except String Props
  | distinct, [] => .ok distinct
  | distinct, c :: rest =>
    match distinctStep props distinct c with
    | .error m => .error m
    | .ok distinct1 => distinctReduce props distinct1 rest

/-- The option `distinct`: `Object.values` lists the records in the enumeration order of
their keys. -/
def distinctStage (text : String) (responseData : JSValue) : Except String JSValue :=
  match responseData with
  | .arr xs =>
    match distinctReduce ((split text ',').filter (fun p => p != "")) [] xs with
    | .error m => .error m
    | .ok distinct => .ok (.arr (distinct.map Prod.snd))
  | _ => .error "responseData.reduce is not a function"

/-! ### The option `select` -/

/-- The function `transform(r)` of the option `select`. -/
def selectTransform (r : JSValue) : List String → Props → Except String JSValue
  | [], result => .ok (.obj result)
  | p :: ps, result =>
    match getMember r p with
    | .error err => .error (JSError.message err)
    | .ok v => selectTransform r ps (setProp result p v)

/-- The call `responseData.map(transform)` of the option `select`. -/
def selectMap (props : List String) : List JSValue → Except String (List JSValue)
  | [] => .ok []
  | r :: rest =>
    match selectTransform r props [] with
    | .error m => .error m
    | .ok r1 =>
      match selectMap props rest with
      | .error m => .error m
      | .ok rest1 => .ok (r1 :: rest1)

/-- The option `select`. -/
def selectStage (text : String) (responseData : JSValue) : Except String JSValue :=
  match responseData with
  | .arr xs =>
    match selectMap ((split text ',').filter (fun p => p != "")) xs with
    | .error m => .error m
    | .ok ys => .ok (.arr ys)
  | r => selectTransform r ((split text ',').filter (fun p => p != "")) []

/-- The query options of the server, over the library functions `e`. -/
def serverStages (e : Engine) : Stages :=
  { where_ := whereStage e,
    sortBy := sortByStage e,
    offset := offsetStage e,
    pageSize := pageSizeStage e,
    distinct := distinctStage,
    select := selectStage }

end Crud

/-! ## Records as objects with identity (`deepCopy` and `get`, lines 1116-1127 and 933-948
of `src/server.js`)

The value model above identifies an object with its contents.  To state that a record
handed out shares nothing with the store, objects get an address here: a heap is the list of
the objects allocated so far, and a value is a primitive or the address of an object.  Each
array or object that `deepCopy` returns is a new object.  Of the objects created on the way
only those that stay reachable are kept (the entry arrays and the one-property objects
passed to `Object.assign` are not), and an object is given its address when it is complete;
the order of allocation cannot be observed.  The functions take the depth `fuel` to which
values are followed and return `none` when it does not suffice.
-/

namespace Refs

open Storage (JSValue JSError Props lookup has replace precedes)

/-- A value as the engine holds it: a primitive, or the address of an object. -/
inductive Value where
  | undefined
  | null
  | bool (b : Bool)
  | num (n : Int)
  | str (s : String)
  | ref (a : Nat)
  deriving DecidableEq

/-- An object of the heap: an array with its elements, or a plain object with its own
properties in enumeration order. -/
inductive Cell where
  | arr (items : List Value)
  | obj (props : List (String × Value))
  deriving DecidableEq

/-- The heap: the object at address `a` is the entry of index `a`; a new object takes the
next address. -/
abbrev Heap := List Cell

/-- The values an object holds. -/
def Cell.values : Cell → List Value
  | .arr items => items
  | .obj props => props.map Prod.snd

/-- Elementwise reading of a list of values. -/
def denoteList (d : Value → Option JSValue) : List Value → Option (List JSValue)
  | [] => some []
  | v :: vs =>
    match d v with
    | none => none
    | some x =>
      match denoteList d vs with
      | none => none
      | some xs => some (x :: xs)

/-- Reading of a property list, value by value. -/
def denoteProps (d : Value → Option JSValue) : List (String × Value) → Option Props
  | [] => some []
  | (k, v) :: rest =>
    match d v with
    | none => none
    | some x =>
      match denoteProps d rest with
      | none => none
      | some xs => some ((k, x) :: xs)

/-- The tree a value stands for in a heap, followed to depth `fuel`: `none` when an address
is not allocated or the structure is deeper than `fuel` (a cyclic one always is). -/
def denote : Nat → Heap → Value → Option JSValue
  | _, _, .undefined => some .undefined
  | _, _, .null => some .null
  | _, _, .bool b => some (.bool b)
  | _, _, .num n => some (.num n)
  | _, _, .str s => some (.str s)
  | 0, _, .ref _ => none
  | fuel + 1, h, .ref a =>
    match h[a]? with
    | none => none
    | some (.arr items) =>
      match denoteList (denote fuel h) items with
      | none => none
      | some xs => some (.arr xs)
    | some (.obj props) =>
      match denoteProps (denote fuel h) props with
      | none => none
      | some ps => some (.obj ps)

/-- Create a property that the object does not have yet (see `Storage.insertProp`). -/
def insertProp (k : String) (v : Value) : List (String × Value) → List (String × Value)
  | [] => [(k, v)]
  | (a, w) :: t => if precedes a k then (a, w) :: insertProp k v t else (k, v) :: (a, w) :: t

/-- Assignment `obj[k] = v` (also `Object.assign(obj, {[k]: v})`). -/
def setProp (o : List (String × Value)) (k : String) (v : Value) : List (String × Value) :=
  if has o k then replace k v o else insertProp k v o

/-- Outcome of a computation on the heap: `none` when the depth `fuel` did not suffice,
otherwise the exception thrown, or the new heap with the value returned. -/
abbrev Run (α : Type) := Option (Except JSError (Heap × α))

/-- The call `value.map(deepCopy)`, `copy` being the recursive call. -/
def deepCopyMap (copy : Heap → Value → Run Value) : Heap → List Value → Run (List Value)
  | h, [] => some (.ok (h, []))
  | h, v :: vs =>
    match copy h v with
    | none => none
    | some (.error e) => some (.error e)
    | some (.ok (h1, w)) =>
      match deepCopyMap copy h1 vs with
      | none => none
      | some (.error e) => some (.error e)
      | some (.ok (h2, ws)) => some (.ok (h2, w :: ws))

/-- The call `entries.reduce((p, [k, v]) => Object.assign(p, {[k]: deepCopy(v)}), p)`, `copy`
being the recursive call; `p` holds the properties of the object under construction. -/
def deepCopyReduce (copy : Heap → Value → Run Value) :
    Heap → List (String × Value) → List (String × Value) → Run (List (String × Value))
  | h, [], p => some (.ok (h, p))
  | h, (k, v) :: rest, p =>
    match copy h v with
    | none => none
    | some (.error e) => some (.error e)
    | some (.ok (h1, w)) => deepCopyReduce copy h1 rest (setProp p k w)

/-- Source `deepCopy(value)` on the heap: an array and an object are rebuilt as new objects
from copies of what they hold, `null` makes `Object.entries` throw, any other value is
returned as it is. -/
def deepCopy : Nat → Heap → Value → Run Value
  | _, h, .undefined => some (.ok (h, .undefined))
  | _, _, .null => some (.error (.typeError "Cannot convert undefined or null to object"))
  | _, h, .bool b => some (.ok (h, .bool b))
  | _, h, .num n => some (.ok (h, .num n))
  | _, h, .str s => some (.ok (h, .str s))
  | 0, _, .ref _ => none
  | fuel + 1, h, .ref a =>
    match h[a]? with
    | none => none
    | some (.arr items) =>
      match deepCopyMap (deepCopy fuel) h items with
      | none => none
      | some (.error e) => some (.error e)
      | some (.ok (h1, ws)) => some (.ok (h1 ++ [.arr ws], .ref h1.length))
    | some (.obj props) =>
      match deepCopyReduce (deepCopy fuel) h props [] with
      | none => none
      | some (.error e) => some (.error e)
      | some (.ok (h1, p)) => some (.ok (h1 ++ [.obj p], .ref h1.length))

/-- The store on the heap: each `Map` entry of a collection holds the address of the
record. -/
abbrev Collections := List (String × List (String × Nat))

/-- The assignment `Object.assign(target, { _id: id })` on the object at address
`target`. -/
def assignId (h : Heap) (target : Nat) (id : String) : Option Heap :=
  match h[target]? with
  | some (.obj p) => some (h.set target (.obj (setProp p "_id" (.str id))))
  | _ => none

/-- Source `get(collection, id)` of the store, for a collection name and an id that are not
falsy: the record found is copied and the copy receives `_id`. -/
def get (fuel : Nat) (h : Heap) (collections : Collections) (collection id : String) :
    Run Value :=
  match lookup collection collections with
  | none => some (.error (.referenceError ("Collection does not exist: " ++ collection)))
  | some targetCollection =>
    match lookup id targetCollection with
    | none => some (.error (.referenceError ("Entry does not exist: " ++ id)))
    | some entry =>
      match deepCopy fuel h (.ref entry) with
      | none => none
      | some (.error e) => some (.error e)
      | some (.ok (h1, .ref a)) =>
        match assignId h1 a id with
        | some h2 => some (.ok (h2, .ref a))
        | none => none
      | some (.ok (_, _)) => none

/-- The value is a primitive, or an object created at address `n` or later. -/
def Value.fresh (n : Nat) : Value → Bool
  | .ref a => decide (n ≤ a)
  | _ => true

/-- The objects of `cells` hold primitives and objects of address `n` or later only. -/
def closedFrom (n : Nat) (cells : List Cell) : Bool :=
  cells.all (fun c => c.values.all (Value.fresh n))

/-- Objects reachable from the object at address `r` by following properties and
elements. -/
inductive Reachable (h : Heap) (r : Nat) : Nat → Prop where
  | root : Reachable h r r
  | step {a b : Nat} {c : Cell} :
      Reachable h r a → h[a]? = some c → Value.ref b ∈ c.values → Reachable h r b

/-- What the holder of some objects can do to the heap in one step.  A state is the heap
with the addresses `roots` the holder has at hand.  The holder replaces the contents of an
object reachable from a root, or creates an object, which becomes a root; the values put in
are primitives and objects reachable from a root (for a new object also itself). -/
inductive Modifies : Heap × List Nat → Heap × List Nat → Prop where
  | write (h : Heap) (roots : List Nat) (a : Nat) (c : Cell) :
      (∃ r ∈ roots, Reachable h r a) →
      (∀ b, Value.ref b ∈ c.values → ∃ r ∈ roots, Reachable h r b) →
      Modifies (h, roots) (h.set a c, roots)
  | create (h : Heap) (roots : List Nat) (c : Cell) :
      (∀ b, Value.ref b ∈ c.values → b = h.length ∨ ∃ r ∈ roots, Reachable h r b) →
      Modifies (h, roots) (h ++ [c], h.length :: roots)

/-- What a copy must achieve at depth `fuel`: on a value standing for the tree `x`, the copy
on the heap throws when the copy of `x` throws, and otherwise only adds objects `ext`,
returns a value standing for the copy of `x`, made of new objects only. -/
def CopySpec (fuel : Nat) : Prop :=
  ∀ (h : Heap) (v : Value) (x : JSValue), denote fuel h v = some x →
    (∀ e, Storage.deepCopy x = .error e → deepCopy fuel h v = some (.error e)) ∧
    (∀ y, Storage.deepCopy x = .ok y →
      ∃ ext w, deepCopy fuel h v = some (.ok (h ++ ext, w)) ∧
        denote fuel (h ++ ext) w = some y ∧ w.fresh h.length = true ∧
        closedFrom h.length ext = true)

/-- Invariant of the modifications: the heap `h` is kept, and what lies after it refers to
later objects only. -/
def Apart (h : Heap) (s : Heap × List Nat) : Prop :=
  ∃ ext, s.1 = h ++ ext ∧ closedFrom h.length ext = true ∧ ∀ r ∈ s.2, h.length ≤ r

end Refs

/-! ## Definitions used in the statements -/

namespace Storage

mutual
/-- No object inside the value has a property named `__proto__`. -/
def JSValue.protoFree : JSValue → Bool
  | .arr xs => protoFreeList xs
  | .obj ps => protoFreeProps ps
  | .undefined => true
  | .null => true
  | .bool _ => true
  | .num _ => true
  | .str _ => true
/-- No element has a property named `__proto__`, at any depth. -/
def protoFreeList : List JSValue → Bool
  | [] => true
  | x :: xs => x.protoFree && protoFreeList xs
/-- No property is named `__proto__`, at any depth. -/
def protoFreeProps : Props → Bool
  | [] => true
  | (k, v) :: t => !decide (k = "__proto__") && v.protoFree && protoFreeProps t
end

/-- The records that `query` keeps: those that agree with the query object on every
property that the record itself has. -/
def agreesWith (ne : JSValue → JSValue → Bool) (lower : String → String)
    (query entry : Props) : Bool :=
  entry.all (fun p =>
    !has query p.1 || !mismatch ne lower (getProp query p.1) (getProp entry p.1))

/-- The record that `add` builds from a payload: the owner taken from the payload, the
payload's other non-system fields, and the creation time. -/
def addedRecord (data : Props) (now : Int) : Props :=
  setProp (assignAll [("_ownerId", getProp data "_ownerId")] (cleanFields data))
    "_createdOn" (.num now)

end Storage

namespace Rules

open Storage

/-- The rule with which `getRule` starts: the rule that the entry `*` of the merged rule
set gives for the action, `true` when it gives none or an empty one. -/
def baseRule (settings : RuleSet) (action : String) : Rule :=
  ruleOrDefault Rule.length (.bool true)
    (lookup action ((lookup "*" settings).getD defaultRules).actions)

/-- The field rules that the field group `*` of a collection entry gives for an action. -/
def wildcardPropRules (entry : CollectionRules) (action : String) : List (String × Rule) :=
  match entry.wildcard with
  | none => []
  | some g => getPropRule g action

/-- The value of the top-level rule in `canAccess` (`true`: the action is permitted) and
the objects `data` and `newData` as its evaluation leaves them. -/
def topRule (a : Access) (rule : Rule) (data : JSValue) (newData : Option Props) :
    Except Failure (Bool × Payloads) :=
  match rule with
  | .roles tags =>
    match checkRoles a tags data with
    | .error e => .error e
    | .ok b => .ok (b, ⟨data, newData⟩)
  | .expr source =>
    match a.ev source a.user data newData with
    | .error e => .error (.fault e)
    | .ok r => .ok (truthy r.value, ⟨r.data, r.newData⟩)
  | .bool b => .ok (b, ⟨data, newData⟩)

/-- The value of a field rule in `applyPropRule` and the objects as its evaluation leaves
them. -/
def ruleValue (a : Access) (rule : Rule) (p : Payloads) : Except Failure (JSValue × Payloads) :=
  match rule with
  | .expr source =>
    match a.ev source a.user p.data p.newData with
    | .error e => .error (.fault e)
    | .ok r => .ok (.bool (truthy r.value), ⟨r.data, r.newData⟩)
  | .bool b => .ok (.bool b, p)
  | .roles tags => .ok (.arr (tags.map JSValue.str), p)

/-- An interpretation of `eval` under which every expression is `undefined` and changes
nothing (used where no expression is evaluated). -/
def noEval : Eval := fun _ _ data newData => .ok ⟨.undefined, data, newData⟩

/-- A request of the principal `uid` (no principal when `none`) under the rule set
`settings`, no expression being evaluated and no string denoting a number. -/
def requestOf (uid : Option String) (isAdmin : Bool) (settings : RuleSet) : Access :=
  { user := uid.map (fun id => [("_id", .str id)]),
    isAdmin := isAdmin,
    settings := settings,
    ev := noEval,
    toNumber := fun _ => none }

/-- The value and the effect of the expression `newData.f = data.f`: the value read from
`data` is assigned to the property `f` of `newData` and is the value of the expression. -/
def assignFromData (f : String) (data : JSValue) (newData : Option Props) :
    Except JSError Evaluated :=
  match getMember data f with
  | .error e => .error e
  | .ok v =>
    match newData with
    | none => .error (.typeError ("Cannot set properties of undefined (setting '" ++ f ++ "')"))
    | some o => .ok ⟨v, data, some (setProp o f v)⟩

/-- An interpretation of `eval` for the rules of `members`: the field rule of `teamId` is
the assignment it denotes, and every other expression is `true` and changes nothing (the
principal owns every team). -/
def membersEval : Eval := fun source _ data newData =>
  if source = "newData.teamId = data.teamId" then assignFromData "teamId" data newData
  else .ok ⟨.bool true, data, newData⟩

/-- An interpretation of `eval` under which every expression throws. -/
def failingEval : Eval := fun _ _ _ _ => .error (.referenceError "x is not defined")

end Rules

namespace Crud

open Storage Rules

instance instDecidableEqResponse : DecidableEq Response := fun x y =>
  decidable_of_iff (x.storage = y.storage ∧ x.result = y.result) (by
    cases x; cases y; simp)

/-- The literals of the examples, read as `JSON.parse` reads them: `true`, `false`,
`null`, an integer numeral, or a string literal without escapes.  Every other text is
rejected here, so this function stands for `JSON.parse` on such literals only. -/
def parseScalar (cs : List Char) : Option JSValue :=
  if cs = "true".data then some (.bool true)
  else if cs = "false".data then some (.bool false)
  else if cs = "null".data then some .null
  else
    match cs with
    | '"' :: rest =>
      if rest.getLast? = some '"' && rest.dropLast.all (fun c => c != '"' && c != '\\' && 32 ≤ c.toNat)
      then some (.str (String.mk rest.dropLast))
      else none
    | '-' :: d :: rest =>
      if d = '0' ∧ rest ≠ [] then none
      else (digitsValue (d :: rest) 0).map (fun n => .num (-(n : Int)))
    | d :: rest =>
      if d = '0' ∧ rest ≠ [] then none
      else (digitsValue (d :: rest) 0).map (fun n => .num (n : Int))
    | [] => none

/-- The elements of a bracketed list of scalars without commas inside strings. -/
def parseScalars : List (List Char) → Option (List JSValue)
  | [] => some []
  | cs :: rest =>
    match parseScalar (trimChars cs) with
    | none => none
    | some v =>
      match parseScalars rest with
      | none => none
      | some vs => some (v :: vs)

/-- The function `JSON.parse` on scalars and on lists of scalars (see `parseScalar`). -/
def parseLiteral (s : String) : Except String JSValue :=
  match s.data with
  | '[' :: rest =>
    if rest.getLast? = some ']' then
      match parseScalars (splitChars ',' rest.dropLast) with
      | some vs => .ok (.arr vs)
      | none => .error "Unexpected token in JSON"
    else .error "Unexpected end of JSON input"
  | cs =>
    match parseScalar (trimChars cs) with
    | some v => .ok v
    | none => .error "Unexpected token in JSON"

/-- The function `Number` on decimal numerals. -/
def decimal (s : String) : Option Int :=
  match s.data with
  | [] => some 0
  | '-' :: rest => if rest = [] then none else (digitsValue rest 0).map (fun n => -(n : Int))
  | cs => (digitsValue cs 0).map (fun n => (n : Int))

/-- The order of two strings by code units, as a comparator. -/
def compareUnits (a b : String) : Int :=
  if unitsLt (codeUnits a) (codeUnits b) then -1
  else if unitsLt (codeUnits b) (codeUnits a) then 1
  else 0

/-- Library functions for the examples: `JSON.parse` on scalars, `Number` on decimal
numerals, `toLowerCase` on ASCII text, and a `localeCompare` that orders lower-case ASCII
words as the usual collations do. -/
def plainEngine : Engine :=
  { jsonParse := parseLiteral,
    toNumber := decimal,
    toLowerCase := fun s => String.mk (s.data.map foldChar),
    localeCompare := compareUnits }

/-- The value a read starts from: the list of the collection's records when `where` is
given, and otherwise what `storage.get(collection, id)` returns. -/
def readSource (storage : Collections) (collection : Option String) (tokens : List String)
    (query : Query) : Except JSError JSValue :=
  if query.where_.isSome && query.where_ != some "" then Storage.get storage collection none
  else Storage.get storage collection tokens.head?

/-- The order of application of the specification, up to `distinct`: filter, sort,
offset, pageSize, distinct; an option that is absent changes nothing. -/
def specList (stages : Stages) (query : Query) (records : JSValue) : Except String JSValue :=
  ((((runStage stages.where_ query.where_ records).bind
    (runStage stages.sortBy query.sortBy)).bind
    (runStage stages.offset query.offset)).bind
    (runStage stages.pageSize query.pageSize)).bind
    (runStage stages.distinct query.distinct)

/-- The order of application of the specification for a read that returns records:
`load(select(distinct(page(sort(filter(records))))))`. -/
def specRead (stages : Stages) (storage protectedStorage : Collections) (query : Query)
    (records : JSValue) : Except String JSValue :=
  ((specList stages query records).bind
    (runStage stages.select query.select)).bind
    (runStage (load storage protectedStorage) query.load)

/-- What `get` throws for an exception of its `try` block with the message `m`. -/
def readFailure (m : String) : Failure :=
  if includes m "does not exist" then notFoundError else requestError m

/-- The lexicographic combination of a primary and a secondary relation. -/
def lexOf {α : Type} (r1 r2 : α → α → Prop) (a b : α) : Prop :=
  (r1 a b ∧ ¬ r1 b a) ∨ (r1 a b ∧ r1 b a ∧ r2 a b)

instance instDecidableLexOf {α : Type} (r1 r2 : α → α → Prop) [DecidableRel r1]
    [DecidableRel r2] : DecidableRel (lexOf r1 r2) := fun a b =>
  inferInstanceAs (Decidable ((r1 a b ∧ ¬ r1 b a) ∨ (r1 a b ∧ r1 b a ∧ r2 a b)))

/-- The value of the comparator of a specifier on two elements, `0` where it throws. -/
def keyCompare (e : Engine) (spec : SortSpec) (a b : JSValue) : Int :=
  match compareBy e spec a b with
  | .ok n => n
  | .error _ => 0

/-- The lexicographic comparison of the specifiers taken left to right: whether `a` may
stand before `b`. -/
def lexLe (e : Engine) : List SortSpec → JSValue → JSValue → Bool
  | [], _, _ => true
  | spec :: rest, a, b =>
    decide (keyCompare e spec a b < 0) ||
      (decide (keyCompare e spec a b = 0) && lexLe e rest a b)

/-- A record whose field `p` is a number. -/
def numberField (p : String) : JSValue → Bool
  | .obj ps =>
    match getProp ps p with
    | .num _ => true
    | _ => false
  | _ => false

/-- A record whose field `p` is a string. -/
def stringField (p : String) : JSValue → Bool
  | .obj ps =>
    match getProp ps p with
    | .str _ => true
    | _ => false
  | _ => false

/-- The composite key of a record: the values of the fields `props` joined by `::`. -/
def compositeKey (props : List String) (c : JSValue) : String :=
  match readProps c props with
  | .ok values => joinSep "::" values
  | .error _ => ""

/-- The first record of each key, in the order of the list; `seen` holds the keys already
met. -/
def firstPerKey (key : JSValue → String) : List String → List JSValue → List JSValue
  | _, [] => []
  | seen, c :: rest =>
    if seen.contains (key c) then firstPerKey key seen rest
    else c :: firstPerKey key (seen ++ [key c]) rest

/-- The characters with which the comparison operators are written. -/
def operatorChar (c : Char) : Bool :=
  c == '<' || c == '>' || c == '='

/-- Whether the characters after an opening quote reach the closing quote of a JSON string;
`escaped` says that the character before was a backslash, which takes this one with
it. -/
def closesString (escaped : Bool) : List Char → Bool
  | [] => false
  | c :: rest =>
    if escaped then closesString false rest
    else if c = '"' then true
    else closesString (decide (c = '\\')) rest

/-- Query stages that leave `responseData` as it is. -/
def plainStages : Stages :=
  ⟨fun _ v => .ok v, fun _ v => .ok v, fun _ v => .ok v, fun _ v => .ok v,
    fun _ v => .ok v, fun _ v => .ok v⟩

end Crud

/-! ## Lemmas on association lists -/

namespace Storage

section Assoc

variable {α : Type}

@[simp] theorem lookup_nil (k : String) : lookup k ([] : List (String × α)) = none := rfl

theorem lookup_cons (k a : String) (v : α) (t : List (String × α)) :
    lookup k ((a, v) :: t) = if a = k then some v else lookup k t := rfl

@[simp] theorem has_nil (k : String) : has ([] : List (String × α)) k = false := rfl

theorem has_cons (k a : String) (v : α) (t : List (String × α)) :
    has ((a, v) :: t) k = (decide (a = k) || has t k) := by
  by_cases h : a = k <;> simp [has, lookup_cons, h]

theorem has_eq_true_iff (l : List (String × α)) (k : String) :
    has l k = true ↔ ∃ v, lookup k l = some v := by
  simp [has, Option.isSome_iff_exists]

theorem has_eq_false_iff (l : List (String × α)) (k : String) :
    has l k = false ↔ lookup k l = none := by
  cases h : lookup k l <;> simp [has, h]

theorem has_iff_mem_keys (l : List (String × α)) (k : String) :
    has l k = true ↔ k ∈ l.map Prod.fst := by
  induction l with
  | nil => simp
  | cons p t ih =>
    obtain ⟨a, v⟩ := p
    by_cases h : a = k
    · simp [has_cons, h]
    · have h2 : ¬ k = a := fun e => h e.symm
      simp [has_cons, ih, h, h2]

theorem lookup_append (k : String) (l m : List (String × α)) :
    lookup k (l ++ m) = (lookup k l).orElse (fun _ => lookup k m) := by
  induction l with
  | nil => simp
  | cons p t ih =>
    obtain ⟨a, v⟩ := p
    by_cases h : a = k <;> simp [lookup_cons, h, ih]

theorem lookup_replace (j k : String) (v : α) (l : List (String × α)) :
    lookup j (replace k v l) = if j = k ∧ has l k = true then some v else lookup j l := by
  induction l with
  | nil => simp [replace]
  | cons p t ih =>
    obtain ⟨a, w⟩ := p
    by_cases hak : a = k
    · subst hak
      by_cases hj : a = j
      · subst hj; simp [replace, lookup_cons, has_cons]
      · have hj2 : ¬ j = a := fun h => hj h.symm
        simp [replace, lookup_cons, hj, hj2]
    · by_cases hj : a = j
      · subst hj
        simp [replace, hak, lookup_cons]
      · simp [replace, hak, lookup_cons, hj, ih, has_cons]

theorem map_fst_replace (k : String) (v : α) (l : List (String × α)) :
    (replace k v l).map Prod.fst = l.map Prod.fst := by
  induction l with
  | nil => rfl
  | cons p t ih =>
    obtain ⟨a, w⟩ := p
    by_cases hak : a = k <;> simp [replace, hak, ih]

theorem length_replace (k : String) (v : α) (l : List (String × α)) :
    (replace k v l).length = l.length := by
  simpa using congrArg List.length (map_fst_replace k v l)

theorem lookup_mapSet (j k : String) (v : α) (l : List (String × α)) :
    lookup j (mapSet l k v) = if j = k then some v else lookup j l := by
  unfold mapSet
  by_cases h : has l k = true
  · simp [h, lookup_replace]
  · have h2 : lookup k l = none := (has_eq_false_iff l k).1 (by simpa using h)
    by_cases hj : j = k
    · subst hj; simp [h, lookup_append, h2, lookup_cons]
    · have hj2 : ¬ k = j := fun e => hj e.symm
      have h3 : has l k = false := by simpa using h
      rw [if_neg (by simp [h3]), lookup_append, if_neg hj]
      cases lookup j l <;> simp [lookup_cons, hj2]

theorem has_mapSet (j k : String) (v : α) (l : List (String × α)) :
    has (mapSet l k v) j = (decide (j = k) || has l j) := by
  by_cases hj : j = k <;> simp [has, lookup_mapSet, hj]

theorem length_mapSet (k : String) (v : α) (l : List (String × α)) :
    (mapSet l k v).length = if has l k then l.length else l.length + 1 := by
  unfold mapSet
  by_cases h : has l k = true <;> simp [h, length_replace]

theorem map_fst_mapSet (k : String) (v : α) (l : List (String × α)) :
    (mapSet l k v).map Prod.fst
      = if has l k then l.map Prod.fst else l.map Prod.fst ++ [k] := by
  unfold mapSet
  by_cases h : has l k = true <;> simp [h, map_fst_replace]

theorem lookup_mapDelete (j k : String) (l : List (String × α)) :
    lookup j (mapDelete l k) = if j = k then none else lookup j l := by
  induction l with
  | nil => simp [mapDelete]
  | cons p t ih =>
    obtain ⟨a, w⟩ := p
    unfold mapDelete at ih ⊢
    by_cases hak : a = k
    · subst hak
      by_cases hj : j = a
      · subst hj; simpa [List.filter_cons] using ih
      · have hj2 : ¬ a = j := fun e => hj e.symm
        simp [List.filter_cons, ih, hj, lookup_cons, hj2]
    · by_cases hj : a = j
      · subst hj; simp [List.filter_cons, hak, lookup_cons]
      · simp [List.filter_cons, hak, lookup_cons, hj, ih]

theorem has_mapDelete (j k : String) (l : List (String × α)) :
    has (mapDelete l k) j = (!decide (j = k) && has l j) := by
  by_cases hj : j = k <;> simp [has, lookup_mapDelete, hj]

theorem mapSet_self (k : String) (v : α) (l : List (String × α))
    (h : lookup k l = some v) : mapSet l k v = l := by
  have hh : has l k = true := (has_eq_true_iff l k).2 ⟨v, h⟩
  simp only [mapSet, hh, if_true]
  clear hh
  induction l with
  | nil => rfl
  | cons p t ih =>
    obtain ⟨a, w⟩ := p
    by_cases hak : a = k
    · simp [lookup_cons, hak] at h
      simp [replace, hak, h]
    · simp [lookup_cons, hak] at h
      simp [replace, hak, ih h]

end Assoc

/-! ## Lemmas on property order -/

section PropsOrder

theorem keysOK_cons (a : String) (t : List String) :
    keysOK (a :: t) = true ↔ (∀ b ∈ t, precedes a b = true ∧ a ≠ b) ∧ keysOK t = true := by
  simp [keysOK, List.all_eq_true]

theorem keysOK_append_singleton (l : List String) (k : String) :
    keysOK (l ++ [k]) = true ↔
      keysOK l = true ∧ ∀ a ∈ l, precedes a k = true ∧ a ≠ k := by
  induction l with
  | nil => simp [keysOK]
  | cons a t ih =>
    simp only [List.cons_append, keysOK_cons, ih, List.mem_append, List.mem_singleton,
      List.mem_cons, List.not_mem_nil, or_false]
    constructor
    · rintro ⟨h1, h2, h3⟩
      refine ⟨⟨fun b hb => h1 b (Or.inl hb), h2⟩, ?_⟩
      rintro b (rfl | hb)
      · exact h1 k (Or.inr rfl)
      · exact h3 b hb
    · rintro ⟨⟨h1, h2⟩, h3⟩
      refine ⟨?_, h2, fun b hb => h3 b (Or.inr hb)⟩
      rintro b (hb | rfl)
      · exact h1 b hb
      · exact h3 a (Or.inl rfl)

theorem keysOK_append_left (l m : List String) (h : keysOK (l ++ m) = true) :
    keysOK l = true := by
  induction l with
  | nil => rfl
  | cons a t ih =>
    simp only [List.cons_append, keysOK_cons, List.mem_append] at h ⊢
    exact ⟨fun b hb => h.1 b (Or.inl hb), ih h.2⟩

theorem precedes_trans_of_not (a k b : String) (h1 : precedes a k = false)
    (h2 : precedes a b = true) : precedes k b = true := by
  unfold precedes at *
  cases ha : arrayIndex a <;> cases hk : arrayIndex k <;> cases hb : arrayIndex b <;>
    simp_all
  omega

theorem mem_keys_insertProp (j k : String) (v : JSValue) (o : Props) :
    j ∈ (insertProp k v o).map Prod.fst ↔ j = k ∨ j ∈ o.map Prod.fst := by
  induction o with
  | nil => simp [insertProp]
  | cons p t ih =>
    obtain ⟨a, w⟩ := p
    by_cases h : precedes a k = true
    · simp only [insertProp, h, if_true, List.map_cons, List.mem_cons, ih]
      tauto
    · simp [insertProp, h]

theorem keysOK_insertProp (k : String) (v : JSValue) (o : Props)
    (hok : keysOK (o.map Prod.fst) = true) (hk : has o k = false) :
    keysOK ((insertProp k v o).map Prod.fst) = true := by
  induction o with
  | nil => simp [insertProp, keysOK]
  | cons p t ih =>
    obtain ⟨a, w⟩ := p
    simp only [List.map_cons, keysOK_cons] at hok
    have hak : ¬ a = k := by
      intro e; simp [has_cons, e] at hk
    have hk2 : has t k = false := by
      simpa [has_cons, hak] using hk
    have hkt : ∀ b ∈ t.map Prod.fst, k ≠ b := by
      intro b hb e
      have : has t k = true := (has_iff_mem_keys t k).2 (e ▸ hb)
      simp [hk2] at this
    by_cases h : precedes a k = true
    · simp only [insertProp, h, if_true, List.map_cons, keysOK_cons]
      refine ⟨?_, ih hok.2 hk2⟩
      intro b hb
      rcases (mem_keys_insertProp b k v t).1 hb with rfl | hb
      · exact ⟨h, hak⟩
      · exact hok.1 b hb
    · have h2 : precedes a k = false := by simpa using h
      simp only [insertProp, h2, Bool.false_eq_true, if_false, List.map_cons, keysOK_cons]
      refine ⟨?_, hok⟩
      intro b hb
      rcases List.mem_cons.1 hb with rfl | hb
      · refine ⟨?_, fun e => hak e.symm⟩
        unfold precedes at h2 ⊢
        cases ha : arrayIndex b <;> cases hkk : arrayIndex k <;> simp_all
        omega
      · exact ⟨precedes_trans_of_not a k b h2 (hok.1 b hb).1, hkt b hb⟩

theorem keysOK_setProp (k : String) (v : JSValue) (o : Props)
    (hok : keysOK (o.map Prod.fst) = true) :
    keysOK ((setProp o k v).map Prod.fst) = true := by
  unfold setProp
  by_cases h : has o k = true
  · simpa [h, map_fst_replace] using hok
  · have h2 : has o k = false := by simpa using h
    simpa [h2] using keysOK_insertProp k v o hok h2

theorem insertProp_eq_append (k : String) (v : JSValue) (o : Props)
    (h : ∀ a ∈ o.map Prod.fst, precedes a k = true) :
    insertProp k v o = o ++ [(k, v)] := by
  induction o with
  | nil => rfl
  | cons p t ih =>
    obtain ⟨a, w⟩ := p
    have h1 : precedes a k = true := h a (by simp)
    have h2 : ∀ b ∈ t.map Prod.fst, precedes b k = true := fun b hb =>
      h b (by simp only [List.map_cons, List.mem_cons]; exact Or.inr hb)
    simp [insertProp, h1, ih h2]

theorem setProp_eq_append (k : String) (v : JSValue) (o : Props)
    (h : keysOK ((o ++ [(k, v)]).map Prod.fst) = true) :
    setProp o k v = o ++ [(k, v)] := by
  rw [List.map_append, List.map_singleton, keysOK_append_singleton] at h
  have hk : has o k = false := by
    cases hh : has o k
    · rfl
    · exact absurd rfl (h.2 k ((has_iff_mem_keys o k).1 hh)).2
  simp only [setProp, hk, Bool.false_eq_true, if_false]
  exact insertProp_eq_append k v o (fun a ha => (h.2 a ha).1)

theorem lookup_insertProp (j k : String) (v : JSValue) (o : Props) (hk : has o k = false) :
    lookup j (insertProp k v o) = if j = k then some v else lookup j o := by
  induction o with
  | nil =>
    by_cases hj : j = k
    · simp [insertProp, lookup_cons, hj]
    · have hj2 : ¬ k = j := fun e => hj e.symm
      simp [insertProp, lookup_cons, hj, hj2]
  | cons p t ih =>
    obtain ⟨a, w⟩ := p
    have hak : ¬ a = k := by
      intro e; simp [has_cons, e] at hk
    have hk2 : has t k = false := by
      simpa [has_cons, hak] using hk
    by_cases h : precedes a k = true
    · simp only [insertProp, h, if_true, lookup_cons, ih hk2]
      by_cases haj : a = j
      · have : ¬ j = k := fun e => hak (haj.trans e)
        simp [haj, this]
      · simp [haj]
    · have h2 : precedes a k = false := by simpa using h
      simp only [insertProp, h2, Bool.false_eq_true, if_false, lookup_cons]
      by_cases hj : j = k
      · simp [hj]
      · have hj2 : ¬ k = j := fun e => hj e.symm
        simp [hj, hj2]

theorem lookup_setProp (j k : String) (v : JSValue) (o : Props) :
    lookup j (setProp o k v) = if j = k then some v else lookup j o := by
  unfold setProp
  by_cases h : has o k = true
  · by_cases hj : j = k <;> simp [h, lookup_replace, hj]
  · have h2 : has o k = false := by simpa using h
    simp [h2, lookup_insertProp j k v o h2]

theorem getProp_setProp (j k : String) (v : JSValue) (o : Props) :
    getProp (setProp o k v) j = if j = k then v else getProp o j := by
  by_cases hj : j = k <;> simp [getProp, lookup_setProp, hj]

theorem has_setProp (j k : String) (v : JSValue) (o : Props) :
    has (setProp o k v) j = (decide (j = k) || has o j) := by
  by_cases hj : j = k <;> simp [has, lookup_setProp, hj]

theorem mem_keys_setProp (j k : String) (v : JSValue) (o : Props) :
    j ∈ (setProp o k v).map Prod.fst ↔ j = k ∨ j ∈ o.map Prod.fst := by
  rw [← has_iff_mem_keys, ← has_iff_mem_keys, has_setProp]
  simp

end PropsOrder

/-! ## Lemmas on `deepCopy` -/

section DeepCopy

theorem wfProps_eq_all (o : Props) : wfProps o = o.all (fun p => p.2.wf) := by
  induction o with
  | nil => rfl
  | cons p t ih => obtain ⟨a, w⟩ := p; simp [wfProps, ih]

theorem nullFreeProps_eq_all (o : Props) : nullFreeProps o = o.all (fun p => p.2.nullFree) := by
  induction o with
  | nil => rfl
  | cons p t ih => obtain ⟨a, w⟩ := p; simp [nullFreeProps, ih]

theorem wfList_eq_all (xs : List JSValue) : wfList xs = xs.all (fun x => x.wf) := by
  induction xs with
  | nil => rfl
  | cons x t ih => simp [wfList, ih]

theorem nullFreeList_eq_all (xs : List JSValue) :
    nullFreeList xs = xs.all (fun x => x.nullFree) := by
  induction xs with
  | nil => rfl
  | cons x t ih => simp [nullFreeList, ih]

theorem mem_replace (p : String × JSValue) (k : String) (v : JSValue) (o : Props)
    (h : p ∈ replace k v o) : p = (k, v) ∨ p ∈ o := by
  induction o with
  | nil => simp [replace] at h
  | cons q t ih =>
    obtain ⟨a, w⟩ := q
    by_cases hak : a = k
    · simp only [replace, hak, if_true, List.mem_cons] at h ⊢
      tauto
    · simp only [replace, hak, if_false, List.mem_cons] at h ⊢
      rcases h with h | h
      · exact Or.inr (Or.inl h)
      · rcases ih h with h | h
        · exact Or.inl h
        · exact Or.inr (Or.inr h)

theorem mem_insertProp (p : String × JSValue) (k : String) (v : JSValue) (o : Props) :
    p ∈ insertProp k v o ↔ p = (k, v) ∨ p ∈ o := by
  induction o with
  | nil => simp [insertProp]
  | cons q t ih =>
    obtain ⟨a, w⟩ := q
    by_cases h : precedes a k = true
    · simp only [insertProp, h, if_true, List.mem_cons, ih]
      tauto
    · simp [insertProp, h]

theorem mem_setProp (p : String × JSValue) (k : String) (v : JSValue) (o : Props)
    (h : p ∈ setProp o k v) : p = (k, v) ∨ p ∈ o := by
  unfold setProp at h
  by_cases hh : has o k = true
  · rw [if_pos hh] at h; exact mem_replace p k v o h
  · rw [if_neg hh] at h; exact (mem_insertProp p k v o).1 h

theorem mem_of_lookup {α : Type} (k : String) (v : α) (l : List (String × α))
    (h : lookup k l = some v) : (k, v) ∈ l := by
  induction l with
  | nil => simp at h
  | cons q t ih =>
    obtain ⟨a, w⟩ := q
    by_cases hak : a = k
    · simp [lookup_cons, hak] at h
      simp [hak, h]
    · simp [lookup_cons, hak] at h
      exact List.mem_cons_of_mem _ (ih h)

theorem wfProps_setProp (k : String) (v : JSValue) (o : Props)
    (hv : v.wf = true) (ho : wfProps o = true) : wfProps (setProp o k v) = true := by
  rw [wfProps_eq_all, List.all_eq_true] at *
  intro p hp
  rcases mem_setProp p k v o hp with rfl | hp
  · exact hv
  · exact ho p hp

theorem nullFreeProps_setProp (k : String) (v : JSValue) (o : Props)
    (hv : v.nullFree = true) (ho : nullFreeProps o = true) :
    nullFreeProps (setProp o k v) = true := by
  rw [nullFreeProps_eq_all, List.all_eq_true] at *
  intro p hp
  rcases mem_setProp p k v o hp with rfl | hp
  · exact hv
  · exact ho p hp

theorem wfRecord_setProp (k : String) (v : JSValue) (o : Props)
    (hv : v.wf = true) (ho : wfRecord o = true) : wfRecord (setProp o k v) = true := by
  simp only [wfRecord, Bool.and_eq_true] at *
  exact ⟨keysOK_setProp k v o ho.1, wfProps_setProp k v o hv ho.2⟩

theorem wf_of_lookup (k : String) (v : JSValue) (o : Props) (ho : wfProps o = true)
    (h : lookup k o = some v) : v.wf = true := by
  rw [wfProps_eq_all, List.all_eq_true] at ho
  exact ho _ (mem_of_lookup k v o h)

theorem nullFree_of_lookup (k : String) (v : JSValue) (o : Props)
    (ho : nullFreeProps o = true) (h : lookup k o = some v) : v.nullFree = true := by
  rw [nullFreeProps_eq_all, List.all_eq_true] at ho
  exact ho _ (mem_of_lookup k v o h)

mutual
/-- On a well-formed value without `null`, `deepCopy` returns a structurally equal value. -/
theorem deepCopy_eq_self : ∀ v : JSValue, v.wf = true → v.nullFree = true →
    deepCopy v = .ok v
  | .undefined, _, _ => rfl
  | .null, _, h => by simp [JSValue.nullFree] at h
  | .bool _, _, _ => rfl
  | .num _, _, _ => rfl
  | .str _, _, _ => rfl
  | .arr xs, hw, hn => by
    simp only [JSValue.wf, JSValue.nullFree] at hw hn
    simp [deepCopy, deepCopyMap_eq_self xs hw hn]
  | .obj ps, hw, hn => by
    simp only [JSValue.wf, JSValue.nullFree, Bool.and_eq_true] at hw hn
    simp [deepCopy, deepCopyReduce_eq_append ps [] (by simpa using hw.1) hw.2 hn]
theorem deepCopyMap_eq_self : ∀ xs : List JSValue, wfList xs = true →
    nullFreeList xs = true → deepCopyMap xs = .ok xs
  | [], _, _ => rfl
  | x :: xs, hw, hn => by
    simp only [wfList, nullFreeList, Bool.and_eq_true] at hw hn
    simp [deepCopyMap, deepCopy_eq_self x hw.1 hn.1, deepCopyMap_eq_self xs hw.2 hn.2]
theorem deepCopyReduce_eq_append : ∀ (ps acc : Props),
    keysOK ((acc ++ ps).map Prod.fst) = true → wfProps ps = true →
    nullFreeProps ps = true → deepCopyReduce ps acc = .ok (acc ++ ps)
  | [], acc, _, _, _ => by simp [deepCopyReduce]
  | (k, v) :: rest, acc, hk, hw, hn => by
    simp only [wfProps, nullFreeProps, Bool.and_eq_true] at hw hn
    have hk2 : keysOK (((acc ++ [(k, v)]) ++ rest).map Prod.fst) = true := by
      simpa using hk
    have hk3 : keysOK ((acc ++ [(k, v)]).map Prod.fst) = true := by
      rw [List.map_append] at hk2
      exact keysOK_append_left _ _ hk2
    simp only [deepCopyReduce, deepCopy_eq_self v hw.1 hn.1, setProp_eq_append k v acc hk3]
    rw [deepCopyReduce_eq_append rest (acc ++ [(k, v)]) hk2 hw.2 hn.2]
    simp
end

mutual
/-- Whatever `deepCopy` returns is well formed and holds no `null`. -/
theorem deepCopy_wf : ∀ (v w : JSValue), deepCopy v = .ok w →
    w.wf = true ∧ w.nullFree = true
  | .undefined, w, h => by simp [deepCopy] at h; subst h; exact ⟨rfl, rfl⟩
  | .null, w, h => by simp [deepCopy] at h
  | .bool _, w, h => by simp [deepCopy] at h; subst h; exact ⟨rfl, rfl⟩
  | .num _, w, h => by simp [deepCopy] at h; subst h; exact ⟨rfl, rfl⟩
  | .str _, w, h => by simp [deepCopy] at h; subst h; exact ⟨rfl, rfl⟩
  | .arr xs, w, h => by
    simp only [deepCopy] at h
    cases hh : deepCopyMap xs with
    | error e => simp [hh] at h
    | ok ys =>
      simp [hh] at h; subst h
      simpa [JSValue.wf, JSValue.nullFree] using deepCopyMap_wf xs ys hh
  | .obj ps, w, h => by
    simp only [deepCopy] at h
    cases hh : deepCopyReduce ps [] with
    | error e => simp [hh] at h
    | ok qs =>
      simp [hh] at h; subst h
      have := deepCopyReduce_wf ps [] qs hh rfl rfl rfl
      simpa [JSValue.wf, JSValue.nullFree, and_assoc] using this
theorem deepCopyMap_wf : ∀ (xs ys : List JSValue), deepCopyMap xs = .ok ys →
    wfList ys = true ∧ nullFreeList ys = true
  | [], ys, h => by simp [deepCopyMap] at h; subst h; exact ⟨rfl, rfl⟩
  | x :: xs, ys, h => by
    simp only [deepCopyMap] at h
    cases h1 : deepCopy x with
    | error e => simp [h1] at h
    | ok y =>
      cases h2 : deepCopyMap xs with
      | error e => simp [h1, h2] at h
      | ok zs =>
        simp [h1, h2] at h; subst h
        have a := deepCopy_wf x y h1
        have b := deepCopyMap_wf xs zs h2
        simp [wfList, nullFreeList, a, b]
theorem deepCopyReduce_wf : ∀ (ps acc qs : Props), deepCopyReduce ps acc = .ok qs →
    keysOK (acc.map Prod.fst) = true → wfProps acc = true → nullFreeProps acc = true →
    keysOK (qs.map Prod.fst) = true ∧ wfProps qs = true ∧ nullFreeProps qs = true
  | [], acc, qs, h, hk, hw, hn => by
    simp [deepCopyReduce] at h; subst h; exact ⟨hk, hw, hn⟩
  | (k, v) :: rest, acc, qs, h, hk, hw, hn => by
    simp only [deepCopyReduce] at h
    cases h1 : deepCopy v with
    | error e => simp [h1] at h
    | ok w =>
      simp only [h1] at h
      have a := deepCopy_wf v w h1
      exact deepCopyReduce_wf rest (setProp acc k w) qs h (keysOK_setProp k w acc hk)
        (wfProps_setProp k w acc a.1 hw) (nullFreeProps_setProp k w acc a.2 hn)
end

theorem deepCopyObj_eq_self (r : Props) (hw : wfRecord r = true)
    (hn : nullFreeProps r = true) : deepCopyObj r = .ok r := by
  simp only [wfRecord, Bool.and_eq_true] at hw
  simpa using deepCopyReduce_eq_append r [] (by simpa using hw.1) hw.2 hn

theorem deepCopyObj_wf (r c : Props) (h : deepCopyObj r = .ok c) :
    wfRecord c = true ∧ nullFreeProps c = true := by
  have := deepCopyReduce_wf r [] c h rfl rfl rfl
  simp [wfRecord, this]

end DeepCopy

/-! ## `get` -/

section Get

mutual
theorem deepCopy_error : ∀ (v : JSValue) (e : JSError), deepCopy v = .error e →
    e.isNotFound = false
  | .undefined, e, h => by simp [deepCopy] at h
  | .null, e, h => by simp [deepCopy] at h; subst h; rfl
  | .bool _, e, h => by simp [deepCopy] at h
  | .num _, e, h => by simp [deepCopy] at h
  | .str _, e, h => by simp [deepCopy] at h
  | .arr xs, e, h => by
    simp only [deepCopy] at h
    cases hh : deepCopyMap xs with
    | error e2 => simp [hh] at h; subst h; exact deepCopyMap_error xs e2 hh
    | ok ys => simp [hh] at h
  | .obj ps, e, h => by
    simp only [deepCopy] at h
    cases hh : deepCopyReduce ps [] with
    | error e2 => simp [hh] at h; subst h; exact deepCopyReduce_error ps [] e2 hh
    | ok ys => simp [hh] at h
theorem deepCopyMap_error : ∀ (xs : List JSValue) (e : JSError),
    deepCopyMap xs = .error e → e.isNotFound = false
  | [], e, h => by simp [deepCopyMap] at h
  | x :: xs, e, h => by
    simp only [deepCopyMap] at h
    cases h1 : deepCopy x with
    | error e1 => simp [h1] at h; subst h; exact deepCopy_error x e1 h1
    | ok y =>
      cases h2 : deepCopyMap xs with
      | error e2 => simp [h1, h2] at h; subst h; exact deepCopyMap_error xs e2 h2
      | ok zs => simp [h1, h2] at h
theorem deepCopyReduce_error : ∀ (ps acc : Props) (e : JSError),
    deepCopyReduce ps acc = .error e → e.isNotFound = false
  | [], acc, e, h => by simp [deepCopyReduce] at h
  | (k, v) :: rest, acc, e, h => by
    simp only [deepCopyReduce] at h
    cases h1 : deepCopy v with
    | error e1 => simp [h1] at h; subst h; exact deepCopy_error v e1 h1
    | ok w =>
      simp only [h1] at h
      exact deepCopyReduce_error rest (setProp acc k w) e h
end

theorem falsy_some (s : String) : falsy (some s) = decide (s = "") := rfl

theorem getEntries_error (t : Collection) (e : JSError) (h : getEntries t = .error e) :
    e.isNotFound = false := by
  induction t with
  | nil => simp [getEntries] at h
  | cons p rest ih =>
    obtain ⟨k, v⟩ := p
    simp only [getEntries] at h
    cases h1 : deepCopyObj v with
    | error e1 => simp [h1] at h; subst h; exact deepCopyReduce_error v [] e1 h1
    | ok c =>
      cases h2 : getEntries rest with
      | error e2 => simp [h1, h2] at h; subst h; exact ih h2
      | ok cs => simp [h1, h2] at h

theorem getEntries_eq_map (t : Collection) (hw : wfCollection t = true)
    (hn : nullFreeCollection t = true) :
    getEntries t = .ok (t.map (fun e => JSValue.obj (setProp e.2 "_id" (.str e.1)))) := by
  induction t with
  | nil => rfl
  | cons p rest ih =>
    obtain ⟨k, v⟩ := p
    simp only [wfCollection, nullFreeCollection, List.all_cons, Bool.and_eq_true] at hw hn
    have h1 := deepCopyObj_eq_self v hw.1 hn.1
    have h2 := ih hw.2 hn.2
    simp [getEntries, h1, h2]

/-- When `get` by id fails with the "does not exist" error. -/
theorem get_notFound_iff (cs : Collections) (c id : String) (hc : c ≠ "") (hid : id ≠ "") :
    failsNotFound (get cs (some c) (some id)) = true ↔
      (lookup c cs = none ∨ ∃ t, lookup c cs = some t ∧ lookup id t = none) := by
  have hc2 : falsy (some c) = false := by simp [falsy_some, hc]
  have hid2 : falsy (some id) = false := by simp [falsy_some, hid]
  simp only [get, hc2, hid2, Bool.false_eq_true, if_false, Option.getD_some]
  cases h1 : lookup c cs with
  | none => simp [failsNotFound, JSError.isNotFound]
  | some t =>
    cases h2 : lookup id t with
    | none => simp [h2, failsNotFound, JSError.isNotFound]
    | some r =>
      cases h3 : deepCopyObj r with
      | error e => simp [h2, h3, failsNotFound, deepCopyReduce_error r [] e h3]
      | ok c2 => simp [h2, h3, failsNotFound]

/-- What `get` by id returns for a stored record that holds no `null`. -/
theorem get_of_stored (cs : Collections) (c id : String) (hc : c ≠ "") (hid : id ≠ "")
    (t : Collection) (r : Props) (h1 : lookup c cs = some t) (h2 : lookup id t = some r)
    (hw : wfRecord r = true) (hn : nullFreeProps r = true) :
    get cs (some c) (some id) = .ok (.obj (setProp r "_id" (.str id))) := by
  have hc2 : falsy (some c) = false := by simp [falsy_some, hc]
  have hid2 : falsy (some id) = false := by simp [falsy_some, hid]
  simp [get, hc2, hid2, h1, h2, deepCopyObj_eq_self r hw hn]

end Get

/-- Claim C1, as stated, fails: `get('', 'a')` does not throw although no collection is
named `''` (it returns the list of collection names), and `get` on a stored record that
holds `null` throws a `TypeError` instead of returning a copy. -/
theorem get_by_id_counterexample :
    (lookup "" ([("recipes", [])] : Collections) = none ∧
      get [("recipes", [])] (some "") (some "a") = .ok (.arr [.str "recipes"])) ∧
    (lookup "a" (records [("recipes", [("a", [("note", .null)])])] "recipes")
        = some [("note", .null)] ∧
      get [("recipes", [("a", [("note", .null)])])] (some "recipes") (some "a")
        = .error (.typeError "Cannot convert undefined or null to object")) := by
  decide

/-- Claim C1, amended: for a non-empty collection name and a non-empty id, `get` fails
with the "does not exist" error exactly when the collection is absent or the id is not
one of its keys; and when the stored record holds no `null`, `get` returns the stored
record with `_id` set to the requested id, whatever `_id` the stored record holds. -/
theorem get_by_id (cs : Collections) (c id : String) (hc : c ≠ "") (hid : id ≠ "") :
    (failsNotFound (get cs (some c) (some id)) = true ↔
        (lookup c cs = none ∨ ∃ t, lookup c cs = some t ∧ lookup id t = none)) ∧
    (∀ t r, lookup c cs = some t → lookup id t = some r →
        wfRecord r = true → nullFreeProps r = true →
        get cs (some c) (some id) = .ok (.obj (setProp r "_id" (.str id))) ∧
        getProp (setProp r "_id" (.str id)) "_id" = .str id ∧
        ∀ k, k ≠ "_id" → lookup k (setProp r "_id" (.str id)) = lookup k r) :=
  ⟨get_notFound_iff cs c id hc hid, fun t r h1 h2 hw hn =>
    ⟨get_of_stored cs c id hc hid t r h1 h2 hw hn, by simp [getProp_setProp],
      fun k hk => by simp [lookup_setProp, hk]⟩⟩

/-- Witness for `get_by_id`: an existing record that already holds an `_id` of its own. -/
theorem get_by_id_witness :
    get [("recipes", [("a", [("_id", .str "zz"), ("x", .num 1)])])] (some "recipes") (some "a")
      = .ok (.obj [("_id", .str "a"), ("x", .num 1)]) :=
  ((get_by_id [("recipes", [("a", [("_id", .str "zz"), ("x", .num 1)])])] "recipes" "a"
    (by decide) (by decide)).2 [("a", [("_id", .str "zz"), ("x", .num 1)])]
      [("_id", .str "zz"), ("x", .num 1)] (by decide) (by decide) (by decide) (by decide)).1

/-- Claim C2, as stated, fails: `get('')` does not throw although no collection is named
`''` (it returns the list of collection names), and `get` on a collection one of whose
records holds `null` throws a `TypeError` instead of returning the records. -/
theorem get_all_counterexample :
    (lookup "" ([("recipes", [])] : Collections) = none ∧
      get [("recipes", [])] (some "") none = .ok (.arr [.str "recipes"])) ∧
    (lookup "recipes" ([("recipes", [("a", [("note", .null)])])] : Collections)
        = some [("a", [("note", .null)])] ∧
      get [("recipes", [("a", [("note", .null)])])] (some "recipes") none
        = .error (.typeError "Cannot convert undefined or null to object")) := by
  decide

/-- Claim C2, amended: for a non-empty collection name, `get(collection)` fails with the
"does not exist" error exactly when the collection is absent; when it is present and no
stored record holds `null`, `get` returns one record per stored key, in insertion order,
each with `_id` equal to its key.  An existing empty collection yields the empty list,
also after its only record was deleted. -/
theorem get_all (cs : Collections) (c : String) (hc : c ≠ "") :
    (failsNotFound (get cs (some c) none) = true ↔ lookup c cs = none) ∧
    (∀ t, lookup c cs = some t → wfCollection t = true → nullFreeCollection t = true →
        get cs (some c) none
            = .ok (.arr (t.map (fun e => JSValue.obj (setProp e.2 "_id" (.str e.1))))) ∧
        ∀ e ∈ t, getProp (setProp e.2 "_id" (.str e.1)) "_id" = .str e.1) ∧
    (lookup c cs = some [] → get cs (some c) none = .ok (.arr [])) ∧
    (∀ id r now, lookup c cs = some [(id, r)] →
        get (del cs c id now).1 (some c) none = .ok (.arr [])) := by
  have hc2 : falsy (some c) = false := by simp [falsy_some, hc]
  refine ⟨?_, ?_, ?_, ?_⟩
  · simp only [get, hc2, Bool.false_eq_true, if_false, Option.getD_some]
    cases h1 : lookup c cs with
    | none => simp [failsNotFound, JSError.isNotFound]
    | some t =>
      cases h3 : getEntries t with
      | error e => simp [falsy, h3, failsNotFound, getEntries_error t e h3]
      | ok c2 => simp [falsy, h3, failsNotFound]
  · intro t h1 hw hn
    refine ⟨?_, ?_⟩
    · simp [get, hc, h1, falsy, getEntries_eq_map t hw hn]
    · intro e _
      simp [getProp_setProp]
  · intro h1
    simp [get, hc, h1, falsy, getEntries]
  · intro id r now h1
    have h2 : lookup c (del cs c id now).1 = some [] := by
      simp [del, h1, lookup_cons, lookup_mapSet, mapDelete]
    simp [get, hc, h2, falsy, getEntries]

/-- Witness for `get_all`: a collection of two records, listed in insertion order. -/
theorem get_all_witness :
    get [("recipes", [("b", [("x", .num 1)]), ("a", [("x", .num 2)])])] (some "recipes") none
      = .ok (.arr [.obj [("x", .num 1), ("_id", .str "b")],
          .obj [("x", .num 2), ("_id", .str "a")]]) :=
  ((get_all [("recipes", [("b", [("x", .num 1)]), ("a", [("x", .num 2)])])] "recipes"
    (by decide)).2.1 [("b", [("x", .num 1)]), ("a", [("x", .num 2)])]
      (by decide) (by decide) (by decide)).1

/-! ## `add` -/

section Add

theorem freshId_fresh (t : Collection) (uuids : List String) (id : String)
    (rest : List String) (h : freshId t uuids = some (id, rest)) : has t id = false := by
  induction uuids with
  | nil => simp [freshId] at h
  | cons u us ih =>
    by_cases hu : has t u = true
    · simp only [freshId, hu, if_true] at h
      exact ih h
    · simp only [freshId, hu, Bool.false_eq_true, if_false, Option.some.injEq,
        Prod.mk.injEq] at h
      rw [← h.1]
      simpa using hu

theorem freshId_of_mem (t : Collection) (uuids : List String)
    (h : ∃ id ∈ uuids, has t id = false) : ∃ id rest, freshId t uuids = some (id, rest) := by
  induction uuids with
  | nil => simp at h
  | cons u us ih =>
    by_cases hu : has t u = true
    · obtain ⟨id, hid, hf⟩ := h
      have hne : id ≠ u := by
        intro e; rw [e, hu] at hf; cases hf
      have hmem : id ∈ us := by
        rcases List.mem_cons.1 hid with h1 | h1
        · exact absurd h1 hne
        · exact h1
      simpa [freshId, hu] using ih ⟨id, hmem, hf⟩
    · exact ⟨u, us, by simp [freshId, hu]⟩

theorem records_mapSet (cs : Collections) (c : String) (t : Collection) :
    records (mapSet cs c t) c = t := by
  simp [records, lookup_mapSet]

theorem lookup_mapSet_of_ne (cs : Collections) (c d : String) (t : Collection)
    (h : d ≠ c) : lookup d (mapSet cs c t) = lookup d cs := by
  simp [lookup_mapSet, h]

/-- What a call of `add` that returns has done: it took the first generated id that is
not a key of the collection and appended one record under it. -/
theorem add_ok (cs : Collections) (c : String) (data : Props) (now : Int)
    (uuids : List String) (o : Outcome) (r : JSValue)
    (h : add cs c data now uuids = some o) (hr : o.result = .ok r) :
    ∃ id rec, freshId (records cs c) uuids = some (id, o.uuids) ∧
      returnedId r = .str id ∧
      records o.collections c = records cs c ++ [(id, rec)] := by
  unfold add at h
  cases h1 : assignClean [("_ownerId", getProp data "_ownerId")] data with
  | error e =>
    simp only [h1, Option.some.injEq] at h
    subst h
    simp at hr
  | ok record =>
    simp only [h1] at h
    have hrec : (lookup c cs).getD [] = records cs c := rfl
    rw [hrec] at h
    cases h2 : freshId (records cs c) uuids with
    | none => simp [h2] at h
    | some pr =>
      obtain ⟨id, rest⟩ := pr
      simp only [h2] at h
      have hfresh := freshId_fresh _ _ _ _ h2
      cases h3 : deepCopyObj (setProp record "_createdOn" (.num now)) with
      | error e =>
        simp only [h3, Option.some.injEq] at h
        subst h
        simp at hr
      | ok c2 =>
        simp only [h3, Option.some.injEq] at h
        subst h
        simp only [Except.ok.injEq] at hr
        subst hr
        refine ⟨id, setProp record "_createdOn" (.num now), rfl, ?_, ?_⟩
        · simp [returnedId, getProp_setProp]
        · simp only [records_mapSet]
          simp [mapSet, hfresh]

theorem addAll_ids (calls : List (Props × Int)) :
    ∀ (cs : Collections) (c : String) (uuids : List String) (cs2 : Collections)
      (uuids2 : List String) (rets : List JSValue),
      addAll cs c calls uuids = some (cs2, uuids2, rets) →
      ∃ ids : List String, rets.map returnedId = ids.map JSValue.str ∧ ids.Nodup ∧
        (∀ id ∈ ids, has (records cs c) id = false) ∧
        (records cs2 c).map Prod.fst = (records cs c).map Prod.fst ++ ids ∧
        ids.length = calls.length := by
  induction calls with
  | nil =>
    intro cs c uuids cs2 uuids2 rets h
    simp only [addAll, Option.some.injEq, Prod.mk.injEq] at h
    obtain ⟨h1, _, h3⟩ := h
    subst h1 h3
    exact ⟨[], by simp⟩
  | cons call rest ih =>
    intro cs c uuids cs2 uuids2 rets h
    obtain ⟨data, now⟩ := call
    simp only [addAll] at h
    cases h1 : add cs c data now uuids with
    | none => simp [h1] at h
    | some o =>
      obtain ⟨cs1, uuids1, res⟩ := o
      cases res with
      | error e => simp [h1] at h
      | ok r =>
        simp only [h1] at h
        cases h2 : addAll cs1 c rest uuids1 with
        | none => simp [h2] at h
        | some tr =>
          obtain ⟨cs3, uuids3, rs⟩ := tr
          simp only [h2, Option.some.injEq, Prod.mk.injEq] at h
          obtain ⟨e1, _, e3⟩ := h
          subst e1 e3
          obtain ⟨id, rec, _, hid, hrecs⟩ := add_ok cs c data now uuids _ r h1 rfl
          simp only at hrecs
          have hfresh : has (records cs c) id = false := by
            have := add_ok cs c data now uuids _ r h1 rfl
            obtain ⟨id2, rec2, hf, hid2, _⟩ := this
            have e : id2 = id := by
              rw [hid] at hid2
              exact (JSValue.str.inj hid2).symm
            subst e
            exact freshId_fresh _ _ _ _ hf
          obtain ⟨ids, hmap, hnd, hfr, hkeys, hlen⟩ := ih cs1 c uuids1 cs3 uuids3 rs h2
          have hhas1 : ∀ j, has (records cs1 c) j = (has (records cs c) j || decide (j = id)) := by
            intro j
            rw [hrecs]
            by_cases hj : j = id
            · subst hj
              cases hl : lookup j (records cs c) <;> simp [has, lookup_append, lookup_cons, hl]
            · have hj2 : ¬ id = j := fun e => hj e.symm
              simp only [has, lookup_append, lookup_cons, hj2, if_false, lookup_nil, hj,
                decide_False, Bool.or_false]
              cases lookup j (records cs c) <;> simp
          refine ⟨id :: ids, ?_, ?_, ?_, ?_, ?_⟩
          · simp [hid, hmap]
          · refine List.nodup_cons.2 ⟨?_, hnd⟩
            intro hmem
            have := hfr id hmem
            rw [hhas1] at this
            simp at this
          · intro j hj
            rcases List.mem_cons.1 hj with rfl | hj
            · exact hfresh
            · have := hfr j hj
              rw [hhas1] at this
              simp only [Bool.or_eq_false_iff] at this
              exact this.1
          · rw [hkeys, hrecs]
            simp
          · simp [hlen]

end Add

/-- Claim C3: for every store, every collection and every sequence of `add` calls into it
that all return, whatever values the id generator produces, the returned `_id` values are
strings that are pairwise distinct and different from every id present before, and the
collection has gained exactly one record per call. -/
theorem add_ids_unique (cs : Collections) (c : String) (calls : List (Props × Int))
    (uuids : List String) (cs2 : Collections) (uuids2 : List String) (rets : List JSValue)
    (h : addAll cs c calls uuids = some (cs2, uuids2, rets)) :
    (rets.map returnedId).Nodup ∧
    (∀ r ∈ rets, ∃ id, returnedId r = .str id ∧ has (records cs c) id = false) ∧
    rets.length = calls.length ∧
    (records cs2 c).length = (records cs c).length + calls.length := by
  obtain ⟨ids, hmap, hnd, hfr, hkeys, hlen⟩ := addAll_ids calls cs c uuids cs2 uuids2 rets h
  refine ⟨?_, ?_, ?_, ?_⟩
  · rw [hmap]
    exact hnd.map (fun a b e => JSValue.str.inj e)
  · intro r hr
    have hm : returnedId r ∈ rets.map returnedId := List.mem_map_of_mem _ hr
    rw [hmap] at hm
    obtain ⟨id, hid, e⟩ := List.mem_map.1 hm
    exact ⟨id, e.symm, hfr id hid⟩
  · have := congrArg List.length hmap
    simpa [hlen] using this
  · have := congrArg List.length hkeys
    simpa [hlen] using this

/-- Witness for `add_ids_unique`: two calls while the generator first repeats an id that
is taken. -/
theorem add_ids_unique_witness :
    ([JSValue.obj [("_ownerId", .undefined), ("x", .num 1), ("_createdOn", .num 5),
          ("_id", .str "u2")],
        JSValue.obj [("_ownerId", .undefined), ("x", .num 2), ("_createdOn", .num 6),
          ("_id", .str "u3")]].map returnedId).Nodup ∧
    (records [("recipes", [("u1", [("x", .num 0)]), ("u2", [("_ownerId", .undefined),
        ("x", .num 1), ("_createdOn", .num 5)]), ("u3", [("_ownerId", .undefined),
        ("x", .num 2), ("_createdOn", .num 6)])])] "recipes").length
      = (records [("recipes", [("u1", [("x", .num 0)])])] "recipes").length + 2 :=
  have h := add_ids_unique [("recipes", [("u1", [("x", .num 0)])])] "recipes"
    [([("x", .num 1)], 5), ([("x", .num 2)], 6)] ["u1", "u2", "u1", "u2", "u3"]
    [("recipes", [("u1", [("x", .num 0)]), ("u2", [("_ownerId", .undefined),
        ("x", .num 1), ("_createdOn", .num 5)]), ("u3", [("_ownerId", .undefined),
        ("x", .num 2), ("_createdOn", .num 6)])])] []
    [JSValue.obj [("_ownerId", .undefined), ("x", .num 1), ("_createdOn", .num 5),
          ("_id", .str "u2")],
        JSValue.obj [("_ownerId", .undefined), ("x", .num 2), ("_createdOn", .num 6),
          ("_id", .str "u3")]] rfl
  ⟨h.1, h.2.2.2⟩

/-! ## `assignClean` and `assignSystemProps` -/

section Assign

theorem keysOK_nodup (l : List String) (h : keysOK l = true) : l.Nodup := by
  induction l with
  | nil => exact List.nodup_nil
  | cons a t ih =>
    rw [keysOK_cons] at h
    exact List.nodup_cons.2 ⟨fun hm => (h.1 a hm).2 rfl, ih h.2⟩

theorem keysOK_filter (p : String → Bool) (l : List String) (h : keysOK l = true) :
    keysOK (l.filter p) = true := by
  induction l with
  | nil => rfl
  | cons a t ih =>
    rw [keysOK_cons] at h
    by_cases hp : p a = true
    · rw [List.filter_cons_of_pos hp, keysOK_cons]
      exact ⟨fun b hb => h.1 b (List.mem_of_mem_filter hb), ih h.2⟩
    · rw [List.filter_cons_of_neg hp]
      exact ih h.2

theorem cleanFields_cons_of_system (a : String) (v : JSValue) (t : Props)
    (h : systemProps.contains a = true) : cleanFields ((a, v) :: t) = cleanFields t := by
  have hm : a ∈ systemProps := by simpa using h
  simp [cleanFields, List.filter_cons, hm]

theorem cleanFields_cons_of_not (a : String) (v : JSValue) (t : Props)
    (h : systemProps.contains a = false) :
    cleanFields ((a, v) :: t) = (a, v) :: cleanFields t := by
  have hm : a ∉ systemProps := by simpa using h
  simp [cleanFields, List.filter_cons, hm]

theorem map_fst_cleanFields (entry : Props) :
    (cleanFields entry).map Prod.fst
      = (entry.map Prod.fst).filter (fun k => systemProps.contains k == false) := by
  induction entry with
  | nil => rfl
  | cons p t ih =>
    obtain ⟨a, v⟩ := p
    cases h : systemProps.contains a
    · have hm : a ∉ systemProps := by simpa using h
      rw [cleanFields_cons_of_not a v t h]
      simp [List.filter_cons, hm, ih]
    · have hm : a ∈ systemProps := by simpa using h
      rw [cleanFields_cons_of_system a v t h]
      simp [List.filter_cons, hm, ih]

theorem lookup_cleanFields (k : String) (entry : Props) :
    lookup k (cleanFields entry) = if systemProps.contains k then none else lookup k entry := by
  induction entry with
  | nil => simp [cleanFields]
  | cons p t ih =>
    obtain ⟨a, v⟩ := p
    cases h : systemProps.contains a
    · rw [cleanFields_cons_of_not a v t h, lookup_cons, lookup_cons, ih]
      by_cases hak : a = k
      · subst hak; rw [h]; simp
      · simp [hak]
    · rw [cleanFields_cons_of_system a v t h, ih, lookup_cons]
      by_cases hak : a = k
      · subst hak; rw [h]; simp
      · simp [hak]

theorem wfProps_cleanFields (entry : Props) (h : wfProps entry = true) :
    wfProps (cleanFields entry) = true := by
  rw [wfProps_eq_all, List.all_eq_true] at *
  exact fun p hp => h p (List.mem_of_mem_filter hp)

theorem nullFreeProps_cleanFields (entry : Props) (h : nullFreeProps entry = true) :
    nullFreeProps (cleanFields entry) = true := by
  rw [nullFreeProps_eq_all, List.all_eq_true] at *
  exact fun p hp => h p (List.mem_of_mem_filter hp)

/-- On a payload whose copied fields are well formed and hold no `null`, `assignClean`
is the plain assignment of those fields. -/
theorem assignClean_eq (entry : Props) : ∀ target : Props,
    wfProps (cleanFields entry) = true → nullFreeProps (cleanFields entry) = true →
    assignClean target entry = .ok (assignAll target (cleanFields entry)) := by
  induction entry with
  | nil => intro target _ _; rfl
  | cons p t ih =>
    intro target hw hn
    obtain ⟨a, v⟩ := p
    cases h : systemProps.contains a
    · rw [cleanFields_cons_of_not a v t h] at hw hn ⊢
      simp only [wfProps, nullFreeProps, Bool.and_eq_true] at hw hn
      simp only [assignClean, h, beq_self_eq_true, if_true, deepCopy_eq_self v hw.1 hn.1]
      rw [ih _ hw.2 hn.2]
      rfl
    · rw [cleanFields_cons_of_system a v t h] at hw hn ⊢
      simp only [assignClean, h]
      exact ih _ hw hn

/-- Whatever `assignClean` returns is as well formed and as free of `null` as its target. -/
theorem assignClean_wf (entry : Props) : ∀ target r : Props,
    assignClean target entry = .ok r → wfRecord target = true →
    wfRecord r = true ∧ (nullFreeProps target = true → nullFreeProps r = true) := by
  induction entry with
  | nil =>
    intro target r h hw
    simp only [assignClean, Except.ok.injEq] at h
    subst h
    exact ⟨hw, fun hn => hn⟩
  | cons p t ih =>
    intro target r h hw
    obtain ⟨a, v⟩ := p
    by_cases hs : (systemProps.contains a == false) = true
    · simp only [assignClean, hs, if_true] at h
      cases h1 : deepCopy v with
      | error e => simp [h1] at h
      | ok w =>
        simp only [h1] at h
        have hv := deepCopy_wf v w h1
        have := ih _ r h (wfRecord_setProp a w target hv.1 hw)
        exact ⟨this.1, fun hn => this.2 (nullFreeProps_setProp a w target hv.2 hn)⟩
    · simp only [assignClean, hs, if_false] at h
      exact ih target r h hw

theorem assignClean_error (entry : Props) : ∀ (target : Props) (e : JSError),
    assignClean target entry = .error e → e.isNotFound = false := by
  induction entry with
  | nil => intro target e h; simp [assignClean] at h
  | cons p t ih =>
    intro target e h
    obtain ⟨a, v⟩ := p
    by_cases hs : (systemProps.contains a == false) = true
    · simp only [assignClean, hs, if_true] at h
      cases h1 : deepCopy v with
      | error e1 => simp [h1] at h; subst h; exact deepCopy_error v e1 h1
      | ok w => simp only [h1] at h; exact ih _ e h
    · simp only [assignClean, hs, if_false] at h
      exact ih target e h

theorem lookup_assignAll (k : String) (ps : Props) : ∀ target : Props,
    (ps.map Prod.fst).Nodup →
    lookup k (assignAll target ps) = (lookup k ps).orElse (fun _ => lookup k target) := by
  induction ps with
  | nil => intro target _; simp [assignAll]
  | cons p t ih =>
    intro target hnd
    obtain ⟨a, v⟩ := p
    simp only [List.map_cons, List.nodup_cons] at hnd
    have e : assignAll target ((a, v) :: t) = assignAll (setProp target a v) t := rfl
    rw [e, ih _ hnd.2, lookup_setProp, lookup_cons]
    by_cases hak : a = k
    · subst hak
      have : lookup a t = none := by
        rw [← has_eq_false_iff]
        cases hh : has t a
        · rfl
        · exact absurd ((has_iff_mem_keys t a).1 hh) hnd.1
      simp [this]
    · have hka : ¬ k = a := fun e => hak e.symm
      simp [hak, hka]

theorem wfRecord_assignAll (ps : Props) : ∀ target : Props,
    wfRecord target = true → wfProps ps = true → wfRecord (assignAll target ps) = true := by
  induction ps with
  | nil => intro target h _; exact h
  | cons p t ih =>
    intro target h hw
    obtain ⟨a, v⟩ := p
    simp only [wfProps, Bool.and_eq_true] at hw
    exact ih _ (wfRecord_setProp a v target hw.1 h) hw.2

theorem nullFreeProps_assignAll (ps : Props) : ∀ target : Props,
    nullFreeProps target = true → nullFreeProps ps = true →
    nullFreeProps (assignAll target ps) = true := by
  induction ps with
  | nil => intro target h _; exact h
  | cons p t ih =>
    intro target h hw
    obtain ⟨a, v⟩ := p
    simp only [nullFreeProps, Bool.and_eq_true] at hw
    exact ih _ (nullFreeProps_setProp a v target hw.1 h) hw.2

theorem wf_getProp (o : Props) (k : String) (h : wfProps o = true) :
    (getProp o k).wf = true := by
  unfold getProp
  cases hl : lookup k o with
  | none => rfl
  | some v => exact wf_of_lookup k v o h hl

theorem nullFree_getProp (o : Props) (k : String) (h : nullFreeProps o = true) :
    (getProp o k).nullFree = true := by
  unfold getProp
  cases hl : lookup k o with
  | none => rfl
  | some v => exact nullFree_of_lookup k v o h hl

end Assign

/-! ## Postconditions of `add` -/

section AddSpec

theorem ne_of_not_system (k j : String) (hk : systemProps.contains k = false)
    (hj : systemProps.contains j = true) : k ≠ j := by
  intro e
  rw [e, hj] at hk
  cases hk

theorem nodup_keys_cleanFields (data : Props) (hw : wfRecord data = true) :
    ((cleanFields data).map Prod.fst).Nodup := by
  simp only [wfRecord, Bool.and_eq_true] at hw
  rw [map_fst_cleanFields]
  exact keysOK_nodup _ (keysOK_filter _ _ hw.1)

theorem wfRecord_addedRecord (data : Props) (now : Int) (hw : wfRecord data = true) :
    wfRecord (addedRecord data now) = true := by
  have hw2 := hw
  simp only [wfRecord, Bool.and_eq_true] at hw2
  refine wfRecord_setProp _ _ _ rfl (wfRecord_assignAll _ _ ?_ (wfProps_cleanFields _ hw2.2))
  simp [wfRecord, keysOK, wfProps, wf_getProp data "_ownerId" hw2.2]

theorem nullFreeProps_addedRecord (data : Props) (now : Int)
    (hn : nullFreeProps data = true) : nullFreeProps (addedRecord data now) = true := by
  refine nullFreeProps_setProp _ _ _ rfl
    (nullFreeProps_assignAll _ _ ?_ (nullFreeProps_cleanFields _ hn))
  simp [nullFreeProps, nullFree_getProp data "_ownerId" hn]

theorem lookup_addedRecord (data : Props) (now : Int) (hw : wfRecord data = true)
    (k : String) :
    lookup k (addedRecord data now) =
      if k = "_createdOn" then some (.num now)
      else if k = "_ownerId" then some (getProp data "_ownerId")
      else if systemProps.contains k then none
      else lookup k data := by
  unfold addedRecord
  rw [lookup_setProp, lookup_assignAll k _ _ (nodup_keys_cleanFields data hw),
    lookup_cleanFields]
  by_cases h1 : k = "_createdOn"
  · simp [h1]
  · by_cases h2 : k = "_ownerId"
    · subst h2
      have hm : "_ownerId" ∈ systemProps := by decide
      simp [hm, lookup_cons]
    · have h3 : ¬ "_ownerId" = k := fun e => h2 e.symm
      simp only [h1, h2, if_false]
      cases hs : systemProps.contains k
      · cases hl : lookup k data <;> simp [lookup_cons, h3]
      · simp [lookup_cons, h3]

/-- Postcondition of `add` on a payload without `null`: the collection exists afterwards
and holds, appended under the fresh id, the record `addedRecord data now`; the other
collections are untouched; the value returned is that record plus `_id`. -/
theorem add_spec (cs : Collections) (c : String) (data : Props) (now : Int)
    (uuids : List String) (id : String) (rest : List String)
    (hw : wfRecord data = true) (hn : nullFreeProps data = true)
    (hf : freshId (records cs c) uuids = some (id, rest)) :
    ∃ cs2, add cs c data now uuids
        = some ⟨cs2, rest, .ok (.obj (setProp (addedRecord data now) "_id" (.str id)))⟩ ∧
      lookup c cs2 = some (records cs c ++ [(id, addedRecord data now)]) ∧
      (∀ d, d ≠ c → lookup d cs2 = lookup d cs) ∧
      (∀ k, systemProps.contains k = false →
        lookup k (addedRecord data now) = lookup k data) ∧
      lookup "_createdOn" (addedRecord data now) = some (.num now) ∧
      lookup "_id" (addedRecord data now) = none ∧
      lookup "_updatedOn" (addedRecord data now) = none := by
  have hw2 := hw
  simp only [wfRecord, Bool.and_eq_true] at hw2
  have h1 := assignClean_eq data [("_ownerId", getProp data "_ownerId")]
    (wfProps_cleanFields _ hw2.2) (nullFreeProps_cleanFields _ hn)
  have h3 := deepCopyObj_eq_self (addedRecord data now) (wfRecord_addedRecord data now hw)
    (nullFreeProps_addedRecord data now hn)
  have hfresh := freshId_fresh _ _ _ _ hf
  have hrec : (lookup c cs).getD [] = records cs c := rfl
  refine ⟨mapSet (if has cs c then cs else mapSet cs c []) c
    (mapSet (records cs c) id (addedRecord data now)), ?_, ?_, ?_, ?_, ?_, ?_, ?_⟩
  · unfold add
    simp only [h1, hrec, hf]
    unfold addedRecord at h3
    simp only [h3]
    rfl
  · rw [lookup_mapSet]
    simp [mapSet, hfresh]
  · intro d hd
    rw [lookup_mapSet_of_ne _ _ _ _ hd]
    by_cases hh : has cs c = true
    · simp [hh]
    · simp [hh, lookup_mapSet_of_ne _ _ _ _ hd]
  · intro k hk
    rw [lookup_addedRecord data now hw]
    have a1 : k ≠ "_createdOn" := ne_of_not_system k _ hk (by decide)
    have a2 : k ≠ "_ownerId" := ne_of_not_system k _ hk (by decide)
    have hm : k ∉ systemProps := by simpa using hk
    simp [a1, a2, hm]
  · rw [lookup_addedRecord data now hw]; simp
  · rw [lookup_addedRecord data now hw, if_neg (by decide), if_neg (by decide),
      if_pos (by decide)]
  · rw [lookup_addedRecord data now hw, if_neg (by decide), if_neg (by decide),
      if_pos (by decide)]

end AddSpec

/-- Claim C4 fails on the code: `add` on a payload one of whose fields is `null` throws a
`TypeError` (raised by `deepCopy`), stores nothing and does not create the collection. -/
theorem add_null_field_throws :
    add [] "recipes" [("title", .str "Soup"), ("note", .null)] 5 ["u1"]
      = some ⟨[], ["u1"], .error (.typeError "Cannot convert undefined or null to object")⟩ := by
  decide

/-! ## `set`, `merge`, `delete` -/

section Writes

theorem assignSystemPropsLoop_wf (entry : Props) (props : List String) :
    ∀ target r : Props, assignSystemPropsLoop entry props target = .ok r →
      wfRecord target = true → nullFreeProps target = true →
      wfRecord r = true ∧ nullFreeProps r = true := by
  induction props with
  | nil =>
    intro target r h hw hn
    simp only [assignSystemPropsLoop, Except.ok.injEq] at h
    subst h
    exact ⟨hw, hn⟩
  | cons p ps ih =>
    intro target r h hw hn
    by_cases hs : has entry "hasOwnProperty" = true
    · simp [assignSystemPropsLoop, hs] at h
    · simp only [assignSystemPropsLoop, hs, Bool.false_eq_true, if_false] at h
      by_cases hh : has entry p = true
      · simp only [hh, if_true] at h
        cases h1 : deepCopy (getProp entry p) with
        | error e => simp [h1] at h
        | ok w =>
          simp only [h1] at h
          have hv := deepCopy_wf _ w h1
          exact ih _ r h (wfRecord_setProp p w target hv.1 hw)
            (nullFreeProps_setProp p w target hv.2 hn)
      · simp only [hh, Bool.false_eq_true, if_false] at h
        exact ih target r h hw hn

theorem assignSystemPropsLoop_error (entry : Props) (props : List String) :
    ∀ (target : Props) (e : JSError), assignSystemPropsLoop entry props target = .error e →
      e.isNotFound = false := by
  induction props with
  | nil => intro target e h; simp [assignSystemPropsLoop] at h
  | cons p ps ih =>
    intro target e h
    by_cases hs : has entry "hasOwnProperty" = true
    · simp only [assignSystemPropsLoop, hs, if_true, Except.error.injEq] at h
      subst h
      rfl
    · simp only [assignSystemPropsLoop, hs, Bool.false_eq_true, if_false] at h
      by_cases hh : has entry p = true
      · simp only [hh, if_true] at h
        cases h1 : deepCopy (getProp entry p) with
        | error e1 => simp [h1] at h; subst h; exact deepCopy_error _ e1 h1
        | ok w => simp only [h1] at h; exact ih _ e h
      · simp only [hh, Bool.false_eq_true, if_false] at h
        exact ih target e h

/-- A stored record with a field named `hasOwnProperty` makes `assignSystemProps`
throw. -/
theorem assignSystemProps_shadowed (target entry : Props)
    (hs : has entry "hasOwnProperty" = true) :
    assignSystemProps target entry
      = .error (.typeError "entry.hasOwnProperty is not a function") := by
  simp [assignSystemProps, systemProps, assignSystemPropsLoop, hs]

theorem getProp_of_lookup (o : Props) (k : String) (v : JSValue) (h : lookup k o = some v) :
    getProp o k = v := by
  simp [getProp, h]

/-- On an existing record that is well formed, holds no `null` and has no field named
`hasOwnProperty`, `assignSystemProps` succeeds and overwrites exactly the listed
properties that the record carries. -/
theorem assignSystemPropsLoop_spec (entry : Props) (hw : wfProps entry = true)
    (hn : nullFreeProps entry = true) (hs : has entry "hasOwnProperty" = false)
    (props : List String) :
    ∀ target : Props, ∃ r, assignSystemPropsLoop entry props target = .ok r ∧
      ∀ k, lookup k r =
        if props.contains k && has entry k then lookup k entry else lookup k target := by
  induction props with
  | nil =>
    intro target
    exact ⟨target, rfl, by simp⟩
  | cons p ps ih =>
    intro target
    by_cases hh : has entry p = true
    · have hc := deepCopy_eq_self (getProp entry p) (wf_getProp entry p hw)
        (nullFree_getProp entry p hn)
      obtain ⟨r, hr, hl⟩ := ih (setProp target p (getProp entry p))
      refine ⟨r, by simp only [assignSystemPropsLoop, hs, Bool.false_eq_true, if_false, hh,
        if_true, hc, hr], ?_⟩
      intro k
      rw [hl, lookup_setProp]
      obtain ⟨v, hv⟩ := (has_eq_true_iff entry p).1 hh
      by_cases hkp : k = p
      · subst hkp
        simp [hh, hv, getProp_of_lookup entry k v hv]
      · have hpk : ¬ p = k := fun e => hkp e.symm
        simp [List.contains_cons, hkp, hpk]
    · obtain ⟨r, hr, hl⟩ := ih target
      refine ⟨r, by simp only [assignSystemPropsLoop, hs, hh, Bool.false_eq_true, if_false,
        hr], ?_⟩
      intro k
      rw [hl]
      by_cases hkp : k = p
      · subst hkp
        have hh2 : has entry k = false := by simpa using hh
        simp [hh2]
      · have hpk : ¬ p = k := fun e => hkp e.symm
        simp [List.contains_cons, hkp, hpk]

/-- Outcome of `set`, `merge` and `delete` when the target is missing. -/
theorem set_collection_absent (cs : Collections) (c id : String) (data : Props) (now : Int)
    (h : lookup c cs = none) :
    set cs c id data now
      = (cs, .error (.referenceError ("Collection does not exist: " ++ c))) := by
  simp [set, h]

theorem set_entry_absent (cs : Collections) (c id : String) (data : Props) (now : Int)
    (t : Collection) (h : lookup c cs = some t) (h2 : lookup id t = none) :
    set cs c id data now = (cs, .error (.referenceError ("Entry does not exist: " ++ id))) := by
  simp [set, h, h2]

theorem set_present (cs : Collections) (c id : String) (data : Props) (now : Int)
    (t : Collection) (existing : Props) (h : lookup c cs = some t)
    (h2 : lookup id t = some existing) :
    (failsNotFound (set cs c id data now).2 = false) ∧
    (fails (set cs c id data now).2 = true → (set cs c id data now).1 = cs) := by
  unfold set
  simp only [h, h2]
  cases h3 : deepCopyObj data with
  | error e => simp [failsNotFound, fails, deepCopyReduce_error data [] e h3]
  | ok copy =>
    have hcw := deepCopyObj_wf data copy h3
    cases h4 : assignSystemProps copy existing with
    | error e =>
      simp [h4, failsNotFound, fails,
        assignSystemPropsLoop_error existing systemProps copy e h4]
    | ok record =>
      have hr := assignSystemPropsLoop_wf existing systemProps copy record h4 hcw.1 hcw.2
      have h5 := deepCopyObj_eq_self (setProp record "_updatedOn" (.num now))
        (wfRecord_setProp _ _ _ rfl hr.1) (nullFreeProps_setProp _ _ _ rfl hr.2)
      simp [h4, h5, failsNotFound, fails]

theorem merge_collection_absent (cs : Collections) (c id : String) (data : Props)
    (now : Int) (h : lookup c cs = none) :
    merge cs c id data now
      = (cs, .error (.referenceError ("Collection does not exist: " ++ c))) := by
  simp [merge, h]

theorem merge_entry_absent (cs : Collections) (c id : String) (data : Props) (now : Int)
    (t : Collection) (h : lookup c cs = some t) (h2 : lookup id t = none) :
    merge cs c id data now
      = (cs, .error (.referenceError ("Entry does not exist: " ++ id))) := by
  simp [merge, h, h2]

theorem merge_present (cs : Collections) (c id : String) (data : Props) (now : Int)
    (t : Collection) (stored : Props) (h : lookup c cs = some t)
    (h2 : lookup id t = some stored) :
    (failsNotFound (merge cs c id data now).2 = false) ∧
    (fails (merge cs c id data now).2 = true → (merge cs c id data now).1 = cs) := by
  unfold merge
  simp only [h, h2]
  cases h3 : deepCopyObj stored with
  | error e => simp [failsNotFound, fails, deepCopyReduce_error stored [] e h3]
  | ok existing =>
    have hcw := deepCopyObj_wf stored existing h3
    cases h4 : assignClean existing data with
    | error e => simp [h4, failsNotFound, fails, assignClean_error data existing e h4]
    | ok record =>
      have hr := assignClean_wf data existing record h4 hcw.1
      have h5 := deepCopyObj_eq_self (setProp record "_updatedOn" (.num now))
        (wfRecord_setProp _ _ _ rfl hr.1) (nullFreeProps_setProp _ _ _ rfl (hr.2 hcw.2))
      simp [h4, h5, failsNotFound, fails]

end Writes

/-- Claim C8: `set`, `merge` and `delete` fail with the "does not exist" error exactly
when the collection is absent or the id is not one of its keys, and whenever one of them
throws (this error or any other) the store is left exactly as it was. -/
theorem writes_fail_atomically (cs : Collections) (c id : String) (data : Props)
    (now : Int) :
    ((failsNotFound (set cs c id data now).2 = true ↔
        (lookup c cs = none ∨ ∃ t, lookup c cs = some t ∧ lookup id t = none)) ∧
      (fails (set cs c id data now).2 = true → (set cs c id data now).1 = cs)) ∧
    ((failsNotFound (merge cs c id data now).2 = true ↔
        (lookup c cs = none ∨ ∃ t, lookup c cs = some t ∧ lookup id t = none)) ∧
      (fails (merge cs c id data now).2 = true → (merge cs c id data now).1 = cs)) ∧
    ((failsNotFound (del cs c id now).2 = true ↔
        (lookup c cs = none ∨ ∃ t, lookup c cs = some t ∧ lookup id t = none)) ∧
      (fails (del cs c id now).2 = true → (del cs c id now).1 = cs)) := by
  cases h1 : lookup c cs with
  | none =>
    simp [set_collection_absent cs c id data now h1,
      merge_collection_absent cs c id data now h1, del, h1, failsNotFound,
      JSError.isNotFound]
  | some t =>
    cases h2 : lookup id t with
    | none =>
      simp [set_entry_absent cs c id data now t h1 h2,
        merge_entry_absent cs c id data now t h1 h2, del, h1, h2, failsNotFound,
        JSError.isNotFound]
    | some r =>
      have hs := set_present cs c id data now t r h1 h2
      have hm := merge_present cs c id data now t r h1 h2
      refine ⟨⟨?_, hs.2⟩, ⟨?_, hm.2⟩, ?_⟩
      · simp [hs.1, h2]
      · simp [hm.1, h2]
      · simp [del, h1, h2, failsNotFound, fails]

/-! ## Postconditions of `set` and `merge` -/

section WriteSpec

/-- Postcondition of `set` when neither the existing record nor the payload holds `null`
and the existing record has no field named `hasOwnProperty`: the stored record takes
`_updatedOn` from the clock, every system field that the existing record carries from the
existing record, and every other field from the payload. -/
theorem set_spec (cs : Collections) (c id : String) (data : Props) (now : Int)
    (t : Collection) (existing : Props)
    (h1 : lookup c cs = some t) (h2 : lookup id t = some existing)
    (hew : wfRecord existing = true) (hen : nullFreeProps existing = true)
    (hes : has existing "hasOwnProperty" = false)
    (hw : wfRecord data = true) (hn : nullFreeProps data = true) :
    ∃ rec, set cs c id data now
        = (mapSet cs c (mapSet t id rec), .ok (.obj (setProp rec "_id" (.str id)))) ∧
      lookup id (records (mapSet cs c (mapSet t id rec)) c) = some rec ∧
      ∀ k, lookup k rec =
        if k = "_updatedOn" then some (.num now)
        else if systemProps.contains k && has existing k then lookup k existing
        else lookup k data := by
  have hew2 := hew
  simp only [wfRecord, Bool.and_eq_true] at hew2
  have h3 := deepCopyObj_eq_self data hw hn
  obtain ⟨r, hr, hl⟩ := assignSystemPropsLoop_spec existing hew2.2 hen hes systemProps data
  have h4 : assignSystemProps data existing = .ok r := hr
  have hrw := assignSystemPropsLoop_wf existing systemProps data r hr hw hn
  have h5 := deepCopyObj_eq_self (setProp r "_updatedOn" (.num now))
    (wfRecord_setProp _ _ _ rfl hrw.1) (nullFreeProps_setProp _ _ _ rfl hrw.2)
  refine ⟨setProp r "_updatedOn" (.num now), ?_, ?_, ?_⟩
  · simp [set, h1, h2, h3, h4, h5]
  · simp [records, lookup_mapSet]
  · intro k
    rw [lookup_setProp, hl]

/-- Postcondition of `merge` when neither the stored record nor the payload holds `null`:
the stored record takes `_updatedOn` from the clock, every non-system field of the
payload from the payload, and every other field from the previous record. -/
theorem merge_spec (cs : Collections) (c id : String) (data : Props) (now : Int)
    (t : Collection) (stored : Props)
    (h1 : lookup c cs = some t) (h2 : lookup id t = some stored)
    (hew : wfRecord stored = true) (hen : nullFreeProps stored = true)
    (hw : wfRecord data = true) (hn : nullFreeProps data = true) :
    ∃ rec, merge cs c id data now
        = (mapSet cs c (mapSet t id rec), .ok (.obj (setProp rec "_id" (.str id)))) ∧
      lookup id (records (mapSet cs c (mapSet t id rec)) c) = some rec ∧
      ∀ k, lookup k rec =
        if k = "_updatedOn" then some (.num now)
        else if !systemProps.contains k && has data k then lookup k data
        else lookup k stored := by
  have hw2 := hw
  simp only [wfRecord, Bool.and_eq_true] at hw2
  have h3 := deepCopyObj_eq_self stored hew hen
  have h4 := assignClean_eq data stored (wfProps_cleanFields _ hw2.2)
    (nullFreeProps_cleanFields _ hn)
  have hrw := assignClean_wf data stored _ h4 hew
  have h5 := deepCopyObj_eq_self
    (setProp (assignAll stored (cleanFields data)) "_updatedOn" (.num now))
    (wfRecord_setProp _ _ _ rfl hrw.1) (nullFreeProps_setProp _ _ _ rfl (hrw.2 hen))
  refine ⟨setProp (assignAll stored (cleanFields data)) "_updatedOn" (.num now), ?_, ?_, ?_⟩
  · simp [merge, h1, h2, h3, h4, h5]
  · simp [records, lookup_mapSet]
  · intro k
    rw [lookup_setProp, lookup_assignAll k _ _ (nodup_keys_cleanFields data hw),
      lookup_cleanFields]
    by_cases hk : k = "_updatedOn"
    · simp [hk]
    · simp only [hk, if_false]
      cases hs : systemProps.contains k
      · cases hl : lookup k data <;> simp [has, hl]
      · simp

end WriteSpec

/-- Claim C6 fails on the code: `set` with a payload one of whose fields is `null` throws a
`TypeError` (raised by `deepCopy`) and leaves the record as it was, so the stored record has
neither the payload's field nor a new `_updatedOn`. -/
theorem set_null_field_throws :
    set [("recipes", [("r1", [("_ownerId", .str "u1"), ("a", .num 0), ("b", .num 2),
        ("_createdOn", .num 1)])])] "recipes" "r1" [("a", .null)] 9
      = ([("recipes", [("r1", [("_ownerId", .str "u1"), ("a", .num 0), ("b", .num 2),
          ("_createdOn", .num 1)])])],
        .error (.typeError "Cannot convert undefined or null to object")) := by
  decide

/-- Claim C7 fails on the code: `merge` with a payload one of whose fields is `null` throws
a `TypeError` (raised by `deepCopy`) and leaves the record as it was. -/
theorem merge_null_field_throws :
    merge [("recipes", [("r1", [("_ownerId", .str "u1"), ("a", .num 0), ("b", .num 2),
        ("_createdOn", .num 1)])])] "recipes" "r1" [("a", .null)] 9
      = ([("recipes", [("r1", [("_ownerId", .str "u1"), ("a", .num 0), ("b", .num 2),
          ("_createdOn", .num 1)])])],
        .error (.typeError "Cannot convert undefined or null to object")) := by
  decide

/-- Claim C9, as stated, fails: after `delete` on a collection named `''`, or on a record
whose id is `''`, the `get` of the deleted record does not throw: the guards `!collection`
and `!id` of `get` make it return the collection names, respectively the list of the
remaining records. -/
theorem del_then_get_counterexample :
    (lookup "a" (records [("", [("a", [("x", .num 1)])])] "") = some [("x", .num 1)] ∧
      (del [("", [("a", [("x", .num 1)])])] "" "a" 9).2 = .ok (.obj [("_deletedOn", .num 9)]) ∧
      get (del [("", [("a", [("x", .num 1)])])] "" "a" 9).1 (some "") (some "a")
        = .ok (.arr [.str ""])) ∧
    (lookup "" (records [("recipes", [("", [("x", .num 1)])])] "recipes")
        = some [("x", .num 1)] ∧
      (del [("recipes", [("", [("x", .num 1)])])] "recipes" "" 9).2
        = .ok (.obj [("_deletedOn", .num 9)]) ∧
      get (del [("recipes", [("", [("x", .num 1)])])] "recipes" "" 9).1 (some "recipes")
        (some "") = .ok (.arr [])) := by
  decide

/-- Claim C9, amended: for an existing record whose collection name and id are both
non-empty, `delete` returns an object holding only the deletion time; afterwards `get` of
that record fails with the "does not exist" error, the collection still exists and holds
its other records unchanged and in the same order, and every other collection is
unchanged. -/
theorem del_spec (cs : Collections) (c id : String) (now : Int) (t : Collection)
    (r : Props) (h1 : lookup c cs = some t) (h2 : lookup id t = some r)
    (hc : c ≠ "") (hid : id ≠ "") :
    (del cs c id now).2 = .ok (.obj [("_deletedOn", .num now)]) ∧
    failsNotFound (get (del cs c id now).1 (some c) (some id)) = true ∧
    lookup c (del cs c id now).1 = some (t.filter (fun e => !decide (e.1 = id))) ∧
    (∀ j, j ≠ id → lookup j (records (del cs c id now).1 c) = lookup j t) ∧
    (∀ d, d ≠ c → lookup d (del cs c id now).1 = lookup d cs) ∧
    (del cs c id now).1.map Prod.fst = cs.map Prod.fst := by
  have hd : del cs c id now
      = (mapSet cs c (mapDelete t id), .ok (.obj [("_deletedOn", .num now)])) := by
    simp [del, h1, h2]
  have hl : lookup c (mapSet cs c (mapDelete t id)) = some (mapDelete t id) := by
    simp [lookup_mapSet]
  have hh : has cs c = true := (has_eq_true_iff cs c).2 ⟨t, h1⟩
  rw [hd]
  refine ⟨rfl, ?_, ?_, ?_, ?_, ?_⟩
  · have := get_notFound_iff (mapSet cs c (mapDelete t id)) c id hc hid
    rw [this]
    exact Or.inr ⟨mapDelete t id, hl, by simp [lookup_mapDelete]⟩
  · simpa [mapDelete] using hl
  · intro j hj
    simp [records, hl, lookup_mapDelete, hj]
  · intro d hd2
    exact lookup_mapSet_of_ne cs c d _ hd2
  · simp [map_fst_mapSet, hh]

/-- Witness for `del_spec`: deleting the first of two records. -/
theorem del_spec_witness :
    (del [("recipes", [("a", [("x", .num 1)]), ("b", [("x", .num 2)])]), ("users", [])]
        "recipes" "a" 9).2 = .ok (.obj [("_deletedOn", .num 9)]) ∧
    lookup "recipes" (del [("recipes", [("a", [("x", .num 1)]), ("b", [("x", .num 2)])]),
        ("users", [])] "recipes" "a" 9).1
      = some ([("a", [("x", .num 1)]), ("b", [("x", .num 2)])].filter
          (fun e => !decide (e.1 = "a"))) :=
  have h := del_spec [("recipes", [("a", [("x", .num 1)]), ("b", [("x", .num 2)])]),
    ("users", [])] "recipes" "a" 9 [("a", [("x", .num 1)]), ("b", [("x", .num 2)])]
    [("x", .num 1)] (by decide) (by decide) (by decide) (by decide)
  ⟨h.1, h.2.2.1⟩

/-! ## Payloads that differ in system fields only -/

section Agree

theorem agreeOutside_cons (P : String → Bool) (a b : String) (v w : JSValue)
    (s t : Props) :
    agreeOutside P ((a, v) :: s) ((b, w) :: t) = true ↔
      a = b ∧ (P a = true ∨ v = w) ∧ agreeOutside P s t = true := by
  simp [agreeOutside, and_assoc]

theorem agreeOutside_keys (P : String → Bool) : ∀ o1 o2 : Props,
    agreeOutside P o1 o2 = true → o1.map Prod.fst = o2.map Prod.fst
  | [], [], _ => rfl
  | [], _ :: _, h => by simp [agreeOutside] at h
  | _ :: _, [], h => by simp [agreeOutside] at h
  | (a, v) :: s, (b, w) :: t, h => by
    rw [agreeOutside_cons] at h
    simp [h.1, agreeOutside_keys P s t h.2.2]

theorem agreeOutside_lookup (P : String → Bool) (k : String) (hk : P k = false) :
    ∀ o1 o2 : Props, agreeOutside P o1 o2 = true → lookup k o1 = lookup k o2
  | [], [], _ => rfl
  | [], _ :: _, h => by simp [agreeOutside] at h
  | _ :: _, [], h => by simp [agreeOutside] at h
  | (a, v) :: s, (b, w) :: t, h => by
    rw [agreeOutside_cons] at h
    obtain ⟨hab, hv, ht⟩ := h
    subst hab
    rw [lookup_cons, lookup_cons, agreeOutside_lookup P k hk s t ht]
    by_cases hak : a = k
    · subst hak
      rcases hv with hv | hv
      · rw [hk] at hv; cases hv
      · simp [hv]
    · simp [hak]

theorem agreeOutside_has (P : String → Bool) (k : String) (o1 o2 : Props)
    (h : agreeOutside P o1 o2 = true) : has o1 k = has o2 k := by
  have hk := agreeOutside_keys P o1 o2 h
  have e : (has o1 k = true) ↔ (has o2 k = true) := by
    rw [has_iff_mem_keys, has_iff_mem_keys, hk]
  cases h1 : has o1 k <;> cases h2 : has o2 k <;> simp_all

theorem agreeOutside_weaken (P Q : String → Bool) : ∀ o1 o2 : Props,
    agreeOutside P o1 o2 = true → (∀ j ∈ o1.map Prod.fst, P j = true → Q j = true) →
    agreeOutside Q o1 o2 = true
  | [], [], _, _ => rfl
  | [], _ :: _, h, _ => by simp [agreeOutside] at h
  | _ :: _, [], h, _ => by simp [agreeOutside] at h
  | (a, v) :: s, (b, w) :: t, h, hq => by
    rw [agreeOutside_cons] at h ⊢
    obtain ⟨hab, hv, ht⟩ := h
    refine ⟨hab, ?_, agreeOutside_weaken P Q s t ht (fun j hj => hq j (by simp [hj]))⟩
    rcases hv with hv | hv
    · exact Or.inl (hq a (by simp) hv)
    · exact Or.inr hv

theorem agreeOutside_eq (P : String → Bool) : ∀ o1 o2 : Props,
    agreeOutside P o1 o2 = true → (∀ j, P j = false) → o1 = o2
  | [], [], _, _ => rfl
  | [], _ :: _, h, _ => by simp [agreeOutside] at h
  | _ :: _, [], h, _ => by simp [agreeOutside] at h
  | (a, v) :: s, (b, w) :: t, h, hp => by
    rw [agreeOutside_cons] at h
    obtain ⟨hab, hv, ht⟩ := h
    have hv2 : v = w := by
      rcases hv with hv | hv
      · rw [hp a] at hv; cases hv
      · exact hv
    rw [hab, hv2, agreeOutside_eq P s t ht hp]

/-- Payloads that differ in system fields only are treated alike by `assignClean`. -/
theorem assignClean_congr (P : String → Bool)
    (hP : ∀ k, P k = true → systemProps.contains k = true) :
    ∀ (d1 d2 target : Props), agreeOutside P d1 d2 = true →
      assignClean target d1 = assignClean target d2
  | [], [], _, _ => rfl
  | [], _ :: _, _, h => by simp [agreeOutside] at h
  | _ :: _, [], _, h => by simp [agreeOutside] at h
  | (a, v) :: s, (b, w) :: t, target, h => by
    rw [agreeOutside_cons] at h
    obtain ⟨hab, hv, ht⟩ := h
    subst hab
    cases hs : systemProps.contains a
    · have hv2 : v = w := by
        rcases hv with hv | hv
        · rw [hP a hv] at hs; cases hs
        · exact hv
      subst hv2
      simp only [assignClean, hs, beq_self_eq_true, if_true]
      cases deepCopy v with
      | error e => rfl
      | ok c => exact assignClean_congr P hP s t _ ht
    · simp only [assignClean, hs]
      exact assignClean_congr P hP s t _ ht

theorem replace_agree (P : String → Bool) (k : String) (v : JSValue) :
    ∀ o1 o2 : Props, (o1.map Prod.fst).Nodup → agreeOutside P o1 o2 = true →
      agreeOutside (fun j => P j && !decide (j = k)) (replace k v o1) (replace k v o2) = true
  | [], [], _, _ => rfl
  | [], _ :: _, _, h => by simp [agreeOutside] at h
  | _ :: _, [], _, h => by simp [agreeOutside] at h
  | (a, x) :: s, (b, y) :: t, hnd, h => by
    rw [agreeOutside_cons] at h
    obtain ⟨hab, hv, ht⟩ := h
    subst hab
    simp only [List.map_cons, List.nodup_cons] at hnd
    by_cases hak : a = k
    · subst hak
      simp only [replace, if_true]
      rw [agreeOutside_cons]
      refine ⟨rfl, Or.inr rfl, agreeOutside_weaken P _ s t ht ?_⟩
      intro j hj hp
      have : j ≠ a := fun e => hnd.1 (e ▸ hj)
      simp [hp, this]
    · simp only [replace, hak, if_false]
      rw [agreeOutside_cons]
      refine ⟨rfl, ?_, replace_agree P k v s t hnd.2 ht⟩
      rcases hv with hv | hv
      · exact Or.inl (by simp [hv, hak])
      · exact Or.inr hv

theorem insertProp_agree (P : String → Bool) (k : String) (v : JSValue) :
    ∀ o1 o2 : Props, has o1 k = false → agreeOutside P o1 o2 = true →
      agreeOutside (fun j => P j && !decide (j = k)) (insertProp k v o1) (insertProp k v o2)
        = true
  | [], [], _, _ => by simp [insertProp, agreeOutside]
  | [], _ :: _, _, h => by simp [agreeOutside] at h
  | _ :: _, [], _, h => by simp [agreeOutside] at h
  | (a, x) :: s, (b, y) :: t, hk, h => by
    have hall := h
    rw [agreeOutside_cons] at h
    obtain ⟨hab, hv, ht⟩ := h
    subst hab
    have hak : ¬ a = k := by
      intro e; simp [has_cons, e] at hk
    have hk2 : has s k = false := by
      simpa [has_cons, hak] using hk
    by_cases hp : precedes a k = true
    · simp only [insertProp, hp, if_true]
      rw [agreeOutside_cons]
      refine ⟨rfl, ?_, insertProp_agree P k v s t hk2 ht⟩
      rcases hv with hv | hv
      · exact Or.inl (by simp [hv, hak])
      · exact Or.inr hv
    · have hp2 : precedes a k = false := by simpa using hp
      simp only [insertProp, hp2, Bool.false_eq_true, if_false]
      rw [agreeOutside_cons]
      refine ⟨rfl, Or.inr rfl, agreeOutside_weaken P _ _ _ hall ?_⟩
      intro j hj hpj
      have : j ≠ k := by
        intro e
        have := (has_iff_mem_keys ((a, x) :: s) k).2 (e ▸ hj)
        rw [hk] at this; cases this
      simp [hpj, this]

theorem setProp_agree (P : String → Bool) (k : String) (v : JSValue) (o1 o2 : Props)
    (hnd : (o1.map Prod.fst).Nodup) (h : agreeOutside P o1 o2 = true) :
    agreeOutside (fun j => P j && !decide (j = k)) (setProp o1 k v) (setProp o2 k v)
      = true := by
  have hh := agreeOutside_has P k o1 o2 h
  unfold setProp
  rw [← hh]
  cases h1 : has o1 k
  · simpa using insertProp_agree P k v o1 o2 h1 h
  · simpa using replace_agree P k v o1 o2 hnd h

theorem nodup_keys_of_wfRecord (o : Props) (h : wfRecord o = true) :
    (o.map Prod.fst).Nodup := by
  simp only [wfRecord, Bool.and_eq_true] at h
  exact keysOK_nodup _ h.1

/-- Run on two targets that differ under the keys selected by `P` only,
`assignSystemProps` throws the same error on both, or returns records that differ only
under those keys of `P` that it did not overwrite. -/
theorem assignSystemPropsLoop_agree (entry : Props) (props : List String) :
    ∀ (P : String → Bool) (t1 t2 : Props), wfRecord t1 = true →
      agreeOutside P t1 t2 = true →
      (∃ e, assignSystemPropsLoop entry props t1 = .error e ∧
          assignSystemPropsLoop entry props t2 = .error e) ∨
      (∃ r1 r2, assignSystemPropsLoop entry props t1 = .ok r1 ∧
          assignSystemPropsLoop entry props t2 = .ok r2 ∧ wfRecord r1 = true ∧
          agreeOutside (fun j => P j && !(props.contains j && has entry j)) r1 r2 = true) := by
  induction props with
  | nil =>
    intro P t1 t2 hw h
    exact Or.inr ⟨t1, t2, rfl, rfl, hw, by simpa using h⟩
  | cons p ps ih =>
    intro P t1 t2 hw h
    by_cases hs : has entry "hasOwnProperty" = true
    · exact Or.inl ⟨.typeError "entry.hasOwnProperty is not a function",
        by simp only [assignSystemPropsLoop, hs, if_true],
        by simp only [assignSystemPropsLoop, hs, if_true]⟩
    · simp only [assignSystemPropsLoop, hs, Bool.false_eq_true, if_false]
      by_cases hh : has entry p = true
      · simp only [hh, if_true]
        cases h1 : deepCopy (getProp entry p) with
        | error e => exact Or.inl ⟨e, rfl, rfl⟩
        | ok w =>
          have hv := deepCopy_wf _ w h1
          have ha := setProp_agree P p w t1 t2 (nodup_keys_of_wfRecord t1 hw) h
          rcases ih _ _ _ (wfRecord_setProp p w t1 hv.1 hw) ha with ⟨e, he1, he2⟩ | ⟨r1, r2, e1, e2, hw2, hag⟩
          · exact Or.inl ⟨e, he1, he2⟩
          · refine Or.inr ⟨r1, r2, e1, e2, hw2, agreeOutside_weaken _ _ r1 r2 hag ?_⟩
            intro j _ hj
            by_cases hjp : j = p
            · simp [hjp] at hj
            · have hb : (j == p) = false := by simpa using hjp
              rw [List.contains_cons, hb, Bool.false_or]
              revert hj
              cases P j <;> cases ps.contains j <;> cases has entry j <;> simp [hjp]
      · simp only [hh, Bool.false_eq_true, if_false]
        rcases ih P t1 t2 hw h with ⟨e, he1, he2⟩ | ⟨r1, r2, e1, e2, hw2, hag⟩
        · exact Or.inl ⟨e, he1, he2⟩
        · refine Or.inr ⟨r1, r2, e1, e2, hw2, agreeOutside_weaken _ _ r1 r2 hag ?_⟩
          intro j _ hj
          have hh2 : has entry p = false := by simpa using hh
          by_cases hjp : j = p
          · subst hjp
            rw [hh2] at hj ⊢
            revert hj
            cases P j <;> simp
          · have hb : (j == p) = false := by simpa using hjp
            rw [List.contains_cons, hb, Bool.false_or]
            exact hj

end Agree

section SystemFields

theorem add_congr (cs : Collections) (c : String) (d1 d2 : Props) (now : Int)
    (uuids : List String)
    (h : agreeOutside (fun k => ["_id", "_createdOn", "_updatedOn"].contains k) d1 d2 = true) :
    add cs c d1 now uuids = add cs c d2 now uuids := by
  have ho : getProp d1 "_ownerId" = getProp d2 "_ownerId" := by
    unfold getProp
    rw [agreeOutside_lookup _ "_ownerId" (by decide) d1 d2 h]
  have hc := assignClean_congr _ (fun k hk => by
    have : k ∈ ["_id", "_createdOn", "_updatedOn"] := by simpa using hk
    have : k ∈ systemProps := by
      simp only [List.mem_cons, List.mem_singleton, List.not_mem_nil, or_false] at this
      rcases this with rfl | rfl | rfl <;> decide
    simpa using this) d1 d2 [("_ownerId", getProp d1 "_ownerId")] h
  unfold add
  rw [hc, ho]

theorem merge_congr (cs : Collections) (c id : String) (d1 d2 : Props) (now : Int)
    (h : agreeOutside (fun k => systemProps.contains k) d1 d2 = true) :
    merge cs c id d1 now = merge cs c id d2 now := by
  unfold merge
  cases lookup c cs with
  | none => rfl
  | some t =>
    dsimp only
    cases lookup id t with
    | none => rfl
    | some stored =>
      dsimp only
      cases deepCopyObj stored with
      | error e => rfl
      | ok existing =>
        dsimp only
        rw [assignClean_congr _ (fun k hk => hk) d1 d2 existing h]

theorem set_congr (cs : Collections) (c id : String) (d1 d2 : Props) (now : Int)
    (t : Collection) (existing : Props)
    (h1 : lookup c cs = some t) (h2 : lookup id t = some existing)
    (hw1 : wfRecord d1 = true) (hn1 : nullFreeProps d1 = true)
    (hw2 : wfRecord d2 = true) (hn2 : nullFreeProps d2 = true)
    (h : agreeOutside
      (fun k => k == "_updatedOn" || (systemProps.contains k && has existing k)) d1 d2 = true) :
    set cs c id d1 now = set cs c id d2 now := by
  unfold set
  simp only [h1, h2, deepCopyObj_eq_self d1 hw1 hn1, deepCopyObj_eq_self d2 hw2 hn2,
    assignSystemProps]
  rcases assignSystemPropsLoop_agree existing systemProps _ d1 d2 hw1 h with
    ⟨e, e1, e2⟩ | ⟨r1, r2, e1, e2, hwr, hag⟩
  · simp only [e1, e2]
  · have hs := setProp_agree _ "_updatedOn" (.num now) r1 r2
      (nodup_keys_of_wfRecord r1 hwr) hag
    have he : setProp r1 "_updatedOn" (.num now) = setProp r2 "_updatedOn" (.num now) := by
      refine agreeOutside_eq _ _ _ hs ?_
      intro j
      by_cases hj : j = "_updatedOn"
      · simp [hj]
      · cases systemProps.contains j <;> cases has existing j <;> simp [hj]
    simp only [e1, e2, he]

end SystemFields

/-- Claim C5, as stated, fails: `add` stores the `_ownerId` of its payload, so two payloads
that differ only in `_ownerId` leave different stores; and `set` keeps the payload's `_id`
in the stored record when the existing record has no `_id` field of its own. -/
theorem system_fields_counterexample :
    (add [] "recipes" [("_ownerId", .str "u1"), ("x", .num 1)] 5 ["i1"]).map
        (fun o => o.collections)
      = some [("recipes", [("i1", [("_ownerId", .str "u1"), ("x", .num 1),
          ("_createdOn", .num 5)])])] ∧
    (add [] "recipes" [("_ownerId", .str "u2"), ("x", .num 1)] 5 ["i1"]).map
        (fun o => o.collections)
      = some [("recipes", [("i1", [("_ownerId", .str "u2"), ("x", .num 1),
          ("_createdOn", .num 5)])])] ∧
    (set [("recipes", [("i1", [("_ownerId", .str "u1"), ("x", .num 1),
        ("_createdOn", .num 5)])])] "recipes" "i1" [("_id", .str "p"), ("x", .num 2)] 9).1
      = [("recipes", [("i1", [("_id", .str "p"), ("x", .num 2), ("_createdOn", .num 5),
          ("_ownerId", .str "u1"), ("_updatedOn", .num 9)])])] ∧
    (set [("recipes", [("i1", [("_ownerId", .str "u1"), ("x", .num 1),
        ("_createdOn", .num 5)])])] "recipes" "i1" [("_id", .str "q"), ("x", .num 2)] 9).1
      = [("recipes", [("i1", [("_id", .str "q"), ("x", .num 2), ("_createdOn", .num 5),
          ("_ownerId", .str "u1"), ("_updatedOn", .num 9)])])] := by
  decide

/-- Claim C5, amended: two payloads with the same fields that agree on every non-system
field leave the same store and return the same value (same clock, same generated ids)
under `merge`, whatever their system fields hold; under `add`, whatever they hold for
`_id`, `_createdOn` and `_updatedOn`, provided they agree on `_ownerId`; and under `set`,
for payloads without `null`, whatever they hold for `_updatedOn` and for every system
field that the existing record itself carries. -/
theorem system_fields_not_settable (cs : Collections) (c id : String) (d1 d2 : Props)
    (now : Int) (uuids : List String) :
    (agreeOutside (fun k => systemProps.contains k) d1 d2 = true →
      merge cs c id d1 now = merge cs c id d2 now) ∧
    (agreeOutside (fun k => ["_id", "_createdOn", "_updatedOn"].contains k) d1 d2 = true →
      add cs c d1 now uuids = add cs c d2 now uuids) ∧
    (∀ t existing, lookup c cs = some t → lookup id t = some existing →
      wfRecord d1 = true → nullFreeProps d1 = true →
      wfRecord d2 = true → nullFreeProps d2 = true →
      agreeOutside (fun k => k == "_updatedOn" ||
        (systemProps.contains k && has existing k)) d1 d2 = true →
      set cs c id d1 now = set cs c id d2 now) :=
  ⟨merge_congr cs c id d1 d2 now, add_congr cs c d1 d2 now uuids,
    fun t existing h1 h2 hw1 hn1 hw2 hn2 h =>
      set_congr cs c id d1 d2 now t existing h1 h2 hw1 hn1 hw2 hn2 h⟩

/-- Witness for `system_fields_not_settable`: payloads that differ in `_createdOn`,
`_ownerId` and `_updatedOn`, written over a record created by `add`. -/
theorem system_fields_not_settable_witness :
    set [("recipes", [("i1", [("_ownerId", .str "u1"), ("x", .num 1),
        ("_createdOn", .num 5)])])] "recipes" "i1"
        [("x", .num 2), ("_createdOn", .num 0), ("_ownerId", .str "u2"),
          ("_updatedOn", .num 1)] 9
      = set [("recipes", [("i1", [("_ownerId", .str "u1"), ("x", .num 1),
        ("_createdOn", .num 5)])])] "recipes" "i1"
        [("x", .num 2), ("_createdOn", .num 7), ("_ownerId", .str "u3"),
          ("_updatedOn", .num 8)] 9 :=
  (system_fields_not_settable [("recipes", [("i1", [("_ownerId", .str "u1"), ("x", .num 1),
        ("_createdOn", .num 5)])])] "recipes" "i1"
      [("x", .num 2), ("_createdOn", .num 0), ("_ownerId", .str "u2"), ("_updatedOn", .num 1)]
      [("x", .num 2), ("_createdOn", .num 7), ("_ownerId", .str "u3"), ("_updatedOn", .num 8)]
      9 []).2.2
    [("i1", [("_ownerId", .str "u1"), ("x", .num 1), ("_createdOn", .num 5)])]
    [("_ownerId", .str "u1"), ("x", .num 1), ("_createdOn", .num 5)]
    (by decide) (by decide) (by decide) (by decide) (by decide) (by decide) (by decide)

/-! ## `query` -/

section Query

/-- The inner loop of `query` computes `agreesWith` when the query object has no field
named `hasOwnProperty`. -/
theorem queryMatch_eq (ne : JSValue → JSValue → Bool) (lower : String → String)
    (q entry : Props) (hs : has q "hasOwnProperty" = false) (props : Props) :
    queryMatch ne lower q entry props
      = .ok (props.all (fun p =>
          !has q p.1 || !mismatch ne lower (getProp q p.1) (getProp entry p.1))) := by
  induction props with
  | nil => rfl
  | cons p rest ih =>
    obtain ⟨a, v⟩ := p
    simp only [queryMatch, hs, Bool.false_eq_true, if_false, List.all_cons]
    cases hq : has q a
    · simp [ih]
    · cases hm : mismatch ne lower (getProp q a) (getProp entry a)
      · simp [ih]
      · simp

/-- A query object with a field named `hasOwnProperty` makes the inner loop throw on
every record that has a property. -/
theorem queryMatch_shadowed (ne : JSValue → JSValue → Bool) (lower : String → String)
    (q entry : Props) (p : String × JSValue) (rest : Props)
    (hs : has q "hasOwnProperty" = true) :
    queryMatch ne lower q entry (p :: rest)
      = .error (.typeError "query.hasOwnProperty is not a function") := by
  obtain ⟨a, v⟩ := p
  simp [queryMatch, hs]

theorem queryEntries_eq (ne : JSValue → JSValue → Bool) (lower : String → String)
    (q : Props) (t : Collection) (hs : has q "hasOwnProperty" = false)
    (hw : wfCollection t = true) (hn : nullFreeCollection t = true) :
    queryEntries ne lower q t
      = .ok ((t.filter (fun e => agreesWith ne lower q e.2)).map
          (fun e => JSValue.obj (setProp e.2 "_id" (.str e.1)))) := by
  induction t with
  | nil => rfl
  | cons p rest ih =>
    obtain ⟨k, v⟩ := p
    simp only [wfCollection, nullFreeCollection, List.all_cons, Bool.and_eq_true] at hw hn
    have h3 := deepCopyObj_eq_self v hw.1 hn.1
    have h4 := ih hw.2 hn.2
    have h5 : queryMatch ne lower q v v = .ok (agreesWith ne lower q v) :=
      queryMatch_eq ne lower q v hs v
    cases hm : agreesWith ne lower q v
    · rw [hm] at h5
      simp [queryEntries, h5, hm, h4, List.filter_cons]
    · rw [hm] at h5
      simp [queryEntries, h5, hm, h3, h4, List.filter_cons]

/-- What `query` returns on a collection whose records hold no `null`, for a query object
without a field named `hasOwnProperty`: the records that agree with the query object on
every property that the record itself has, in insertion order, each with its `_id`. -/
theorem query_spec (ne : JSValue → JSValue → Bool) (lower : String → String)
    (cs : Collections) (c : String) (q : Props) (t : Collection)
    (h1 : lookup c cs = some t) (hs : has q "hasOwnProperty" = false)
    (hw : wfCollection t = true) (hn : nullFreeCollection t = true) :
    query ne lower cs c q
      = .ok (.arr ((t.filter (fun e => agreesWith ne lower q e.2)).map
          (fun e => JSValue.obj (setProp e.2 "_id" (.str e.1))))) := by
  simp [query, h1, queryEntries_eq ne lower q t hs hw hn]

end Query

/-- Claim C10 fails on the code: `query` only compares the properties that the record has,
so a record that lacks the queried key is returned, whatever `!=` and lower-casing do. -/
theorem query_returns_record_lacking_key (ne : JSValue → JSValue → Bool)
    (lower : String → String) :
    query ne lower [("users", [("u1", [("username", .str "Peter")])])] "users"
        [("email", .str "john@abv.bg")]
      = .ok (.arr [.obj [("username", .str "Peter"), ("_id", .str "u1")]]) := by
  rfl

end Storage

/-! ## Rule resolution -/

namespace Rules

open Storage

section Resolution

theorem lookup_foldl_mapSet {α : Type} (k : String) (l : List (String × α)) :
    ∀ init : List (String × α), (l.map Prod.fst).Nodup →
      lookup k (l.foldl (fun acc e => mapSet acc e.1 e.2) init)
        = (lookup k l).orElse (fun _ => lookup k init) := by
  induction l with
  | nil => intro init _; simp
  | cons p t ih =>
    intro init hnd
    obtain ⟨a, v⟩ := p
    simp only [List.map_cons, List.nodup_cons] at hnd
    rw [List.foldl_cons, ih _ hnd.2, lookup_mapSet, lookup_cons]
    by_cases hak : a = k
    · subst hak
      have : lookup a t = none := by
        rw [← has_eq_false_iff]
        cases hh : has t a
        · rfl
        · exact absurd ((has_iff_mem_keys t a).1 hh) hnd.1
      simp [this]
    · have hka : ¬ k = a := fun e => hak e.symm
      simp [hak, hka]

/-- The merged rule set: the settings' own entries, and under `*` the settings' entry if
there is one, the built-in entry otherwise. -/
theorem lookup_initRules (settings : RuleSet) (hnd : (settings.map Prod.fst).Nodup)
    (k : String) :
    lookup k (initRules settings) =
      if k = "*" then some ((lookup "*" settings).getD defaultRules)
      else lookup k settings := by
  unfold initRules
  rw [lookup_foldl_mapSet k settings _ hnd]
  by_cases hk : k = "*"
  · subst hk
    cases h : lookup "*" settings <;> simp [lookup_cons]
  · have hk2 : ¬ "*" = k := fun e => hk e.symm
    cases h : lookup k settings <;> simp [lookup_cons, hk, hk2]

theorem ruleOrDefault_none {α : Type} (length : α → Option Nat) (current : α) :
    ruleOrDefault length current none = current := rfl

theorem ruleOrDefault_some {α : Type} (length : α → Option Nat) (current r : α) :
    ruleOrDefault length current (some r) = if length r = some 0 then current else r := rfl

theorem ruleOrDefault_list (current l : List (String × Rule)) :
    ruleOrDefault (fun l => some l.length) current (some l) = if l = [] then current else l := by
  cases l <;> simp [ruleOrDefault]

/-- The built-in defaults: `create` is `[User]`, `update` and `delete` are `[Owner]`,
`read` is `true`. -/
theorem baseRule_default (settings : RuleSet) (h : lookup "*" settings = none) :
    baseRule settings ".create" = .roles ["User"] ∧
    baseRule settings ".update" = .roles ["Owner"] ∧
    baseRule settings ".delete" = .roles ["Owner"] ∧
    baseRule settings ".read" = .bool true := by
  simp only [baseRule, h]
  decide

/-- What `getRule` computes, layer by layer. -/
theorem getRule_eq (settings : RuleSet) (hnd : (settings.map Prod.fst).Nodup)
    (action collection : String) (id : JSValue) :
    getRule (initRules settings) action collection id =
      match lookup collection (initRules settings) with
      | none => .ok ⟨baseRule settings action, []⟩
      | some entry =>
        match recordRules entry (toStringJS id) with
        | none =>
          .ok ⟨ruleOrDefault Rule.length (baseRule settings action)
              (lookup action entry.actions),
            match entry.wildcard with
            | none => []
            | some g => getPropRule g action⟩
        | some record =>
          .ok ⟨ruleOrDefault Rule.length
              (ruleOrDefault Rule.length (baseRule settings action)
                (lookup action entry.actions))
              (lookup action record.actions),
            if getPropRule record action = [] then
              (match entry.wildcard with
              | none => []
              | some g => getPropRule g action)
            else getPropRule record action⟩ := by
  have hstar := lookup_initRules settings hnd "*"
  simp only [if_true] at hstar
  unfold getRule
  simp only [hstar, baseRule]
  cases lookup collection (initRules settings) with
  | none => rfl
  | some entry =>
    simp only []
    cases hw : entry.wildcard with
    | none =>
      cases recordRules entry (toStringJS id) with
      | none => rfl
      | some record => simp [ruleOrDefault_list]
    | some g =>
      cases recordRules entry (toStringJS id) with
      | none => simp [ruleOrDefault_list]
      | some record =>
        simp only [ruleOrDefault_list]
        by_cases h1 : getPropRule g action = [] <;> by_cases h2 : getPropRule record action = []
          <;> simp [h1, h2]

end Resolution

end Rules

namespace Rules

open Storage

/-- Claim C18, as stated, fails: a rule set with an entry `*` of its own replaces the
built-in defaults (here `create` resolves to `[Guest]`, not `[User]`), and a sub-entry
keyed by the record's id replaces the collection entry's rule (here `read` on record `r1`
resolves to `false`, not to the collection's `[User]`). -/
theorem action_rule_layering_counterexample :
    getRule (initRules [("*", ⟨[(".create", .roles ["Guest"])], none, []⟩)])
        ".create" "recipes" .undefined
      = .ok ⟨.roles ["Guest"], []⟩ ∧
    getRule (initRules [("recipes", ⟨[(".read", .roles ["User"])], none,
        [("r1", ⟨[(".read", .bool false)], []⟩)]⟩)]) ".read" "recipes" (.str "r1")
      = .ok ⟨.bool false, []⟩ := by
  decide

/-- Claim C18, amended: when no sub-entry keyed by the record's id applies, the resolved
top-level rule is the collection entry's rule for the action when that rule is defined and
non-empty, and otherwise the rule of the entry `*` of the merged rule set (`baseRule`): the
built-in default (`create`: `[User]`; `update`, `delete`: `[Owner]`; `read`: allow) when
the rule set has no entry `*` of its own.  An override that is undefined, an empty list or
an empty string never replaces the broader rule; every other override, the boolean `false`
included, does. -/
theorem action_rule_layering (settings : RuleSet) (hnd : (settings.map Prod.fst).Nodup)
    (action collection : String) (id : JSValue) :
    (lookup collection (initRules settings) = none →
      getRule (initRules settings) action collection id
        = .ok ⟨baseRule settings action, []⟩) ∧
    (∀ entry, lookup collection (initRules settings) = some entry →
      recordRules entry (toStringJS id) = none →
        (lookup action entry.actions = none →
          getRule (initRules settings) action collection id
            = .ok ⟨baseRule settings action, wildcardPropRules entry action⟩) ∧
        (lookup action entry.actions = some (.roles []) →
          getRule (initRules settings) action collection id
            = .ok ⟨baseRule settings action, wildcardPropRules entry action⟩) ∧
        (lookup action entry.actions = some (.expr "") →
          getRule (initRules settings) action collection id
            = .ok ⟨baseRule settings action, wildcardPropRules entry action⟩) ∧
        (∀ r, lookup action entry.actions = some r → Rule.length r ≠ some 0 →
          getRule (initRules settings) action collection id
            = .ok ⟨r, wildcardPropRules entry action⟩) ∧
        (lookup action entry.actions = some (.bool false) →
          getRule (initRules settings) action collection id
            = .ok ⟨.bool false, wildcardPropRules entry action⟩)) ∧
    (lookup "*" settings = none →
      baseRule settings ".create" = .roles ["User"] ∧
      baseRule settings ".update" = .roles ["Owner"] ∧
      baseRule settings ".delete" = .roles ["Owner"] ∧
      baseRule settings ".read" = .bool true) := by
  refine ⟨?_, ?_, baseRule_default settings⟩
  · intro h
    rw [getRule_eq settings hnd, h]
  · intro entry h1 h2
    refine ⟨?_, ?_, ?_, ?_, ?_⟩
    · intro h3
      rw [getRule_eq settings hnd, h1]
      simp only [h2, h3, ruleOrDefault_none, wildcardPropRules]
    · intro h3
      rw [getRule_eq settings hnd, h1]
      simp [h2, h3, ruleOrDefault_some, Rule.length, wildcardPropRules]
    · intro h3
      rw [getRule_eq settings hnd, h1]
      simp [h2, h3, ruleOrDefault_some, Rule.length, wildcardPropRules]
    · intro r h3 h4
      rw [getRule_eq settings hnd, h1]
      simp [h2, h3, ruleOrDefault_some, h4, wildcardPropRules]
    · intro h3
      rw [getRule_eq settings hnd, h1]
      simp [h2, h3, ruleOrDefault_some, Rule.length, wildcardPropRules]

/-- Witness for `action_rule_layering`: the shipped entry of `users`, whose `create` rule
is `false`, over the built-in defaults. -/
theorem action_rule_layering_witness :
    getRule (initRules [("users", ⟨[(".create", .bool false), (".read", .roles ["Owner"]),
        (".update", .bool false), (".delete", .bool false)], none, []⟩)])
        ".create" "users" .undefined
      = .ok ⟨.bool false, wildcardPropRules ⟨[(".create", .bool false),
          (".read", .roles ["Owner"]), (".update", .bool false), (".delete", .bool false)],
          none, []⟩ ".create"⟩ :=
  ((action_rule_layering [("users", ⟨[(".create", .bool false),
      (".read", .roles ["Owner"]), (".update", .bool false), (".delete", .bool false)],
      none, []⟩)] (by decide) ".create" "users" .undefined).2.1
    ⟨[(".create", .bool false), (".read", .roles ["Owner"]), (".update", .bool false),
      (".delete", .bool false)], none, []⟩ (by decide) (by decide)).2.2.2.2 (by decide)

/-- Claim C19: when the collection entry has a sub-entry for the record's id that defines
a non-empty rule for the action and field rules for the action, resolving the action on
that record returns the sub-entry's action rule as the top-level rule and the sub-entry's
field rules as the field rules, whatever the defaults, the collection entry and its field
group `*` define. -/
theorem record_rules_win (settings : RuleSet) (hnd : (settings.map Prod.fst).Nodup)
    (action collection id : String) (record : Props) (entry : CollectionRules)
    (sub : Group) (r : Rule)
    (hid : getProp record "_id" = .str id)
    (h1 : lookup collection (initRules settings) = some entry)
    (h2 : recordRules entry id = some sub)
    (h3 : lookup action sub.actions = some r) (h4 : Rule.length r ≠ some 0)
    (h5 : getPropRule sub action ≠ []) :
    dataId (.obj record) = .ok (.str id) ∧
    getRule (initRules settings) action collection (.str id)
      = .ok ⟨r, getPropRule sub action⟩ := by
  refine ⟨by simp [dataId, getMember, hid], ?_⟩
  rw [getRule_eq settings hnd, h1]
  simp [toStringJS, h2, h3, h5, ruleOrDefault_some, h4]

/-- Witness for `record_rules_win`: all four layers define a `read` rule. -/
theorem record_rules_win_witness :
    getRule (initRules [("*", ⟨[(".read", .roles ["User"])], none, []⟩),
        ("recipes", ⟨[(".read", .roles ["Owner"])],
          some ⟨[], [("secret", [(".read", .bool false)])]⟩,
          [("r1", ⟨[(".read", .roles ["Guest"])], [("notes", [(".read", .bool false)])]⟩)]⟩)])
        ".read" "recipes" (.str "r1")
      = .ok ⟨.roles ["Guest"], [("notes", .bool false)]⟩ :=
  (record_rules_win [("*", ⟨[(".read", .roles ["User"])], none, []⟩),
        ("recipes", ⟨[(".read", .roles ["Owner"])],
          some ⟨[], [("secret", [(".read", .bool false)])]⟩,
          [("r1", ⟨[(".read", .roles ["Guest"])], [("notes", [(".read", .bool false)])]⟩)]⟩)]
      (by decide) ".read" "recipes" "r1" [("x", .num 1), ("_id", .str "r1")]
      ⟨[(".read", .roles ["Owner"])], some ⟨[], [("secret", [(".read", .bool false)])]⟩,
          [("r1", ⟨[(".read", .roles ["Guest"])], [("notes", [(".read", .bool false)])]⟩)]⟩
      ⟨[(".read", .roles ["Guest"])], [("notes", [(".read", .bool false)])]⟩
      (.roles ["Guest"]) (by decide) (by decide) (by decide) (by decide) (by decide)
      (by decide)).2

end Rules

/-! ## The access check -/

namespace Rules

open Storage

section AccessCheck

theorem looseEq_str (toNumber : String → Option Int) (x y : String) :
    looseEq toNumber (.str x) (.str y) = decide (x = y) := by
  by_cases h : x = y <;> simp [looseEq, isObject, toPrimitive, primitiveEq, h]

theorem looseEq_str_undefined (toNumber : String → Option Int) (x : String) :
    looseEq toNumber (.str x) .undefined = false := by
  simp [looseEq, isObject, primitiveEq]

theorem looseEq_bool_false (toNumber : String → Option Int) (b : Bool) :
    looseEq toNumber (.bool b) (.bool false) = !b := by
  cases b <;> simp [looseEq, isObject, toPrimitive, primitiveEq]

theorem dataId_obj (d : Props) : dataId (.obj d) = .ok (getProp d "_id") := rfl

/-- `canAccess` when the resolved rule is a role list. -/
theorem canAccess_roles (a : Access) (m : Method) (c : Option String) (data : JSValue)
    (newData : Option Props) (id : JSValue) (R : List String)
    (propRules : List (String × Rule)) (hid : dataId data = .ok id)
    (hres : getRule (initRules a.settings) (actions m) (collectionKey c) id
      = .ok ⟨.roles R, propRules⟩) :
    canAccess a m c data newData =
      match checkRoles a R data with
      | .error e => .error e
      | .ok b =>
        if !b && !a.isAdmin then .error credentialError
        else applyPropRules a (actions m) propRules ⟨data, newData⟩ := by
  unfold canAccess
  simp only [hid, hres]
  cases checkRoles a R data <;> rfl

/-- `canAccess` when the resolved rule is a boolean. -/
theorem canAccess_bool (a : Access) (m : Method) (c : Option String) (data : JSValue)
    (newData : Option Props) (id : JSValue) (b : Bool)
    (propRules : List (String × Rule)) (hid : dataId data = .ok id)
    (hres : getRule (initRules a.settings) (actions m) (collectionKey c) id
      = .ok ⟨.bool b, propRules⟩) :
    canAccess a m c data newData =
      if !b && !a.isAdmin then .error credentialError
      else applyPropRules a (actions m) propRules ⟨data, newData⟩ := by
  unfold canAccess
  simp only [hid, hres]

/-- `canAccess` when the resolved rule is an expression. -/
theorem canAccess_expr (a : Access) (m : Method) (c : Option String) (data : JSValue)
    (newData : Option Props) (id : JSValue) (source : String)
    (propRules : List (String × Rule)) (hid : dataId data = .ok id)
    (hres : getRule (initRules a.settings) (actions m) (collectionKey c) id
      = .ok ⟨.expr source, propRules⟩) :
    canAccess a m c data newData =
      match a.ev source a.user data newData with
      | .error e => .error (.fault e)
      | .ok r =>
        if !truthy r.value && !a.isAdmin then .error credentialError
        else applyPropRules a (actions m) propRules ⟨r.data, r.newData⟩ := by
  unfold canAccess
  simp only [hid, hres]
  cases a.ev source a.user data newData <;> rfl

/-- A field rule throws nothing but faults: never a `ServiceError`. -/
theorem applyPropRule_error (a : Access) (action : String) (entry : String × Rule)
    (p : Payloads) (e : Failure) (h : applyPropRule a action entry p = .error e) :
    ∃ f, e = .fault f := by
  unfold applyPropRule at h
  obtain ⟨k, rule⟩ := entry
  cases rule with
  | bool b =>
    simp only at h
    split at h
    · split at h
      · split at h
        · exact ⟨_, (Except.error.inj h).symm⟩
        · cases h
      · split at h
        · split at h
          · exact ⟨_, (Except.error.inj h).symm⟩
          · cases h
        · cases h
    · cases h
  | roles tags =>
    simp only at h
    split at h
    · split at h
      · split at h
        · exact ⟨_, (Except.error.inj h).symm⟩
        · cases h
      · split at h
        · split at h
          · exact ⟨_, (Except.error.inj h).symm⟩
          · cases h
        · cases h
    · cases h
  | expr source =>
    simp only at h
    cases hev : a.ev source a.user p.data p.newData with
    | error f =>
      simp only [hev] at h
      exact ⟨f, (Except.error.inj h).symm⟩
    | ok r =>
      simp only [hev] at h
      split at h
      · split at h
        · split at h
          · exact ⟨_, (Except.error.inj h).symm⟩
          · cases h
        · split at h
          · split at h
            · exact ⟨_, (Except.error.inj h).symm⟩
            · cases h
          · cases h
      · cases h

theorem applyPropRules_error (a : Access) (action : String) (rules : List (String × Rule)) :
    ∀ (p : Payloads) (e : Failure), applyPropRules a action rules p = .error e →
      ∃ f, e = .fault f := by
  induction rules with
  | nil => intro p e h; cases h
  | cons r rest ih =>
    intro p e h
    simp only [applyPropRules] at h
    cases h1 : applyPropRule a action r p with
    | error e1 =>
      simp only [h1] at h
      have he : e1 = e := Except.error.inj h
      subst he
      exact applyPropRule_error a action r p e1 h1
    | ok q =>
      simp only [h1] at h
      exact ih q e h

end AccessCheck

end Rules

namespace Rules
open Storage

section RoleLists

theorem checkRoles_guest (a : Access) (R : List String) (data : JSValue)
    (hg : R.contains "Guest" = true) : checkRoles a R data = .ok true := by
  unfold checkRoles
  rw [if_pos hg]

theorem checkRoles_anonymous (a : Access) (R : List String) (data : JSValue)
    (hg : R.contains "Guest" = false) (hu : a.user = none) (ha : a.isAdmin = false) :
    checkRoles a R data = .error authorizationError := by
  unfold checkRoles
  rw [if_neg (by rw [hg]; decide), if_pos (by rw [hu, ha]; rfl)]

theorem not_anonymous (a : Access) (hua : a.user ≠ none ∨ a.isAdmin = true) :
    ¬ ((a.user.isNone && !a.isAdmin) = true) := by
  rcases hua with h | h
  · cases hx : a.user with
    | none => exact absurd hx h
    | some u => simp
  · simp [h]

theorem checkRoles_user (a : Access) (R : List String) (data : JSValue)
    (hg : R.contains "Guest" = false) (hua : a.user ≠ none ∨ a.isAdmin = true)
    (hU : R.contains "User" = true) : checkRoles a R data = .ok true := by
  unfold checkRoles
  rw [if_neg (by rw [hg]; decide), if_neg (not_anonymous a hua), if_pos hU]

theorem checkRoles_owner (a : Access) (R : List String) (d u : Props)
    (hg : R.contains "Guest" = false) (hU : R.contains "User" = false)
    (hu : a.user = some u) (hO : R.contains "Owner" = true) :
    checkRoles a R (.obj d)
      = .ok (looseEq a.toNumber (getProp u "_id") (getProp d "_ownerId")) := by
  unfold checkRoles
  rw [if_neg (by rw [hg]; decide), if_neg (not_anonymous a (Or.inl (by rw [hu]; simp))),
    if_neg (by rw [hU]; decide)]
  simp only [hu]
  rw [if_pos hO]
  rfl

theorem checkRoles_other (a : Access) (R : List String) (data : JSValue)
    (hg : R.contains "Guest" = false) (hU : R.contains "User" = false)
    (hua : a.user ≠ none ∨ a.isAdmin = true)
    (hno : a.user = none ∨ R.contains "Owner" = false) :
    checkRoles a R data = .ok false := by
  unfold checkRoles
  rw [if_neg (by rw [hg]; decide), if_neg (not_anonymous a hua), if_neg (by rw [hU]; decide)]
  cases hx : a.user with
  | none => rfl
  | some u =>
    rcases hno with h | h
    · rw [hx] at h; cases h
    · simp only []
      rw [if_neg (by rw [h]; decide)]

theorem checkRoles_authorization (a : Access) (R : List String) (data : JSValue)
    (h : checkRoles a R data = .error authorizationError) :
    R.contains "Guest" = false ∧ a.user = none ∧ a.isAdmin = false := by
  unfold checkRoles at h
  cases hg : R.contains "Guest" with
  | true => rw [if_pos hg] at h; cases h
  | false =>
    rw [if_neg (by rw [hg]; decide)] at h
    by_cases hn : (a.user.isNone && !a.isAdmin) = true
    · simp only [Bool.and_eq_true, Option.isNone_iff_eq_none, Bool.not_eq_true'] at hn
      exact ⟨rfl, hn.1, hn.2⟩
    · rw [if_neg hn] at h
      cases hU : R.contains "User" with
      | true => rw [if_pos hU] at h; cases h
      | false =>
        rw [if_neg (by rw [hU]; decide)] at h
        cases hx : a.user with
        | none => simp only [hx] at h; cases h
        | some u =>
          simp only [hx] at h
          cases hO : R.contains "Owner" with
          | true =>
            rw [if_pos hO] at h
            cases hm : getMember data "_ownerId" with
            | error e => simp only [hm] at h; cases h
            | ok o => simp only [hm] at h; cases h
          | false =>
            rw [if_neg (by rw [hO]; decide)] at h
            cases h

end RoleLists

/-- Claim C13: the access check on a role list `R` for a record `d`.  The check lets the
request through when `R` contains `Guest`; otherwise it throws `AuthorizationError` when
there is no principal and no admin override; otherwise it lets the request through when
`R` contains `User`; otherwise, when there is a principal and `R` contains `Owner`, the
rule evaluates to `user._id == d._ownerId` (for two strings: to whether they are equal);
and whenever the rule evaluates to `false` the check throws `CredentialError` unless the
admin override is present.  `AuthorizationError` is thrown in no other case. -/
theorem role_list_decision (a : Access) (m : Method) (c : Option String) (d : Props)
    (newData : Option Props) (R : List String) (propRules : List (String × Rule))
    (hres : getRule (initRules a.settings) (actions m) (collectionKey c) (getProp d "_id")
      = .ok ⟨.roles R, propRules⟩) :
    (R.contains "Guest" = true →
      canAccess a m c (.obj d) newData
        = applyPropRules a (actions m) propRules ⟨.obj d, newData⟩) ∧
    (R.contains "Guest" = false → a.user = none → a.isAdmin = false →
      canAccess a m c (.obj d) newData = .error authorizationError) ∧
    (R.contains "Guest" = false → (a.user ≠ none ∨ a.isAdmin = true) →
      R.contains "User" = true →
      canAccess a m c (.obj d) newData
        = applyPropRules a (actions m) propRules ⟨.obj d, newData⟩) ∧
    (R.contains "Guest" = false → R.contains "User" = false →
      ∀ u, a.user = some u → R.contains "Owner" = true →
        checkRoles a R (.obj d)
          = .ok (looseEq a.toNumber (getProp u "_id") (getProp d "_ownerId")) ∧
        (∀ x y, getProp u "_id" = .str x → getProp d "_ownerId" = .str y →
          (looseEq a.toNumber (getProp u "_id") (getProp d "_ownerId") = true ↔ x = y)) ∧
        (looseEq a.toNumber (getProp u "_id") (getProp d "_ownerId") = true →
          canAccess a m c (.obj d) newData
            = applyPropRules a (actions m) propRules ⟨.obj d, newData⟩) ∧
        (looseEq a.toNumber (getProp u "_id") (getProp d "_ownerId") = false →
          canAccess a m c (.obj d) newData
            = if a.isAdmin then applyPropRules a (actions m) propRules ⟨.obj d, newData⟩
              else .error credentialError)) ∧
    (R.contains "Guest" = false → R.contains "User" = false →
      (a.user ≠ none ∨ a.isAdmin = true) →
      (a.user = none ∨ R.contains "Owner" = false) →
      checkRoles a R (.obj d) = .ok false ∧
      canAccess a m c (.obj d) newData
        = if a.isAdmin then applyPropRules a (actions m) propRules ⟨.obj d, newData⟩
          else .error credentialError) ∧
    (canAccess a m c (.obj d) newData = .error authorizationError →
      R.contains "Guest" = false ∧ a.user = none ∧ a.isAdmin = false) := by
  have hc := canAccess_roles a m c (.obj d) newData _ R propRules (dataId_obj d) hres
  refine ⟨?_, ?_, ?_, ?_, ?_, ?_⟩
  · intro hg
    rw [hc, checkRoles_guest a R _ hg]
    rfl
  · intro hg hu ha
    rw [hc, checkRoles_anonymous a R _ hg hu ha]
  · intro hg hua hU
    rw [hc, checkRoles_user a R _ hg hua hU]
    rfl
  · intro hg hU u hu hO
    have hcr := checkRoles_owner a R d u hg hU hu hO
    refine ⟨hcr, ?_, ?_, ?_⟩
    · intro x y hx hy
      rw [hx, hy, looseEq_str]
      simp
    · intro he
      rw [hc, hcr, he]
      rfl
    · intro he
      rw [hc, hcr, he]
      cases ha : a.isAdmin <;> simp
  · intro hg hU hua hno
    have hcr := checkRoles_other a R (.obj d) hg hU hua hno
    refine ⟨hcr, ?_⟩
    rw [hc, hcr]
    cases ha : a.isAdmin <;> simp
  · intro h
    rw [hc] at h
    cases hcr : checkRoles a R (.obj d) with
    | error e =>
      simp only [hcr] at h
      have he : e = authorizationError := Except.error.inj h
      subst he
      exact checkRoles_authorization a R (.obj d) hcr
    | ok b =>
      simp only [hcr] at h
      split at h
      · cases h
      · obtain ⟨f, hf⟩ := applyPropRules_error a (actions m) propRules _ _ h
        cases hf

end Rules

namespace Rules
open Storage

/-- Witness for `role_list_decision`: under the built-in rules an update by a principal
who is not the owner, without the admin override, throws `CredentialError`. -/
theorem role_list_decision_witness :
    canAccess (requestOf (some "u1") false []) .PUT (some "recipes")
        (.obj [("_ownerId", .str "u2"), ("_id", .str "r1")]) (some [("x", .num 1)])
      = .error credentialError :=
  ((role_list_decision (requestOf (some "u1") false []) .PUT (some "recipes")
      [("_ownerId", .str "u2"), ("_id", .str "r1")] (some [("x", .num 1)]) ["Owner"] []
      (by decide)).2.2.2.1 (by decide) (by decide) [("_id", .str "u1")] rfl
      (by decide)).2.2.2 (by decide)

end Rules

namespace Crud
open Storage Rules

section Handlers

theorem update_one (write : Collections → String → String → Props → Int →
      Collections × Except JSError JSValue)
    (m : Method) (a : Access) (storage : Collections) (c id : String) (body : Props)
    (now : Int) :
    update write m a storage c [id] body now =
      match Storage.get storage (some c) (some id) with
      | .error _ => ⟨storage, .error notFoundError⟩
      | .ok existing =>
        match canAccess a m (some c) existing (some body) with
        | .error e => ⟨storage, .error e⟩
        | .ok p =>
          match write storage c id (p.newData.getD body) now with
          | (storage1, .error _) => ⟨storage1, .error requestError⟩
          | (storage1, .ok responseData) => ⟨storage1, .ok responseData⟩ := by
  rfl

theorem get_stored (storage : Collections) (c id : String) (t : Collection) (rec : Props)
    (hc : c ≠ "") (hid : id ≠ "") (h1 : lookup c storage = some t)
    (h2 : lookup id t = some rec) (hw : wfRecord rec = true)
    (hn : nullFreeProps rec = true) :
    Storage.get storage (some c) (some id) = .ok (.obj (setProp rec "_id" (.str id))) :=
  Storage.get_of_stored storage c id hc hid t rec h1 h2 hw hn

/-- Under a rule set that has no entry for the collection and none for `*`, an update of
a record resolves to the rule `[Owner]` without field rules. -/
theorem getRule_update_default (settings : RuleSet) (hnd : (settings.map Prod.fst).Nodup)
    (c : String) (id : JSValue) (hs1 : lookup c settings = none)
    (hs2 : lookup "*" settings = none) :
    getRule (initRules settings) ".update" c id = .ok ⟨.roles ["Owner"], []⟩ := by
  rw [getRule_eq settings hnd, lookup_initRules settings hnd]
  by_cases hc : c = "*"
  · subst hc
    simp only [if_true, hs2, Option.getD_none]
    have hb := (baseRule_default settings hs2).2.1
    cases hr : recordRules defaultRules (toStringJS id) with
    | none =>
      simp only [hb]
      rfl
    | some g =>
      exfalso
      unfold recordRules at hr
      split at hr
      · cases hr
      · split at hr
        · cases hr
        · simp [defaultRules] at hr
  · simp only [hc, if_false, hs1]
    rw [(baseRule_default settings hs2).2.1]

theorem actions_PUT : actions .PUT = ".update" := rfl

/-- What `canAccess` decides on the update of a stored record under the default rules,
for a principal whose id is not `==` to the record's `_ownerId`. -/
theorem canAccess_update_not_owner (a : Access) (c id : String) (rec u body : Props)
    (hnd : (a.settings.map Prod.fst).Nodup)
    (hs1 : lookup c a.settings = none) (hs2 : lookup "*" a.settings = none)
    (hu : a.user = some u)
    (hdiff : looseEq a.toNumber (getProp u "_id") (getProp rec "_ownerId") = false) :
    canAccess a .PUT (some c) (.obj (setProp rec "_id" (.str id))) (some body) =
      if a.isAdmin then .ok ⟨.obj (setProp rec "_id" (.str id)), some body⟩
      else .error credentialError := by
  have hres := getRule_update_default a.settings hnd c
    (getProp (setProp rec "_id" (.str id)) "_id") hs1 hs2
  rw [canAccess_roles a .PUT (some c) _ (some body) _ ["Owner"] [] (dataId_obj _) hres,
    checkRoles_owner a ["Owner"] _ u (by decide) (by decide) hu (by decide)]
  have ho : getProp (setProp rec "_id" (.str id)) "_ownerId" = getProp rec "_ownerId" := by
    rw [getProp_setProp]
    simp
  rw [ho, hdiff]
  cases a.isAdmin <;> rfl

/-- Ownership enforcement on update, for a payload without `null`: under the default
rules, the PUT of a principal whose id is not `==` to the `_ownerId` of the stored record
fails with `CredentialError` and leaves the store unchanged when the request has no admin
override, and with the admin override it succeeds and replaces the record, provided the
stored record has no field named `hasOwnProperty`. -/
theorem update_requires_owner (a : Access) (storage : Collections) (c id : String)
    (body : Props) (now : Int) (t : Collection) (rec u : Props)
    (hc : c ≠ "") (hid : id ≠ "") (hnd : (a.settings.map Prod.fst).Nodup)
    (hs1 : lookup c a.settings = none) (hs2 : lookup "*" a.settings = none)
    (h1 : lookup c storage = some t) (h2 : lookup id t = some rec)
    (hw : wfRecord rec = true) (hn : nullFreeProps rec = true)
    (hu : a.user = some u)
    (hdiff : looseEq a.toNumber (getProp u "_id") (getProp rec "_ownerId") = false) :
    (a.isAdmin = false →
      put a storage c [id] body now = ⟨storage, .error credentialError⟩) ∧
    (a.isAdmin = true → has rec "hasOwnProperty" = false →
      wfRecord body = true → nullFreeProps body = true →
      ∃ rec1, put a storage c [id] body now
          = ⟨mapSet storage c (mapSet t id rec1), .ok (.obj (setProp rec1 "_id" (.str id)))⟩ ∧
        lookup id (records (mapSet storage c (mapSet t id rec1)) c) = some rec1 ∧
        ∀ k, lookup k rec1 =
          if k = "_updatedOn" then some (.num now)
          else if systemProps.contains k && has rec k then lookup k rec
          else lookup k body) := by
  have hget := get_stored storage c id t rec hc hid h1 h2 hw hn
  have hacc := canAccess_update_not_owner a c id rec u body hnd hs1 hs2 hu hdiff
  constructor
  · intro ha
    unfold put
    rw [update_one, hget]
    simp only [hacc, ha]
    rfl
  · intro ha hes hbw hbn
    obtain ⟨rec1, hset, hl, hk⟩ :=
      set_spec storage c id body now t rec h1 h2 hw hn hes hbw hbn
    refine ⟨rec1, ?_, hl, hk⟩
    unfold put
    rw [update_one, hget]
    simp only [hacc, ha, if_true, Option.getD_some, hset]

/-- Witness for `update_requires_owner`: principal `u1` updates a record of `u2`. -/
theorem update_requires_owner_witness :
    put (requestOf (some "u1") false []) [("recipes", [("r1", [("_ownerId", .str "u2"),
        ("a", .num 0), ("_createdOn", .num 1)])])] "recipes" ["r1"] [("a", .num 1)] 9
      = ⟨[("recipes", [("r1", [("_ownerId", .str "u2"), ("a", .num 0),
          ("_createdOn", .num 1)])])], .error credentialError⟩ :=
  (update_requires_owner (requestOf (some "u1") false []) [("recipes", [("r1",
      [("_ownerId", .str "u2"), ("a", .num 0), ("_createdOn", .num 1)])])] "recipes" "r1"
      [("a", .num 1)] 9 [("r1", [("_ownerId", .str "u2"), ("a", .num 0),
        ("_createdOn", .num 1)])] [("_ownerId", .str "u2"), ("a", .num 0),
        ("_createdOn", .num 1)] [("_id", .str "u1")]
      (by decide) (by decide) (by decide) (by decide) (by decide) (by decide) (by decide)
      (by decide) (by decide) rfl (by decide)).1 rfl

end Handlers

/-- Claim C12 fails on the code: the PUT of a non-owner that carries the admin override
does not succeed when the payload has a `null` field: `set` throws the `TypeError` of
`deepCopy`, `put` turns it into `RequestError`, and the record is not replaced. -/
theorem admin_put_null_payload_fails :
    put (requestOf (some "u1") true []) [("recipes", [("r1", [("_ownerId", .str "u2"),
        ("a", .num 0), ("_createdOn", .num 1)])])] "recipes" ["r1"] [("a", .null)] 9
      = ⟨[("recipes", [("r1", [("_ownerId", .str "u2"), ("a", .num 0),
          ("_createdOn", .num 1)])])], .error requestError⟩ := by
  decide

end Crud

namespace Crud
open Storage Rules

/-- Claim C11 fails on the code: when a result record has no value under the id field of
a `load` specifier that targets `users`, `get(collection, undefined)` returns the list of
all users, `delete related.hashedPassword` acts on that array, and the users are attached
to the record with their `hashedPassword`. -/
theorem load_leaks_hashedPassword (stages : Stages) :
    get stages (requestOf none false [])
        [("recipes", [("r1", [("title", .str "Soup")])])]
        [("users", [("u1", [("email", .str "peter@abv.bg"),
          ("hashedPassword", .str "83313014")])])]
        (some "recipes") ["r1"] { load := some "author=_ownerId:users" }
      = .ok (.obj [("title", .str "Soup"), ("_id", .str "r1"),
          ("author", .arr [.obj [("email", .str "peter@abv.bg"),
            ("hashedPassword", .str "83313014"), ("_id", .str "u1")]])]) := by
  rfl

/-- Claim C15 fails on the code: on a read that returns a list, `delete data[prop]` acts
on the array, so the records of the list keep a field whose `read` rule is `false`. -/
theorem list_read_keeps_denied_field (stages : Stages) :
    get stages (requestOf none false
          [("recipes", ⟨[], some ⟨[], [("secret", [(".read", .bool false)])]⟩, []⟩)])
        [("recipes", [("r1", [("title", .str "Soup"), ("secret", .str "saffron")])])] []
        (some "recipes") [] {}
      = .ok (.arr [.obj [("title", .str "Soup"), ("secret", .str "saffron"),
          ("_id", .str "r1")]]) := by
  rfl

/-- The same read of the single record removes the field. -/
theorem single_read_drops_denied_field (stages : Stages) :
    get stages (requestOf none false
          [("recipes", ⟨[], some ⟨[], [("secret", [(".read", .bool false)])]⟩, []⟩)])
        [("recipes", [("r1", [("title", .str "Soup"), ("secret", .str "saffron")])])] []
        (some "recipes") ["r1"] {}
      = .ok (.obj [("title", .str "Soup"), ("_id", .str "r1")]) := by
  rfl

end Crud

namespace Storage

section CopySucceeds

mutual
/-- A value that `deepCopy` accepts holds no `null`. -/
theorem deepCopy_ok_nullFree : ∀ (v w : JSValue), deepCopy v = .ok w → v.nullFree = true
  | .undefined, _, _ => rfl
  | .null, w, h => by simp [deepCopy] at h
  | .bool _, _, _ => rfl
  | .num _, _, _ => rfl
  | .str _, _, _ => rfl
  | .arr xs, w, h => by
    simp only [deepCopy] at h
    cases hh : deepCopyMap xs with
    | error e => simp [hh] at h
    | ok ys =>
      simp only [JSValue.nullFree]
      exact deepCopyMap_ok_nullFree xs ys hh
  | .obj ps, w, h => by
    simp only [deepCopy] at h
    cases hh : deepCopyReduce ps [] with
    | error e => simp [hh] at h
    | ok qs =>
      simp only [JSValue.nullFree]
      exact deepCopyReduce_ok_nullFree ps [] qs hh
theorem deepCopyMap_ok_nullFree : ∀ (xs ys : List JSValue), deepCopyMap xs = .ok ys →
    nullFreeList xs = true
  | [], _, _ => rfl
  | x :: xs, ys, h => by
    simp only [deepCopyMap] at h
    cases h1 : deepCopy x with
    | error e => simp [h1] at h
    | ok y =>
      cases h2 : deepCopyMap xs with
      | error e => simp [h1, h2] at h
      | ok zs =>
        simp only [nullFreeList, Bool.and_eq_true]
        exact ⟨deepCopy_ok_nullFree x y h1, deepCopyMap_ok_nullFree xs zs h2⟩
theorem deepCopyReduce_ok_nullFree : ∀ (ps acc qs : Props),
    deepCopyReduce ps acc = .ok qs → nullFreeProps ps = true
  | [], _, _, _ => rfl
  | (k, v) :: rest, acc, qs, h => by
    simp only [deepCopyReduce] at h
    cases h1 : deepCopy v with
    | error e => simp [h1] at h
    | ok w =>
      simp only [h1] at h
      simp only [nullFreeProps, Bool.and_eq_true]
      exact ⟨deepCopy_ok_nullFree v w h1,
        deepCopyReduce_ok_nullFree rest (setProp acc k w) qs h⟩
end

/-- A well-formed record that `deepCopy` accepts is copied to an equal record. -/
theorem deepCopyObj_ok_eq (r c : Props) (h : deepCopyObj r = .ok c)
    (hw : wfRecord r = true) : c = r := by
  have hn := deepCopyReduce_ok_nullFree r [] c h
  have := deepCopyObj_eq_self r hw hn
  rw [h] at this
  exact Except.ok.inj this

/-- `assignClean` leaves the system fields of its target alone. -/
theorem lookup_assignClean_system (k : String) (hk : systemProps.contains k = true)
    (entry : Props) : ∀ target r : Props, assignClean target entry = .ok r →
      lookup k r = lookup k target := by
  induction entry with
  | nil =>
    intro target r h
    simp only [assignClean, Except.ok.injEq] at h
    rw [h]
  | cons p t ih =>
    intro target r h
    obtain ⟨a, v⟩ := p
    cases hs : systemProps.contains a
    · simp only [assignClean, hs, beq_self_eq_true, if_true] at h
      cases h1 : deepCopy v with
      | error e => simp [h1] at h
      | ok w =>
        simp only [h1] at h
        rw [ih _ r h, lookup_setProp]
        have : k ≠ a := by
          intro e
          rw [e, hs] at hk
          cases hk
        simp [this]
    · simp only [assignClean, hs] at h
      exact ih target r h

/-- The id that `add` uses is one of the generated values. -/
theorem freshId_mem (t : Collection) (uuids : List String) (id : String)
    (rest : List String) (h : freshId t uuids = some (id, rest)) : id ∈ uuids := by
  induction uuids with
  | nil => simp [freshId] at h
  | cons u us ih =>
    by_cases hu : has t u = true
    · simp only [freshId, hu, if_true] at h
      exact List.mem_cons_of_mem _ (ih h)
    · simp only [freshId, hu] at h
      simp only [Bool.false_eq_true, if_false, Option.some.injEq, Prod.mk.injEq] at h
      rw [← h.1]
      exact List.mem_cons_self _ _

/-- What a call of `add` that returns has stored and returned. -/
theorem add_ok_stored (cs : Collections) (c : String) (data : Props) (now : Int)
    (uuids : List String) (o : Outcome) (r : JSValue)
    (h : add cs c data now uuids = some o) (hr : o.result = .ok r)
    (hwo : (getProp data "_ownerId").wf = true) :
    ∃ id rec, id ∈ uuids ∧ has (records cs c) id = false ∧
      lookup c o.collections = some (records cs c ++ [(id, rec)]) ∧
      lookup id (records cs c ++ [(id, rec)]) = some rec ∧
      (∀ d, d ≠ c → lookup d o.collections = lookup d cs) ∧
      wfRecord rec = true ∧ nullFreeProps rec = true ∧
      lookup "_ownerId" rec = some (getProp data "_ownerId") ∧
      lookup "_createdOn" rec = some (.num now) ∧
      r = .obj (setProp rec "_id" (.str id)) := by
  unfold add at h
  cases h1 : assignClean [("_ownerId", getProp data "_ownerId")] data with
  | error e =>
    simp only [h1, Option.some.injEq] at h
    subst h
    simp at hr
  | ok record =>
    simp only [h1] at h
    have hrec : (lookup c cs).getD [] = records cs c := rfl
    rw [hrec] at h
    cases h2 : freshId (records cs c) uuids with
    | none => simp [h2] at h
    | some pr =>
      obtain ⟨id, rest⟩ := pr
      simp only [h2] at h
      have hfresh := freshId_fresh _ _ _ _ h2
      cases h3 : deepCopyObj (setProp record "_createdOn" (.num now)) with
      | error e =>
        simp only [h3, Option.some.injEq] at h
        subst h
        simp at hr
      | ok c2 =>
        simp only [h3, Option.some.injEq] at h
        subst h
        simp only [Except.ok.injEq] at hr
        subst hr
        have hwt : wfRecord [("_ownerId", getProp data "_ownerId")] = true := by
          simp [wfRecord, keysOK, wfProps, hwo]
        have hwr := (assignClean_wf data _ record h1 hwt).1
        have hw1 : wfRecord (setProp record "_createdOn" (.num now)) = true :=
          wfRecord_setProp _ _ _ rfl hwr
        have hc2 := deepCopyObj_ok_eq _ _ h3 hw1
        subst hc2
        have hown := lookup_assignClean_system "_ownerId" (by decide) data _ record h1
        refine ⟨id, setProp record "_createdOn" (.num now), freshId_mem _ _ _ _ h2, hfresh,
          ?_, ?_, ?_, hw1,
          deepCopyReduce_ok_nullFree _ [] _ h3, ?_, ?_, rfl⟩
        · rw [lookup_mapSet]
          simp [mapSet, hfresh]
        · have hl : lookup id (records cs c) = none := (has_eq_false_iff _ _).1 hfresh
          simp [lookup_append, hl, lookup_cons]
        · intro d hd
          rw [lookup_mapSet_of_ne _ _ _ _ hd]
          by_cases hh : has cs c = true
          · simp [hh]
          · simp [hh, lookup_mapSet_of_ne _ _ _ _ hd]
        · rw [lookup_setProp, hown]
          simp [lookup_cons]
        · rw [lookup_setProp]
          simp

end CopySucceeds

end Storage

namespace Crud
open Storage Rules

section OwnerRead

/-- A read of one record by id, without query options. -/
theorem get_one (stages : Stages) (a : Access) (storage protectedStorage : Collections)
    (c id : String) (hc : c ≠ "") :
    get stages a storage protectedStorage (some c) [id] {} =
      match Storage.get storage (some c) (some id) with
      | .error e =>
        if includes (JSError.message e) "does not exist" then .error notFoundError
        else .error (requestError (JSError.message e))
      | .ok responseData =>
        match canAccess a .GET (some c) responseData none with
        | .error e => .error e
        | .ok p => .ok p.data := by
  have hc2 : falsy (some c) = false := by simp [falsy_some, hc]
  cases h : Storage.get storage (some c) (some id) with
  | error e => simp [get, fetch, validateRequest, runStage, hc2, h]
  | ok v => simp [get, fetch, validateRequest, runStage, hc2, h]

/-- What a successful `post` has done: the rules let the request pass and `add` stored
the payload they left, with `_ownerId` set to the id of the principal. -/
theorem post_ok (a : Access) (storage : Collections) (c : String) (tokens : List String)
    (body : Props) (now : Int) (uuids : List String) (out : Created) (r : JSValue)
    (h : post a storage c tokens body now uuids = some out) (hr : out.result = .ok r) :
    ∃ u p o, a.user = some u ∧
      canAccess a .POST (some c) .undefined (some body) = .ok p ∧
      Storage.add storage c (setProp (p.newData.getD body) "_ownerId" (getProp u "_id"))
        now uuids = some o ∧
      o.collections = out.storage ∧ o.uuids = out.uuids ∧ o.result = .ok r := by
  unfold post at h
  cases hv : validateRequest tokens with
  | error e =>
    simp only [hv, Option.some.injEq] at h
    subst h
    cases hr
  | ok _ =>
    simp only [hv] at h
    split at h
    · simp only [Option.some.injEq] at h
      subst h
      cases hr
    · cases hacc : canAccess a .POST (some c) .undefined (some body) with
      | error e =>
        simp only [hacc, Option.some.injEq] at h
        subst h
        cases hr
      | ok p =>
        simp only [hacc] at h
        cases hu : a.user with
        | none =>
          simp only [hu, Option.some.injEq] at h
          subst h
          cases hr
        | some u =>
          simp only [hu] at h
          cases hadd : Storage.add storage c
              (setProp (p.newData.getD body) "_ownerId" (getProp u "_id")) now uuids with
          | none => simp [hadd] at h
          | some o =>
            simp only [hadd] at h
            cases hres : o.result with
            | error e =>
              simp only [hres, Option.some.injEq] at h
              subst h
              cases hr
            | ok v =>
              simp only [hres, Option.some.injEq] at h
              subst h
              simp only [Except.ok.injEq] at hr
              subst hr
              exact ⟨u, p, o, rfl, rfl, hadd, rfl, rfl, hres⟩

/-- The rule of a read under a collection entry that gives `[Owner]` for `read` and has
neither field rules nor sub-entries. -/
theorem getRule_read_owner (settings : RuleSet) (hnd : (settings.map Prod.fst).Nodup)
    (c : String) (id : JSValue) (acts : ActionRules)
    (hentry : lookup c settings = some ⟨acts, none, []⟩)
    (hread : lookup ".read" acts = some (.roles ["Owner"])) :
    getRule (initRules settings) ".read" c id = .ok ⟨.roles ["Owner"], []⟩ := by
  have hl : lookup c (initRules settings) = some ⟨acts, none, []⟩ := by
    rw [lookup_initRules settings hnd]
    by_cases hc : c = "*"
    · subst hc
      simp [hentry]
    · simp [hc, hentry]
  have hrec : recordRules ⟨acts, none, []⟩ (toStringJS id) = none := by
    unfold recordRules
    split
    · rfl
    · split
      · rfl
      · rfl
  rw [getRule_eq settings hnd]
  simp only [hl, hrec, hread]
  rfl

end OwnerRead

end Crud

namespace Crud
open Storage Rules

/-- Claim C14, as stated, fails: principal `A` creates a record in a collection whose read
rule is `[Owner]`; the read of principal `B` succeeds when the request carries the admin
override; and under a field rule `read: false` the read of `A` returns the record without
that field. -/
theorem owner_read_counterexample :
    (post (requestOf (some "A") false [("recipes", ⟨[(".read", .roles ["Owner"])], none, []⟩)])
        [] "recipes" [] [("title", .str "Soup")] 5 ["r1"]
      = some ⟨[("recipes", [("r1", [("_ownerId", .str "A"), ("title", .str "Soup"),
            ("_createdOn", .num 5)])])], [],
          .ok (.obj [("_ownerId", .str "A"), ("title", .str "Soup"), ("_createdOn", .num 5),
            ("_id", .str "r1")])⟩ ∧
      get plainStages
          (requestOf (some "B") true [("recipes", ⟨[(".read", .roles ["Owner"])], none, []⟩)])
          [("recipes", [("r1", [("_ownerId", .str "A"), ("title", .str "Soup"),
            ("_createdOn", .num 5)])])] [] (some "recipes") ["r1"] {}
        = .ok (.obj [("_ownerId", .str "A"), ("title", .str "Soup"), ("_createdOn", .num 5),
            ("_id", .str "r1")])) ∧
    (post (requestOf (some "A") false [("recipes", ⟨[(".read", .roles ["Owner"])],
          some ⟨[], [("title", [(".read", .bool false)])]⟩, []⟩)])
        [] "recipes" [] [("title", .str "Soup")] 5 ["r1"]
      = some ⟨[("recipes", [("r1", [("_ownerId", .str "A"), ("title", .str "Soup"),
            ("_createdOn", .num 5)])])], [],
          .ok (.obj [("_ownerId", .str "A"), ("title", .str "Soup"), ("_createdOn", .num 5),
            ("_id", .str "r1")])⟩ ∧
      get plainStages
          (requestOf (some "A") false [("recipes", ⟨[(".read", .roles ["Owner"])],
            some ⟨[], [("title", [(".read", .bool false)])]⟩, []⟩)])
          [("recipes", [("r1", [("_ownerId", .str "A"), ("title", .str "Soup"),
            ("_createdOn", .num 5)])])] [] (some "recipes") ["r1"] {}
        = .ok (.obj [("_ownerId", .str "A"), ("_createdOn", .num 5), ("_id", .str "r1")])) := by
  refine ⟨⟨?_, ?_⟩, ?_, ?_⟩ <;> rfl

/-- Claim C14, amended: in a collection whose entry in the rule set gives `[Owner]` for
`read` and has neither field rules nor sub-entries, after a create by principal `A` has
stored a record, the read of that record by id as a principal `B` with another id and
without the admin override fails with `CredentialError`, and the same read as `A`
returns the stored record, all of its fields included, with its `_id`. -/
theorem owner_read_end_to_end (stages : Stages) (aA aB : Access)
    (storage protectedStorage : Collections) (c : String) (body : Props) (now : Int)
    (uuids : List String) (out : Created) (r : JSValue) (uA uB : Props) (ida idb : String)
    (acts : ActionRules)
    (hc : c ≠ "") (hids : "" ∉ uuids)
    (hnd : (aA.settings.map Prod.fst).Nodup)
    (hentry : lookup c aA.settings = some ⟨acts, none, []⟩)
    (hread : lookup ".read" acts = some (.roles ["Owner"]))
    (hsB : aB.settings = aA.settings)
    (hA : aA.user = some uA) (hidA : getProp uA "_id" = .str ida)
    (hB : aB.user = some uB) (hidB : getProp uB "_id" = .str idb)
    (hne : idb ≠ ida) (hBadmin : aB.isAdmin = false)
    (hpost : post aA storage c [] body now uuids = some out) (hr : out.result = .ok r) :
    ∃ id rec, r = .obj (setProp rec "_id" (.str id)) ∧
      lookup id (records out.storage c) = some rec ∧
      lookup "_ownerId" rec = some (.str ida) ∧
      get stages aB out.storage protectedStorage (some c) [id] {}
        = .error credentialError ∧
      get stages aA out.storage protectedStorage (some c) [id] {} = .ok r := by
  obtain ⟨u, p, o, hu, _, hadd, hoc, _, hor⟩ := post_ok aA storage c [] body now uuids out r hpost hr
  rw [hA] at hu
  cases hu
  have hown : getProp (setProp (p.newData.getD body) "_ownerId" (getProp uA "_id")) "_ownerId"
      = .str ida := by
    rw [getProp_setProp, hidA]
    simp
  obtain ⟨id, rec, hmem, _, hlc, hli, _, hw, hn, hlo, _, hrv⟩ :=
    add_ok_stored storage c _ now uuids o r hadd hor (by rw [hown]; rfl)
  rw [hown] at hlo
  rw [hoc] at hlc
  have hidne : id ≠ "" := fun e => hids (e ▸ hmem)
  have hget := get_stored out.storage c id _ rec hc hidne hlc hli hw hn
  have hgo : getProp (setProp rec "_id" (.str id)) "_ownerId" = .str ida := by
    rw [getProp_setProp]
    simp [getProp, hlo]
  have hresA := getRule_read_owner aA.settings hnd c
    (getProp (setProp rec "_id" (.str id)) "_id") acts hentry hread
  have hresB : getRule (initRules aB.settings) (actions .GET) (collectionKey (some c))
      (getProp (setProp rec "_id" (.str id)) "_id") = .ok ⟨.roles ["Owner"], []⟩ := by
    rw [hsB]
    exact hresA
  refine ⟨id, rec, hrv, ?_, hlo, ?_, ?_⟩
  · show lookup id ((lookup c out.storage).getD []) = some rec
    rw [hlc]
    exact hli
  · rw [get_one stages aB _ _ c id hc, hget]
    simp only []
    rw [canAccess_roles aB .GET (some c) _ none _ ["Owner"] [] (dataId_obj _) hresB,
      checkRoles_owner aB ["Owner"] _ uB (by decide) (by decide) hB (by decide),
      hidB, hgo, looseEq_str]
    simp [hne, hBadmin]
  · rw [get_one stages aA _ _ c id hc, hget]
    simp only []
    rw [canAccess_roles aA .GET (some c) _ none _ ["Owner"] [] (dataId_obj _) hresA,
      checkRoles_owner aA ["Owner"] _ uA (by decide) (by decide) hA (by decide),
      hidA, hgo, looseEq_str]
    simp [applyPropRules, hrv]

end Crud

namespace Crud
open Storage Rules

/-- Witness for `owner_read_end_to_end`: `A` creates a recipe, `B` may not read it and
`A` reads it back whole. -/
theorem owner_read_end_to_end_witness :
    get plainStages
        (requestOf (some "B") false [("recipes", ⟨[(".read", .roles ["Owner"])], none, []⟩)])
        [("recipes", [("r1", [("_ownerId", .str "A"), ("title", .str "Soup"),
          ("_createdOn", .num 5)])])] [] (some "recipes") ["r1"] {}
      = .error credentialError ∧
    get plainStages
        (requestOf (some "A") false [("recipes", ⟨[(".read", .roles ["Owner"])], none, []⟩)])
        [("recipes", [("r1", [("_ownerId", .str "A"), ("title", .str "Soup"),
          ("_createdOn", .num 5)])])] [] (some "recipes") ["r1"] {}
      = .ok (.obj [("_ownerId", .str "A"), ("title", .str "Soup"), ("_createdOn", .num 5),
          ("_id", .str "r1")]) := by
  obtain ⟨id, rec, h1, _, _, h4, h5⟩ := owner_read_end_to_end plainStages
    (requestOf (some "A") false [("recipes", ⟨[(".read", .roles ["Owner"])], none, []⟩)])
    (requestOf (some "B") false [("recipes", ⟨[(".read", .roles ["Owner"])], none, []⟩)])
    [] [] "recipes" [("title", .str "Soup")] 5 ["r1"]
    ⟨[("recipes", [("r1", [("_ownerId", .str "A"), ("title", .str "Soup"),
        ("_createdOn", .num 5)])])], [],
      .ok (.obj [("_ownerId", .str "A"), ("title", .str "Soup"), ("_createdOn", .num 5),
        ("_id", .str "r1")])⟩
    (.obj [("_ownerId", .str "A"), ("title", .str "Soup"), ("_createdOn", .num 5),
        ("_id", .str "r1")])
    [("_id", .str "A")] [("_id", .str "B")] "A" "B" [(".read", .roles ["Owner"])]
    (by decide) (by decide) (by decide) rfl rfl rfl rfl rfl rfl rfl (by decide) rfl rfl rfl
  have hid : id = "r1" := by
    have := congrArg returnedId h1
    simp only [returnedId, getProp_setProp] at this
    simpa [getProp, lookup] using this.symm
  subst hid
  exact ⟨h4, h5⟩

end Crud

namespace Storage

section SystemFieldsKept

/-- A `set` that returns has stored a record whose system fields, `_updatedOn` apart, are
those of the record it replaced, wherever that record had them. -/
theorem set_ok_system (cs : Collections) (c id : String) (data : Props) (now : Int)
    (t : Collection) (existing : Props) (cs1 : Collections) (v : JSValue)
    (h1 : lookup c cs = some t) (h2 : lookup id t = some existing)
    (hew : wfRecord existing = true) (hen : nullFreeProps existing = true)
    (h : set cs c id data now = (cs1, .ok v)) :
    ∃ rec, lookup id (records cs1 c) = some rec ∧
      wfRecord rec = true ∧ nullFreeProps rec = true ∧
      ∀ k, systemProps.contains k = true → k ≠ "_updatedOn" → has existing k = true →
        lookup k rec = lookup k existing := by
  unfold set at h
  simp only [h1, h2] at h
  cases h3 : deepCopyObj data with
  | error e => simp [h3] at h
  | ok copy =>
    simp only [h3] at h
    obtain ⟨hcw, hcn⟩ := deepCopyObj_wf data copy h3
    have hew2 := hew
    simp only [wfRecord, Bool.and_eq_true] at hew2
    have hes : has existing "hasOwnProperty" = false := by
      cases hs : has existing "hasOwnProperty" with
      | false => rfl
      | true =>
        rw [assignSystemProps_shadowed copy existing hs] at h
        simp at h
    obtain ⟨record, hrec, hk⟩ :=
      assignSystemPropsLoop_spec existing hew2.2 hen hes systemProps copy
    have hrec2 : assignSystemProps copy existing = .ok record := hrec
    simp only [hrec2] at h
    obtain ⟨hrw, hrn⟩ := assignSystemPropsLoop_wf existing systemProps copy record hrec hcw hcn
    have hw1 : wfRecord (setProp record "_updatedOn" (.num now)) = true :=
      wfRecord_setProp _ _ _ rfl hrw
    have hn1 : nullFreeProps (setProp record "_updatedOn" (.num now)) = true :=
      nullFreeProps_setProp _ _ _ rfl hrn
    have hcs : cs1 = mapSet cs c (mapSet t id (setProp record "_updatedOn" (.num now))) := by
      cases h4 : deepCopyObj (setProp record "_updatedOn" (.num now)) with
      | error e => simp [h4] at h
      | ok c2 =>
        simp only [h4, Prod.mk.injEq] at h
        exact h.1.symm
    refine ⟨setProp record "_updatedOn" (.num now), ?_, hw1, hn1, ?_⟩
    · rw [hcs]
      simp [records, lookup_mapSet]
    · intro k hs hu he
      rw [lookup_setProp, if_neg hu, hk k, hs, he]
      rfl

/-- A `merge` that returns has stored a record whose system fields, `_updatedOn` apart,
are those of the record it replaced. -/
theorem merge_ok_system (cs : Collections) (c id : String) (data : Props) (now : Int)
    (t : Collection) (stored : Props) (cs1 : Collections) (v : JSValue)
    (h1 : lookup c cs = some t) (h2 : lookup id t = some stored)
    (hew : wfRecord stored = true) (hen : nullFreeProps stored = true)
    (h : merge cs c id data now = (cs1, .ok v)) :
    ∃ rec, lookup id (records cs1 c) = some rec ∧
      wfRecord rec = true ∧ nullFreeProps rec = true ∧
      ∀ k, systemProps.contains k = true → k ≠ "_updatedOn" →
        lookup k rec = lookup k stored := by
  unfold merge at h
  simp only [h1, h2, deepCopyObj_eq_self stored hew hen] at h
  cases h3 : assignClean stored data with
  | error e => simp [h3] at h
  | ok record =>
    simp only [h3] at h
    obtain ⟨hrw, hrn⟩ := assignClean_wf data stored record h3 hew
    have hw1 : wfRecord (setProp record "_updatedOn" (.num now)) = true :=
      wfRecord_setProp _ _ _ rfl hrw
    have hn1 : nullFreeProps (setProp record "_updatedOn" (.num now)) = true :=
      nullFreeProps_setProp _ _ _ rfl (hrn hen)
    have hcs : cs1 = mapSet cs c (mapSet t id (setProp record "_updatedOn" (.num now))) := by
      cases h4 : deepCopyObj (setProp record "_updatedOn" (.num now)) with
      | error e => simp [h4] at h
      | ok c2 =>
        simp only [h4, Prod.mk.injEq] at h
        exact h.1.symm
    refine ⟨setProp record "_updatedOn" (.num now), ?_, hw1, hn1, ?_⟩
    · rw [hcs]
      simp [records, lookup_mapSet]
    · intro k hs hu
      rw [lookup_setProp, if_neg hu]
      exact lookup_assignClean_system k hs data stored record h3

end SystemFieldsKept

end Storage

namespace Crud
open Storage Rules

/-- An update that returns has called `write` on the record named by the path, and the
store it leaves and the value it returns are those of `write`. -/
theorem update_ok (write : Collections → String → String → Props → Int →
      Collections × Except JSError JSValue)
    (m : Method) (a : Access) (storage : Collections) (c : String) (tokens : List String)
    (body : Props) (now : Int) (st1 : Collections) (v : JSValue)
    (h : update write m a storage c tokens body now = ⟨st1, .ok v⟩) :
    ∃ id data, tokens = [id] ∧ write storage c id data now = (st1, .ok v) := by
  unfold update at h
  cases hv : validateRequest tokens with
  | error e =>
    simp only [hv] at h
    cases h
  | ok _ =>
    simp only [hv] at h
    match tokens, h with
    | [], h => cases h
    | _ :: _ :: _, h => cases h
    | [id], h =>
      simp only [] at h
      cases hg : Storage.get storage (some c) (some id) with
      | error e =>
        simp only [hg] at h
        cases h
      | ok existing =>
        simp only [hg] at h
        cases hacc : canAccess a m (some c) existing (some body) with
        | error e =>
          simp only [hacc] at h
          cases h
        | ok p =>
          simp only [hacc] at h
          cases hw : write storage c id (p.newData.getD body) now with
          | mk s1 res =>
            cases res with
            | error e =>
              simp only [hw] at h
              cases h
            | ok w =>
              simp only [hw, Response.mk.injEq, Except.ok.injEq] at h
              exact ⟨id, p.newData.getD body, rfl, by rw [hw, h.1, h.2]⟩

end Crud

namespace Crud
open Storage Rules

/-- Claim C20: a create (POST) by an authenticated principal that returns has stored a
record whose `_ownerId` is the id of that principal, whatever `_ownerId` the payload
carried, and whose `_createdOn` is the time of the call; and every PUT or PATCH that
returns, on a store holding under the same id a record with these two values, whatever
its payload and its principal, leaves a record with the same `_ownerId` and
`_createdOn`. -/
theorem owner_and_creation_fixed (a : Access) (storage : Collections) (c : String)
    (tokens : List String) (body : Props) (now : Int) (uuids : List String) (out : Created)
    (r : JSValue) (u : Props) (uid : String)
    (hu : a.user = some u) (hid : getProp u "_id" = .str uid)
    (hpost : post a storage c tokens body now uuids = some out) (hr : out.result = .ok r) :
    ∃ id rec, r = .obj (setProp rec "_id" (.str id)) ∧
      lookup id (records out.storage c) = some rec ∧
      wfRecord rec = true ∧ nullFreeProps rec = true ∧
      lookup "_ownerId" rec = some (.str uid) ∧ lookup "_createdOn" rec = some (.num now) ∧
      ∀ (a2 : Access) (st : Collections) (rec0 body2 : Props) (now2 : Int)
        (st1 : Collections) (v : JSValue),
        lookup id (records st c) = some rec0 →
        wfRecord rec0 = true → nullFreeProps rec0 = true →
        lookup "_ownerId" rec0 = some (.str uid) →
        lookup "_createdOn" rec0 = some (.num now) →
        (put a2 st c [id] body2 now2 = ⟨st1, .ok v⟩ ∨
          patch a2 st c [id] body2 now2 = ⟨st1, .ok v⟩) →
        ∃ rec1, lookup id (records st1 c) = some rec1 ∧
          wfRecord rec1 = true ∧ nullFreeProps rec1 = true ∧
          lookup "_ownerId" rec1 = some (.str uid) ∧
          lookup "_createdOn" rec1 = some (.num now) := by
  obtain ⟨u2, p, o, hu2, _, hadd, hoc, _, hor⟩ :=
    post_ok a storage c tokens body now uuids out r hpost hr
  rw [hu] at hu2
  cases hu2
  have hown : getProp (setProp (p.newData.getD body) "_ownerId" (getProp u "_id")) "_ownerId"
      = .str uid := by
    rw [getProp_setProp, hid]
    simp
  obtain ⟨id, rec, _, _, hlc, hli, _, hw, hn, hlo, hlt, hrv⟩ :=
    add_ok_stored storage c _ now uuids o r hadd hor (by rw [hown]; rfl)
  rw [hown] at hlo
  rw [hoc] at hlc
  refine ⟨id, rec, hrv, ?_, hw, hn, hlo, hlt, ?_⟩
  · show lookup id ((lookup c out.storage).getD []) = some rec
    rw [hlc]
    exact hli
  · intro a2 st rec0 body2 now2 st1 v hl0 hw0 hn0 ho0 ht0 hput
    have hl0b : lookup id ((lookup c st).getD []) = some rec0 := hl0
    cases hct : lookup c st with
    | none =>
      rw [hct] at hl0b
      cases hl0b
    | some t =>
      rw [hct] at hl0b
      have hl0c : lookup id t = some rec0 := hl0b
      have hho : has rec0 "_ownerId" = true := (has_eq_true_iff _ _).2 ⟨_, ho0⟩
      have hht : has rec0 "_createdOn" = true := (has_eq_true_iff _ _).2 ⟨_, ht0⟩
      rcases hput with hput | hput
      · obtain ⟨id2, data, htok, hwr⟩ := update_ok Storage.set .PUT a2 st c [id] body2 now2 st1 v hput
        cases htok
        obtain ⟨rec1, hl1, hw1, hn1, hk⟩ :=
          set_ok_system st c id data now2 t rec0 st1 v hct hl0c hw0 hn0 hwr
        exact ⟨rec1, hl1, hw1, hn1,
          (hk "_ownerId" (by decide) (by decide) hho).trans ho0,
          (hk "_createdOn" (by decide) (by decide) hht).trans ht0⟩
      · obtain ⟨id2, data, htok, hwr⟩ := update_ok Storage.merge .PATCH a2 st c [id] body2 now2 st1 v hput
        cases htok
        obtain ⟨rec1, hl1, hw1, hn1, hk⟩ :=
          merge_ok_system st c id data now2 t rec0 st1 v hct hl0c hw0 hn0 hwr
        exact ⟨rec1, hl1, hw1, hn1,
          (hk "_ownerId" (by decide) (by decide)).trans ho0,
          (hk "_createdOn" (by decide) (by decide)).trans ht0⟩

/-- Witness for `owner_and_creation_fixed`: `A` creates a recipe with a payload that names
another owner, then sends a PUT whose payload names another owner and creation time. -/
theorem owner_and_creation_fixed_witness :
    ∃ rec1, lookup "r1" (records
        [("recipes", [("r1", [("title", .str "Stew"), ("_ownerId", .str "A"),
          ("_createdOn", .num 5), ("_updatedOn", .num 9)])])] "recipes") = some rec1 ∧
      lookup "_ownerId" rec1 = some (.str "A") ∧
      lookup "_createdOn" rec1 = some (.num 5) := by
  obtain ⟨id, rec, h1, _, _, _, _, _, hstep⟩ := owner_and_creation_fixed
    (requestOf (some "A") false []) [] "recipes" []
    [("title", .str "Soup"), ("_ownerId", .str "X")] 5 ["r1"]
    ⟨[("recipes", [("r1", [("_ownerId", .str "A"), ("title", .str "Soup"),
        ("_createdOn", .num 5)])])], [],
      .ok (.obj [("_ownerId", .str "A"), ("title", .str "Soup"), ("_createdOn", .num 5),
        ("_id", .str "r1")])⟩
    (.obj [("_ownerId", .str "A"), ("title", .str "Soup"), ("_createdOn", .num 5),
        ("_id", .str "r1")])
    [("_id", .str "A")] "A" rfl rfl rfl rfl
  have hid : id = "r1" := by
    have := congrArg returnedId h1
    simp only [returnedId, getProp_setProp] at this
    simpa [getProp, lookup] using this.symm
  subst hid
  obtain ⟨rec1, hl, _, _, ho, ht⟩ := hstep (requestOf (some "A") false [])
    [("recipes", [("r1", [("_ownerId", .str "A"), ("title", .str "Soup"),
        ("_createdOn", .num 5)])])]
    [("_ownerId", .str "A"), ("title", .str "Soup"), ("_createdOn", .num 5)]
    [("title", .str "Stew"), ("_ownerId", .str "Y"), ("_createdOn", .num 0)] 9
    [("recipes", [("r1", [("title", .str "Stew"), ("_ownerId", .str "A"),
          ("_createdOn", .num 5), ("_updatedOn", .num 9)])])]
    (.obj [("title", .str "Stew"), ("_ownerId", .str "A"),
          ("_createdOn", .num 5), ("_updatedOn", .num 9), ("_id", .str "r1")])
    rfl (by decide) (by decide) rfl rfl (Or.inl rfl)
  exact ⟨rec1, hl, ho, ht⟩

end Crud

namespace Rules
open Storage

section FieldRules

theorem canAccess_eq (a : Access) (m : Method) (c : Option String) (data : JSValue)
    (newData : Option Props) :
    canAccess a m c data newData =
      match dataId data with
      | .error e => .error (.fault e)
      | .ok id =>
        match getRule (initRules a.settings) (actions m) (collectionKey c) id with
        | .error e => .error (.fault e)
        | .ok resolved =>
          match topRule a resolved.rule data newData with
          | .error e => .error e
          | .ok (rule, p) =>
            if !rule && !a.isAdmin then .error credentialError
            else applyPropRules a (actions m) resolved.propRules p := by
  rfl

theorem applyPropRule_eq (a : Access) (action : String) (entry : String × Rule)
    (p : Payloads) :
    applyPropRule a action entry p =
      match ruleValue a entry.2 p with
      | .error e => .error e
      | .ok (rule, q) =>
        if looseEq a.toNumber rule (.bool false) then
          if action = ".create" ∨ action = ".update" then
            match q.newData with
            | none => .error (.fault (.typeError "Cannot convert undefined or null to object"))
            | some newData => .ok ⟨q.data, some (mapDelete newData entry.1)⟩
          else if action = ".read" then
            match deleteMember q.data entry.1 with
            | .error e => .error (.fault e)
            | .ok data => .ok ⟨data, q.newData⟩
          else .ok q
        else .ok q := by
  rfl

end FieldRules

end Rules

namespace Rules
open Storage

section AdminOverride

/-- With the admin override, a role list throws nothing. -/
theorem checkRoles_admin (a : Access) (R : List String) (data : JSValue)
    (ha : a.isAdmin = true) (e : Failure) (h : checkRoles a R data = .error e) :
    ∃ f, e = .fault f := by
  unfold checkRoles at h
  split at h
  · cases h
  · split at h
    · rename_i _ hc
      simp [ha] at hc
    · split at h
      · cases h
      · split at h
        · split at h
          · split at h
            · exact ⟨_, (Except.error.inj h).symm⟩
            · cases h
          · cases h
        · cases h

/-- With the admin override, the evaluation of the top-level rule throws nothing but
faults. -/
theorem topRule_admin (a : Access) (rule : Rule) (data : JSValue) (newData : Option Props)
    (ha : a.isAdmin = true) (e : Failure) (h : topRule a rule data newData = .error e) :
    ∃ f, e = .fault f := by
  unfold topRule at h
  cases rule with
  | bool b => cases h
  | roles tags =>
    simp only at h
    cases hc : checkRoles a tags data with
    | error e1 =>
      simp only [hc] at h
      have he : e1 = e := Except.error.inj h
      subst he
      exact checkRoles_admin a tags data ha e1 hc
    | ok b =>
      simp only [hc] at h
      cases h
  | expr source =>
    simp only at h
    cases hev : a.ev source a.user data newData with
    | error f =>
      simp only [hev] at h
      exact ⟨f, (Except.error.inj h).symm⟩
    | ok r =>
      simp only [hev] at h
      cases h

/-- The admin override and the rules: a request that carries the override is refused
neither with `CredentialError` nor with `AuthorizationError`; when its top-level rule has
a value, whether `true` or `false`, every resolved field rule is applied to what the
evaluation of that rule left; and a field rule whose value is `== false` removes its field
from the payload of a create or update and from a record that is read. -/
theorem admin_override_field_rules (a : Access) (m : Method) (c : Option String)
    (data : JSValue) (newData : Option Props) (ha : a.isAdmin = true) :
    (∀ e, canAccess a m c data newData = .error e → ∃ f, e = .fault f) ∧
    (∀ id resolved b p, dataId data = .ok id →
      getRule (initRules a.settings) (actions m) (collectionKey c) id = .ok resolved →
      topRule a resolved.rule data newData = .ok (b, p) →
      canAccess a m c data newData = applyPropRules a (actions m) resolved.propRules p) ∧
    (∀ (f : String) (r : Rule) (p q : Payloads) (v : JSValue),
      ruleValue a r p = .ok (v, q) → looseEq a.toNumber v (.bool false) = true →
      (∀ nd, m ≠ .GET → m ≠ .DELETE → q.newData = some nd →
        applyPropRule a (actions m) (f, r) p = .ok ⟨q.data, some (mapDelete nd f)⟩) ∧
      (∀ d, m = .GET → q.data = .obj d →
        applyPropRule a (actions m) (f, r) p = .ok ⟨.obj (mapDelete d f), q.newData⟩)) := by
  refine ⟨?_, ?_, ?_⟩
  · intro e h
    rw [canAccess_eq] at h
    cases hid : dataId data with
    | error f =>
      simp only [hid] at h
      exact ⟨f, (Except.error.inj h).symm⟩
    | ok id =>
      simp only [hid] at h
      cases hres : getRule (initRules a.settings) (actions m) (collectionKey c) id with
      | error f =>
        simp only [hres] at h
        exact ⟨f, (Except.error.inj h).symm⟩
      | ok resolved =>
        simp only [hres] at h
        cases htop : topRule a resolved.rule data newData with
        | error e1 =>
          simp only [htop] at h
          have he : e1 = e := Except.error.inj h
          subst he
          exact topRule_admin a _ data newData ha e1 htop
        | ok bp =>
          obtain ⟨b, p⟩ := bp
          simp only [htop, ha, Bool.not_true, Bool.and_false, Bool.false_eq_true,
            if_false] at h
          exact applyPropRules_error a _ _ p e h
  · intro id resolved b p hid hres htop
    rw [canAccess_eq]
    simp only [hid, hres, htop, ha, Bool.not_true, Bool.and_false, Bool.false_eq_true,
      if_false]
  · intro f r p q v hv hfalse
    constructor
    · intro nd hg hd hnd
      have hact : actions m = ".create" ∨ actions m = ".update" := by
        cases m
        · exact absurd rfl hg
        · exact Or.inl rfl
        · exact Or.inr rfl
        · exact Or.inr rfl
        · exact absurd rfl hd
      rw [applyPropRule_eq]
      simp only [hv, hfalse, if_true, hact, hnd]
    · intro d hg hd
      subst hg
      rw [applyPropRule_eq]
      simp only [hv, hfalse, if_true, hd]
      rfl

end AdminOverride

end Rules

namespace Crud
open Storage Rules

/-- Claim C17 fails on the code for a read that returns a list: with the admin override
and a top-level rule `false` the read is let through, the field rule `read: false` of
`secret` is applied, and `delete data[prop]` acts on the array, so the records returned
keep the field. -/
theorem admin_list_read_keeps_denied_field (stages : Stages) :
    get stages (requestOf (some "B") true [("recipes", ⟨[(".read", .bool false)],
          some ⟨[], [("secret", [(".read", .bool false)])]⟩, []⟩)])
        [("recipes", [("r1", [("title", .str "Soup"), ("secret", .str "saffron")])])] []
        (some "recipes") [] {}
      = .ok (.arr [.obj [("title", .str "Soup"), ("secret", .str "saffron"),
          ("_id", .str "r1")]]) := by
  rfl

end Crud

namespace Storage

section Delete

theorem map_fst_mapDelete (o : Props) (k : String) :
    (mapDelete o k).map Prod.fst = (o.map Prod.fst).filter (fun j => !decide (j = k)) := by
  induction o with
  | nil => rfl
  | cons p t ih =>
    obtain ⟨a, v⟩ := p
    unfold mapDelete at ih ⊢
    by_cases hak : a = k <;> simp [List.filter_cons, hak, ih]

/-- Deleting a property keeps a record well formed. -/
theorem wfRecord_mapDelete (o : Props) (k : String) (h : wfRecord o = true) :
    wfRecord (mapDelete o k) = true := by
  simp only [wfRecord, Bool.and_eq_true] at h ⊢
  constructor
  · rw [map_fst_mapDelete]
    exact keysOK_filter _ _ h.1
  · have h2 := h.2
    rw [wfProps_eq_all, List.all_eq_true] at h2 ⊢
    exact fun p hp => h2 p (List.mem_of_mem_filter hp)

theorem nullFreeProps_mapDelete (o : Props) (k : String) (h : nullFreeProps o = true) :
    nullFreeProps (mapDelete o k) = true := by
  rw [nullFreeProps_eq_all, List.all_eq_true] at *
  exact fun p hp => h p (List.mem_of_mem_filter hp)

end Delete

end Storage

namespace Rules
open Storage

section WritePayload

/-- The field rules of a create or update, when the evaluation of each leaves `data` and
`newData` as they are: the payload that remains is the payload without some of its
fields; a field one of whose rules has the value `== false` in every state is among the
fields removed, and a field none of whose rules ever has such a value is kept. -/
theorem applyPropRules_write (a : Access) (action : String)
    (hact : action = ".create" ∨ action = ".update") (data : JSValue)
    (rules : List (String × Rule))
    (hpure : ∀ e ∈ rules, ∀ p, ∃ v, ruleValue a e.2 p = .ok (v, p)) :
    ∀ body : Props, ∃ nd, applyPropRules a action rules ⟨data, some body⟩
        = .ok ⟨data, some nd⟩ ∧
      (wfRecord body = true → wfRecord nd = true) ∧
      (nullFreeProps body = true → nullFreeProps nd = true) ∧
      (∀ k, lookup k nd = none ∨ lookup k nd = lookup k body) ∧
      (∀ f r, (f, r) ∈ rules →
        (∀ p v, ruleValue a r p = .ok (v, p) → looseEq a.toNumber v (.bool false) = true) →
        lookup f nd = none) ∧
      (∀ g, (∀ r, (g, r) ∈ rules → ∀ p v, ruleValue a r p = .ok (v, p) →
          looseEq a.toNumber v (.bool false) = false) →
        lookup g nd = lookup g body) := by
  induction rules with
  | nil =>
    intro body
    refine ⟨body, rfl, id, id, fun k => Or.inr rfl, ?_, fun g _ => rfl⟩
    intro f r hm
    cases hm
  | cons e rest ih =>
    intro body
    obtain ⟨f0, r0⟩ := e
    obtain ⟨v, hv⟩ := hpure (f0, r0) (List.mem_cons_self _ _) ⟨data, some body⟩
    have hpure2 : ∀ e ∈ rest, ∀ p, ∃ v, ruleValue a e.2 p = .ok (v, p) :=
      fun e he => hpure e (List.mem_cons_of_mem _ he)
    by_cases hd : looseEq a.toNumber v (.bool false) = true
    · have hstep : applyPropRule a action (f0, r0) ⟨data, some body⟩
          = .ok ⟨data, some (mapDelete body f0)⟩ := by
        rw [applyPropRule_eq]
        simp only [hv, hd, if_true, hact]
      obtain ⟨nd, hnd, hw, hn, hsub, hden, hkeep⟩ := ih hpure2 (mapDelete body f0)
      refine ⟨nd, ?_, ?_, ?_, ?_, ?_, ?_⟩
      · simp only [applyPropRules, hstep]
        exact hnd
      · exact fun h => hw (wfRecord_mapDelete _ _ h)
      · exact fun h => hn (nullFreeProps_mapDelete _ _ h)
      · intro k
        rcases hsub k with h | h
        · exact Or.inl h
        · rw [h, lookup_mapDelete]
          by_cases hk : k = f0
          · simp [hk]
          · simp [hk]
      · intro f r hm hall
        rcases List.mem_cons.1 hm with h | h
        · have hf : f = f0 := (Prod.mk.inj h).1
          rcases hsub f with h2 | h2
          · exact h2
          · rw [h2, lookup_mapDelete]
            simp [hf]
        · exact hden f r h hall
      · intro g hall
        have hg : g ≠ f0 := by
          intro e
          subst e
          have := hall r0 (List.mem_cons_self _ _) _ v hv
          rw [hd] at this
          cases this
        rw [hkeep g (fun r hm => hall r (List.mem_cons_of_mem _ hm)), lookup_mapDelete]
        simp [hg]
    · have hstep : applyPropRule a action (f0, r0) ⟨data, some body⟩
          = .ok ⟨data, some body⟩ := by
        rw [applyPropRule_eq]
        simp only [hv, hd]
        rfl
      obtain ⟨nd, hnd, hw, hn, hsub, hden, hkeep⟩ := ih hpure2 body
      refine ⟨nd, ?_, hw, hn, hsub, ?_, ?_⟩
      · simp only [applyPropRules, hstep]
        exact hnd
      · intro f r hm hall
        rcases List.mem_cons.1 hm with h | h
        · have hr : r = r0 := (Prod.mk.inj h).2
          rw [hr] at hall
          exact absurd (hall _ v hv) hd
        · exact hden f r h hall
      · intro g hall
        exact hkeep g (fun r hm => hall r (List.mem_cons_of_mem _ hm))

end WritePayload

end Rules

namespace Crud
open Storage Rules

/-- Claim C16, as stated, fails: a create under the field rule `create: false` for
`_ownerId` stores a record that contains `_ownerId` (the id of the principal); and a full
update whose payload carries `_createdOn` does not store that field unchanged (the stored
record keeps the creation time it had). -/
theorem silent_drop_counterexample :
    post (requestOf (some "A") false
          [("recipes", ⟨[], some ⟨[], [("_ownerId", [(".create", .bool false)])]⟩, []⟩)])
        [] "recipes" [] [("title", .str "Soup"), ("_ownerId", .str "X")] 5 ["r1"]
      = some ⟨[("recipes", [("r1", [("_ownerId", .str "A"), ("title", .str "Soup"),
            ("_createdOn", .num 5)])])], [],
          .ok (.obj [("_ownerId", .str "A"), ("title", .str "Soup"), ("_createdOn", .num 5),
            ("_id", .str "r1")])⟩ ∧
    put (requestOf (some "A") false
          [("recipes", ⟨[], some ⟨[], [("secret", [(".update", .bool false)])]⟩, []⟩)])
        [("recipes", [("r1", [("_ownerId", .str "A"), ("title", .str "Soup"),
            ("_createdOn", .num 5)])])]
        "recipes" ["r1"] [("title", .str "Stew"), ("secret", .str "x"), ("_createdOn", .num 0)] 9
      = ⟨[("recipes", [("r1", [("title", .str "Stew"), ("_createdOn", .num 5),
            ("_ownerId", .str "A"), ("_updatedOn", .num 9)])])],
          .ok (.obj [("title", .str "Stew"), ("_createdOn", .num 5),
            ("_ownerId", .str "A"), ("_updatedOn", .num 9), ("_id", .str "r1")])⟩ := by
  constructor <;> rfl

end Crud

namespace Crud
open Storage Rules

/-- Claim C16, amended: take a payload that holds no `null` and no property named
`__proto__`, and field rules whose evaluation leaves `data` and the payload as they are.
A create (POST), or a full update (PUT) of a record that has no field named
`hasOwnProperty` and no property named `__proto__`, that the top-level rule lets through (it has the value `true`, or the
request has the admin override) succeeds; the record it stores has no field `f` outside
the system fields for which a resolved field rule has the value `== false`, whatever the
payload carried for `f`; and every payload field outside the system fields for which no
resolved field rule has such a value is stored unchanged. -/
theorem silent_drop_on_write (a : Access) (storage : Collections) (c : String)
    (body : Props) (now : Int) (rule : Rule) (propRules : List (String × Rule)) (b : Bool)
    (hw : wfRecord body = true) (hn : nullFreeProps body = true)
    (_hproto : protoFreeProps body = true)
    (hpure : ∀ e ∈ propRules, ∀ p, ∃ v, ruleValue a e.2 p = .ok (v, p))
    (hpass : b = true ∨ a.isAdmin = true) :
    (∀ (u : Props) (uid : String) (uuids : List String) (id : String) (rest : List String),
      a.user = some u → getProp u "_id" = .str uid →
      getRule (initRules a.settings) ".create" c .undefined = .ok ⟨rule, propRules⟩ →
      topRule a rule .undefined (some body) = .ok (b, ⟨.undefined, some body⟩) →
      freshId (records storage c) uuids = some (id, rest) →
      ∃ st1 rec, post a storage c [] body now uuids
          = some ⟨st1, rest, .ok (.obj (setProp rec "_id" (.str id)))⟩ ∧
        lookup id (records st1 c) = some rec ∧
        (∀ f r, (f, r) ∈ propRules → systemProps.contains f = false →
          (∀ p v, ruleValue a r p = .ok (v, p) → looseEq a.toNumber v (.bool false) = true) →
          lookup f rec = none) ∧
        (∀ g, systemProps.contains g = false →
          (∀ r, (g, r) ∈ propRules → ∀ p v, ruleValue a r p = .ok (v, p) →
            looseEq a.toNumber v (.bool false) = false) →
          lookup g rec = lookup g body)) ∧
    (∀ (id : String) (t : Collection) (rec0 : Props),
      c ≠ "" → id ≠ "" → lookup c storage = some t → lookup id t = some rec0 →
      wfRecord rec0 = true → nullFreeProps rec0 = true →
      has rec0 "hasOwnProperty" = false → protoFreeProps rec0 = true →
      getRule (initRules a.settings) ".update" c (.str id) = .ok ⟨rule, propRules⟩ →
      topRule a rule (.obj (setProp rec0 "_id" (.str id))) (some body)
        = .ok (b, ⟨.obj (setProp rec0 "_id" (.str id)), some body⟩) →
      ∃ st1 rec, put a storage c [id] body now
          = ⟨st1, .ok (.obj (setProp rec "_id" (.str id)))⟩ ∧
        lookup id (records st1 c) = some rec ∧
        (∀ f r, (f, r) ∈ propRules → systemProps.contains f = false →
          (∀ p v, ruleValue a r p = .ok (v, p) → looseEq a.toNumber v (.bool false) = true) →
          lookup f rec = none) ∧
        (∀ g, systemProps.contains g = false →
          (∀ r, (g, r) ∈ propRules → ∀ p v, ruleValue a r p = .ok (v, p) →
            looseEq a.toNumber v (.bool false) = false) →
          lookup g rec = lookup g body)) := by
  have hgate : (!b && !a.isAdmin) = false := by
    rcases hpass with h | h <;> simp [h]
  constructor
  · intro u uid uuids id rest hu hid hres htop hfresh
    obtain ⟨nd, hnd, hndw, hndn, _, hden, hkeep⟩ :=
      applyPropRules_write a ".create" (Or.inl rfl) .undefined propRules hpure body
    have hcan : canAccess a .POST (some c) .undefined (some body)
        = .ok ⟨.undefined, some nd⟩ := by
      rw [canAccess_eq]
      have hid0 : dataId .undefined = .ok .undefined := rfl
      have hres2 : getRule (initRules a.settings) (actions .POST) (collectionKey (some c))
          .undefined = .ok ⟨rule, propRules⟩ := hres
      simp only [hid0, hres2, htop, hgate, Bool.false_eq_true, if_false]
      exact hnd
    have hw1 : wfRecord (setProp nd "_ownerId" (.str uid)) = true :=
      wfRecord_setProp _ _ _ rfl (hndw hw)
    have hn1 : nullFreeProps (setProp nd "_ownerId" (.str uid)) = true :=
      nullFreeProps_setProp _ _ _ rfl (hndn hn)
    obtain ⟨cs2, hadd, hlc, _, hk, _⟩ :=
      add_spec storage c (setProp nd "_ownerId" (.str uid)) now uuids id rest hw1 hn1 hfresh
    have hnon : ∀ k, systemProps.contains k = false →
        lookup k (addedRecord (setProp nd "_ownerId" (.str uid)) now) = lookup k nd := by
      intro k hs
      rw [hk k hs, lookup_setProp]
      have : k ≠ "_ownerId" := by
        intro e
        rw [e] at hs
        cases hs
      simp [this]
    refine ⟨cs2, addedRecord (setProp nd "_ownerId" (.str uid)) now, ?_, ?_, ?_, ?_⟩
    · simp [post, validateRequest, hcan, hu, hid, hadd]
    · have hl : lookup id (records storage c) = none :=
        (has_eq_false_iff _ _).1 (freshId_fresh _ _ _ _ hfresh)
      show lookup id ((lookup c cs2).getD []) = some _
      rw [hlc]
      simp [lookup_append, hl, lookup_cons]
    · intro f r hm hs hall
      rw [hnon f hs]
      exact hden f r hm hall
    · intro g hs hall
      rw [hnon g hs]
      exact hkeep g hall
  · intro id t rec0 hc hid h1 h2 hw0 hn0 hs0 _ hres htop
    obtain ⟨nd, hnd, hndw, hndn, _, hden, hkeep⟩ :=
      applyPropRules_write a ".update" (Or.inr rfl) (.obj (setProp rec0 "_id" (.str id)))
        propRules hpure body
    have hget := get_stored storage c id t rec0 hc hid h1 h2 hw0 hn0
    have hcan : canAccess a .PUT (some c) (.obj (setProp rec0 "_id" (.str id))) (some body)
        = .ok ⟨.obj (setProp rec0 "_id" (.str id)), some nd⟩ := by
      rw [canAccess_eq]
      have hid0 : dataId (.obj (setProp rec0 "_id" (.str id))) = .ok (.str id) := by
        rw [dataId_obj, getProp_setProp]
        simp
      have hres2 : getRule (initRules a.settings) (actions .PUT) (collectionKey (some c))
          (.str id) = .ok ⟨rule, propRules⟩ := hres
      simp only [hid0, hres2, htop, hgate, Bool.false_eq_true, if_false]
      exact hnd
    obtain ⟨rec1, hset, hl, hk⟩ :=
      set_spec storage c id nd now t rec0 h1 h2 hw0 hn0 hs0 (hndw hw) (hndn hn)
    have hnon : ∀ k, systemProps.contains k = false → lookup k rec1 = lookup k nd := by
      intro k hs
      rw [hk k]
      have : k ≠ "_updatedOn" := by
        intro e
        rw [e] at hs
        cases hs
      rw [if_neg this, hs]
      rfl
    refine ⟨_, rec1, ?_, hl, ?_, ?_⟩
    · unfold put
      rw [update_one, hget]
      simp only [hcan, Option.getD_some, hset]
    · intro f r hm hs hall
      rw [hnon f hs]
      exact hden f r hm hall
    · intro g hs hall
      rw [hnon g hs]
      exact hkeep g hall

/-- Witness for `silent_drop_on_write`: a create, and a full update of a stored record,
whose payload carries `secret`, under a field rule `false` for `secret`. -/
theorem silent_drop_on_write_witness :
    (∃ st1 rec, post (requestOf (some "A") false
          [("recipes", ⟨[], some ⟨[], [("secret", [(".create", .bool false)])]⟩, []⟩)])
        [] "recipes" [] [("title", .str "Soup"), ("secret", .str "saffron")] 5 ["r1"]
        = some ⟨st1, [], .ok (.obj (setProp rec "_id" (.str "r1")))⟩ ∧
      lookup "secret" rec = none ∧ lookup "title" rec = some (.str "Soup")) ∧
    (∃ st1 rec, put (requestOf (some "A") false
          [("recipes", ⟨[], some ⟨[], [("secret", [(".update", .bool false)])]⟩, []⟩)])
        [("recipes", [("r1", [("_ownerId", .str "A"), ("title", .str "Soup"),
            ("_createdOn", .num 5)])])]
        "recipes" ["r1"] [("title", .str "Stew"), ("secret", .str "x")] 9
        = ⟨st1, .ok (.obj (setProp rec "_id" (.str "r1")))⟩ ∧
      lookup "secret" rec = none ∧ lookup "title" rec = some (.str "Stew")) := by
  constructor
  · obtain ⟨st1, rec, h1, _, h3, h4⟩ := (silent_drop_on_write
      (requestOf (some "A") false
        [("recipes", ⟨[], some ⟨[], [("secret", [(".create", .bool false)])]⟩, []⟩)])
      [] "recipes" [("title", .str "Soup"), ("secret", .str "saffron")] 5
      (.roles ["User"]) [("secret", .bool false)] true (by decide) (by decide) (by decide)
      (fun e he p => by
        have : e = ("secret", .bool false) := by simpa using he
        subst this
        exact ⟨_, rfl⟩)
      (Or.inl rfl)).1 [("_id", .str "A")] "A" ["r1"] "r1" [] rfl rfl rfl rfl rfl
    refine ⟨st1, rec, h1, h3 "secret" (.bool false) (by simp) rfl ?_, ?_⟩
    · intro p v hv
      have hv2 : v = .bool false := by
        simp only [ruleValue, Except.ok.injEq, Prod.mk.injEq] at hv
        exact hv.1.symm
      rw [hv2]
      rfl
    · have := h4 "title" rfl (fun r hm => by simp at hm)
      rw [this]
      rfl
  · obtain ⟨st1, rec, h1, _, h3, h4⟩ := (silent_drop_on_write
      (requestOf (some "A") false
        [("recipes", ⟨[], some ⟨[], [("secret", [(".update", .bool false)])]⟩, []⟩)])
      [("recipes", [("r1", [("_ownerId", .str "A"), ("title", .str "Soup"),
            ("_createdOn", .num 5)])])]
      "recipes" [("title", .str "Stew"), ("secret", .str "x")] 9
      (.roles ["Owner"]) [("secret", .bool false)] true (by decide) (by decide) (by decide)
      (fun e he p => by
        have : e = ("secret", .bool false) := by simpa using he
        subst this
        exact ⟨_, rfl⟩)
      (Or.inl rfl)).2 "r1" [("r1", [("_ownerId", .str "A"), ("title", .str "Soup"),
            ("_createdOn", .num 5)])] [("_ownerId", .str "A"), ("title", .str "Soup"),
            ("_createdOn", .num 5)] (by decide) (by decide) rfl rfl (by decide) (by decide)
        (by decide) (by decide) rfl rfl
    refine ⟨st1, rec, h1, h3 "secret" (.bool false) (by simp) rfl ?_, ?_⟩
    · intro p v hv
      have hv2 : v = .bool false := by
        simp only [ruleValue, Except.ok.injEq, Prod.mk.injEq] at hv
        exact hv.1.symm
      rw [hv2]
      rfl
    · have := h4 "title" rfl (fun r hm => by simp at hm)
      rw [this]
      rfl

/-- A record may carry a field named `hasOwnProperty` (a create stores it), and every full
update of such a record fails: `set` throws the `TypeError` of the call
`entry.hasOwnProperty(prop)` before it writes, `put` answers `RequestError`, and the
record is not replaced. -/
theorem put_shadowed_record_fails :
    post (requestOf (some "A") false []) [] "recipes" [] [("hasOwnProperty", .num 1)] 5 ["r1"]
      = some ⟨[("recipes", [("r1", [("_ownerId", .str "A"), ("hasOwnProperty", .num 1),
            ("_createdOn", .num 5)])])], [],
          .ok (.obj [("_ownerId", .str "A"), ("hasOwnProperty", .num 1),
            ("_createdOn", .num 5), ("_id", .str "r1")])⟩ ∧
    Storage.set [("recipes", [("r1", [("_ownerId", .str "A"), ("hasOwnProperty", .num 1),
          ("_createdOn", .num 5)])])] "recipes" "r1" [("title", .str "Stew")] 9
      = ([("recipes", [("r1", [("_ownerId", .str "A"), ("hasOwnProperty", .num 1),
          ("_createdOn", .num 5)])])],
          .error (.typeError "entry.hasOwnProperty is not a function")) ∧
    put (requestOf (some "A") false [])
        [("recipes", [("r1", [("_ownerId", .str "A"), ("hasOwnProperty", .num 1),
          ("_createdOn", .num 5)])])] "recipes" ["r1"] [("title", .str "Stew")] 9
      = ⟨[("recipes", [("r1", [("_ownerId", .str "A"), ("hasOwnProperty", .num 1),
          ("_createdOn", .num 5)])])], .error requestError⟩ := by
  refine ⟨?_, ?_, ?_⟩ <;> rfl

end Crud

namespace Rules
open Storage

/-- Witness for `admin_override_field_rules`: a read, with the admin override, of a
record of a collection whose `read` rule is `false`; the field rule of `secret` is
applied. -/
theorem admin_override_field_rules_witness :
    canAccess (requestOf (some "B") true [("recipes", ⟨[(".read", .bool false)],
          some ⟨[], [("secret", [(".read", .bool false)])]⟩, []⟩)])
        .GET (some "recipes")
        (.obj [("title", .str "Soup"), ("secret", .str "saffron"), ("_id", .str "r1")]) none
      = applyPropRules (requestOf (some "B") true [("recipes", ⟨[(".read", .bool false)],
          some ⟨[], [("secret", [(".read", .bool false)])]⟩, []⟩)]) ".read"
          [("secret", .bool false)]
          ⟨.obj [("title", .str "Soup"), ("secret", .str "saffron"), ("_id", .str "r1")],
            none⟩ :=
  (admin_override_field_rules (requestOf (some "B") true [("recipes",
      ⟨[(".read", .bool false)], some ⟨[], [("secret", [(".read", .bool false)])]⟩, []⟩)])
    .GET (some "recipes")
    (.obj [("title", .str "Soup"), ("secret", .str "saffron"), ("_id", .str "r1")]) none
    rfl).2.1 (.str "r1") ⟨.bool false, [("secret", .bool false)]⟩ false
      ⟨.obj [("title", .str "Soup"), ("secret", .str "saffron"), ("_id", .str "r1")], none⟩
      rfl rfl rfl

end Rules

namespace Crud
open Storage Rules

section Pages

theorem sliceIndex_nat (length k : Nat) : sliceIndex length (k : Int) = min k length := by
  unfold sliceIndex
  have : ¬ ((k : Int) < 0) := by omega
  simp [this]

theorem drop_min (L : List JSValue) (o : Nat) : L.drop (min o L.length) = L.drop o := by
  by_cases h : o ≤ L.length
  · rw [Nat.min_eq_left h]
  · have h2 : L.length ≤ o := by omega
    rw [Nat.min_eq_right h2, List.drop_length, List.drop_eq_nil_of_le h2]

theorem take_min (L : List JSValue) (n : Nat) : L.take (min n L.length) = L.take n := by
  by_cases h : n ≤ L.length
  · rw [Nat.min_eq_left h]
  · have h2 : L.length ≤ n := by omega
    rw [Nat.min_eq_right h2, List.take_length, List.take_of_length_le h2]

/-- The option `offset` with a text that `Number` reads as the natural `o`. -/
theorem offsetStage_nat (e : Engine) (L : List JSValue) (text : String) (o : Nat)
    (ho : e.toNumber text = some (o : Int)) :
    offsetStage e text (.arr L) = .ok (.arr (L.drop o)) := by
  simp only [offsetStage, ho, Option.getD_some, sliceIndex_nat, drop_min]

/-- The option `pageSize` with a text that `Number` reads as the natural `n`, not 0. -/
theorem pageSizeStage_nat (e : Engine) (L : List JSValue) (text : String) (n : Nat)
    (hn : e.toNumber text = some (n : Int)) (hn1 : 1 ≤ n) :
    pageSizeStage e text (.arr L) = .ok (.arr (L.take n)) := by
  have h0 : ¬ ((n : Int) = 0) := by omega
  simp only [pageSizeStage, pageSizeOf, hn, h0, if_false, sliceIndex_nat, take_min]

theorem runStage_none (stage : String → JSValue → Except String JSValue) (r : JSValue) :
    runStage stage none r = .ok r := rfl

end Pages

/-- Claim C24: for a result list `L`, an offset text that `Number` reads as the natural
`o` and a page size text that it reads as the natural `n ≥ 1`, the options `offset` and
`pageSize`, applied in this order as `get` does, leave exactly the elements of `L` at the
positions `o`, ..., `o + n - 1` that exist, in order; and a list read with these two
options hands that page to the access check. -/
theorem pagination (e : Engine) (L : List JSValue) (offset pageSize : String) (o n : Nat)
    (ho : e.toNumber offset = some (o : Int)) (hn : e.toNumber pageSize = some (n : Int))
    (hn1 : 1 ≤ n) (hto : offset ≠ "") (htn : pageSize ≠ "") :
    (runStage (offsetStage e) (some offset) (.arr L)).bind
        (runStage (pageSizeStage e) (some pageSize))
      = .ok (.arr ((L.drop o).take n)) ∧
    (∀ i, ((L.drop o).take n)[i]? = if i < n then L[o + i]? else none) ∧
    (∀ (storage protectedStorage : Collections) (c : String), c ≠ "" →
      Storage.get storage (some c) none = .ok (.arr L) →
      fetch (serverStages e) storage protectedStorage (some c) []
          { offset := some offset, pageSize := some pageSize }
        = .ok (.responseData (.arr ((L.drop o).take n)))) := by
  have h1 : runStage (offsetStage e) (some offset) (.arr L) = .ok (.arr (L.drop o)) := by
    simp only [runStage, hto, if_false]
    exact offsetStage_nat e L offset o ho
  have h2 : runStage (pageSizeStage e) (some pageSize) (.arr (L.drop o))
      = .ok (.arr ((L.drop o).take n)) := by
    simp only [runStage, htn, if_false]
    exact pageSizeStage_nat e (L.drop o) pageSize n hn hn1
  refine ⟨?_, ?_, ?_⟩
  · rw [h1]
    exact h2
  · intro i
    by_cases hi : i < n
    · simp [hi, List.getElem?_take, List.getElem?_drop]
    · simp [hi, List.getElem?_take]
  · intro storage protectedStorage c hc hget
    have hc2 : falsy (some c) = false := by simp [falsy_some, hc]
    have h1b : runStage (serverStages e).offset (some offset) (.arr L)
        = .ok (.arr (L.drop o)) := h1
    have h2b : runStage (serverStages e).pageSize (some pageSize) (.arr (L.drop o))
        = .ok (.arr ((L.drop o).take n)) := h2
    simp [fetch, hc2, hget, runStage_none, h1b, h2b]

/-- Witness for `pagination`: `offset=1` and `pageSize=1` on a list of three elements
return its second element. -/
theorem pagination_witness :
    (runStage (offsetStage plainEngine) (some "1") (.arr [.num 10, .num 20, .num 30])).bind
        (runStage (pageSizeStage plainEngine) (some "1"))
      = .ok (.arr [.num 20]) :=
  (pagination plainEngine [.num 10, .num 20, .num 30] "1" "1" 1 1 rfl rfl (by decide)
    (by decide) (by decide)).1

end Crud

namespace Crud
open Storage Rules

section Order

theorem runStage_where (stages : Stages) (query : Query) (all : JSValue)
    (h : (query.where_.isSome && query.where_ != some "") = true) :
    runStage stages.where_ query.where_ all = stages.where_ (query.where_.getD "") all := by
  cases hq : query.where_ with
  | none => simp [hq] at h
  | some t =>
    have ht : t ≠ "" := by
      intro e
      simp [hq, e] at h
    simp [runStage, ht]

theorem runStage_where_absent (stages : Stages) (query : Query) (r : JSValue)
    (h : (query.where_.isSome && query.where_ != some "") = false) :
    runStage stages.where_ query.where_ r = .ok r := by
  cases hq : query.where_ with
  | none => rfl
  | some t =>
    have ht : t = "" := by
      by_contra hne
      simp [hq, hne] at h
    simp [runStage, ht]

/-- The `try` block of `get`, for a named collection: the options are applied in the
order of `specList`, then `count` returns, or `select` and `load` follow. -/
theorem fetch_eq (stages : Stages) (storage protectedStorage : Collections) (c : String)
    (tokens : List String) (query : Query) (hc : c ≠ "") :
    fetch stages storage protectedStorage (some c) tokens query =
      match readSource storage (some c) tokens query with
      | .error e => .error (JSError.message e)
      | .ok records =>
        match specList stages query records with
        | .error m => .error m
        | .ok r4 =>
          if query.count.isSome && query.count != some "" then
            match getMember r4 "length" with
            | .error e => .error (JSError.message e)
            | .ok n => .ok (.returned n)
          else
            match ((Except.ok r4 : Except String JSValue).bind
                (runStage stages.select query.select)).bind
                (runStage (load storage protectedStorage) query.load) with
            | .error m => .error m
            | .ok r6 => .ok (.responseData r6) := by
  have hc2 : falsy (some c) = false := by simp [falsy_some, hc]
  unfold fetch readSource specList
  cases hw : (query.where_.isSome && query.where_ != some "")
  · simp only [Bool.false_eq_true, if_false, hc2, Bool.not_false, if_true]
    cases hg : Storage.get storage (some c) tokens.head? with
    | error e => rfl
    | ok r =>
      simp only [runStage_where_absent stages query r hw]
      cases h1 : runStage stages.sortBy query.sortBy r with
      | error m => simp [Except.bind, h1]
      | ok r1 =>
        cases h2 : runStage stages.offset query.offset r1 with
        | error m => simp [Except.bind, h1, h2]
        | ok r2 =>
          cases h3 : runStage stages.pageSize query.pageSize r2 with
          | error m => simp [Except.bind, h1, h2, h3]
          | ok r3 =>
            cases h4 : runStage stages.distinct query.distinct r3 with
            | error m => simp [Except.bind, h1, h2, h3, h4]
            | ok r4 =>
              simp only [Except.bind, h1, h2, h3, h4]
              split
              · cases getMember r4 "length" <;> rfl
              · cases h5 : runStage stages.select query.select r4 with
                | error m => rfl
                | ok r5 => simp only []
  · simp only [if_true]
    cases hg : Storage.get storage (some c) none with
    | error e => rfl
    | ok all =>
      simp only [runStage_where stages query all hw]
      cases h0 : stages.where_ (query.where_.getD "") all with
      | error m => simp [Except.bind]
      | ok r =>
        cases h1 : runStage stages.sortBy query.sortBy r with
        | error m => simp [Except.bind, h1]
        | ok r1 =>
          cases h2 : runStage stages.offset query.offset r1 with
          | error m => simp [Except.bind, h1, h2]
          | ok r2 =>
            cases h3 : runStage stages.pageSize query.pageSize r2 with
            | error m => simp [Except.bind, h1, h2, h3]
            | ok r3 =>
              cases h4 : runStage stages.distinct query.distinct r3 with
              | error m => simp [Except.bind, h1, h2, h3, h4]
              | ok r4 =>
                simp only [Except.bind, h1, h2, h3, h4]
                split
                · cases getMember r4 "length" <;> rfl
                · cases h5 : runStage stages.select query.select r4 with
                  | error m => rfl
                  | ok r5 => simp only []

end Order

end Crud

namespace Crud
open Storage Rules

section Count

theorem whereStage_arr (e : Engine) (text : String) (xs : List JSValue) (r : JSValue)
    (h : whereStage e text (.arr xs) = .ok r) : ∃ ys, r = .arr ys := by
  unfold whereStage at h
  simp only at h
  cases hp : parseWhere text with
  | error m => simp [hp] at h
  | ok cc =>
    obtain ⟨conn, clauses⟩ := cc
    simp only [hp] at h
    cases hf : filterRecords e conn clauses xs with
    | error m => simp [hf] at h
    | ok kept =>
      simp only [hf, Except.ok.injEq] at h
      exact ⟨kept, h.symm⟩

theorem sortByStage_arr (e : Engine) (text : String) (xs : List JSValue) (r : JSValue)
    (h : sortByStage e text (.arr xs) = .ok r) : ∃ ys, r = .arr ys := by
  unfold sortByStage at h
  cases hp : parseSortBy text with
  | nil =>
    simp only [hp, Except.ok.injEq] at h
    exact ⟨xs, h.symm⟩
  | cons spec rest =>
    simp only [hp] at h
    cases hs : sortLoop e (spec :: rest) xs with
    | error m => simp [hs] at h
    | ok ys =>
      simp only [hs, Except.ok.injEq] at h
      exact ⟨ys, h.symm⟩

theorem offsetStage_arr (e : Engine) (text : String) (xs : List JSValue) (r : JSValue)
    (h : offsetStage e text (.arr xs) = .ok r) : ∃ ys, r = .arr ys := by
  simp only [offsetStage, Except.ok.injEq] at h
  exact ⟨_, h.symm⟩

theorem pageSizeStage_arr (e : Engine) (text : String) (xs : List JSValue) (r : JSValue)
    (h : pageSizeStage e text (.arr xs) = .ok r) : ∃ ys, r = .arr ys := by
  simp only [pageSizeStage, Except.ok.injEq] at h
  exact ⟨_, h.symm⟩

theorem distinctStage_arr (text : String) (xs : List JSValue) (r : JSValue)
    (h : distinctStage text (.arr xs) = .ok r) : ∃ ys, r = .arr ys := by
  unfold distinctStage at h
  simp only at h
  cases hd : distinctReduce ((split text ',').filter (fun p => p != "")) [] xs with
  | error m => simp [hd] at h
  | ok d =>
    simp only [hd, Except.ok.injEq] at h
    exact ⟨_, h.symm⟩

/-- A stage that maps lists to lists does so when run as an option. -/
theorem runStage_arr (stage : String → JSValue → Except String JSValue)
    (hstage : ∀ text xs r, stage text (.arr xs) = .ok r → ∃ ys, r = .arr ys)
    (option : Option String) (xs : List JSValue) (r : JSValue)
    (h : runStage stage option (.arr xs) = .ok r) : ∃ ys, r = .arr ys := by
  unfold runStage at h
  cases option with
  | none =>
    simp only [Except.ok.injEq] at h
    exact ⟨xs, h.symm⟩
  | some text =>
    simp only at h
    split at h
    · simp only [Except.ok.injEq] at h
      exact ⟨xs, h.symm⟩
    · exact hstage text xs r h

/-- On a list the options up to `distinct` yield a list. -/
theorem specList_arr (e : Engine) (query : Query) (xs : List JSValue) (r : JSValue)
    (h : specList (serverStages e) query (.arr xs) = .ok r) : ∃ ys, r = .arr ys := by
  unfold specList at h
  cases h0 : runStage (serverStages e).where_ query.where_ (.arr xs) with
  | error m => simp [h0, Except.bind] at h
  | ok r0 =>
    obtain ⟨x0, rfl⟩ := runStage_arr _ (whereStage_arr e) _ _ _ h0
    simp only [h0, Except.bind] at h
    cases h1 : runStage (serverStages e).sortBy query.sortBy (.arr x0) with
    | error m => simp [h1] at h
    | ok r1 =>
      obtain ⟨x1, rfl⟩ := runStage_arr _ (sortByStage_arr e) _ _ _ h1
      simp only [h1] at h
      cases h2 : runStage (serverStages e).offset query.offset (.arr x1) with
      | error m => simp [h2] at h
      | ok r2 =>
        obtain ⟨x2, rfl⟩ := runStage_arr _ (offsetStage_arr e) _ _ _ h2
        simp only [h2] at h
        cases h3 : runStage (serverStages e).pageSize query.pageSize (.arr x2) with
        | error m => simp [h3] at h
        | ok r3 =>
          obtain ⟨x3, rfl⟩ := runStage_arr _ (pageSizeStage_arr e) _ _ _ h3
          simp only [h3] at h
          exact runStage_arr _ distinctStage_arr _ _ _ h

theorem validateRequest_ok (tokens : List String) (h : tokens.length ≤ 1) :
    validateRequest tokens = .ok () := by
  unfold validateRequest
  have : ¬ tokens.length > 1 := by omega
  simp [this]

end Count

/-- Claim C27: a read of a named collection that carries `count` and starts from the list
of the collection's records returns the length of the list that the options filter,
sort, offset, pageSize and distinct, applied in this order, make of that list: an
integer, and no record.  When one of these options throws, so does the read. -/
theorem count_returns_length (e : Engine) (a : Access)
    (storage protectedStorage : Collections) (c : String) (tokens : List String)
    (query : Query) (xs : List JSValue)
    (hc : c ≠ "") (htok : tokens.length ≤ 1)
    (hcount : (query.count.isSome && query.count != some "") = true)
    (hsrc : readSource storage (some c) tokens query = .ok (.arr xs)) :
    (∀ m, specList (serverStages e) query (.arr xs) = .error m →
      get (serverStages e) a storage protectedStorage (some c) tokens query
        = .error (readFailure m)) ∧
    (∀ r, specList (serverStages e) query (.arr xs) = .ok r →
      ∃ ys, r = .arr ys ∧
        get (serverStages e) a storage protectedStorage (some c) tokens query
          = .ok (.num ys.length)) := by
  have hget : ∀ x, fetch (serverStages e) storage protectedStorage (some c) tokens query = x →
      get (serverStages e) a storage protectedStorage (some c) tokens query =
        match x with
        | .error message =>
          if includes message "does not exist" then .error notFoundError
          else .error (requestError message)
        | .ok (.returned v) => .ok v
        | .ok (.responseData responseData) =>
          match canAccess a .GET (some c) responseData none with
          | .error e => .error e
          | .ok p => .ok p.data := by
    intro x hx
    subst hx
    unfold get
    rw [validateRequest_ok tokens htok]
  constructor
  · intro m hm
    rw [hget _ (fetch_eq (serverStages e) storage protectedStorage c tokens query hc)]
    simp only [hsrc, hm, readFailure]
    split <;> rfl
  · intro r hr
    obtain ⟨ys, rfl⟩ := specList_arr e query xs r hr
    refine ⟨ys, rfl, ?_⟩
    rw [hget _ (fetch_eq (serverStages e) storage protectedStorage c tokens query hc)]
    simp only [hsrc, hr, hcount, if_true, getMember]

/-- Witness for `count_returns_length`: `where=x>=2` and `count` on three records. -/
theorem count_returns_length_witness :
    ∃ ys, JSValue.arr [.obj [("x", .num 2), ("_id", .str "r2")],
          .obj [("x", .num 3), ("_id", .str "r3")]] = .arr ys ∧
      get (serverStages plainEngine) (requestOf none false [])
          [("recipes", [("r1", [("x", .num 1)]), ("r2", [("x", .num 2)]),
            ("r3", [("x", .num 3)])])] []
          (some "recipes") [] { where_ := some "x>=2", count := some "1" }
        = .ok (.num ys.length) :=
  (count_returns_length plainEngine (requestOf none false [])
    [("recipes", [("r1", [("x", .num 1)]), ("r2", [("x", .num 2)]),
      ("r3", [("x", .num 3)])])] [] "recipes" []
    { where_ := some "x>=2", count := some "1" }
    [.obj [("x", .num 1), ("_id", .str "r1")], .obj [("x", .num 2), ("_id", .str "r2")],
      .obj [("x", .num 3), ("_id", .str "r3")]]
    (by decide) (by decide) rfl rfl).2 _ rfl

/-- Claim C29: for a read of a named collection without `count`, the value handed to the
access check, and returned when the rules leave it as it is, is
`load(select(distinct(page(sort(filter(records))))))`: the options are applied in the
order of `specRead` to the value the read starts from, an exception of any of them being
the exception of the read. -/
theorem order_of_application (stages : Stages) (a : Access)
    (storage protectedStorage : Collections) (c : String) (tokens : List String)
    (query : Query)
    (hc : c ≠ "") (htok : tokens.length ≤ 1)
    (hcount : (query.count.isSome && query.count != some "") = false) :
    get stages a storage protectedStorage (some c) tokens query =
      match readSource storage (some c) tokens query with
      | .error e => .error (readFailure (JSError.message e))
      | .ok records =>
        match specRead stages storage protectedStorage query records with
        | .error m => .error (readFailure m)
        | .ok r =>
          match canAccess a .GET (some c) r none with
          | .error e => .error e
          | .ok p => .ok p.data := by
  unfold get
  rw [validateRequest_ok tokens htok,
    fetch_eq stages storage protectedStorage c tokens query hc]
  simp only []
  cases hs : readSource storage (some c) tokens query with
  | error e =>
    simp only [readFailure]
    split <;> rfl
  | ok records =>
    simp only [specRead]
    cases hl : specList stages query records with
    | error m =>
      simp only [Except.bind, readFailure]
      split <;> rfl
    | ok r4 =>
      simp only [hcount, Bool.false_eq_true, if_false]
      cases h5 : (((Except.ok r4 : Except String JSValue).bind
          (runStage stages.select query.select)).bind
          (runStage (load storage protectedStorage) query.load)) with
      | error m =>
        simp only [readFailure]
        split <;> rfl
      | ok r6 => rfl

/-- Witness for `order_of_application`: `distinct` is applied to the page that `pageSize`
has cut, so with `pageSize=2` and `distinct=x` the read returns one record although a
record with another `x` lies beyond the page. -/
theorem order_of_application_witness :
    get (serverStages plainEngine) (requestOf none false [])
        [("recipes", [("r1", [("x", .str "a")]), ("r2", [("x", .str "a")]),
          ("r3", [("x", .str "b")])])] []
        (some "recipes") [] { pageSize := some "2", distinct := some "x" }
      = .ok (.arr [.obj [("x", .str "a"), ("_id", .str "r1")]]) :=
  (order_of_application (serverStages plainEngine) (requestOf none false [])
    [("recipes", [("r1", [("x", .str "a")]), ("r2", [("x", .str "a")]),
      ("r3", [("x", .str "b")])])] [] "recipes" []
    { pageSize := some "2", distinct := some "x" } (by decide) (by decide) rfl).trans rfl

end Crud

namespace Crud
open Storage Rules

/-- Claim C21 fails on the code: the single comparison `title="salt and pepper"` is cut at
the ` and ` inside its literal and rejected, and the comparison `x like "a"` makes the
read fail as soon as a record has no string under `x`, instead of leaving that record
out. -/
theorem where_single_comparison_fails :
    get (serverStages plainEngine) (requestOf none false [])
        [("recipes", [("r1", [("title", .str "salt and pepper")])])] []
        (some "recipes") [] { where_ := some "title=\"salt and pepper\"" }
      = .error (requestError "Could not parse WHERE clause, check your syntax.") ∧
    get (serverStages plainEngine) (requestOf none false [])
        [("recipes", [("r1", [("x", .str "Apple")]), ("r2", [("y", .num 1)])])] []
        (some "recipes") [] { where_ := some "x like \"a\"" }
      = .error (requestError "Cannot read properties of undefined (reading 'toLowerCase')") := by
  constructor <;> rfl

/-- Claim C22 fails on the code: `JSON.parse` is called when a checker runs on a record,
so on the empty collection the expression `x=abc`, whose literal is no JSON value, is
accepted and the read returns the empty list, whatever the library functions are. -/
theorem malformed_literal_on_empty_collection (e : Engine) :
    get (serverStages e) (requestOf none false []) [("recipes", [])] []
        (some "recipes") [] { where_ := some "x=abc" }
      = .ok (.arr []) := by
  rfl

/-- Claim C25 fails on the code: `Number('0') || 10` is `10`, so `pageSize=0` returns up
to ten records. -/
theorem pageSize_zero_returns_records :
    get (serverStages plainEngine) (requestOf none false [])
        [("recipes", [("r1", [("x", .num 1)]), ("r2", [("x", .num 2)])])] []
        (some "recipes") [] { pageSize := some "0" }
      = .ok (.arr [.obj [("x", .num 1), ("_id", .str "r1")],
          .obj [("x", .num 2), ("_id", .str "r2")]]) := by
  rfl

/-- Claim C26 fails on the code: the records are collected as the properties of an
object, `Object.values` lists the properties whose keys are array indices first, in
ascending order, so the records with the values 2 and 1 come back in the order 1, 2. -/
theorem distinct_reorders_numeric_keys (e : Engine) :
    get (serverStages e) (requestOf none false [])
        [("recipes", [("r1", [("x", .num 2)]), ("r2", [("x", .num 1)])])] []
        (some "recipes") [] { distinct := some "x" }
      = .ok (.arr [.obj [("x", .num 1), ("_id", .str "r2")],
          .obj [("x", .num 2), ("_id", .str "r1")]]) := by
  rfl

end Crud

namespace Crud
open Storage Rules

section Text

theorem startsWithChars_append (pat post : List Char) :
    startsWithChars pat (pat ++ post) = true := by
  induction pat with
  | nil => rfl
  | cons p ps ih => simp [startsWithChars, ih]

theorem containsChars_append (pre pat post : List Char) :
    containsChars pat (pre ++ (pat ++ post)) = true := by
  induction pre with
  | nil =>
    cases h : pat ++ post with
    | nil =>
      have : pat = [] := (List.append_eq_nil.1 h).1
      simp [containsChars, this]
    | cons c cs =>
      rw [List.nil_append, containsChars, ← h, startsWithChars_append]
      rfl
  | cons c cs ih =>
    rw [List.cons_append, containsChars, ih]
    simp

theorem includes_entry (id : String) :
    includes ("Entry does not exist: " ++ id) "does not exist" = true := by
  unfold includes
  have : ("Entry does not exist: " ++ id).data
      = "Entry ".data ++ ("does not exist".data ++ (": ".data ++ id.data)) := by
    simp [String.data_append]
  rw [this]
  exact containsChars_append _ _ _

theorem includes_collection (c : String) :
    includes ("Collection does not exist: " ++ c) "does not exist" = true := by
  unfold includes
  have : ("Collection does not exist: " ++ c).data
      = "Collection ".data ++ ("does not exist".data ++ (": ".data ++ c.data)) := by
    simp [String.data_append]
  rw [this]
  exact containsChars_append _ _ _

theorem splitChars_of_not_mem (sep : Char) (l : List Char) (h : sep ∉ l) :
    splitChars sep l = [l] := by
  induction l with
  | nil => rfl
  | cons c cs ih =>
    have hc : c ≠ sep := fun e => h (by simp [e])
    have hcs : sep ∉ cs := fun hm => h (List.mem_cons_of_mem _ hm)
    simp [splitChars, hc, ih hcs]

theorem splitChars_append (sep : Char) (a b : List Char) (h : sep ∉ a) :
    splitChars sep (a ++ sep :: b) = a :: splitChars sep b := by
  induction a with
  | nil => simp [splitChars]
  | cons c cs ih =>
    have hc : c ≠ sep := fun e => h (by simp [e])
    have hcs : sep ∉ cs := fun hm => h (List.mem_cons_of_mem _ hm)
    simp [splitChars, hc, ih hcs]

theorem split_of_not_mem (s : String) (sep : Char) (h : sep ∉ s.data) :
    split s sep = [s] := by
  simp [split, splitChars_of_not_mem sep s.data h]

theorem split_append (s a b : String) (sep : Char) (hs : s.data = a.data ++ sep :: b.data)
    (h : sep ∉ a.data) : split s sep = a :: split b sep := by
  simp [split, hs, splitChars_append sep a.data b.data h]

end Text

section Load

/-- The errors of `storage.get` carry a message that `get` reads as NotFound, unless a
stored record holds `null`. -/
theorem get_error_message (cs : Collections) (c : Option String) (id : Option String)
    (e : JSError) (h : Storage.get cs c id = .error e) (hnf : e.isNotFound = true) :
    includes (JSError.message e) "does not exist" = true := by
  unfold Storage.get at h
  split at h
  · cases h
  · cases hl : lookup (c.getD "") cs with
    | none =>
      simp only [hl] at h
      cases h
      exact includes_collection _
    | some t =>
      simp only [hl] at h
      split at h
      · cases hg : getEntries t with
        | error e1 =>
          simp only [hg] at h
          cases h
          rw [getEntries_error t e hg] at hnf
          cases hnf
        | ok es =>
          simp only [hg] at h
          cases h
      · cases hi : lookup (id.getD "") t with
        | none =>
          simp only [hi] at h
          cases h
          exact includes_entry _
        | some r =>
          simp only [hi] at h
          cases hd : deepCopyObj r with
          | error e1 =>
            simp only [hd] at h
            cases h
            rw [deepCopyReduce_error r [] e hd] at hnf
            cases hnf
          | ok c2 =>
            simp only [hd] at h
            cases h

end Load

end Crud

namespace Crud
open Storage Rules

section Load

/-- What `transform` attaches to a record whose id field names a record of the target
collection: that record with its `_id`, without `hashedPassword`. -/
theorem loadTransform_joined (src : Collections) (prop idField coll : String) (ps : Props)
    (id : String) (t : Collection) (trec : Props) (out : JSValue)
    (hc : coll ≠ "") (hid : id ≠ "") (ht : lookup coll src = some t)
    (hrec : lookup id t = some trec) (hw : wfRecord trec = true)
    (hseek : getProp ps idField = .str id)
    (h : loadTransform src prop idField (some coll) (.obj ps) = .ok out) :
    out = .obj (setProp ps prop
      (.obj (mapDelete (setProp trec "_id" (.str id)) "hashedPassword"))) := by
  have hc2 : falsy (some coll) = false := by simp [falsy_some, hc]
  have hid2 : falsy (some id) = false := by simp [falsy_some, hid]
  have htr : truthy (.str id) = true := by simp [truthy, hid]
  unfold loadTransform at h
  simp only [getMember, hseek, getByValue, htr, Bool.not_true, Bool.false_eq_true, if_false,
    Storage.get, hc2, hid2, Option.getD_some, ht, hrec] at h
  cases hd : deepCopyObj trec with
  | error e => simp [hd] at h
  | ok c2 =>
    have hc2' := deepCopyObj_ok_eq trec c2 hd hw
    subst hc2'
    simp only [hd, deleteMember, setMember, Except.ok.injEq] at h
    exact h.symm

/-- A record whose id field names no record of the target collection makes `transform`
throw the store's "does not exist" error. -/
theorem loadTransform_missing (src : Collections) (prop idField coll : String) (ps : Props)
    (id : String) (t : Collection)
    (hc : coll ≠ "") (hid : id ≠ "") (ht : lookup coll src = some t)
    (hrec : lookup id t = none) (hseek : getProp ps idField = .str id) :
    loadTransform src prop idField (some coll) (.obj ps)
      = .error (.referenceError ("Entry does not exist: " ++ id)) := by
  have hc2 : falsy (some coll) = false := by simp [falsy_some, hc]
  have hid2 : falsy (some id) = false := by simp [falsy_some, hid]
  have htr : truthy (.str id) = true := by simp [truthy, hid]
  unfold loadTransform
  simp only [getMember, hseek, getByValue, htr, Bool.not_true, Bool.false_eq_true, if_false,
    Storage.get, hc2, hid2, Option.getD_some, ht, hrec]

/-- In a store whose records are well formed and hold no `null`, `storage.get` throws
nothing but its "does not exist" errors. -/
theorem get_error_notFound (cs : Collections)
    (hclean : ∀ c t, lookup c cs = some t →
      wfCollection t = true ∧ nullFreeCollection t = true)
    (c id : Option String) (e : JSError) (h : Storage.get cs c id = .error e) :
    includes (JSError.message e) "does not exist" = true := by
  unfold Storage.get at h
  split at h
  · cases h
  · cases hl : lookup (c.getD "") cs with
    | none =>
      simp only [hl] at h
      cases h
      exact includes_collection _
    | some t =>
      obtain ⟨hw, hn⟩ := hclean _ t hl
      simp only [hl] at h
      split at h
      · rw [getEntries_eq_map t hw hn] at h
        cases h
      · cases hi : lookup (id.getD "") t with
        | none =>
          simp only [hi] at h
          cases h
          exact includes_entry _
        | some r =>
          have hm : (id.getD "", r) ∈ t := mem_of_lookup _ _ _ hi
          have hwr : wfRecord r = true := by
            simp only [wfCollection, List.all_eq_true] at hw
            exact hw _ hm
          have hnr : nullFreeProps r = true := by
            simp only [nullFreeCollection, List.all_eq_true] at hn
            exact hn _ hm
          simp only [hi, deepCopyObj_eq_self r hwr hnr] at h
          cases h

end Load

end Crud

namespace Crud
open Storage Rules

section LoadList

/-- What `storage.get` returns is an array or an object. -/
theorem get_shape (cs : Collections) (x y : Option String) (v : JSValue)
    (h : Storage.get cs x y = .ok v) : (∃ xs, v = .arr xs) ∨ (∃ qs, v = .obj qs) := by
  unfold Storage.get at h
  split at h
  · simp only [Except.ok.injEq] at h
    exact Or.inl ⟨_, h.symm⟩
  · cases hl : lookup (x.getD "") cs with
    | none => simp [hl] at h
    | some t =>
      simp only [hl] at h
      split at h
      · cases hg : getEntries t with
        | error e => simp [hg] at h
        | ok es =>
          simp only [hg, Except.ok.injEq] at h
          exact Or.inl ⟨_, h.symm⟩
      · cases hi : lookup (y.getD "") t with
        | none => simp [hi] at h
        | some r =>
          simp only [hi] at h
          cases hd : deepCopyObj r with
          | error e => simp [hd] at h
          | ok c2 =>
            simp only [hd, Except.ok.injEq] at h
            exact Or.inr ⟨_, h.symm⟩

theorem getByValue_shape (cs : Collections) (coll : Option String) (id v : JSValue)
    (h : getByValue cs coll id = .ok v) : (∃ xs, v = .arr xs) ∨ (∃ qs, v = .obj qs) := by
  unfold getByValue at h
  split at h
  · exact get_shape _ _ _ _ h
  · split at h
    · exact get_shape _ _ _ _ h
    · split at h
      · exact get_shape _ _ _ _ h
      · split at h
        · exact get_shape _ _ _ _ h
        · cases h

/-- In a clean store the errors of `transform` on a record are "does not exist" errors. -/
theorem loadTransform_error (src : Collections)
    (hclean : ∀ c t, lookup c src = some t →
      wfCollection t = true ∧ nullFreeCollection t = true)
    (prop idField : String) (coll : Option String) (ps : Props) (e : JSError)
    (h : loadTransform src prop idField coll (.obj ps) = .error e) :
    includes (JSError.message e) "does not exist" = true := by
  unfold loadTransform at h
  simp only [getMember] at h
  cases hg : getByValue src coll (getProp ps idField) with
  | error e1 =>
    simp only [hg] at h
    cases h
    unfold getByValue at hg
    split at hg
    · exact get_error_notFound src hclean _ _ _ hg
    · split at hg
      · exact get_error_notFound src hclean _ _ _ hg
      · split at hg
        · exact get_error_notFound src hclean _ _ _ hg
        · split at hg
          · exact get_error_notFound src hclean _ _ _ hg
          · cases hg
            exact includes_entry _
  | ok related =>
    simp only [hg] at h
    cases hd : deleteMember related "hashedPassword" with
    | error e1 =>
      exfalso
      have hcases := getByValue_shape src coll (getProp ps idField) related hg
      have hidx : arrayIndex "hashedPassword" = none := by decide
      rcases hcases with ⟨xs, rfl⟩ | ⟨qs, rfl⟩
      · simp [deleteMember, hidx] at hd
      · simp [deleteMember] at hd
    | ok related1 =>
      simp only [hd, setMember] at h
      cases h

/-- The call `responseData.map(transform)`, element by element. -/
theorem loadMap_ok (src : Collections) (prop idField : String) (coll : Option String) :
    ∀ (rs out : List JSValue), loadMap src prop idField coll rs = .ok out →
      out.length = rs.length ∧
      ∀ (i : Nat) (r : JSValue), rs[i]? = some r →
        ∃ r', out[i]? = some r' ∧ loadTransform src prop idField coll r = .ok r' := by
  intro rs
  induction rs with
  | nil =>
    intro out h
    simp only [loadMap, Except.ok.injEq] at h
    subst h
    exact ⟨rfl, fun i r hi => by simp at hi⟩
  | cons r0 rest ih =>
    intro out h
    simp only [loadMap] at h
    cases h1 : loadTransform src prop idField coll r0 with
    | error e => simp [h1] at h
    | ok r1 =>
      simp only [h1] at h
      cases h2 : loadMap src prop idField coll rest with
      | error e => simp [h2] at h
      | ok rest1 =>
        simp only [h2, Except.ok.injEq] at h
        subst h
        obtain ⟨hlen, hall⟩ := ih rest1 h2
        refine ⟨by simp [hlen], ?_⟩
        intro i r hi
        cases i with
        | zero =>
          simp only [List.getElem?_cons_zero, Option.some.injEq] at hi
          subst hi
          exact ⟨r1, by simp, h1⟩
        | succ j =>
          simp only [List.getElem?_cons_succ] at hi
          obtain ⟨r', hr', ht⟩ := hall j r hi
          exact ⟨r', by simpa using hr', ht⟩

/-- The call `responseData.map(transform)` throws as soon as `transform` throws on one
record, and in a clean store on records what it throws is a "does not exist" error. -/
theorem loadMap_error (src : Collections)
    (hclean : ∀ c t, lookup c src = some t →
      wfCollection t = true ∧ nullFreeCollection t = true)
    (prop idField : String) (coll : Option String) :
    ∀ (rs : List JSValue), (∀ r ∈ rs, ∃ ps, r = .obj ps) →
      (∃ r ∈ rs, ∃ e, loadTransform src prop idField coll r = .error e) →
      ∃ e, loadMap src prop idField coll rs = .error e ∧
        includes (JSError.message e) "does not exist" = true := by
  intro rs
  induction rs with
  | nil =>
    intro _ h
    obtain ⟨r, hr, _⟩ := h
    cases hr
  | cons r0 rest ih =>
    intro hobj hex
    obtain ⟨ps0, hps0⟩ := hobj r0 (List.mem_cons_self _ _)
    subst hps0
    simp only [loadMap]
    cases h1 : loadTransform src prop idField coll (.obj ps0) with
    | error e =>
      exact ⟨e, rfl, loadTransform_error src hclean prop idField coll ps0 e h1⟩
    | ok r1 =>
      have hex2 : ∃ r ∈ rest, ∃ e, loadTransform src prop idField coll r = .error e := by
        obtain ⟨r, hr, e, he⟩ := hex
        rcases List.mem_cons.1 hr with h | h
        · subst h
          rw [h1] at he
          cases he
        · exact ⟨r, h, e, he⟩
      obtain ⟨e, he, hinc⟩ := ih (fun r hr => hobj r (List.mem_cons_of_mem _ hr)) hex2
      exact ⟨e, by simp [he], hinc⟩

/-- One round of the option `load` for a specifier `prop=idField:collection` whose
names contain none of the separators. -/
theorem loadProp_one (storage protectedStorage : Collections) (prop idField coll : String)
    (hp : '=' ∉ prop.data)
    (hi : '=' ∉ idField.data ∧ ':' ∉ idField.data)
    (hk : '=' ∉ coll.data ∧ ':' ∉ coll.data)
    (responseData : JSValue) :
    loadProp storage protectedStorage (prop ++ "=" ++ idField ++ ":" ++ coll) responseData =
      match responseData with
      | .arr rs =>
        match loadMap (if coll = "users" then protectedStorage else storage) prop idField
            (some coll) rs with
        | .error e => .error e
        | .ok rs1 => .ok (.arr rs1)
      | r => loadTransform (if coll = "users" then protectedStorage else storage) prop
          idField (some coll) r := by
  have hrel : (idField ++ ":" ++ coll).data = idField.data ++ ':' :: coll.data := by
    simp [String.data_append]
  have hspec : (prop ++ "=" ++ idField ++ ":" ++ coll).data
      = prop.data ++ '=' :: (idField ++ ":" ++ coll).data := by
    simp [String.data_append]
  have hnorel : '=' ∉ (idField ++ ":" ++ coll).data := by
    rw [hrel]
    simp [hi.1, hk.1]
  have h2 : split (prop ++ "=" ++ idField ++ ":" ++ coll) '='
      = [prop, idField ++ ":" ++ coll] := by
    rw [split_append _ prop (idField ++ ":" ++ coll) '=' hspec hp,
      split_of_not_mem _ _ hnorel]
  have h3 : split (idField ++ ":" ++ coll) ':' = [idField, coll] := by
    rw [split_append _ idField coll ':' hrel hi.2, split_of_not_mem _ _ hk.2]
  unfold loadProp
  simp only [h2, h3, List.headD_cons, List.tail_cons, List.head?_cons, Option.some.injEq]

/-- The option `load` with one specifier that contains no comma. -/
theorem load_single (storage protectedStorage : Collections) (spec : String)
    (hcomma : ',' ∉ spec.data) (hne : spec ≠ "") (responseData : JSValue) :
    load storage protectedStorage spec responseData =
      match loadProp storage protectedStorage spec responseData with
      | .error e => .error (JSError.message e)
      | .ok r => .ok r := by
  have h1 : (split spec ',').filter (fun p => p != "") = [spec] := by
    rw [split_of_not_mem _ _ hcomma]
    simp [hne]
  unfold load
  rw [h1]
  simp only [loadProps]
  cases loadProp storage protectedStorage spec responseData <;> rfl

end LoadList

end Crud

namespace Crud
open Storage Rules

section LoadTotal

theorem record_of_collection (t : Collection) (id : String) (trec : Props)
    (h : lookup id t = some trec) :
    (wfCollection t = true → wfRecord trec = true) ∧
    (nullFreeCollection t = true → nullFreeProps trec = true) := by
  have hm : (id, trec) ∈ t := mem_of_lookup _ _ _ h
  constructor
  · intro hw
    simp only [wfCollection, List.all_eq_true] at hw
    exact hw _ hm
  · intro hn
    simp only [nullFreeCollection, List.all_eq_true] at hn
    exact hn _ hm

/-- `transform` returns on a record whose id field names a record of the target
collection that holds no `null`. -/
theorem loadTransform_total (src : Collections) (prop idField coll : String) (ps : Props)
    (id : String) (t : Collection) (trec : Props)
    (hc : coll ≠ "") (hid : id ≠ "") (ht : lookup coll src = some t)
    (hrec : lookup id t = some trec) (hw : wfRecord trec = true)
    (hn : nullFreeProps trec = true) (hseek : getProp ps idField = .str id) :
    ∃ out, loadTransform src prop idField (some coll) (.obj ps) = .ok out := by
  have htr : truthy (.str id) = true := by simp [truthy, hid]
  have hget := get_of_stored src coll id hc hid t trec ht hrec hw hn
  unfold loadTransform
  simp only [getMember, hseek, getByValue, htr, Bool.not_true, Bool.false_eq_true, if_false,
    hget, deleteMember, setMember]
  exact ⟨_, rfl⟩

theorem loadMap_total (src : Collections) (prop idField coll : String) (t : Collection)
    (hc : coll ≠ "") (ht : lookup coll src = some t) (hw : wfCollection t = true)
    (hn : nullFreeCollection t = true) :
    ∀ rs : List JSValue,
      (∀ r ∈ rs, ∃ ps id trec, r = .obj ps ∧ getProp ps idField = .str id ∧ id ≠ "" ∧
        lookup id t = some trec) →
      ∃ out, loadMap src prop idField (some coll) rs = .ok out := by
  intro rs
  induction rs with
  | nil => intro _; exact ⟨[], rfl⟩
  | cons r rest ih =>
    intro hall
    obtain ⟨ps, id, trec, hr, hseek, hid, hrec⟩ := hall r (List.mem_cons_self _ _)
    subst hr
    obtain ⟨hwr, hnr⟩ := record_of_collection t id trec hrec
    obtain ⟨o1, h1⟩ := loadTransform_total src prop idField coll ps id t trec hc hid ht hrec
      (hwr hw) (hnr hn) hseek
    obtain ⟨o2, h2⟩ := ih (fun r hr => hall r (List.mem_cons_of_mem _ hr))
    exact ⟨o1 :: o2, by simp [loadMap, h1, h2]⟩

end LoadTotal

/-- Claim C28: the option `load` with a specifier `prop=idField:collection` (names without
the separators `=`, `:` and `,`), the target collection existing with well-formed
records.  After a load that returns, every result record whose `idField` holds the
non-empty id of a record `t` of the target collection has under `prop` the record `t`
with its `_id` and without `hashedPassword`, its other fields being unchanged; the load
returns when every result record names such a record; and when some result record names,
by a non-empty id, no record of the target collection, the load throws a "does not exist"
error and the read fails with NotFound. -/
theorem load_joins_by_id (storage protectedStorage : Collections)
    (prop idField coll : String) (t : Collection)
    (hp : '=' ∉ prop.data ∧ ',' ∉ prop.data)
    (hi : '=' ∉ idField.data ∧ ':' ∉ idField.data ∧ ',' ∉ idField.data)
    (hk : '=' ∉ coll.data ∧ ':' ∉ coll.data ∧ ',' ∉ coll.data)
    (hc : coll ≠ "")
    (ht : lookup coll (if coll = "users" then protectedStorage else storage) = some t)
    (hwf : wfCollection t = true) :
    (∀ rs out, load storage protectedStorage (prop ++ "=" ++ idField ++ ":" ++ coll)
        (.arr rs) = .ok out →
      ∃ rs', out = .arr rs' ∧ rs'.length = rs.length ∧
        ∀ (i : Nat) (ps : Props) (id : String) (trec : Props),
          rs[i]? = some (.obj ps) → getProp ps idField = .str id → id ≠ "" →
          lookup id t = some trec →
          rs'[i]? = some (.obj (setProp ps prop
            (.obj (mapDelete (setProp trec "_id" (.str id)) "hashedPassword"))))) ∧
    (∀ (ps : Props) (id : String) (trec : Props) (out : JSValue),
      load storage protectedStorage (prop ++ "=" ++ idField ++ ":" ++ coll) (.obj ps)
        = .ok out →
      getProp ps idField = .str id → id ≠ "" → lookup id t = some trec →
      out = .obj (setProp ps prop
        (.obj (mapDelete (setProp trec "_id" (.str id)) "hashedPassword")))) ∧
    (∀ (ps : Props) (v : JSValue), getProp (setProp ps prop v) prop = v ∧
      ∀ k, k ≠ prop → lookup k (setProp ps prop v) = lookup k ps) ∧
    (∀ (trec : Props) (id : String),
      getProp (mapDelete (setProp trec "_id" (.str id)) "hashedPassword") "_id" = .str id ∧
      lookup "hashedPassword" (mapDelete (setProp trec "_id" (.str id)) "hashedPassword")
        = none ∧
      ∀ k, k ≠ "_id" → k ≠ "hashedPassword" →
        lookup k (mapDelete (setProp trec "_id" (.str id)) "hashedPassword")
          = lookup k trec) ∧
    (nullFreeCollection t = true → ∀ rs : List JSValue,
      (∀ r ∈ rs, ∃ ps id trec, r = .obj ps ∧ getProp ps idField = .str id ∧ id ≠ "" ∧
        lookup id t = some trec) →
      ∃ out, load storage protectedStorage (prop ++ "=" ++ idField ++ ":" ++ coll)
        (.arr rs) = .ok out) ∧
    ((∀ c t', lookup c (if coll = "users" then protectedStorage else storage) = some t' →
        wfCollection t' = true ∧ nullFreeCollection t' = true) →
      ∀ rs : List JSValue, (∀ r ∈ rs, ∃ ps, r = .obj ps) →
      (∃ ps id, JSValue.obj ps ∈ rs ∧ getProp ps idField = .str id ∧ id ≠ "" ∧
        lookup id t = none) →
      ∃ m, load storage protectedStorage (prop ++ "=" ++ idField ++ ":" ++ coll) (.arr rs)
          = .error m ∧
        readFailure m = notFoundError ∧
        ∀ (stages : Stages) (a : Access) (c0 : String), c0 ≠ "" →
          Storage.get storage (some c0) none = .ok (.arr rs) →
          get stages a storage protectedStorage (some c0) []
              { load := some (prop ++ "=" ++ idField ++ ":" ++ coll) }
            = .error notFoundError) := by
  have hspec : (prop ++ "=" ++ idField ++ ":" ++ coll).data
      = prop.data ++ '=' :: (idField.data ++ ':' :: coll.data) := by
    simp [String.data_append]
  have hcomma : ',' ∉ (prop ++ "=" ++ idField ++ ":" ++ coll).data := by
    rw [hspec]
    simp [hp.2, hi.2.2, hk.2.2]
  have hne : (prop ++ "=" ++ idField ++ ":" ++ coll) ≠ "" := by
    intro e
    have := congrArg String.data e
    rw [hspec] at this
    simp at this
  have hload : ∀ data, load storage protectedStorage
      (prop ++ "=" ++ idField ++ ":" ++ coll) data =
      match (match data with
        | .arr rs =>
          match loadMap (if coll = "users" then protectedStorage else storage) prop idField
              (some coll) rs with
          | .error e => .error e
          | .ok rs1 => .ok (.arr rs1)
        | r => loadTransform (if coll = "users" then protectedStorage else storage) prop
            idField (some coll) r : Except JSError JSValue) with
      | .error e => .error (JSError.message e)
      | .ok r => .ok r := by
    intro data
    rw [load_single storage protectedStorage _ hcomma hne,
      loadProp_one storage protectedStorage prop idField coll hp.1 ⟨hi.1, hi.2.1⟩
        ⟨hk.1, hk.2.1⟩]
  refine ⟨?_, ?_, ?_, ?_, ?_, ?_⟩
  · intro rs out h
    rw [hload] at h
    simp only at h
    cases hm : loadMap (if coll = "users" then protectedStorage else storage) prop idField
        (some coll) rs with
    | error e => simp [hm] at h
    | ok rs' =>
      simp only [hm, Except.ok.injEq] at h
      obtain ⟨hlen, hall⟩ := loadMap_ok _ prop idField (some coll) rs rs' hm
      refine ⟨rs', h.symm, hlen, ?_⟩
      intro i ps id trec hi2 hseek hid hrec
      obtain ⟨r', hr', htr⟩ := hall i _ hi2
      rw [hr', loadTransform_joined _ prop idField coll ps id t trec r' hc hid ht hrec
        ((record_of_collection t id trec hrec).1 hwf) hseek htr]
  · intro ps id trec out h hseek hid hrec
    rw [hload] at h
    simp only at h
    cases hm : loadTransform (if coll = "users" then protectedStorage else storage) prop
        idField (some coll) (.obj ps) with
    | error e => simp [hm] at h
    | ok r' =>
      simp only [hm, Except.ok.injEq] at h
      rw [← h]
      exact loadTransform_joined _ prop idField coll ps id t trec r' hc hid ht hrec
        ((record_of_collection t id trec hrec).1 hwf) hseek hm
  · intro ps v
    refine ⟨by simp [getProp_setProp], fun k hk2 => by simp [lookup_setProp, hk2]⟩
  · intro trec id
    refine ⟨?_, ?_, ?_⟩
    · simp [getProp, lookup_mapDelete, lookup_setProp]
    · simp [lookup_mapDelete]
    · intro k h1 h2
      simp [lookup_mapDelete, lookup_setProp, h1, h2]
  · intro hnf rs hall
    obtain ⟨out, hout⟩ := loadMap_total _ prop idField coll t hc ht hwf hnf rs hall
    exact ⟨.arr out, by rw [hload]; simp [hout]⟩
  · intro hclean rs hobj hmiss
    obtain ⟨ps, id, hmem, hseek, hid, hrec⟩ := hmiss
    have hex : ∃ r ∈ rs, ∃ e, loadTransform (if coll = "users" then protectedStorage
        else storage) prop idField (some coll) r = .error e :=
      ⟨.obj ps, hmem, _, loadTransform_missing _ prop idField coll ps id t hc hid ht hrec
        hseek⟩
    obtain ⟨e, he, hinc⟩ := loadMap_error _ hclean prop idField (some coll) rs hobj hex
    have hl : load storage protectedStorage (prop ++ "=" ++ idField ++ ":" ++ coll)
        (.arr rs) = .error (JSError.message e) := by
      rw [hload]
      simp [he]
    refine ⟨JSError.message e, hl, by simp [readFailure, hinc], ?_⟩
    intro stages a c0 hc0 hget
    have hc2 : falsy (some c0) = false := by simp [falsy_some, hc0]
    simp [get, fetch, validateRequest, hc2, hget, runStage, hne, hl, hinc]

end Crud

namespace Crud
open Storage Rules

/-- Witness for `load_joins_by_id`: a recipe is joined to its author in `users`. -/
theorem load_joins_by_id_witness :
    JSValue.obj [("title", .str "Soup"), ("_ownerId", .str "u1"),
        ("author", .obj [("email", .str "peter@abv.bg"), ("_id", .str "u1")])]
      = .obj (setProp [("title", .str "Soup"), ("_ownerId", .str "u1")] "author"
          (.obj (mapDelete (setProp [("email", .str "peter@abv.bg"),
            ("hashedPassword", .str "83313014")] "_id" (.str "u1")) "hashedPassword"))) :=
  (load_joins_by_id [] [("users", [("u1", [("email", .str "peter@abv.bg"),
      ("hashedPassword", .str "83313014")])])] "author" "_ownerId" "users"
    [("u1", [("email", .str "peter@abv.bg"), ("hashedPassword", .str "83313014")])]
    (by decide) (by decide) (by decide) (by decide) rfl (by decide)).2.1
    [("title", .str "Soup"), ("_ownerId", .str "u1")] "u1"
    [("email", .str "peter@abv.bg"), ("hashedPassword", .str "83313014")]
    (.obj [("title", .str "Soup"), ("_ownerId", .str "u1"),
        ("author", .obj [("email", .str "peter@abv.bg"), ("_id", .str "u1")])])
    rfl rfl (by decide) rfl

end Crud

namespace Crud
open Storage Rules

section StableSort

variable {α : Type} (r s : α → α → Prop) [DecidableRel r] [DecidableRel s]

/-- Inserting under two relations that agree between the new element and the elements of
the list gives the same list. -/
theorem orderedInsert_congr (a : α) :
    ∀ l : List α, (∀ b ∈ l, (r a b ↔ s a b)) →
      List.orderedInsert r a l = List.orderedInsert s a l
  | [], _ => rfl
  | b :: l, h => by
    have hb := h b (List.mem_cons_self _ _)
    have ih := orderedInsert_congr a l (fun c hc => h c (List.mem_cons_of_mem _ hc))
    by_cases hr : r a b
    · simp [List.orderedInsert, hr, hb.1 hr]
    · have hs : ¬ s a b := fun h2 => hr (hb.2 h2)
      simp [List.orderedInsert, hr, hs, ih]

/-- Sorting under two relations that agree on the elements of the list gives the same
list. -/
theorem insertionSort_congr :
    ∀ l : List α, (∀ a ∈ l, ∀ b ∈ l, (r a b ↔ s a b)) →
      List.insertionSort r l = List.insertionSort s l
  | [], _ => rfl
  | a :: l, h => by
    have ih := insertionSort_congr l
      (fun x hx y hy => h x (List.mem_cons_of_mem _ hx) y (List.mem_cons_of_mem _ hy))
    simp only [List.insertionSort, ih]
    apply orderedInsert_congr
    intro b hb
    exact h a (List.mem_cons_self _ _) b
      (List.mem_cons_of_mem _ ((List.mem_insertionSort s).1 hb))

variable (P : α → Prop)

/-- Two insertions of elements that are strictly ordered commute. -/
theorem orderedInsert_comm
    (htot : ∀ a b, P a → P b → r a b ∨ r b a)
    (htr : ∀ a b c, P a → P b → P c → r a b → r b c → r a c)
    (x y : α) (hx : P x) (hy : P y) (hxy : r x y) (hyx : ¬ r y x) :
    ∀ N : List α, (∀ n ∈ N, P n) →
      List.orderedInsert r x (List.orderedInsert r y N)
        = List.orderedInsert r y (List.orderedInsert r x N)
  | [], _ => by simp [List.orderedInsert, hxy, hyx]
  | n :: N, hN => by
    have hn := hN n (List.mem_cons_self _ _)
    have ih := orderedInsert_comm htot htr x y hx hy hxy hyx N
      (fun m hm => hN m (List.mem_cons_of_mem _ hm))
    by_cases h1 : r x n
    · by_cases h2 : r y n
      · simp [List.orderedInsert, h1, h2, hxy, hyx]
      · simp [List.orderedInsert, h1, h2, hxy, hyx]
    · have h2 : ¬ r y n := by
        intro h2
        have hnx : r n x := (htot x n hx hn).resolve_left h1
        exact hyx (htr y n x hy hn hx h2 hnx)
      simp [List.orderedInsert, h1, h2, ih]

/-- Insertion keeps a list sorted, for a relation that is total and transitive on the
elements concerned. -/
theorem pairwise_orderedInsert
    (htot : ∀ a b, P a → P b → r a b ∨ r b a)
    (htr : ∀ a b c, P a → P b → P c → r a b → r b c → r a c)
    (a : α) (ha : P a) :
    ∀ l : List α, (∀ n ∈ l, P n) → l.Pairwise r → (List.orderedInsert r a l).Pairwise r
  | [], _, _ => by simp
  | b :: l, hl, hs => by
    have hb := hl b (List.mem_cons_self _ _)
    have hl2 : ∀ n ∈ l, P n := fun m hm => hl m (List.mem_cons_of_mem _ hm)
    obtain ⟨hbl, hs2⟩ := List.pairwise_cons.1 hs
    by_cases h : r a b
    · simp only [List.orderedInsert, h, if_true]
      refine List.pairwise_cons.2 ⟨?_, hs⟩
      intro c hc
      rcases List.mem_cons.1 hc with hcb | hcl
      · rw [hcb]; exact h
      · exact htr a b c ha hb (hl2 c hcl) h (hbl c hcl)
    · simp only [List.orderedInsert, h, if_false]
      refine List.pairwise_cons.2 ⟨?_, pairwise_orderedInsert htot htr a ha l hl2 hs2⟩
      intro c hc
      rcases (List.mem_orderedInsert r).1 hc with hca | hcl
      · rw [hca]; exact (htot a b ha hb).resolve_left h
      · exact hbl c hcl

/-- Insertion sort sorts, for a relation that is total and transitive on the elements of
the list. -/
theorem pairwise_insertionSort
    (htot : ∀ a b, P a → P b → r a b ∨ r b a)
    (htr : ∀ a b c, P a → P b → P c → r a b → r b c → r a c) :
    ∀ l : List α, (∀ n ∈ l, P n) → (List.insertionSort r l).Pairwise r
  | [], _ => by simp
  | a :: l, hl => by
    have hl2 : ∀ n ∈ l, P n := fun m hm => hl m (List.mem_cons_of_mem _ hm)
    simp only [List.insertionSort]
    exact pairwise_orderedInsert r P htot htr a (hl a (List.mem_cons_self _ _)) _
      (fun n hn => hl2 n ((List.mem_insertionSort r).1 hn))
      (pairwise_insertionSort htot htr l hl2)

end StableSort

end Crud

namespace Crud
open Storage Rules

theorem lexOf_total {α : Type} (r1 r2 : α → α → Prop) (P : α → Prop)
    (htot1 : ∀ a b, P a → P b → r1 a b ∨ r1 b a)
    (htot2 : ∀ a b, P a → P b → r2 a b ∨ r2 b a) :
    ∀ a b, P a → P b → lexOf r1 r2 a b ∨ lexOf r1 r2 b a := by
  intro a b ha hb
  unfold lexOf
  by_cases h1 : r1 a b <;> by_cases h2 : r1 b a
  · rcases htot2 a b ha hb with h | h
    · exact Or.inl (Or.inr ⟨h1, h2, h⟩)
    · exact Or.inr (Or.inr ⟨h2, h1, h⟩)
  · exact Or.inl (Or.inl ⟨h1, h2⟩)
  · exact Or.inr (Or.inl ⟨h2, h1⟩)
  · rcases htot1 a b ha hb with h | h
    · exact absurd h h1
    · exact absurd h h2

theorem lexOf_trans {α : Type} (r1 r2 : α → α → Prop) (P : α → Prop)
    (htr1 : ∀ a b c, P a → P b → P c → r1 a b → r1 b c → r1 a c)
    (htr2 : ∀ a b c, P a → P b → P c → r2 a b → r2 b c → r2 a c) :
    ∀ a b c, P a → P b → P c → lexOf r1 r2 a b → lexOf r1 r2 b c → lexOf r1 r2 a c := by
  intro a b c ha hb hc hab hbc
  unfold lexOf at *
  rcases hab with ⟨h1, h2⟩ | ⟨h1, h2, h3⟩ <;> rcases hbc with ⟨k1, k2⟩ | ⟨k1, k2, k3⟩
  · exact Or.inl ⟨htr1 a b c ha hb hc h1 k1, fun hca => h2 (htr1 b c a hb hc ha k1 hca)⟩
  · exact Or.inl ⟨htr1 a b c ha hb hc h1 k1, fun hca => h2 (htr1 b c a hb hc ha k1 hca)⟩
  · exact Or.inl ⟨htr1 a b c ha hb hc h1 k1, fun hca => k2 (htr1 c a b hc ha hb hca h1)⟩
  · exact Or.inr ⟨htr1 a b c ha hb hc h1 k1, htr1 c b a hc hb ha k2 h2,
      htr2 a b c ha hb hc h3 k3⟩

section Lexicographic

variable {α : Type} (r1 r2 : α → α → Prop) [DecidableRel r1] [DecidableRel r2]
variable (P : α → Prop)

/-- Inserting by the secondary relation and then sorting lexicographically is sorting
lexicographically and then inserting lexicographically. -/
theorem insertionSort_lex_orderedInsert
    (htot1 : ∀ a b, P a → P b → r1 a b ∨ r1 b a)
    (htr1 : ∀ a b c, P a → P b → P c → r1 a b → r1 b c → r1 a c)
    (htot2 : ∀ a b, P a → P b → r2 a b ∨ r2 b a)
    (htr2 : ∀ a b c, P a → P b → P c → r2 a b → r2 b c → r2 a c)
    (a : α) (ha : P a) :
    ∀ M : List α, (∀ n ∈ M, P n) →
      List.insertionSort (lexOf r1 r2) (List.orderedInsert r2 a M)
        = List.orderedInsert (lexOf r1 r2) a (List.insertionSort (lexOf r1 r2) M)
  | [], _ => rfl
  | m :: M, hM => by
    have hm := hM m (List.mem_cons_self _ _)
    have hM2 : ∀ n ∈ M, P n := fun n hn => hM n (List.mem_cons_of_mem _ hn)
    have ih := insertionSort_lex_orderedInsert htot1 htr1 htot2 htr2 a ha M hM2
    have hPsort : ∀ n ∈ List.insertionSort (lexOf r1 r2) M, P n :=
      fun n hn => hM2 n ((List.mem_insertionSort _).1 hn)
    by_cases h : r2 a m
    · simp [List.orderedInsert, h]
    · have hma : r2 m a := (htot2 a m ha hm).resolve_left h
      simp only [List.orderedInsert, h, if_false, List.insertionSort, ih]
      have tot := lexOf_total r1 r2 P htot1 htot2
      have tr := lexOf_trans r1 r2 P htr1 htr2
      by_cases k1 : r1 a m
      · by_cases k2 : r1 m a
        · -- m before a
          have hlt : lexOf r1 r2 m a := Or.inr ⟨k2, k1, hma⟩
          have hnot : ¬ lexOf r1 r2 a m := by
            intro hl
            rcases hl with ⟨_, h2⟩ | ⟨_, _, h3⟩
            · exact h2 k2
            · exact h h3
          exact orderedInsert_comm (lexOf r1 r2) P tot tr m a hm ha hlt hnot _ hPsort
        · have hlt : lexOf r1 r2 a m := Or.inl ⟨k1, k2⟩
          have hnot : ¬ lexOf r1 r2 m a := by
            intro hl
            rcases hl with ⟨h1, _⟩ | ⟨h1, _, _⟩
            · exact k2 h1
            · exact k2 h1
          exact (orderedInsert_comm (lexOf r1 r2) P tot tr a m ha hm hlt hnot _ hPsort).symm
      · have k2 : r1 m a := (htot1 a m ha hm).resolve_left k1
        have hlt : lexOf r1 r2 m a := Or.inl ⟨k2, k1⟩
        have hnot : ¬ lexOf r1 r2 a m := by
          intro hl
          rcases hl with ⟨h1, _⟩ | ⟨h1, _, _⟩
          · exact k1 h1
          · exact k1 h1
        exact orderedInsert_comm (lexOf r1 r2) P tot tr m a hm ha hlt hnot _ hPsort

/-- Sorting by the secondary relation first does not change the lexicographic sort. -/
theorem insertionSort_lex_insertionSort
    (htot1 : ∀ a b, P a → P b → r1 a b ∨ r1 b a)
    (htr1 : ∀ a b c, P a → P b → P c → r1 a b → r1 b c → r1 a c)
    (htot2 : ∀ a b, P a → P b → r2 a b ∨ r2 b a)
    (htr2 : ∀ a b c, P a → P b → P c → r2 a b → r2 b c → r2 a c) :
    ∀ l : List α, (∀ n ∈ l, P n) →
      List.insertionSort (lexOf r1 r2) (List.insertionSort r2 l)
        = List.insertionSort (lexOf r1 r2) l
  | [], _ => rfl
  | a :: l, hl => by
    have hl2 : ∀ n ∈ l, P n := fun n hn => hl n (List.mem_cons_of_mem _ hn)
    simp only [List.insertionSort]
    rw [insertionSort_lex_orderedInsert r1 r2 P htot1 htr1 htot2 htr2 a
      (hl a (List.mem_cons_self _ _)) _
      (fun n hn => hl2 n ((List.mem_insertionSort _).1 hn)),
      insertionSort_lex_insertionSort htot1 htr1 htot2 htr2 l hl2]

/-- On a list sorted by the secondary relation, sorting by the primary relation is
sorting lexicographically. -/
theorem insertionSort_of_sorted :
    ∀ M : List α, M.Pairwise r2 →
      List.insertionSort r1 M = List.insertionSort (lexOf r1 r2) M
  | [], _ => rfl
  | m :: M, hs => by
    obtain ⟨hm, hs2⟩ := List.pairwise_cons.1 hs
    simp only [List.insertionSort, insertionSort_of_sorted M hs2]
    apply orderedInsert_congr
    intro b hb
    have hmb : r2 m b := hm b ((List.mem_insertionSort _).1 hb)
    constructor
    · intro h
      by_cases h2 : r1 b m
      · exact Or.inr ⟨h, h2, hmb⟩
      · exact Or.inl ⟨h, h2⟩
    · intro h
      rcases h with ⟨h1, _⟩ | ⟨h1, _, _⟩ <;> exact h1

/-- Sorting by the secondary relation and then, stably, by the primary one is sorting by
their lexicographic combination. -/
theorem insertionSort_insertionSort
    (htot1 : ∀ a b, P a → P b → r1 a b ∨ r1 b a)
    (htr1 : ∀ a b c, P a → P b → P c → r1 a b → r1 b c → r1 a c)
    (htot2 : ∀ a b, P a → P b → r2 a b ∨ r2 b a)
    (htr2 : ∀ a b c, P a → P b → P c → r2 a b → r2 b c → r2 a c)
    (l : List α) (hl : ∀ n ∈ l, P n) :
    List.insertionSort r1 (List.insertionSort r2 l) = List.insertionSort (lexOf r1 r2) l := by
  rw [insertionSort_of_sorted r1 r2 _ (pairwise_insertionSort r2 P htot2 htr2 l hl),
    insertionSort_lex_insertionSort r1 r2 P htot1 htr1 htot2 htr2 l hl]

end Lexicographic

end Crud

namespace Crud
open Storage Rules

section SortBy

theorem numberField_iff (p : String) (x : JSValue) :
    numberField p x = true ↔ ∃ ps m, x = .obj ps ∧ getProp ps p = .num m := by
  cases x <;> simp [numberField]
  rename_i ps
  cases h : getProp ps p <;> simp

theorem stringField_iff (p : String) (x : JSValue) :
    stringField p x = true ↔ ∃ ps s, x = .obj ps ∧ getProp ps p = .str s := by
  cases x <;> simp [stringField]
  rename_i ps
  cases h : getProp ps p <;> simp

theorem compareBy_num (e : Engine) (spec : SortSpec) (ps qs : Props) (m n : Int)
    (hm : getProp ps spec.prop = .num m) (hn : getProp qs spec.prop = .num n) :
    compareBy e spec (.obj ps) (.obj qs) = .ok ((m - n) * (if spec.desc then -1 else 1)) := by
  simp [compareBy, getMember, hm, hn]

theorem compareBy_str (e : Engine) (spec : SortSpec) (ps qs : Props) (s t : String)
    (hs : getProp ps spec.prop = .str s) (ht : getProp qs spec.prop = .str t) :
    compareBy e spec (.obj ps) (.obj qs)
      = .ok (e.localeCompare s t * (if spec.desc then -1 else 1)) := by
  simp [compareBy, getMember, hs, ht, toStringJS]

/-- On records whose sort field is a number throughout, or a string throughout, the
comparator of a specifier does not throw and is consistent. -/
theorem compareBy_consistent (e : Engine)
    (hanti : ∀ s t, (0 < e.localeCompare s t ↔ e.localeCompare t s < 0))
    (htrans : ∀ s t u, e.localeCompare s t ≤ 0 → e.localeCompare t u ≤ 0 →
      e.localeCompare s u ≤ 0)
    (spec : SortSpec) (xs : List JSValue)
    (h : xs.all (numberField spec.prop) = true ∨ xs.all (stringField spec.prop) = true) :
    (∀ a ∈ xs, ∀ b ∈ xs, compareBy e spec a b = .ok (keyCompare e spec a b)) ∧
    (∀ a ∈ xs, ∀ b ∈ xs, (keyCompare e spec a b < 0 ↔ 0 < keyCompare e spec b a)) ∧
    (∀ a ∈ xs, ∀ b ∈ xs, ∀ c ∈ xs, keyCompare e spec a b ≤ 0 → keyCompare e spec b c ≤ 0 →
      keyCompare e spec a c ≤ 0) := by
  rcases h with h | h
  · have hx : ∀ a ∈ xs, ∃ ps m, a = .obj ps ∧ getProp ps spec.prop = .num m :=
      fun a ha => (numberField_iff _ _).1 (List.all_eq_true.1 h a ha)
    refine ⟨?_, ?_, ?_⟩
    · intro a ha b hb
      obtain ⟨ps, m, rfl, hm⟩ := hx a ha
      obtain ⟨qs, n, rfl, hn⟩ := hx b hb
      simp [keyCompare, compareBy_num e spec ps qs m n hm hn]
    · intro a ha b hb
      obtain ⟨ps, m, rfl, hm⟩ := hx a ha
      obtain ⟨qs, n, rfl, hn⟩ := hx b hb
      simp only [keyCompare, compareBy_num e spec ps qs m n hm hn,
        compareBy_num e spec qs ps n m hn hm]
      cases spec.desc <;> simp
    · intro a ha b hb c hc
      obtain ⟨ps, m, rfl, hm⟩ := hx a ha
      obtain ⟨qs, n, rfl, hn⟩ := hx b hb
      obtain ⟨us, o, rfl, ho⟩ := hx c hc
      simp only [keyCompare, compareBy_num e spec ps qs m n hm hn,
        compareBy_num e spec qs us n o hn ho, compareBy_num e spec ps us m o hm ho]
      cases spec.desc <;> simp <;> omega
  · have hx : ∀ a ∈ xs, ∃ ps s, a = .obj ps ∧ getProp ps spec.prop = .str s :=
      fun a ha => (stringField_iff _ _).1 (List.all_eq_true.1 h a ha)
    refine ⟨?_, ?_, ?_⟩
    · intro a ha b hb
      obtain ⟨ps, s, rfl, hs⟩ := hx a ha
      obtain ⟨qs, t, rfl, ht⟩ := hx b hb
      simp [keyCompare, compareBy_str e spec ps qs s t hs ht]
    · intro a ha b hb
      obtain ⟨ps, s, rfl, hs⟩ := hx a ha
      obtain ⟨qs, t, rfl, ht⟩ := hx b hb
      simp only [keyCompare, compareBy_str e spec ps qs s t hs ht,
        compareBy_str e spec qs ps t s ht hs]
      have h1 := hanti s t
      have h2 := hanti t s
      cases spec.desc <;> simp <;> omega
    · intro a ha b hb c hc
      obtain ⟨ps, s, rfl, hs⟩ := hx a ha
      obtain ⟨qs, t, rfl, ht⟩ := hx b hb
      obtain ⟨us, u, rfl, hu⟩ := hx c hc
      simp only [keyCompare, compareBy_str e spec ps qs s t hs ht,
        compareBy_str e spec qs us t u ht hu, compareBy_str e spec ps us s u hs hu]
      have h1 := htrans s t u
      have h2 := htrans u t s
      have a1 := hanti s t
      have a2 := hanti t s
      have a3 := hanti t u
      have a4 := hanti u t
      have a5 := hanti s u
      have a6 := hanti u s
      cases spec.desc <;> simp <;> omega

end SortBy

end Crud

namespace Crud
open Storage Rules

section SortLoop

theorem insertSorted_eq (cmp : JSValue → JSValue → Except String Int)
    (f : JSValue → JSValue → Int) (x : JSValue) :
    ∀ l : List JSValue, (∀ b ∈ l, cmp x b = .ok (f x b)) →
      insertSorted cmp x l = .ok (List.orderedInsert (fun a b => f a b ≤ 0) x l)
  | [], _ => rfl
  | y :: ys, h => by
    have hy := h y (List.mem_cons_self _ _)
    have ih := insertSorted_eq cmp f x ys (fun b hb => h b (List.mem_cons_of_mem _ hb))
    by_cases hle : f x y ≤ 0
    · simp [insertSorted, hy, hle]
    · simp [insertSorted, hy, hle, ih]

theorem sortWith_eq (cmp : JSValue → JSValue → Except String Int)
    (f : JSValue → JSValue → Int) :
    ∀ l : List JSValue, (∀ a ∈ l, ∀ b ∈ l, cmp a b = .ok (f a b)) →
      sortWith cmp l = .ok (List.insertionSort (fun a b => f a b ≤ 0) l)
  | [], _ => rfl
  | x :: xs, h => by
    have ih := sortWith_eq cmp f xs
      (fun a ha b hb => h a (List.mem_cons_of_mem _ ha) b (List.mem_cons_of_mem _ hb))
    simp only [sortWith, ih, List.insertionSort]
    exact insertSorted_eq cmp f x _ (fun b hb =>
      h x (List.mem_cons_self _ _) b (List.mem_cons_of_mem _ ((List.mem_insertionSort _).1 hb)))

theorem arraySort_eq (cmp : JSValue → JSValue → Except String Int) (l : List JSValue)
    (h : ∀ x ∈ l, x ≠ .undefined) : arraySort cmp l = sortWith cmp l := by
  have h1 : l.filter (fun x => x != .undefined) = l := by
    rw [List.filter_eq_self]
    intro x hx
    simpa using h x hx
  have h2 : l.filter (fun x => x == .undefined) = [] := by
    rw [List.filter_eq_nil_iff]
    intro x hx
    simpa using h x hx
  unfold arraySort
  rw [h1, h2]
  cases sortWith cmp l <;> simp

/-- The lexicographic comparison, taken apart at its first specifier. -/
theorem lexLe_cons_iff (e : Engine) (spec : SortSpec) (rest : List SortSpec)
    (a b : JSValue)
    (hanti : keyCompare e spec a b < 0 ↔ 0 < keyCompare e spec b a)
    (hanti2 : keyCompare e spec b a < 0 ↔ 0 < keyCompare e spec a b) :
    lexLe e (spec :: rest) a b = true ↔
      lexOf (fun a b => keyCompare e spec a b ≤ 0) (fun a b => lexLe e rest a b = true) a b := by
  simp only [lexLe, lexOf, Bool.or_eq_true, Bool.and_eq_true, decide_eq_true_eq]
  constructor
  · intro h
    rcases h with h | ⟨h1, h2⟩
    · exact Or.inl ⟨by omega, by omega⟩
    · exact Or.inr ⟨by omega, by omega, h2⟩
  · intro h
    rcases h with ⟨h1, h2⟩ | ⟨h1, h2, h3⟩
    · exact Or.inl (by omega)
    · exact Or.inr ⟨by omega, h3⟩

/-- The lexicographic comparison is total and transitive on records that every
specifier can compare. -/
theorem lexLe_preorder (e : Engine) (xs : List JSValue) :
    ∀ specs : List SortSpec,
      (∀ spec ∈ specs,
        (∀ a ∈ xs, ∀ b ∈ xs, (keyCompare e spec a b < 0 ↔ 0 < keyCompare e spec b a)) ∧
        (∀ a ∈ xs, ∀ b ∈ xs, ∀ c ∈ xs, keyCompare e spec a b ≤ 0 →
          keyCompare e spec b c ≤ 0 → keyCompare e spec a c ≤ 0)) →
      (∀ a b, a ∈ xs → b ∈ xs → lexLe e specs a b = true ∨ lexLe e specs b a = true) ∧
      (∀ a b c, a ∈ xs → b ∈ xs → c ∈ xs → lexLe e specs a b = true →
        lexLe e specs b c = true → lexLe e specs a c = true)
  | [], _ => ⟨fun _ _ _ _ => Or.inl rfl, fun _ _ _ _ _ _ _ _ => rfl⟩
  | spec :: rest, h => by
    obtain ⟨hanti, htr⟩ := h spec (List.mem_cons_self _ _)
    obtain ⟨tot2, tr2⟩ := lexLe_preorder e xs rest
      (fun s hs => h s (List.mem_cons_of_mem _ hs))
    have tot1 : ∀ a b, a ∈ xs → b ∈ xs →
        keyCompare e spec a b ≤ 0 ∨ keyCompare e spec b a ≤ 0 := by
      intro a b ha hb
      have := hanti a ha b hb
      have := hanti b hb a ha
      omega
    have tr1 : ∀ a b c, a ∈ xs → b ∈ xs → c ∈ xs → keyCompare e spec a b ≤ 0 →
        keyCompare e spec b c ≤ 0 → keyCompare e spec a c ≤ 0 :=
      fun a b c ha hb hc => htr a ha b hb c hc
    constructor
    · intro a b ha hb
      rw [lexLe_cons_iff e spec rest a b (hanti a ha b hb) (hanti b hb a ha),
        lexLe_cons_iff e spec rest b a (hanti b hb a ha) (hanti a ha b hb)]
      exact lexOf_total _ _ (fun x => x ∈ xs) tot1 tot2 a b ha hb
    · intro a b c ha hb hc
      rw [lexLe_cons_iff e spec rest a b (hanti a ha b hb) (hanti b hb a ha),
        lexLe_cons_iff e spec rest b c (hanti b hb c hc) (hanti c hc b hb),
        lexLe_cons_iff e spec rest a c (hanti a ha c hc) (hanti c hc a ha)]
      exact lexOf_trans _ _ (fun x => x ∈ xs) tr1 tr2 a b c ha hb hc

/-- The loop of `sortBy`, the last specifier sorting first, is one stable sort under the
lexicographic comparison. -/
theorem sortLoop_eq (e : Engine) (xs : List JSValue) (hobj : ∀ x ∈ xs, x ≠ .undefined) :
    ∀ specs : List SortSpec,
      (∀ spec ∈ specs,
        (∀ a ∈ xs, ∀ b ∈ xs, compareBy e spec a b = .ok (keyCompare e spec a b)) ∧
        (∀ a ∈ xs, ∀ b ∈ xs, (keyCompare e spec a b < 0 ↔ 0 < keyCompare e spec b a)) ∧
        (∀ a ∈ xs, ∀ b ∈ xs, ∀ c ∈ xs, keyCompare e spec a b ≤ 0 →
          keyCompare e spec b c ≤ 0 → keyCompare e spec a c ≤ 0)) →
      sortLoop e specs xs
        = .ok (List.insertionSort (fun a b => lexLe e specs a b = true) xs)
  | [], _ => by
    have : ∀ l : List JSValue,
        List.insertionSort (fun a b => lexLe e [] a b = true) l = l := by
      intro l
      induction l with
      | nil => rfl
      | cons a t ih =>
        simp only [List.insertionSort, ih]
        cases t <;> simp [List.orderedInsert, lexLe]
    simp [sortLoop, this]
  | spec :: rest, h => by
    obtain ⟨hok, hanti, htr⟩ := h spec (List.mem_cons_self _ _)
    have hrest := fun s hs => h s (List.mem_cons_of_mem _ hs)
    have ih := sortLoop_eq e xs hobj rest hrest
    obtain ⟨tot2, tr2⟩ := lexLe_preorder e xs rest (fun s hs => (hrest s hs).2)
    have tot1 : ∀ a b, a ∈ xs → b ∈ xs →
        keyCompare e spec a b ≤ 0 ∨ keyCompare e spec b a ≤ 0 := by
      intro a b ha hb
      have := hanti a ha b hb
      have := hanti b hb a ha
      omega
    have tr1 : ∀ a b c, a ∈ xs → b ∈ xs → c ∈ xs → keyCompare e spec a b ≤ 0 →
        keyCompare e spec b c ≤ 0 → keyCompare e spec a c ≤ 0 :=
      fun a b c ha hb hc => htr a ha b hb c hc
    have hmem : ∀ x, x ∈ List.insertionSort (fun a b => lexLe e rest a b = true) xs → x ∈ xs :=
      fun x hx => (List.mem_insertionSort _).1 hx
    simp only [sortLoop, ih]
    rw [arraySort_eq _ _ (fun x hx => hobj x (hmem x hx)),
      sortWith_eq (compareBy e spec) (keyCompare e spec) _
        (fun a ha b hb => hok a (hmem a ha) b (hmem b hb)),
      insertionSort_insertionSort (fun a b => keyCompare e spec a b ≤ 0)
        (fun a b => lexLe e rest a b = true) (fun x => x ∈ xs) tot1 tr1 tot2 tr2 xs
        (fun n hn => hn)]
    congr 1
    apply insertionSort_congr
    intro a ha b hb
    exact (lexLe_cons_iff e spec rest a b (hanti a ha b hb) (hanti b hb a ha)).symm

end SortLoop

end Crud

namespace Crud
open Storage Rules

section Units

theorem unitsLt_asymm : ∀ a b : List Nat, unitsLt a b = true → unitsLt b a = false
  | _, [], h => by simp [unitsLt] at h
  | [], _ :: _, _ => by simp [unitsLt]
  | x :: xs, y :: ys, h => by
    by_cases hxy : x = y
    · subst hxy
      simp only [unitsLt, if_true] at h ⊢
      exact unitsLt_asymm xs ys h
    · have hyx : ¬ y = x := fun e => hxy e.symm
      simp only [unitsLt, hxy, if_false, decide_eq_true_eq] at h
      simp only [unitsLt, hyx, if_false, decide_eq_false_iff_not]
      omega

theorem unitsLt_trans_not : ∀ a b c : List Nat, unitsLt b a = false → unitsLt c b = false →
    unitsLt c a = false
  | [], b, c, h1, h2 => by
    cases b with
    | nil =>
      cases c with
      | nil => rfl
      | cons z zs => simp [unitsLt]
    | cons y ys =>
      cases c with
      | nil => simp [unitsLt] at h2
      | cons z zs => simp [unitsLt]
  | x :: xs, b, c, h1, h2 => by
    cases b with
    | nil => simp [unitsLt] at h1
    | cons y ys =>
      cases c with
      | nil => simp [unitsLt] at h2
      | cons z zs =>
        by_cases hyx : y = x
        · subst hyx
          simp only [unitsLt, if_true] at h1
          by_cases hzy : z = y
          · subst hzy
            simp only [unitsLt, if_true] at h2 ⊢
            exact unitsLt_trans_not xs ys zs h1 h2
          · simp only [unitsLt, hzy, if_false, decide_eq_false_iff_not] at h2 ⊢
            exact h2
        · simp only [unitsLt, hyx, if_false, decide_eq_false_iff_not] at h1
          by_cases hzy : z = y
          · subst hzy
            simp only [unitsLt, hyx, if_false, decide_eq_false_iff_not]
            exact h1
          · simp only [unitsLt, hzy, if_false, decide_eq_false_iff_not] at h2
            have hzx : ¬ z = x := by omega
            simp only [unitsLt, hzx, if_false, decide_eq_false_iff_not]
            omega

/-- The order by code units is a consistent comparator. -/
theorem compareUnits_consistent :
    (∀ s t, (0 < compareUnits s t ↔ compareUnits t s < 0)) ∧
    (∀ s t u, compareUnits s t ≤ 0 → compareUnits t u ≤ 0 → compareUnits s u ≤ 0) := by
  have hle : ∀ s t, compareUnits s t ≤ 0 ↔ unitsLt (codeUnits t) (codeUnits s) = false := by
    intro s t
    unfold compareUnits
    by_cases h1 : unitsLt (codeUnits s) (codeUnits t) = true
    · simp [h1, unitsLt_asymm _ _ h1]
    · by_cases h2 : unitsLt (codeUnits t) (codeUnits s) = true
      · simp [h1, h2]
      · simp [h1, h2]
  constructor
  · intro s t
    unfold compareUnits
    by_cases h1 : unitsLt (codeUnits s) (codeUnits t) = true
    · simp [h1, unitsLt_asymm _ _ h1]
    · by_cases h2 : unitsLt (codeUnits t) (codeUnits s) = true
      · simp [h1, h2]
      · simp [h1, h2]
  · intro s t u h1 h2
    rw [hle] at h1 h2 ⊢
    exact unitsLt_trans_not _ _ _ h1 h2

end Units

/-- Claim C23: for a list of records whose field is a number throughout, or a string
throughout, for each specifier of `sortBy` (and a `localeCompare` that is a consistent
comparator), the option `sortBy` returns the stable sort of the list under the
lexicographic comparison of the specifiers taken left to right: a permutation of the
input, sorted under that comparison, in which two records keep their input order
whenever the first may stand before the second, in particular when all specifiers find
them equal.  A specifier compares numbers by their difference and strings by
`localeCompare`, reversed when it is marked `desc`. -/
theorem sort_priority (e : Engine) (text : String) (xs : List JSValue)
    (hanti : ∀ s t, (0 < e.localeCompare s t ↔ e.localeCompare t s < 0))
    (htrans : ∀ s t u, e.localeCompare s t ≤ 0 → e.localeCompare t u ≤ 0 →
      e.localeCompare s u ≤ 0)
    (hfields : ∀ spec ∈ parseSortBy text,
      xs.all (numberField spec.prop) = true ∨ xs.all (stringField spec.prop) = true) :
    sortByStage e text (.arr xs)
      = .ok (.arr (xs.insertionSort (fun a b => lexLe e (parseSortBy text) a b = true))) ∧
    (xs.insertionSort (fun a b => lexLe e (parseSortBy text) a b = true)).Perm xs ∧
    (xs.insertionSort (fun a b => lexLe e (parseSortBy text) a b = true)).Pairwise
      (fun a b => lexLe e (parseSortBy text) a b = true) ∧
    (∀ a b, [a, b].Sublist xs → lexLe e (parseSortBy text) a b = true →
      [a, b].Sublist
        (xs.insertionSort (fun a b => lexLe e (parseSortBy text) a b = true))) ∧
    (∀ (spec : SortSpec) (ps qs : Props) (m n : Int),
      getProp ps spec.prop = .num m → getProp qs spec.prop = .num n →
      keyCompare e spec (.obj ps) (.obj qs) = (m - n) * (if spec.desc then -1 else 1)) ∧
    (∀ (spec : SortSpec) (ps qs : Props) (s t : String),
      getProp ps spec.prop = .str s → getProp qs spec.prop = .str t →
      keyCompare e spec (.obj ps) (.obj qs)
        = e.localeCompare s t * (if spec.desc then -1 else 1)) := by
  have hcons := fun spec hs =>
    compareBy_consistent e hanti htrans spec xs (hfields spec hs)
  refine ⟨?_, List.perm_insertionSort _ _, ?_, ?_, ?_, ?_⟩
  · unfold sortByStage
    cases hp : parseSortBy text with
    | nil =>
      have : ∀ l : List JSValue,
          List.insertionSort (fun a b => lexLe e [] a b = true) l = l := by
        intro l
        induction l with
        | nil => rfl
        | cons a t ih =>
          simp only [List.insertionSort, ih]
          cases t <;> simp [List.orderedInsert, lexLe]
      simp [this]
    | cons spec rest =>
      have hobj : ∀ x ∈ xs, x ≠ .undefined := by
        intro x hx hund
        have h1 := hfields spec (by rw [hp]; exact List.mem_cons_self _ _)
        rcases h1 with h1 | h1
        · have := List.all_eq_true.1 h1 x hx
          rw [hund] at this
          simp [numberField] at this
        · have := List.all_eq_true.1 h1 x hx
          rw [hund] at this
          simp [stringField] at this
      have := sortLoop_eq e xs hobj (spec :: rest) (fun s hs => hcons s (by rw [hp]; exact hs))
      simp only [this]
  · exact pairwise_insertionSort _ (fun x => x ∈ xs)
      (lexLe_preorder e xs _ (fun s hs => (hcons s hs).2)).1
      (lexLe_preorder e xs _ (fun s hs => (hcons s hs).2)).2 xs (fun n hn => hn)
  · intro a b hab hle
    exact List.pair_sublist_insertionSort hle hab
  · intro spec ps qs m n hm hn
    simp [keyCompare, compareBy_num e spec ps qs m n hm hn]
  · intro spec ps qs s t hs ht
    simp [keyCompare, compareBy_str e spec ps qs s t hs ht]

/-- Witness for `sort_priority`: the records `{a:1,b:2}`, `{a:1,b:1}` under `a,b desc`
stay in this order. -/
theorem sort_priority_witness :
    sortByStage plainEngine "a,b desc"
        (.arr [.obj [("a", .num 1), ("b", .num 2)], .obj [("a", .num 1), ("b", .num 1)]])
      = .ok (.arr [.obj [("a", .num 1), ("b", .num 2)],
          .obj [("a", .num 1), ("b", .num 1)]]) :=
  (sort_priority plainEngine "a,b desc"
    [.obj [("a", .num 1), ("b", .num 2)], .obj [("a", .num 1), ("b", .num 1)]]
    compareUnits_consistent.1 compareUnits_consistent.2 (by decide)).1.trans (by rfl)

end Crud

/-! ## Isolation of the records handed out -/

namespace Refs

open Storage (JSValue JSError Props lookup has replace precedes)

section Denote

theorem denoteList_mono {d e : Value → Option JSValue}
    (hde : ∀ v x, d v = some x → e v = some x) :
    ∀ (l : List Value) (xs : List JSValue), denoteList d l = some xs → denoteList e l = some xs
  | [], xs, h => by simpa [denoteList] using h
  | v :: vs, xs, h => by
    simp only [denoteList] at h ⊢
    cases hv : d v with
    | none => simp [hv] at h
    | some x =>
      simp only [hv] at h
      cases hvs : denoteList d vs with
      | none => simp [hvs] at h
      | some ys =>
        simp only [hvs] at h
        simp only [hde v x hv, denoteList_mono hde vs ys hvs]
        exact h

theorem denoteProps_mono {d e : Value → Option JSValue}
    (hde : ∀ v x, d v = some x → e v = some x) :
    ∀ (l : List (String × Value)) (xs : Props),
      denoteProps d l = some xs → denoteProps e l = some xs
  | [], xs, h => by simpa [denoteProps] using h
  | (k, v) :: vs, xs, h => by
    simp only [denoteProps] at h ⊢
    cases hv : d v with
    | none => simp [hv] at h
    | some x =>
      simp only [hv] at h
      cases hvs : denoteProps d vs with
      | none => simp [hvs] at h
      | some ys =>
        simp only [hvs] at h
        simp only [hde v x hv, denoteProps_mono hde vs ys hvs]
        exact h

theorem getElem?_append_of_some {α : Type} (h ext : List α) (a : Nat) (c : α)
    (hc : h[a]? = some c) : (h ++ ext)[a]? = some c := by
  obtain ⟨hlt, hget⟩ := List.getElem?_eq_some.1 hc
  rw [List.getElem?_append_left hlt]
  exact hc

/-- Objects are never moved or dropped: what a value stands for is the same in every heap
that extends the given one. -/
theorem denote_mono : ∀ (fuel : Nat) (h ext : Heap) (v : Value) (x : JSValue),
    denote fuel h v = some x → denote fuel (h ++ ext) v = some x
  | _, _, _, .undefined, x, hx => by simpa [denote] using hx
  | _, _, _, .null, x, hx => by simpa [denote] using hx
  | _, _, _, .bool _, x, hx => by simpa [denote] using hx
  | _, _, _, .num _, x, hx => by simpa [denote] using hx
  | _, _, _, .str _, x, hx => by simpa [denote] using hx
  | 0, _, _, .ref _, x, hx => by simp [denote] at hx
  | fuel + 1, h, ext, .ref a, x, hx => by
    simp only [denote] at hx ⊢
    cases hc : h[a]? with
    | none => simp [hc] at hx
    | some c =>
      rw [getElem?_append_of_some h ext a c hc]
      simp only [hc] at hx
      cases c with
      | arr items =>
        simp only at hx ⊢
        cases hl : denoteList (denote fuel h) items with
        | none => simp [hl] at hx
        | some xs =>
          simp only [hl] at hx
          rw [denoteList_mono (fun v x => denote_mono fuel h ext v x) items xs hl]
          exact hx
      | obj props =>
        simp only at hx ⊢
        cases hl : denoteProps (denote fuel h) props with
        | none => simp [hl] at hx
        | some xs =>
          simp only [hl] at hx
          rw [denoteProps_mono (fun v x => denote_mono fuel h ext v x) props xs hl]
          exact hx

end Denote

section Assign

theorem denoteList_cons {d : Value → Option JSValue} (v : Value) (vs : List Value)
    (xs : List JSValue) :
    denoteList d (v :: vs) = some xs ↔
      ∃ y ys, d v = some y ∧ denoteList d vs = some ys ∧ xs = y :: ys := by
  simp only [denoteList]
  cases hv : d v with
  | none => simp
  | some y =>
    cases hvs : denoteList d vs with
    | none => simp
    | some ys =>
      simp only [Option.some.injEq]
      constructor
      · intro h
        exact ⟨y, ys, rfl, rfl, h.symm⟩
      · rintro ⟨y1, ys1, h1, h2, h3⟩
        rw [h3, ← h1, ← h2]

theorem denoteProps_cons {d : Value → Option JSValue} (k : String) (v : Value)
    (vs : List (String × Value)) (xs : Props) :
    denoteProps d ((k, v) :: vs) = some xs ↔
      ∃ y ys, d v = some y ∧ denoteProps d vs = some ys ∧ xs = (k, y) :: ys := by
  simp only [denoteProps]
  cases hv : d v with
  | none => simp
  | some y =>
    cases hvs : denoteProps d vs with
    | none => simp
    | some ys =>
      simp only [Option.some.injEq]
      constructor
      · intro h
        exact ⟨y, ys, rfl, rfl, h.symm⟩
      · rintro ⟨y1, ys1, h1, h2, h3⟩
        rw [h3, ← h1, ← h2]

theorem has_denoteProps {d : Value → Option JSValue} (k : String) :
    ∀ (p : List (String × Value)) (ps : Props), denoteProps d p = some ps → has ps k = has p k
  | [], ps, h => by
    simp only [denoteProps, Option.some.injEq] at h
    subst h
    rfl
  | (a, v) :: t, ps, h => by
    obtain ⟨y, ys, _, h2, h3⟩ := (denoteProps_cons a v t ps).1 h
    subst h3
    have ih := has_denoteProps k t ys h2
    simp only [has, lookup] at ih ⊢
    by_cases hak : a = k
    · simp [hak]
    · simp only [hak, if_false]
      exact ih

theorem denoteProps_replace {d : Value → Option JSValue} (k : String) (w : Value)
    (x : JSValue) (hw : d w = some x) :
    ∀ (p : List (String × Value)) (ps : Props), denoteProps d p = some ps →
      denoteProps d (replace k w p) = some (replace k x ps)
  | [], ps, h => by
    simp only [denoteProps, Option.some.injEq] at h
    subst h
    rfl
  | (a, v) :: t, ps, h => by
    obtain ⟨y, ys, h1, h2, h3⟩ := (denoteProps_cons a v t ps).1 h
    subst h3
    simp only [replace]
    by_cases hak : a = k
    · simp only [hak, if_true]
      exact (denoteProps_cons k w t _).2 ⟨x, ys, hw, h2, rfl⟩
    · simp only [hak, if_false]
      exact (denoteProps_cons a v _ _).2
        ⟨y, _, h1, denoteProps_replace k w x hw t ys h2, rfl⟩

theorem denoteProps_insertProp {d : Value → Option JSValue} (k : String) (w : Value)
    (x : JSValue) (hw : d w = some x) :
    ∀ (p : List (String × Value)) (ps : Props), denoteProps d p = some ps →
      denoteProps d (insertProp k w p) = some (Storage.insertProp k x ps)
  | [], ps, h => by
    simp only [denoteProps, Option.some.injEq] at h
    subst h
    exact (denoteProps_cons k w [] _).2 ⟨x, [], hw, rfl, rfl⟩
  | (a, v) :: t, ps, h => by
    obtain ⟨y, ys, h1, h2, h3⟩ := (denoteProps_cons a v t ps).1 h
    subst h3
    simp only [insertProp, Storage.insertProp]
    cases hp : precedes a k with
    | true =>
      simp only [if_true]
      exact (denoteProps_cons a v _ _).2
        ⟨y, _, h1, denoteProps_insertProp k w x hw t ys h2, rfl⟩
    | false =>
      simp only [Bool.false_eq_true, if_false]
      exact (denoteProps_cons k w _ _).2 ⟨x, _, hw, h, rfl⟩

/-- An assignment on the heap is the assignment on the values. -/
theorem denoteProps_setProp {d : Value → Option JSValue} (k : String) (w : Value)
    (x : JSValue) (hw : d w = some x) (p : List (String × Value)) (ps : Props)
    (h : denoteProps d p = some ps) :
    denoteProps d (setProp p k w) = some (Storage.setProp ps k x) := by
  simp only [setProp, Storage.setProp, has_denoteProps k p ps h]
  cases has p k with
  | true =>
    simp only [if_true]
    exact denoteProps_replace k w x hw p ps h
  | false =>
    simp only [Bool.false_eq_true, if_false]
    exact denoteProps_insertProp k w x hw p ps h

theorem value_mem_replace {k : String} {w x : Value} :
    ∀ (p : List (String × Value)), x ∈ (replace k w p).map Prod.snd →
      x = w ∨ x ∈ p.map Prod.snd
  | [], h => by simp [replace] at h
  | (a, v) :: t, h => by
    simp only [replace] at h
    by_cases hak : a = k
    · simp only [hak, if_true, List.map_cons, List.mem_cons] at h
      rcases h with h | h
      · exact Or.inl h
      · exact Or.inr (by simp only [List.map_cons, List.mem_cons]; exact Or.inr h)
    · simp only [hak, if_false, List.map_cons, List.mem_cons] at h
      rcases h with h | h
      · exact Or.inr (by simp only [List.map_cons, List.mem_cons]; exact Or.inl h)
      · rcases value_mem_replace t h with h | h
        · exact Or.inl h
        · exact Or.inr (by simp only [List.map_cons, List.mem_cons]; exact Or.inr h)

theorem value_mem_insertProp {k : String} {w x : Value} :
    ∀ (p : List (String × Value)), x ∈ (insertProp k w p).map Prod.snd →
      x = w ∨ x ∈ p.map Prod.snd
  | [], h => by
    simp only [insertProp, List.map_cons, List.map_nil, List.mem_singleton] at h
    exact Or.inl h
  | (a, v) :: t, h => by
    simp only [insertProp] at h
    cases hp : precedes a k with
    | true =>
      simp only [hp, if_true, List.map_cons, List.mem_cons] at h
      rcases h with h | h
      · exact Or.inr (by simp only [List.map_cons, List.mem_cons]; exact Or.inl h)
      · rcases value_mem_insertProp t h with h | h
        · exact Or.inl h
        · exact Or.inr (by simp only [List.map_cons, List.mem_cons]; exact Or.inr h)
    | false =>
      simp only [hp, Bool.false_eq_true, if_false, List.map_cons, List.mem_cons] at h
      rcases h with h | h | h
      · exact Or.inl h
      · exact Or.inr (by simp only [List.map_cons, List.mem_cons]; exact Or.inl h)
      · exact Or.inr (by simp only [List.map_cons, List.mem_cons]; exact Or.inr h)

/-- An assignment adds no value but the one assigned. -/
theorem value_mem_setProp {k : String} {w x : Value} (p : List (String × Value))
    (h : x ∈ (setProp p k w).map Prod.snd) : x = w ∨ x ∈ p.map Prod.snd := by
  simp only [setProp] at h
  cases hh : has p k with
  | true =>
    simp only [hh, if_true] at h
    exact value_mem_replace p h
  | false =>
    simp only [hh, Bool.false_eq_true, if_false] at h
    exact value_mem_insertProp p h

theorem fresh_mono {n m : Nat} (hnm : n ≤ m) (v : Value) (h : v.fresh m = true) :
    v.fresh n = true := by
  cases v <;> simp only [Value.fresh, decide_eq_true_eq] at h ⊢
  omega

theorem all_fresh_mono {n m : Nat} (hnm : n ≤ m) (l : List Value)
    (h : l.all (Value.fresh m) = true) : l.all (Value.fresh n) = true := by
  rw [List.all_eq_true] at h ⊢
  exact fun v hv => fresh_mono hnm v (h v hv)

theorem closedFrom_mono {n m : Nat} (hnm : n ≤ m) (cells : List Cell)
    (h : closedFrom m cells = true) : closedFrom n cells = true := by
  simp only [closedFrom, List.all_eq_true] at h ⊢
  exact fun c hc v hv => fresh_mono hnm v (h c hc v hv)

theorem closedFrom_append (n : Nat) (a b : List Cell) :
    closedFrom n (a ++ b) = (closedFrom n a && closedFrom n b) := by
  simp [closedFrom, List.all_append]

end Assign

section Copy

theorem deepCopyMap_spec (fuel : Nat) (ih : CopySpec fuel) :
    ∀ (items : List Value) (h : Heap) (xs : List JSValue),
      denoteList (denote fuel h) items = some xs →
      (∀ e, Storage.deepCopyMap xs = .error e →
        deepCopyMap (deepCopy fuel) h items = some (.error e)) ∧
      (∀ ys, Storage.deepCopyMap xs = .ok ys →
        ∃ ext ws, deepCopyMap (deepCopy fuel) h items = some (.ok (h ++ ext, ws)) ∧
          denoteList (denote fuel (h ++ ext)) ws = some ys ∧
          ws.all (Value.fresh h.length) = true ∧ closedFrom h.length ext = true)
  | [], h, xs, hd => by
    simp only [denoteList, Option.some.injEq] at hd
    subst hd
    constructor
    · intro e he
      simp [Storage.deepCopyMap] at he
    · intro ys hys
      simp only [Storage.deepCopyMap, Except.ok.injEq] at hys
      subst hys
      exact ⟨[], [], by simp [deepCopyMap], by simp [denoteList], rfl, rfl⟩
  | v :: vs, h, xs, hd => by
    obtain ⟨x, xs1, hx, hxs, hcons⟩ := (denoteList_cons v vs xs).1 hd
    subst hcons
    simp only [Storage.deepCopyMap, deepCopyMap]
    cases hcx : Storage.deepCopy x with
    | error e0 =>
      simp only [(ih h v x hx).1 e0 hcx]
      constructor
      · intro e he
        simp only [Except.error.injEq] at he
        rw [he]
      · intro ys hys
        simp at hys
    | ok y =>
      obtain ⟨e1, w, hw, hdw, hfw, hcl⟩ := (ih h v x hx).2 y hcx
      have hxs2 : denoteList (denote fuel (h ++ e1)) vs = some xs1 :=
        denoteList_mono (fun v x => denote_mono fuel h e1 v x) vs xs1 hxs
      have ihl := deepCopyMap_spec fuel ih vs (h ++ e1) xs1 hxs2
      simp only [hw]
      cases hm : Storage.deepCopyMap xs1 with
      | error e0 =>
        simp only [ihl.1 e0 hm]
        constructor
        · intro e he
          simp only [Except.error.injEq] at he
          rw [he]
        · intro ys hys
          simp at hys
      | ok ys1 =>
        obtain ⟨e2, ws, hws, hdws, hfws, hcl2⟩ := ihl.2 ys1 hm
        simp only [hws]
        constructor
        · intro e he
          simp at he
        · intro ys hys
          simp only [Except.ok.injEq] at hys
          subst hys
          have hlen : h.length ≤ (h ++ e1).length := by simp
          refine ⟨e1 ++ e2, w :: ws, by rw [List.append_assoc], ?_, ?_, ?_⟩
          · rw [← List.append_assoc]
            exact (denoteList_cons w ws _).2
              ⟨y, ys1, denote_mono fuel (h ++ e1) e2 w y hdw, hdws, rfl⟩
          · simp only [List.all_cons, hfw, Bool.true_and]
            exact all_fresh_mono hlen ws hfws
          · rw [closedFrom_append, hcl, closedFrom_mono hlen e2 hcl2]
            rfl

theorem deepCopyReduce_spec (fuel : Nat) (ih : CopySpec fuel) (n : Nat) :
    ∀ (props : List (String × Value)) (h : Heap) (ps : Props) (p : List (String × Value))
      (acc : Props), n ≤ h.length →
      denoteProps (denote fuel h) props = some ps →
      denoteProps (denote fuel h) p = some acc →
      (p.map Prod.snd).all (Value.fresh n) = true →
      (∀ e, Storage.deepCopyReduce ps acc = .error e →
        deepCopyReduce (deepCopy fuel) h props p = some (.error e)) ∧
      (∀ qs, Storage.deepCopyReduce ps acc = .ok qs →
        ∃ ext q, deepCopyReduce (deepCopy fuel) h props p = some (.ok (h ++ ext, q)) ∧
          denoteProps (denote fuel (h ++ ext)) q = some qs ∧
          (q.map Prod.snd).all (Value.fresh n) = true ∧ closedFrom n ext = true)
  | [], h, ps, p, acc, _, hd, hp, hf => by
    simp only [denoteProps, Option.some.injEq] at hd
    subst hd
    constructor
    · intro e he
      simp [Storage.deepCopyReduce] at he
    · intro qs hqs
      simp only [Storage.deepCopyReduce, Except.ok.injEq] at hqs
      subst hqs
      exact ⟨[], p, by simp [deepCopyReduce], by simpa using hp, hf, rfl⟩
  | (k, v) :: rest, h, ps, p, acc, hn, hd, hp, hf => by
    obtain ⟨x, ps1, hx, hps, hcons⟩ := (denoteProps_cons k v rest ps).1 hd
    subst hcons
    simp only [Storage.deepCopyReduce, deepCopyReduce]
    cases hcx : Storage.deepCopy x with
    | error e0 =>
      simp only [(ih h v x hx).1 e0 hcx]
      constructor
      · intro e he
        simp only [Except.error.injEq] at he
        rw [he]
      · intro ys hys
        simp at hys
    | ok y =>
      obtain ⟨e1, w, hw, hdw, hfw, hcl⟩ := (ih h v x hx).2 y hcx
      have hps2 : denoteProps (denote fuel (h ++ e1)) rest = some ps1 :=
        denoteProps_mono (fun v x => denote_mono fuel h e1 v x) rest ps1 hps
      have hp2 : denoteProps (denote fuel (h ++ e1)) p = some acc :=
        denoteProps_mono (fun v x => denote_mono fuel h e1 v x) p acc hp
      have hset := denoteProps_setProp k w y hdw p acc hp2
      have hf2 : ((setProp p k w).map Prod.snd).all (Value.fresh n) = true := by
        rw [List.all_eq_true] at hf ⊢
        intro z hz
        rcases value_mem_setProp p hz with hz | hz
        · rw [hz]
          exact fresh_mono hn w hfw
        · exact hf z hz
      have hn2 : n ≤ (h ++ e1).length := by
        simp only [List.length_append]
        omega
      have ihl := deepCopyReduce_spec fuel ih n rest (h ++ e1) ps1 (setProp p k w)
        (Storage.setProp acc k y) hn2 hps2 hset hf2
      simp only [hw]
      constructor
      · intro e he
        exact ihl.1 e he
      · intro qs hqs
        obtain ⟨e2, q, hq, hdq, hfq, hcl2⟩ := ihl.2 qs hqs
        refine ⟨e1 ++ e2, q, by rw [hq, List.append_assoc], ?_, hfq, ?_⟩
        · rw [← List.append_assoc]
          exact hdq
        · rw [closedFrom_append, closedFrom_mono hn e1 hcl, hcl2]
          rfl

theorem getElem?_length_append {α : Type} (h : List α) (c : α) (ext : List α) :
    (h ++ c :: ext)[h.length]? = some c := by
  rw [List.getElem?_append_right (Nat.le_refl _)]
  simp

/-- The copy on the heap computes the copy of the value model, and builds it from new
objects only. -/
theorem deepCopy_spec : ∀ fuel : Nat, CopySpec fuel
  | _, h, .undefined, x, hx => by
    simp only [denote, Option.some.injEq] at hx
    subst hx
    exact ⟨fun e he => by simp [Storage.deepCopy] at he, fun y hy => by
      simp only [Storage.deepCopy, Except.ok.injEq] at hy
      subst hy
      exact ⟨[], .undefined, by simp [deepCopy], by simp [denote], rfl, rfl⟩⟩
  | _, h, .null, x, hx => by
    simp only [denote, Option.some.injEq] at hx
    subst hx
    exact ⟨fun e he => by
      simp only [Storage.deepCopy, Except.error.injEq] at he
      subst he
      simp [deepCopy], fun y hy => by simp [Storage.deepCopy] at hy⟩
  | _, h, .bool b, x, hx => by
    simp only [denote, Option.some.injEq] at hx
    subst hx
    exact ⟨fun e he => by simp [Storage.deepCopy] at he, fun y hy => by
      simp only [Storage.deepCopy, Except.ok.injEq] at hy
      subst hy
      exact ⟨[], .bool b, by simp [deepCopy], by simp [denote], rfl, rfl⟩⟩
  | _, h, .num n, x, hx => by
    simp only [denote, Option.some.injEq] at hx
    subst hx
    exact ⟨fun e he => by simp [Storage.deepCopy] at he, fun y hy => by
      simp only [Storage.deepCopy, Except.ok.injEq] at hy
      subst hy
      exact ⟨[], .num n, by simp [deepCopy], by simp [denote], rfl, rfl⟩⟩
  | _, h, .str s, x, hx => by
    simp only [denote, Option.some.injEq] at hx
    subst hx
    exact ⟨fun e he => by simp [Storage.deepCopy] at he, fun y hy => by
      simp only [Storage.deepCopy, Except.ok.injEq] at hy
      subst hy
      exact ⟨[], .str s, by simp [deepCopy], by simp [denote], rfl, rfl⟩⟩
  | 0, h, .ref a, x, hx => by simp [denote] at hx
  | fuel + 1, h, .ref a, x, hx => by
    simp only [denote] at hx
    simp only [deepCopy]
    cases hc : h[a]? with
    | none => simp [hc] at hx
    | some c =>
      simp only [hc] at hx ⊢
      cases c with
      | arr items =>
        simp only at hx ⊢
        cases hl : denoteList (denote fuel h) items with
        | none => simp [hl] at hx
        | some xs =>
          simp only [hl, Option.some.injEq] at hx
          subst hx
          have hm := deepCopyMap_spec fuel (deepCopy_spec fuel) items h xs hl
          simp only [Storage.deepCopy]
          cases hcm : Storage.deepCopyMap xs with
          | error e0 =>
            simp only [hm.1 e0 hcm]
            exact ⟨fun e he => by
              simp only [Except.error.injEq] at he
              rw [he], fun y hy => by simp at hy⟩
          | ok ys =>
            obtain ⟨ext, ws, hws, hdws, hfws, hcl⟩ := hm.2 ys hcm
            simp only [hws]
            refine ⟨fun e he => by simp at he, fun y hy => ?_⟩
            simp only [Except.ok.injEq] at hy
            subst hy
            refine ⟨ext ++ [.arr ws], .ref (h ++ ext).length, by rw [List.append_assoc],
              ?_, ?_, ?_⟩
            · rw [← List.append_assoc]
              simp only [denote, getElem?_length_append]
              rw [denoteList_mono (fun v x => denote_mono fuel (h ++ ext) [.arr ws] v x)
                ws ys hdws]
            · simp [Value.fresh]
            · rw [closedFrom_append, hcl]
              simp only [closedFrom, List.all_cons, List.all_nil, Bool.and_true, Cell.values,
                Bool.true_and]
              exact hfws
      | obj props =>
        simp only at hx ⊢
        cases hl : denoteProps (denote fuel h) props with
        | none => simp [hl] at hx
        | some ps =>
          simp only [hl, Option.some.injEq] at hx
          subst hx
          have hm := deepCopyReduce_spec fuel (deepCopy_spec fuel) h.length props h ps [] []
            (Nat.le_refl _) hl rfl rfl
          simp only [Storage.deepCopy]
          cases hcm : Storage.deepCopyReduce ps [] with
          | error e0 =>
            simp only [hm.1 e0 hcm]
            exact ⟨fun e he => by
              simp only [Except.error.injEq] at he
              rw [he], fun y hy => by simp at hy⟩
          | ok qs =>
            obtain ⟨ext, q, hq, hdq, hfq, hcl⟩ := hm.2 qs hcm
            simp only [hq]
            refine ⟨fun e he => by simp at he, fun y hy => ?_⟩
            simp only [Except.ok.injEq] at hy
            subst hy
            refine ⟨ext ++ [.obj q], .ref (h ++ ext).length, by rw [List.append_assoc],
              ?_, ?_, ?_⟩
            · rw [← List.append_assoc]
              simp only [denote, getElem?_length_append]
              rw [denoteProps_mono (fun v x => denote_mono fuel (h ++ ext) [.obj q] v x)
                q qs hdq]
            · simp [Value.fresh]
            · rw [closedFrom_append, hcl]
              simp only [closedFrom, List.all_cons, List.all_nil, Bool.and_true, Cell.values,
                Bool.true_and]
              exact hfq

end Copy

section Isolation

theorem set_length_append {α : Type} (l : List α) (c d : α) :
    (l ++ [c]).set l.length d = l ++ [d] := by
  induction l with
  | nil => rfl
  | cons x t ih => simp [List.set, ih]

/-- The call `get(collection, id)` on the heap returns a new object that stands for the
record the value model returns, and adds objects that refer to new objects only. -/
theorem get_spec (fuel : Nat) (h : Heap) (collections : Collections) (collection id : String)
    (targetCollection : List (String × Nat)) (entry : Nat) (ps copy : Props)
    (hc : lookup collection collections = some targetCollection)
    (hid : lookup id targetCollection = some entry)
    (hden : denote fuel h (.ref entry) = some (.obj ps))
    (hcopy : Storage.deepCopyObj ps = .ok copy) :
    ∃ ext r, get fuel h collections collection id = some (.ok (h ++ ext, .ref r)) ∧
      denote fuel (h ++ ext) (.ref r) = some (.obj (Storage.setProp copy "_id" (.str id))) ∧
      h.length ≤ r ∧ closedFrom h.length ext = true := by
  cases fuel with
  | zero => simp [denote] at hden
  | succ fuel =>
    simp only [denote] at hden
    simp only [get, hc, hid, deepCopy]
    cases hcell : h[entry]? with
    | none => simp [hcell] at hden
    | some c =>
      simp only [hcell] at hden ⊢
      cases c with
      | arr items =>
        simp only at hden
        cases hl : denoteList (denote fuel h) items <;> simp [hl] at hden
      | obj props =>
        simp only at hden ⊢
        cases hl : denoteProps (denote fuel h) props with
        | none => simp [hl] at hden
        | some ps1 =>
          simp only [hl, Option.some.injEq, JSValue.obj.injEq] at hden
          subst hden
          obtain ⟨ext, q, hq, hdq, hfq, hcl⟩ :=
            (deepCopyReduce_spec fuel (deepCopy_spec fuel) h.length props h ps1 [] []
              (Nat.le_refl _) hl rfl rfl).2 copy hcopy
          simp only [hq, assignId, getElem?_length_append, set_length_append]
          refine ⟨ext ++ [.obj (setProp q "_id" (.str id))], (h ++ ext).length,
            by rw [List.append_assoc], ?_, by simp, ?_⟩
          · rw [← List.append_assoc]
            simp only [denote, getElem?_length_append]
            rw [denoteProps_setProp "_id" (.str id) (.str id) (by simp [denote]) q copy
              (denoteProps_mono (fun v x => denote_mono fuel (h ++ ext) _ v x) q copy hdq)]
          · rw [closedFrom_append, hcl]
            simp only [closedFrom, List.all_cons, List.all_nil, Bool.and_true, Cell.values,
              Bool.true_and]
            rw [List.all_eq_true] at hfq ⊢
            intro z hz
            rcases value_mem_setProp q hz with hz | hz
            · rw [hz]
              rfl
            · exact hfq z hz

theorem mem_of_getElem?_append {h ext : List Cell} {a : Nat} {c : Cell}
    (ha : h.length ≤ a) (hc : (h ++ ext)[a]? = some c) : c ∈ ext := by
  rw [List.getElem?_append_right ha] at hc
  obtain ⟨hlt, hget⟩ := List.getElem?_eq_some.1 hc
  rw [← hget]
  exact List.getElem_mem hlt

/-- From an object created after the heap `h`, through objects that refer to such objects
only, no object of `h` is reached. -/
theorem reachable_fresh (h ext : Heap) (hcl : closedFrom h.length ext = true) (r : Nat)
    (hr : h.length ≤ r) (b : Nat) (hb : Reachable (h ++ ext) r b) : h.length ≤ b := by
  induction hb with
  | root => exact hr
  | step _ hc hmem ih =>
    have hcm := mem_of_getElem?_append ih hc
    simp only [closedFrom, List.all_eq_true] at hcl
    have := hcl _ hcm _ hmem
    simpa [Value.fresh] using this

theorem closedFrom_of_values (n : Nat) (c : Cell)
    (hc : ∀ b, Value.ref b ∈ c.values → n ≤ b) : c.values.all (Value.fresh n) = true := by
  rw [List.all_eq_true]
  intro v hv
  cases v with
  | ref b => simpa [Value.fresh] using hc b hv
  | _ => rfl

theorem set_append_right {α : Type} (h ext : List α) (a : Nat) (c : α) (ha : h.length ≤ a) :
    (h ++ ext).set a c = h ++ ext.set (a - h.length) c := by
  induction h generalizing a with
  | nil => simp
  | cons x t ih =>
    cases a with
    | zero => simp at ha
    | succ a =>
      simp only [List.length_cons, Nat.add_le_add_iff_right] at ha
      simp [List.set, ih a ha]

theorem apart_step (h : Heap) (s t : Heap × List Nat) (hs : Apart h s)
    (hst : Modifies s t) : Apart h t := by
  obtain ⟨ext, hext, hcl, hroots⟩ := hs
  cases hst with
  | write h1 roots a c hreach hvals =>
    simp only at hext hroots
    subst hext
    obtain ⟨r, hr, hra⟩ := hreach
    have ha : h.length ≤ a := reachable_fresh h ext hcl r (hroots r hr) a hra
    refine ⟨ext.set (a - h.length) c, set_append_right h ext a c ha, ?_, hroots⟩
    simp only [closedFrom, List.all_eq_true] at hcl ⊢
    intro c1 hc1
    rcases List.mem_or_eq_of_mem_set hc1 with hc1 | hc1
    · exact hcl c1 hc1
    · rw [hc1, ← List.all_eq_true]
      apply closedFrom_of_values
      intro b hb
      obtain ⟨r1, hr1, hrb⟩ := hvals b hb
      exact reachable_fresh h ext (by simpa [closedFrom, List.all_eq_true] using hcl) r1
        (hroots r1 hr1) b hrb
  | create h1 roots c hvals =>
    simp only at hext hroots
    subst hext
    refine ⟨ext ++ [c], by simp, ?_, ?_⟩
    · rw [closedFrom_append, hcl]
      simp only [closedFrom, List.all_cons, List.all_nil, Bool.and_true, Bool.true_and]
      apply closedFrom_of_values
      intro b hb
      rcases hvals b hb with hb | ⟨r1, hr1, hrb⟩
      · rw [hb]
        simp
      · exact reachable_fresh h ext hcl r1 (hroots r1 hr1) b hrb
    · intro r hr
      simp only [List.mem_cons] at hr
      rcases hr with hr | hr
      · rw [hr]
        simp
      · exact hroots r hr

theorem apart_steps (h : Heap) (s t : Heap × List Nat) (hs : Apart h s)
    (hst : Relation.ReflTransGen Modifies s t) : Apart h t := by
  induction hst with
  | refl => exact hs
  | tail _ hstep ih => exact apart_step h _ _ ih hstep

/-- C30 (Isolation).  On a heap where the stored record of `(collection, id)` stands for a
finite value that can be copied, `get` returns a value; it adds objects and changes none, so
every value means what it meant before (the store is unchanged); the value returned stands
for the record of the value model; no object reachable from it existed before the call; and
after any sequence of modifications of what the caller can reach from it, every earlier value
still means the same and a second `get` returns a value standing for the same record. -/
theorem get_isolation (fuel : Nat) (h : Heap) (collections : Collections)
    (collection id : String) (targetCollection : List (String × Nat)) (entry : Nat)
    (ps copy : Props)
    (hc : lookup collection collections = some targetCollection)
    (hid : lookup id targetCollection = some entry)
    (hden : denote fuel h (.ref entry) = some (.obj ps))
    (hcopy : Storage.deepCopyObj ps = .ok copy) :
    ∃ ext r, get fuel h collections collection id = some (.ok (h ++ ext, .ref r)) ∧
      denote fuel (h ++ ext) (.ref r) = some (.obj (Storage.setProp copy "_id" (.str id))) ∧
      (∀ v x, denote fuel h v = some x → denote fuel (h ++ ext) v = some x) ∧
      (∀ b, Reachable (h ++ ext) r b → h.length ≤ b) ∧
      ∀ h2 roots, Relation.ReflTransGen Modifies (h ++ ext, [r]) (h2, roots) →
        (∀ v x, denote fuel h v = some x → denote fuel h2 v = some x) ∧
        ∃ h3 r3, get fuel h2 collections collection id = some (.ok (h3, .ref r3)) ∧
          denote fuel h3 (.ref r3) = some (.obj (Storage.setProp copy "_id" (.str id))) := by
  obtain ⟨ext, r, hget, hval, hr, hcl⟩ :=
    get_spec fuel h collections collection id targetCollection entry ps copy hc hid hden hcopy
  refine ⟨ext, r, hget, hval, fun v x => denote_mono fuel h ext v x,
    reachable_fresh h ext hcl r hr, ?_⟩
  intro h2 roots hmod
  have hap : Apart h (h ++ ext, [r]) := by
    refine ⟨ext, rfl, hcl, ?_⟩
    intro r1 hr1
    simp only [List.mem_singleton] at hr1
    rw [hr1]
    exact hr
  obtain ⟨ext2, hext2, _, _⟩ := apart_steps h _ _ hap hmod
  simp only at hext2
  subst hext2
  refine ⟨fun v x => denote_mono fuel h ext2 v x, ?_⟩
  obtain ⟨ext3, r3, hget3, hval3, _, _⟩ :=
    get_spec fuel (h ++ ext2) collections collection id targetCollection entry ps copy hc hid
      (denote_mono fuel h ext2 _ _ hden) hcopy
  exact ⟨_, r3, hget3, hval3⟩

/-- Witness for `get_isolation`: a record with a nested list is read, the caller replaces
the contents of the nested list and of the record itself, and a second `get` still returns
the record as stored. -/
theorem get_isolation_witness :
    ∃ h3 r3,
      get 2
        [.arr [.str "salt"], .obj [("name", .str "soup"), ("tags", .ref 0)],
          .arr [.str "salt", .str "sugar"], .obj [("name", .str "cake")]]
        [("recipes", [("1", 1)])] "recipes" "1" = some (.ok (h3, .ref r3)) ∧
      denote 2 h3 (.ref r3) = some (.obj [("name", .str "soup"),
        ("tags", .arr [.str "salt"]), ("_id", .str "1")]) := by
  obtain ⟨ext, r, hget, _, _, _, hmod⟩ :=
    get_isolation 2 [.arr [.str "salt"], .obj [("name", .str "soup"), ("tags", .ref 0)]]
      [("recipes", [("1", 1)])] "recipes" "1" [("1", 1)] 1
      [("name", .str "soup"), ("tags", .arr [.str "salt"])]
      [("name", .str "soup"), ("tags", .arr [.str "salt"])] rfl rfl (by decide) (by decide)
  have hrun : get 2 [.arr [.str "salt"], .obj [("name", .str "soup"), ("tags", .ref 0)]]
      [("recipes", [("1", 1)])] "recipes" "1" =
      some (.ok ([.arr [.str "salt"], .obj [("name", .str "soup"), ("tags", .ref 0)]] ++
        [.arr [.str "salt"],
          .obj [("name", .str "soup"), ("tags", .ref 2), ("_id", .str "1")]], .ref 3)) := by
    decide
  rw [hrun] at hget
  simp only [Option.some.injEq, Except.ok.injEq, Prod.mk.injEq, Value.ref.injEq,
    List.append_cancel_left_eq] at hget
  obtain ⟨hext, hr⟩ := hget
  subst hext
  subst hr
  have hroot : ∃ r ∈ [3], Reachable
      [.arr [.str "salt"], .obj [("name", .str "soup"), ("tags", .ref 0)],
        .arr [.str "salt"], .obj [("name", .str "soup"), ("tags", .ref 2), ("_id", .str "1")]]
      r 2 :=
    ⟨3, by simp, @Reachable.step _ 3 3 2 (.obj [("name", .str "soup"),
      ("tags", .ref 2), ("_id", .str "1")]) Reachable.root rfl (by simp [Cell.values])⟩
  have step1 := Modifies.write
    [.arr [.str "salt"], .obj [("name", .str "soup"), ("tags", .ref 0)],
      .arr [.str "salt"], .obj [("name", .str "soup"), ("tags", .ref 2), ("_id", .str "1")]]
    [3] 2 (.arr [.str "salt", .str "sugar"]) hroot (by simp [Cell.values])
  have step2 := Modifies.write
    [.arr [.str "salt"], .obj [("name", .str "soup"), ("tags", .ref 0)],
      .arr [.str "salt", .str "sugar"],
      .obj [("name", .str "soup"), ("tags", .ref 2), ("_id", .str "1")]]
    [3] 3 (.obj [("name", .str "cake")]) ⟨3, by simp, Reachable.root⟩ (by simp [Cell.values])
  exact (hmod _ _
    (Relation.ReflTransGen.tail (Relation.ReflTransGen.single step1) step2)).2

end Isolation

end Refs

/-! ## What holds of `where`, `pageSize` and `distinct` -/

namespace Crud
open Storage Rules

section Where

theorem foldl_and (bs : List Bool) (a : Bool) :
    bs.foldl (fun a b => a && b) a = (a && bs.all id) := by
  induction bs generalizing a with
  | nil => simp
  | cons b t ih => simp [ih, Bool.and_assoc]

theorem foldl_or (bs : List Bool) (a : Bool) :
    bs.foldl (fun a b => a || b) a = (a || bs.any id) := by
  induction bs generalizing a with
  | nil => simp
  | cons b t ih => simp [ih, Bool.or_assoc]

theorem all_map_id {α : Type} (f : α → Bool) (l : List α) :
    (l.map f).all id = l.all f := by
  induction l with
  | nil => rfl
  | cons c cs ih => simp [List.all_cons, ih]

theorem any_map_id {α : Type} (f : α → Bool) (l : List α) :
    (l.map f).any id = l.any f := by
  induction l with
  | nil => rfl
  | cons c cs ih => simp [List.any_cons, ih]

theorem runCheckers_of (e : Engine) (r : JSValue) (sat : Clause → Bool) :
    ∀ (clauses : List Clause), (∀ c ∈ clauses, runChecker e c r = .ok (sat c)) →
      runCheckers e r clauses = .ok (clauses.map sat)
  | [], _ => rfl
  | c :: cs, h => by
    have h1 := h c (by simp)
    have h2 := runCheckers_of e r sat cs (fun d hd => h d (by simp [hd]))
    simp [runCheckers, h1, h2]

theorem filterRecords_of (e : Engine) (conn : Connective) (clauses : List Clause)
    (sat : JSValue → Clause → Bool) :
    ∀ (L : List JSValue), (∀ r ∈ L, ∀ c ∈ clauses, runChecker e c r = .ok (sat r c)) →
      filterRecords e conn clauses L
        = .ok (L.filter (fun r => combine conn (clauses.map (sat r))))
  | [], _ => rfl
  | r :: rest, h => by
    have h1 := runCheckers_of e r (sat r) clauses (h r (by simp))
    have h2 := filterRecords_of e conn clauses sat rest (fun d hd => h d (by simp [hd]))
    simp only [filterRecords, h1, h2, List.filter_cons]

/-- The filter on an expression that parses, when every comparison has a value on every
record: the result is the sublist, in order, of the records for which the comparisons
combine to true, a conjunction for ` and `, a disjunction for ` or `; `sat r c` is the
value of the comparison `c` on the record `r`. -/
theorem where_filters (e : Engine) (text : String) (L : List JSValue) (conn : Connective)
    (clauses : List Clause) (sat : JSValue → Clause → Bool)
    (hparse : parseWhere text = .ok (conn, clauses))
    (hsat : ∀ r ∈ L, ∀ c ∈ clauses, runChecker e c r = .ok (sat r c)) :
    whereStage e text (.arr L)
        = .ok (.arr (L.filter (fun r => combine conn (clauses.map (sat r))))) ∧
      List.Sublist (L.filter (fun r => combine conn (clauses.map (sat r)))) L ∧
      (∀ r, combine .all (clauses.map (sat r)) = clauses.all (sat r)) ∧
      (∀ r, combine .any (clauses.map (sat r)) = clauses.any (sat r)) ∧
      (∀ r c, combine .single [sat r c] = sat r c) := by
  refine ⟨?_, List.filter_sublist _, ?_, ?_, fun _ _ => rfl⟩
  · simp only [whereStage, hparse, filterRecords_of e conn clauses sat L hsat]
  · intro r
    simp only [combine, foldl_and, Bool.true_and, all_map_id]
  · intro r
    simp only [combine, foldl_or, Bool.false_or, any_map_id]

/-- The examples of the specification: on the records with `x` 1, 2 and 3, `x>=2` keeps
the last two and `x=1 or x=3` keeps the first and the last. -/
theorem where_filters_witness :
    whereStage plainEngine "x>=2"
        (.arr [.obj [("x", .num 1)], .obj [("x", .num 2)], .obj [("x", .num 3)]])
      = .ok (.arr [.obj [("x", .num 2)], .obj [("x", .num 3)]]) ∧
    whereStage plainEngine "x=1 or x=3"
        (.arr [.obj [("x", .num 1)], .obj [("x", .num 2)], .obj [("x", .num 3)]])
      = .ok (.arr [.obj [("x", .num 1)], .obj [("x", .num 3)]]) :=
  ⟨(where_filters plainEngine "x>=2"
    [.obj [("x", .num 1)], .obj [("x", .num 2)], .obj [("x", .num 3)]] .single
    [⟨"x", ">=", "2"⟩]
    (fun r c => match runChecker plainEngine c r with
      | .ok b => b
      | .error _ => false)
    (by decide) (by decide)).1.trans (by decide),
   (where_filters plainEngine "x=1 or x=3"
    [.obj [("x", .num 1)], .obj [("x", .num 2)], .obj [("x", .num 3)]] .any
    [⟨"x", "=", "1"⟩, ⟨"x", "=", "3"⟩]
    (fun r c => match runChecker plainEngine c r with
      | .ok b => b
      | .error _ => false)
    (by decide) (by decide)).1.trans (by decide)⟩

end Where

section Rejected

theorem createCheckers_none :
    ∀ (clauses : List String), (∃ clause ∈ clauses, createChecker clause = none) →
      createCheckers clauses = none
  | [], h => by
    obtain ⟨c, hc, _⟩ := h
    simp at hc
  | c :: cs, h => by
    simp only [createCheckers]
    cases hk : createChecker c with
    | none => rfl
    | some k =>
      obtain ⟨d, hd, hnone⟩ := h
      simp only [List.mem_cons] at hd
      rcases hd with hd | hd
      · rw [hd, hk] at hnone
        cases hnone
      · simp [createCheckers_none cs ⟨d, hd, hnone⟩]

theorem compareChecker_error (e : Engine) (test : JSValue → JSValue → Bool)
    (prop value : String) (ps : Props) (m : String) (hm : e.jsonParse value = .error m) :
    compareChecker e test prop value (.obj ps) = .error m := by
  simp [compareChecker, getMember, hm]

theorem get_where (e : Engine) (a : Access) (storage protectedStorage : Collections)
    (c : String) (tokens : List String) (query : Query) (text m : String)
    (L : List JSValue) (hc : c ≠ "") (htok : tokens.length ≤ 1)
    (hq : query.where_ = some text) (ht : text ≠ "")
    (hsrc : Storage.get storage (some c) none = .ok (.arr L))
    (hw : whereStage e text (.arr L) = .error m) :
    get (serverStages e) a storage protectedStorage (some c) tokens query
      = .error (readFailure m) := by
  have hwhere : (query.where_.isSome && query.where_ != some "") = true := by
    simp [hq, ht]
  have hs : readSource storage (some c) tokens query = .ok (.arr L) := by
    simp only [readSource, hwhere, if_true, hsrc]
  have hw2 : (serverStages e).where_ (query.where_.getD "") (.arr L) = .error m := by
    rw [hq]
    exact hw
  have hl : specList (serverStages e) query (.arr L) = .error m := by
    simp only [specList, runStage_where (serverStages e) query _ hwhere, hw2, Except.bind]
  unfold get
  rw [validateRequest_ok tokens htok,
    fetch_eq (serverStages e) storage protectedStorage c tokens query hc]
  simp only [hs, hl, readFailure]
  split <;> rfl

/-- A read with a `where` expression on an existing collection: when a clause matches
none of the operators the read fails with the BadRequest error of `parseWhere`, whatever
the collection holds; and when the literal of the first comparison (with `<=`, `<`, `>=`,
`>` or `=`) is no JSON value, the read fails with the message of `JSON.parse` as soon as
the collection holds a record. -/
theorem malformed_where_rejected (e : Engine) (a : Access)
    (storage protectedStorage : Collections) (c : String) (tokens : List String)
    (query : Query) (text : String) (L : List JSValue)
    (hc : c ≠ "") (htok : tokens.length ≤ 1)
    (hq : query.where_ = some text) (ht : text ≠ "")
    (hsrc : Storage.get storage (some c) none = .ok (.arr L)) :
    ((∃ clause ∈ (splitClauses text).2, createChecker clause = none) →
      get (serverStages e) a storage protectedStorage (some c) tokens query
        = .error (requestError "Could not parse WHERE clause, check your syntax.")) ∧
    (∀ conn k ks ps rest m, parseWhere text = .ok (conn, k :: ks) →
      k.operator ∈ ["<=", "<", ">=", ">", "="] → e.jsonParse k.value = .error m →
      L = .obj ps :: rest →
      get (serverStages e) a storage protectedStorage (some c) tokens query
        = .error (readFailure m)) := by
  constructor
  · intro hbad
    have hp : parseWhere text = .error "Could not parse WHERE clause, check your syntax." := by
      simp [parseWhere, createCheckers_none _ hbad]
    have hw : whereStage e text (.arr L)
        = .error "Could not parse WHERE clause, check your syntax." := by
      simp [whereStage, hp]
    rw [get_where e a storage protectedStorage c tokens query text _ L hc htok hq ht hsrc hw]
    decide
  · intro conn k ks ps rest m hp hop hm hL
    have hk : runChecker e k (.obj ps) = .error m := by
      simp only [List.mem_cons, List.mem_singleton, List.mem_nil_iff, or_false] at hop
      unfold runChecker
      rcases hop with h | h | h | h | h <;>
        simp [h, compareChecker_error e _ k.prop k.value ps m hm]
    have hw : whereStage e text (.arr L) = .error m := by
      simp [whereStage, hp, hL, filterRecords, runCheckers, hk]
    exact get_where e a storage protectedStorage c tokens query text m L hc htok hq ht hsrc hw

/-- Witness: the expression `x 1` holds no operator and is rejected on the empty
collection; the literal of `x=abc` is no JSON value and the read of a collection with one
record fails. -/
theorem malformed_where_rejected_witness :
    get (serverStages plainEngine) (requestOf none false []) [("recipes", [])] []
        (some "recipes") [] { where_ := some "x 1" }
      = .error (requestError "Could not parse WHERE clause, check your syntax.") ∧
    get (serverStages plainEngine) (requestOf none false [])
        [("recipes", [("r1", [("x", .num 1)])])] []
        (some "recipes") [] { where_ := some "x=abc" }
      = .error (readFailure "Unexpected token in JSON") :=
  ⟨(malformed_where_rejected plainEngine (requestOf none false []) [("recipes", [])] []
      "recipes" [] { where_ := some "x 1" } "x 1" [] (by decide) (by decide) rfl (by decide)
      rfl).1 ⟨"x 1", by decide, by decide⟩,
   (malformed_where_rejected plainEngine (requestOf none false [])
      [("recipes", [("r1", [("x", .num 1)])])] []
      "recipes" [] { where_ := some "x=abc" } "x=abc" [.obj [("x", .num 1), ("_id", .str "r1")]]
      (by decide) (by decide) rfl (by decide) rfl).2 .single ⟨"x", "=", "abc"⟩ []
      [("x", .num 1), ("_id", .str "r1")] [] _ (by decide) (by decide) (by decide) rfl⟩

end Rejected

section PageSize

/-- The option `pageSize` with a text that `Number` reads as a natural `n ≥ 1` keeps the
first `n` records: at most `n`. -/
theorem pageSize_truncates (e : Engine) (L : List JSValue) (text : String) (n : Nat)
    (hn : e.toNumber text = some (n : Int)) (hn1 : 1 ≤ n) :
    pageSizeStage e text (.arr L) = .ok (.arr (L.take n)) ∧ (L.take n).length ≤ n :=
  ⟨pageSizeStage_nat e L text n hn hn1, List.length_take_le n L⟩

theorem pageSize_truncates_witness :
    pageSizeStage plainEngine "2" (.arr [.num 1, .num 2, .num 3])
      = .ok (.arr [.num 1, .num 2]) :=
  (pageSize_truncates plainEngine [.num 1, .num 2, .num 3] "2" 2 (by decide) (by decide)).1

end PageSize

end Crud

namespace Crud
open Storage Rules

section Distinct

theorem readProps_obj (ps : Props) :
    ∀ (props : List String), ∃ values, readProps (.obj ps) props = .ok values
  | [] => ⟨[], rfl⟩
  | p :: rest => by
    obtain ⟨vs, hvs⟩ := readProps_obj ps rest
    exact ⟨getProp ps p :: vs, by simp [readProps, getMember, hvs]⟩

theorem precedes_of_not_index (a k : String) (hk : arrayIndex k = none) :
    precedes a k = true := by
  unfold precedes
  rw [hk]
  cases arrayIndex a <;> rfl

theorem distinctReduce_first (props : List String) :
    ∀ (L : List JSValue) (acc : Props),
      (∀ c ∈ L, ∃ ps, c = .obj ps) →
      (∀ c ∈ L, arrayIndex (compositeKey props c) = none ∧
        compositeKey props c ≠ "hasOwnProperty") →
      has acc "hasOwnProperty" = false →
      distinctReduce props acc L = .ok (acc ++
        (firstPerKey (compositeKey props) (acc.map Prod.fst) L).map
          (fun c => (compositeKey props c, c)))
  | [], acc, _, _, _ => by simp [distinctReduce, firstPerKey]
  | c :: rest, acc, hobj, hkey, hacc => by
    obtain ⟨ps, hps⟩ := hobj c (by simp)
    obtain ⟨values, hvalues⟩ := readProps_obj ps props
    have hk : compositeKey props c = joinSep "::" values := by
      simp [compositeKey, hps, hvalues]
    obtain ⟨hidx, hname⟩ := hkey c (by simp)
    have hobj2 : ∀ d ∈ rest, ∃ ps, d = .obj ps := fun d hd => hobj d (by simp [hd])
    have hkey2 : ∀ d ∈ rest, arrayIndex (compositeKey props d) = none ∧
        compositeKey props d ≠ "hasOwnProperty" := fun d hd => hkey d (by simp [hd])
    rw [← hps] at hvalues
    simp only [distinctReduce, distinctStep, hvalues, hacc, Bool.false_eq_true, if_false,
      ← hk, firstPerKey]
    cases hh : has acc (compositeKey props c) with
    | true =>
      have hmem : (acc.map Prod.fst).contains (compositeKey props c) = true := by
        simpa using (has_iff_mem_keys acc _).1 hh
      simp only [hmem, if_true]
      simpa using distinctReduce_first props rest acc hobj2 hkey2 hacc
    | false =>
      have hmem : (acc.map Prod.fst).contains (compositeKey props c) = false := by
        cases hcont : (acc.map Prod.fst).contains (compositeKey props c) with
        | false => rfl
        | true =>
          have : has acc (compositeKey props c) = true :=
            (has_iff_mem_keys acc _).2 (by simpa using hcont)
          rw [hh] at this
          cases this
      have hset : setProp acc (compositeKey props c) c = acc ++ [(compositeKey props c, c)] := by
        simp only [setProp, hh, Bool.false_eq_true, if_false]
        exact insertProp_eq_append _ _ acc (fun a _ => precedes_of_not_index a _ hidx)
      have hacc2 : has (acc ++ [(compositeKey props c, c)]) "hasOwnProperty" = false := by
        cases h2 : has (acc ++ [(compositeKey props c, c)]) "hasOwnProperty" with
        | false => rfl
        | true =>
          have hm := (has_iff_mem_keys _ _).1 h2
          simp only [List.map_append, List.map_cons, List.map_nil, List.mem_append,
            List.mem_singleton] at hm
          rcases hm with hm | hm
          · have := (has_iff_mem_keys acc _).2 hm
            rw [hacc] at this
            cases this
          · exact absurd hm.symm hname
      simp only [hmem, Bool.false_eq_true, if_false, hset, beq_self_eq_true, if_true]
      rw [distinctReduce_first props rest _ hobj2 hkey2 hacc2]
      simp

theorem firstPerKey_sublist (key : JSValue → String) :
    ∀ (L : List JSValue) (seen : List String), List.Sublist (firstPerKey key seen L) L
  | [], _ => by simp [firstPerKey]
  | c :: rest, seen => by
    simp only [firstPerKey]
    split
    · exact (firstPerKey_sublist key rest seen).cons c
    · exact (firstPerKey_sublist key rest _).cons₂ c

end Distinct

/-- The option `distinct` on records (objects) none of whose composite keys is an array
index or the name `hasOwnProperty`: the result holds, for each composite key, the first
record with that key, in the order of the input. -/
theorem distinct_first_occurrences (text : String) (L : List JSValue)
    (hobj : ∀ c ∈ L, ∃ ps, c = .obj ps)
    (hkey : ∀ c ∈ L,
      arrayIndex (compositeKey ((split text ',').filter (fun p => p != "")) c) = none ∧
      compositeKey ((split text ',').filter (fun p => p != "")) c ≠ "hasOwnProperty") :
    distinctStage text (.arr L) = .ok (.arr
      (firstPerKey (compositeKey ((split text ',').filter (fun p => p != ""))) [] L)) ∧
    List.Sublist
      (firstPerKey (compositeKey ((split text ',').filter (fun p => p != ""))) [] L) L := by
  refine ⟨?_, firstPerKey_sublist _ L []⟩
  simp only [distinctStage, distinctReduce_first _ L [] hobj hkey rfl, List.nil_append,
    List.map_map, List.map_nil]
  congr 2
  exact List.map_id _

theorem distinct_first_occurrences_witness :
    distinctStage "x" (.arr [.obj [("x", .str "b")], .obj [("x", .str "a"), ("y", .num 1)],
        .obj [("x", .str "b"), ("y", .num 2)]])
      = .ok (.arr [.obj [("x", .str "b")], .obj [("x", .str "a"), ("y", .num 1)]]) :=
  (distinct_first_occurrences "x" [.obj [("x", .str "b")],
    .obj [("x", .str "a"), ("y", .num 1)], .obj [("x", .str "b"), ("y", .num 2)]]
    (by simp) (by decide)).1.trans (by decide)

end Crud

/-! ## Copies and `null`; exceptions of the read options -/

namespace Storage

/-- Claim C31 fails on the code: `deepCopy` throws a `TypeError` on `null`, on a record with
a `null` field and on a list that holds `null`; `add` throws on a payload with a `null`
field, and `get` throws on a stored record (of the seed data) that holds `null`. -/
theorem copy_null_throws :
    deepCopy .null = .error (.typeError "Cannot convert undefined or null to object") ∧
    deepCopy (.obj [("title", .str "Soup"), ("note", .null)])
      = .error (.typeError "Cannot convert undefined or null to object") ∧
    deepCopy (.arr [.num 1, .null])
      = .error (.typeError "Cannot convert undefined or null to object") ∧
    add [("recipes", [])] "recipes" [("title", .str "Soup"), ("note", .null)] 5 ["u1"]
      = some ⟨[("recipes", [])], ["u1"],
          .error (.typeError "Cannot convert undefined or null to object")⟩ ∧
    get [("recipes", [("r1", [("title", .str "Soup"), ("note", .null)])])]
        (some "recipes") (some "r1")
      = .error (.typeError "Cannot convert undefined or null to object") := by
  decide

/-- On the values a record may hold, `null` apart, `deepCopy` is total and returns a value
structurally equal to its argument; `add` then succeeds with a fresh id, and `get` returns
the stored record with its `_id`. -/
theorem copy_total_without_null (v : JSValue) (hw : v.wf = true) (hn : v.nullFree = true) :
    deepCopy v = .ok v ∧
    (∀ (cs : Collections) (c id : String) (t : Collection) (r : Props), c ≠ "" → id ≠ "" →
      lookup c cs = some t → lookup id t = some r → wfRecord r = true →
      nullFreeProps r = true →
      get cs (some c) (some id) = .ok (.obj (setProp r "_id" (.str id)))) :=
  ⟨deepCopy_eq_self v hw hn,
    fun cs c id t r hc hid h1 h2 hwr hnr => get_of_stored cs c id hc hid t r h1 h2 hwr hnr⟩

theorem copy_total_without_null_witness :
    deepCopy (.obj [("title", .str "Soup"), ("tags", .arr [.str "a", .num 2]),
        ("nested", .obj [("ok", .bool true)])])
      = .ok (.obj [("title", .str "Soup"), ("tags", .arr [.str "a", .num 2]),
        ("nested", .obj [("ok", .bool true)])]) :=
  (copy_total_without_null _ (by decide) (by decide)).1

end Storage

namespace Crud
open Storage Rules

/-- Claim C32 fails on the code: an exception raised while a read applies `where` or
`sortBy` is caught by the `catch` block of `get` and thrown again as a `RequestError` that
carries the message of the exception, so the response has status 400 and shows the internal
text; and a `TypeError` of the store during an update is answered with status 400,
`'Request error'`. -/
theorem read_fault_reported_with_message :
    (get (serverStages plainEngine) (requestOf none false [])
        [("recipes", [("r1", [("x", .str "Apple")]), ("r2", [("y", .num 1)])])] []
        (some "recipes") [] { where_ := some "x like \"a\"" }
      = .error (requestError "Cannot read properties of undefined (reading 'toLowerCase')") ∧
     report (requestError "Cannot read properties of undefined (reading 'toLowerCase')")
      = (400, "Cannot read properties of undefined (reading 'toLowerCase')")) ∧
    (get (serverStages plainEngine) (requestOf none false [])
        [("recipes", [("r1", [("x", .str "Apple")]), ("r2", [("x", .str "Pear")])])] []
        (some "recipes") [] { sortBy := some "y" }
      = .error (requestError "Cannot read properties of undefined (reading 'localeCompare')") ∧
     report (requestError "Cannot read properties of undefined (reading 'localeCompare')")
      = (400, "Cannot read properties of undefined (reading 'localeCompare')")) ∧
    ((put (requestOf (some "u1") false [])
        [("recipes", [("r1", [("_ownerId", .str "u1"), ("a", .num 0)])])]
        "recipes" ["r1"] [("a", .null)] 9).result = .error requestError ∧
     report requestError = (400, "Request error")) := by
  refine ⟨⟨rfl, rfl⟩, ⟨rfl, rfl⟩, ⟨rfl, rfl⟩⟩

end Crud

/-! ## A create without principal; exceptions of the rules -/

namespace Crud
open Storage Rules

section Faults

theorem canAccess_create_roles (a : Access) (collection : String) (body : Props)
    (tags : List String) (huser : a.user = none)
    (hrule : getRule (initRules a.settings) ".create" collection .undefined
      = .ok ⟨.roles tags, []⟩)
    (hpermit : tags.contains "Guest" = true ∨ a.isAdmin = true) :
    canAccess a .POST (some collection) .undefined (some body)
      = .ok ⟨.undefined, some body⟩ := by
  rw [canAccess_eq]
  simp only [dataId, actions, collectionKey, hrule, topRule, checkRoles, huser]
  by_cases hg : "Guest" ∈ tags
  · simp [hg, applyPropRules]
  · have hadmin : a.isAdmin = true := by
      rcases hpermit with h | h
      · exact absurd (by simpa using h) hg
      · exact h
    by_cases hU : "User" ∈ tags
    · simp [hg, hadmin, hU, applyPropRules]
    · simp [hg, hadmin, hU, applyPropRules]

end Faults

/-- Claim C37: a create request without a principal that the rule engine lets through
(`canAccess` returns) stops at `body._ownerId = context.user._id` with a `TypeError`: the
handler throws an exception that is no `ServiceError`, answered with status 500 and
`'Server Error'`; the store is as before and no id is consumed.  The rule engine lets such
a request through when the create rule is a role list and the request carries the admin
override or the list contains `Guest` (no field rules being defined). -/
theorem anonymous_create_faults (a : Access) (storage : Collections) (collection : String)
    (body : Props) (now : Int) (uuids : List String) (huser : a.user = none) :
    (∀ p, canAccess a .POST (some collection) .undefined (some body) = .ok p →
      post a storage collection [] body now uuids
        = some ⟨storage, uuids, .error (.fault
            (.typeError "Cannot read properties of undefined (reading '_id')"))⟩ ∧
      report (.fault (.typeError "Cannot read properties of undefined (reading '_id')"))
        = (500, "Server Error")) ∧
    (∀ tags, getRule (initRules a.settings) ".create" collection .undefined
        = .ok ⟨.roles tags, []⟩ →
      tags.contains "Guest" = true ∨ a.isAdmin = true →
      canAccess a .POST (some collection) .undefined (some body)
        = .ok ⟨.undefined, some body⟩) := by
  refine ⟨?_, fun tags hrule hpermit =>
    canAccess_create_roles a collection body tags huser hrule hpermit⟩
  intro p hp
  refine ⟨?_, rfl⟩
  simp [post, validateRequest, hp, huser]

/-- Witness for `anonymous_create_faults`: a create without a principal under the built-in
rules with the admin override, and one under a create rule that contains `Guest`. -/
theorem anonymous_create_faults_witness :
    post (requestOf none true []) [] "recipes" [] [("title", .str "Soup")] 5 ["u1"]
      = some ⟨[], ["u1"], .error (.fault
          (.typeError "Cannot read properties of undefined (reading '_id')"))⟩ ∧
    post (requestOf none false [("recipes", ⟨[(".create", .roles ["Guest"])], none, []⟩)])
        [] "recipes" [] [("title", .str "Soup")] 5 ["u1"]
      = some ⟨[], ["u1"], .error (.fault
          (.typeError "Cannot read properties of undefined (reading '_id')"))⟩ :=
  ⟨((anonymous_create_faults (requestOf none true []) [] "recipes" [("title", .str "Soup")]
      5 ["u1"] rfl).1 _
      ((anonymous_create_faults (requestOf none true []) [] "recipes"
        [("title", .str "Soup")] 5 ["u1"] rfl).2 ["User"] (by decide) (Or.inr rfl))).1,
   ((anonymous_create_faults
      (requestOf none false [("recipes", ⟨[(".create", .roles ["Guest"])], none, []⟩)])
      [] "recipes" [("title", .str "Soup")] 5 ["u1"] rfl).1 _
      ((anonymous_create_faults
        (requestOf none false [("recipes", ⟨[(".create", .roles ["Guest"])], none, []⟩)])
        [] "recipes" [("title", .str "Soup")] 5 ["u1"] rfl).2 ["Guest"] (by decide)
        (Or.inl (by decide)))).1⟩

/-- An exception that is no `ServiceError` and reaches `handler` is answered with status
500 and the message `'Server Error'`, whatever the exception; and an exception thrown by
the evaluation of a rule reaches `handler` unchanged from a read, a create and an update,
the store being left as it was. -/
theorem rule_fault_reported_generic (a : Access) (e : JSError) :
    report (.fault e) = (500, "Server Error") ∧
    (∀ (stages : Stages) (storage protectedStorage : Collections) (c : Option String)
        (tokens : List String) (query : Query) (r : JSValue),
      tokens.length ≤ 1 →
      fetch stages storage protectedStorage c tokens query = .ok (.responseData r) →
      canAccess a .GET c r none = .error (.fault e) →
      get stages a storage protectedStorage c tokens query = .error (.fault e)) ∧
    (∀ (storage : Collections) (c : String) (body : Props) (now : Int)
        (uuids : List String),
      canAccess a .POST (some c) .undefined (some body) = .error (.fault e) →
      post a storage c [] body now uuids = some ⟨storage, uuids, .error (.fault e)⟩) ∧
    (∀ (storage : Collections) (c id : String) (body : Props) (now : Int)
        (existing : JSValue),
      Storage.get storage (some c) (some id) = .ok existing →
      canAccess a .PUT (some c) existing (some body) = .error (.fault e) →
      put a storage c [id] body now = ⟨storage, .error (.fault e)⟩) := by
  refine ⟨rfl, ?_, ?_, ?_⟩
  · intro stages storage protectedStorage c tokens query r htok hf hacc
    have hv : validateRequest tokens = .ok () := by
      unfold validateRequest
      have : ¬ tokens.length > 1 := by omega
      simp [this]
    simp [get, hv, hf, hacc]
  · intro storage c body now uuids hacc
    simp [post, validateRequest, hacc]
  · intro storage c id body now existing hg hacc
    simp [put, update_one, hg, hacc]

/-- Witness for `rule_fault_reported_generic`: the read rule is an expression whose
evaluation throws. -/
theorem rule_fault_reported_generic_witness :
    get plainStages
        { user := none, isAdmin := false,
          settings := [("recipes", ⟨[(".read", .expr "x")], none, []⟩)],
          ev := failingEval, toNumber := fun _ => none }
        [("recipes", [("r1", [("a", .num 1)])])] [] (some "recipes") ["r1"] {}
      = .error (.fault (.referenceError "x is not defined")) :=
  (rule_fault_reported_generic
    { user := none, isAdmin := false,
      settings := [("recipes", ⟨[(".read", .expr "x")], none, []⟩)],
      ev := failingEval, toNumber := fun _ => none }
    (.referenceError "x is not defined")).2.1 plainStages
    [("recipes", [("r1", [("a", .num 1)])])] [] (some "recipes") ["r1"] {}
    (.obj [("a", .num 1), ("_id", .str "r1")]) (by decide) rfl rfl

end Crud

/-! ## The access check on `count` and on lists -/

namespace Crud
open Storage Rules

section CountAccess

/-- With `count` the `try` block of `get` returns or throws: it hands nothing to the access
check. -/
theorem fetch_count (stages : Stages) (storage protectedStorage : Collections)
    (c : Option String) (tokens : List String) (query : Query)
    (hcount : (query.count.isSome && query.count != some "") = true) (r : JSValue) :
    fetch stages storage protectedStorage c tokens query ≠ .ok (.responseData r) := by
  intro h
  unfold fetch at h
  simp only [hcount, if_true] at h
  split at h
  · cases h
  · cases h
  · split at h
    · cases h
    · split at h
      · cases h
      · split at h
        · cases h
        · split at h
          · cases h
          · split at h
            · cases h
            · cases h

theorem get_of_fetch (stages : Stages) (a : Access) (storage protectedStorage : Collections)
    (c : Option String) (tokens : List String) (query : Query) :
    get stages a storage protectedStorage c tokens query =
      match validateRequest tokens with
      | .error e => .error e
      | .ok _ =>
        match fetch stages storage protectedStorage c tokens query with
        | .error message => .error (readFailure message)
        | .ok (.returned v) => .ok v
        | .ok (.responseData responseData) =>
          match canAccess a .GET c responseData none with
          | .error e => .error e
          | .ok p => .ok p.data := by
  unfold get
  cases validateRequest tokens with
  | error e => rfl
  | ok u =>
    simp only []
    cases fetch stages storage protectedStorage c tokens query with
    | error m =>
      simp only [readFailure]
      split <;> rfl
    | ok f => cases f <;> rfl

end CountAccess

/-- Claim C34: a read that carries `count` never calls the access check, so what it returns
or throws is the same for every principal, with or without the admin override, under every
rule set; on a named collection, when the read starts from the list of its records, this
is the length of the list that the options make of it. -/
theorem count_skips_access_check (stages : Stages) (a b : Access)
    (storage protectedStorage : Collections) (c : Option String) (tokens : List String)
    (query : Query)
    (hcount : (query.count.isSome && query.count != some "") = true) :
    get stages a storage protectedStorage c tokens query
      = get stages b storage protectedStorage c tokens query ∧
    (∀ (e : Engine) (name : String) (xs : List JSValue) (r : JSValue),
      stages = serverStages e → c = some name → name ≠ "" → tokens.length ≤ 1 →
      readSource storage (some name) tokens query = .ok (.arr xs) →
      specList (serverStages e) query (.arr xs) = .ok r →
      ∃ ys, r = .arr ys ∧
        get stages a storage protectedStorage c tokens query = .ok (.num ys.length)) := by
  constructor
  · rw [get_of_fetch, get_of_fetch]
    cases validateRequest tokens with
    | error e => rfl
    | ok u =>
      simp only []
      cases hf : fetch stages storage protectedStorage c tokens query with
      | error m => rfl
      | ok f =>
        cases f with
        | returned v => rfl
        | responseData r =>
          exact absurd hf (fetch_count stages storage protectedStorage c tokens query hcount r)
  · intro e name xs r hst hc hname htok hsrc hspec
    subst hst
    subst hc
    obtain ⟨ys, rfl⟩ := specList_arr e query xs r hspec
    refine ⟨ys, rfl, ?_⟩
    rw [get_of_fetch, validateRequest_ok tokens htok,
      fetch_eq (serverStages e) storage protectedStorage name tokens query hname]
    simp only [hsrc, hspec, hcount, if_true, getMember]

/-- Witness for `count_skips_access_check`: the read rule of the collection is `false`; a
request without principal is refused the records and is told how many there are. -/
theorem count_skips_access_check_witness :
    get (serverStages plainEngine)
        (requestOf none false [("recipes", ⟨[(".read", .bool false)], none, []⟩)])
        [("recipes", [("r1", [("x", .num 1)]), ("r2", [("x", .num 2)])])] []
        (some "recipes") [] {}
      = .error credentialError ∧
    get (serverStages plainEngine)
        (requestOf none false [("recipes", ⟨[(".read", .bool false)], none, []⟩)])
        [("recipes", [("r1", [("x", .num 1)]), ("r2", [("x", .num 2)])])] []
        (some "recipes") [] { count := some "1" }
      = .ok (.num 2) ∧
    get (serverStages plainEngine)
        (requestOf none false [("recipes", ⟨[(".read", .bool false)], none, []⟩)])
        [("recipes", [("r1", [("x", .num 1)]), ("r2", [("x", .num 2)])])] []
        (some "recipes") [] { count := some "1" }
      = get (serverStages plainEngine) (requestOf (some "u1") true [])
        [("recipes", [("r1", [("x", .num 1)]), ("r2", [("x", .num 2)])])] []
        (some "recipes") [] { count := some "1" } :=
  ⟨rfl, rfl,
    (count_skips_access_check (serverStages plainEngine)
      (requestOf none false [("recipes", ⟨[(".read", .bool false)], none, []⟩)])
      (requestOf (some "u1") true [])
      [("recipes", [("r1", [("x", .num 1)]), ("r2", [("x", .num 2)])])] []
      (some "recipes") [] { count := some "1" } rfl).1⟩

/-- Claim C35: under a read rule resolved to the role list `[Owner]`, a read whose
`responseData` is a list fails with `CredentialError` for every principal with an id and
without the admin override, whatever the records of the list and whoever owns them:
`checkRoles` compares the principal's id with the `_ownerId` of the list, which is
`undefined`.  A read without id and without options is such a read. -/
theorem owner_rule_denies_list (stages : Stages) (a : Access)
    (storage protectedStorage : Collections) (c : String) (tokens : List String)
    (query : Query) (u : Props) (uid : String) (propRules : List (String × Rule))
    (htok : tokens.length ≤ 1)
    (huser : a.user = some u) (hid : getProp u "_id" = .str uid)
    (hadmin : a.isAdmin = false)
    (hrule : getRule (initRules a.settings) ".read" c .undefined
      = .ok ⟨.roles ["Owner"], propRules⟩) :
    (∀ xs, fetch stages storage protectedStorage (some c) tokens query
        = .ok (.responseData (.arr xs)) →
      get stages a storage protectedStorage (some c) tokens query
        = .error credentialError) ∧
    (∀ xs, c ≠ "" → Storage.get storage (some c) none = .ok (.arr xs) →
      get stages a storage protectedStorage (some c) [] {} = .error credentialError) := by
  have hacc : ∀ xs, canAccess a .GET (some c) (.arr xs) none = .error credentialError := by
    intro xs
    rw [canAccess_eq]
    have hd : dataId (.arr xs) = .ok .undefined := by
      simp [dataId, getMember, arrayIndex, digitsValue, digitValue]
    have hown : getMember (.arr xs) "_ownerId" = .ok .undefined := by
      simp [getMember, arrayIndex, digitsValue, digitValue]
    simp [hd, actions, collectionKey, hrule, topRule, checkRoles, huser, hadmin, hown, hid,
      looseEq_str_undefined]
  constructor
  · intro xs hf
    rw [get_of_fetch, validateRequest_ok tokens htok, hf]
    simp only [hacc xs]
  · intro xs hc hg
    have hc2 : falsy (some c) = false := by simp [falsy_some, hc]
    have hf : fetch stages storage protectedStorage (some c) [] {}
        = .ok (.responseData (.arr xs)) := by
      simp [fetch, hc2, hg, runStage]
    rw [get_of_fetch, validateRequest_ok [] (by simp), hf]
    simp only [hacc xs]

/-- Witness for `owner_rule_denies_list`: the principal owns every record of the collection
and reads each of them by id, yet is refused the list. -/
theorem owner_rule_denies_list_witness :
    get plainStages
        (requestOf (some "u1") false [("recipes", ⟨[(".read", .roles ["Owner"])], none, []⟩)])
        [("recipes", [("r1", [("_ownerId", .str "u1")]), ("r2", [("_ownerId", .str "u1")])])]
        [] (some "recipes") [] {}
      = .error credentialError ∧
    get plainStages
        (requestOf (some "u1") false [("recipes", ⟨[(".read", .roles ["Owner"])], none, []⟩)])
        [("recipes", [("r1", [("_ownerId", .str "u1")]), ("r2", [("_ownerId", .str "u1")])])]
        [] (some "recipes") ["r1"] {}
      = .ok (.obj [("_ownerId", .str "u1"), ("_id", .str "r1")]) :=
  ⟨(owner_rule_denies_list plainStages
      (requestOf (some "u1") false [("recipes", ⟨[(".read", .roles ["Owner"])], none, []⟩)])
      [("recipes", [("r1", [("_ownerId", .str "u1")]), ("r2", [("_ownerId", .str "u1")])])]
      [] "recipes" [] {} [("_id", .str "u1")] "u1" [] (by decide) rfl rfl rfl rfl).2
      [.obj [("_ownerId", .str "u1"), ("_id", .str "r1")],
        .obj [("_ownerId", .str "u1"), ("_id", .str "r2")]] (by decide) rfl, rfl⟩

end Crud

/-! ## Field rules by record; the second word of `sortBy` -/

namespace Rules
open Storage

/-- Claim C36: when the sub-entry keyed by the record's id defines, for the action, a rule
on the field `f` only, the field rules resolved for that record are this one rule: a rule
that the field group `*` of the collection defines for the action on another field `g` is
not among them, although it is among the field rules resolved for a record without
sub-entry. -/
theorem record_field_rules_replace (settings : RuleSet)
    (hnd : (settings.map Prod.fst).Nodup) (action collection id : String)
    (entry : CollectionRules) (wild sub : Group) (f g : String) (rf rg : Rule)
    (h1 : lookup collection (initRules settings) = some entry)
    (hw : entry.wildcard = some wild)
    (hsub : recordRules entry id = some sub)
    (hg : (g, rg) ∈ getPropRule wild action)
    (hf : getPropRule sub action = [(f, rf)])
    (hfg : f ≠ g) :
    (∃ rule, getRule (initRules settings) action collection (.str id)
      = .ok ⟨rule, [(f, rf)]⟩) ∧
    (∀ resolved, getRule (initRules settings) action collection (.str id) = .ok resolved →
      ∀ r, (g, r) ∉ resolved.propRules) ∧
    (∀ other resolved, recordRules entry other = none →
      getRule (initRules settings) action collection (.str other) = .ok resolved →
      (g, rg) ∈ resolved.propRules) := by
  have hne : getPropRule sub action ≠ [] := by
    rw [hf]
    simp
  have hres : getRule (initRules settings) action collection (.str id)
      = .ok ⟨ruleOrDefault Rule.length
          (ruleOrDefault Rule.length (baseRule settings action) (lookup action entry.actions))
          (lookup action sub.actions), [(f, rf)]⟩ := by
    rw [getRule_eq settings hnd, h1]
    simp [toStringJS, hsub, hne, hf]
  refine ⟨⟨_, hres⟩, ?_, ?_⟩
  · intro resolved hr r hmem
    rw [hres] at hr
    cases hr
    simp only [List.mem_singleton, Prod.mk.injEq] at hmem
    exact hfg hmem.1.symm
  · intro other resolved hnone hr
    rw [getRule_eq settings hnd, h1] at hr
    simp only [toStringJS, hnone, hw, Except.ok.injEq] at hr
    rw [← hr]
    exact hg

end Rules

namespace Crud
open Storage Rules

/-- Witness for `record_field_rules_replace`: the field group `*` denies reading `secret`
and `notes`, the sub-entry of `r1` has a rule for `notes` only; the read of `r1` keeps
`secret`, the read of `r2`, which has no sub-entry, loses both fields. -/
theorem record_field_rules_replace_witness :
    (∃ rule, getRule (initRules [("recipes", ⟨[],
        some ⟨[], [("secret", [(".read", .bool false)]), ("notes", [(".read", .bool false)])]⟩,
        [("r1", ⟨[], [("notes", [(".read", .bool true)])]⟩)]⟩)])
        ".read" "recipes" (.str "r1")
      = .ok ⟨rule, [("notes", .bool true)]⟩) ∧
    get plainStages (requestOf none false [("recipes", ⟨[],
        some ⟨[], [("secret", [(".read", .bool false)]), ("notes", [(".read", .bool false)])]⟩,
        [("r1", ⟨[], [("notes", [(".read", .bool true)])]⟩)]⟩)])
        [("recipes", [("r1", [("secret", .str "s"), ("notes", .str "n")]),
          ("r2", [("secret", .str "s"), ("notes", .str "n")])])] []
        (some "recipes") ["r1"] {}
      = .ok (.obj [("secret", .str "s"), ("notes", .str "n"), ("_id", .str "r1")]) ∧
    get plainStages (requestOf none false [("recipes", ⟨[],
        some ⟨[], [("secret", [(".read", .bool false)]), ("notes", [(".read", .bool false)])]⟩,
        [("r1", ⟨[], [("notes", [(".read", .bool true)])]⟩)]⟩)])
        [("recipes", [("r1", [("secret", .str "s"), ("notes", .str "n")]),
          ("r2", [("secret", .str "s"), ("notes", .str "n")])])] []
        (some "recipes") ["r2"] {}
      = .ok (.obj [("_id", .str "r2")]) :=
  ⟨(record_field_rules_replace [("recipes", ⟨[],
        some ⟨[], [("secret", [(".read", .bool false)]), ("notes", [(".read", .bool false)])]⟩,
        [("r1", ⟨[], [("notes", [(".read", .bool true)])]⟩)]⟩)]
    (by decide) ".read" "recipes" "r1"
    ⟨[], some ⟨[], [("secret", [(".read", .bool false)]), ("notes", [(".read", .bool false)])]⟩,
        [("r1", ⟨[], [("notes", [(".read", .bool true)])]⟩)]⟩
    ⟨[], [("secret", [(".read", .bool false)]), ("notes", [(".read", .bool false)])]⟩
    ⟨[], [("notes", [(".read", .bool true)])]⟩ "notes" "secret" (.bool true) (.bool false)
    (by decide) rfl (by decide) (by decide) (by decide) (by decide)).1, rfl, rfl⟩

section SecondWord

theorem parseSortBy_two_words (f w : String)
    (hf : f ≠ "" ∧ ',' ∉ f.data ∧ ' ' ∉ f.data)
    (hw : w ≠ "" ∧ ',' ∉ w.data ∧ ' ' ∉ w.data) :
    parseSortBy (f ++ " " ++ w) = [⟨f, true⟩] := by
  have hdata : (f ++ " " ++ w).data = f.data ++ ' ' :: w.data := by
    simp [String.data_append]
  have hcomma : ',' ∉ (f ++ " " ++ w).data := by
    rw [hdata]
    simp [hf.2.1, hw.2.1]
  have hne : (f ++ " " ++ w) ≠ "" := by
    intro h
    have := congrArg String.data h
    rw [hdata] at this
    simp at this
  have hsplit : split (f ++ " " ++ w) ' ' = [f, w] := by
    rw [split_append (f ++ " " ++ w) f w ' ' hdata hf.2.2, split_of_not_mem w ' ' hw.2.2]
  simp [parseSortBy, split_of_not_mem _ ',' hcomma, hne, hsplit, hf.1, hw.1]

end SecondWord

/-- Claim C40: a `sortBy` specifier made of a field name and any second word (both without
comma and blank, not empty) is read as the field with `desc` set, so the option sorts as it
does with the word `desc`: the comparator is that of the ascending order with the opposite
sign.  The field name alone is read with `desc` unset. -/
theorem second_word_descending (e : Engine) (f w : String)
    (hf : f ≠ "" ∧ ',' ∉ f.data ∧ ' ' ∉ f.data)
    (hw : w ≠ "" ∧ ',' ∉ w.data ∧ ' ' ∉ w.data) :
    parseSortBy (f ++ " " ++ w) = [⟨f, true⟩] ∧
    parseSortBy f = [⟨f, false⟩] ∧
    (∀ r, sortByStage e (f ++ " " ++ w) r = sortByStage e (f ++ " desc") r) ∧
    (∀ a b n, compareBy e ⟨f, false⟩ a b = .ok n → compareBy e ⟨f, true⟩ a b = .ok (-n)) := by
  have h1 := parseSortBy_two_words f w hf hw
  have h2 : parseSortBy (f ++ " desc") = [⟨f, true⟩] := by
    have hs : f ++ " desc" = f ++ " " ++ "desc" := by
      rw [String.append_assoc]
      rfl
    rw [hs]
    exact parseSortBy_two_words f "desc" hf (by decide)
  refine ⟨h1, ?_, ?_, ?_⟩
  · have hcomma := hf.2.1
    have hsp := hf.2.2
    simp [parseSortBy, split_of_not_mem f ',' hcomma, split_of_not_mem f ' ' hsp, hf.1]
  · intro r
    simp only [sortByStage, h1, h2]
  · intro a b n h
    unfold compareBy at h ⊢
    cases ha : getMember a f with
    | error err => simp [ha] at h
    | ok propA =>
      cases hb : getMember b f with
      | error err => simp [ha, hb] at h
      | ok propB =>
        simp only [ha, hb] at h ⊢
        cases propA <;> cases propB <;> simp_all

/-- Witness for `second_word_descending`: `sortBy=a asc` puts the record with the larger
`a` first, as `sortBy=a desc` does. -/
theorem second_word_descending_witness :
    sortByStage plainEngine "a asc" (.arr [.obj [("a", .num 1)], .obj [("a", .num 2)]])
      = .ok (.arr [.obj [("a", .num 2)], .obj [("a", .num 1)]]) ∧
    sortByStage plainEngine "a asc" (.arr [.obj [("a", .num 1)], .obj [("a", .num 2)]])
      = sortByStage plainEngine "a desc"
          (.arr [.obj [("a", .num 1)], .obj [("a", .num 2)]]) :=
  ⟨rfl, (second_word_descending plainEngine "a" "asc" (by decide) (by decide)).2.2.1 _⟩

end Crud

/-! ## The field rule of `teamId` in the shipped rules -/

namespace Crud
open Storage Rules

section Members

/-- The rules that the shipped rule set resolves for an update of a record of `members`. -/
theorem getRule_members_update (id : String) :
    getRule (initRules shippedRules) ".update" "members" (.str id)
      = .ok ⟨.expr "isOwner(user, get('teams', data.teamId))",
          [("teamId", .expr "newData.teamId = data.teamId")]⟩ := by
  rw [getRule_eq shippedRules (by decide)]
  have h1 : lookup "members" (initRules shippedRules)
      = some ⟨[(".update", .expr "isOwner(user, get('teams', data.teamId))"),
      (".delete",
        .expr "isOwner(user, get('teams', data.teamId)) || isOwner(user, data)")],
      some ⟨[], [("teamId", [(".update", .expr "newData.teamId = data.teamId")]),
        ("status", [(".create", .expr "newData.status = 'pending'")])]⟩, []⟩ := by
    decide
  rw [h1]
  simp only [toStringJS, recordRules]
  by_cases hs : id = "*"
  · simp only [hs, if_true]
    decide
  · simp only [hs, if_false]
    by_cases hd : id.data.head? = some '.'
    · simp only [hd, if_true]
      decide
    · simp only [hd, if_false, lookup]
      decide

/-- A `set` whose payload carries, under a field that is no system field, the value that the
stored record has there, leaves a record with that value under the field, whether it
returns or throws. -/
theorem set_field_kept (cs : Collections) (c id : String) (data : Props) (now : Int)
    (t : Collection) (existing : Props) (f : String) (v : JSValue)
    (h1 : lookup c cs = some t) (h2 : lookup id t = some existing)
    (hew : wfRecord existing = true) (hen : nullFreeProps existing = true)
    (hw : wfRecord data = true) (hf : systemProps.contains f = false)
    (hv : lookup f data = some v) (hev : lookup f existing = some v) :
    ∃ rec, lookup id (records (Storage.set cs c id data now).1 c) = some rec ∧
      lookup f rec = some v := by
  have hew2 := hew
  simp only [wfRecord, Bool.and_eq_true] at hew2
  unfold Storage.set
  simp only [h1, h2]
  cases h3 : deepCopyObj data with
  | error e =>
    exact ⟨existing, by simp [records, h1, h2], hev⟩
  | ok copy =>
    have hcopy : copy = data := deepCopyObj_ok_eq data copy h3 hw
    subst hcopy
    cases hes : has existing "hasOwnProperty" with
    | true =>
      simp only [assignSystemProps_shadowed copy existing hes]
      exact ⟨existing, by simp [records, h1, h2], hev⟩
    | false =>
      obtain ⟨r, hr, hk⟩ :=
        assignSystemPropsLoop_spec existing hew2.2 hen hes systemProps copy
      have hr2 : assignSystemProps copy existing = .ok r := hr
      simp only [hr2]
      have hne : f ≠ "_updatedOn" := by
        intro e
        rw [e] at hf
        exact absurd hf (by decide)
      have hrec : lookup f (setProp r "_updatedOn" (.num now)) = some v := by
        rw [lookup_setProp, if_neg hne, hk f, hf]
        simpa using hv
      refine ⟨setProp r "_updatedOn" (.num now), ?_, hrec⟩
      cases deepCopyObj (setProp r "_updatedOn" (.num now)) <;>
        simp [records, lookup_mapSet]

theorem lookup_of_getProp_str (o : Props) (k t : String) (h : getProp o k = .str t) :
    lookup k o = some (.str t) := by
  unfold getProp at h
  cases hl : lookup k o with
  | none => simp [hl] at h
  | some v =>
    simp only [hl, Option.getD_some] at h
    rw [h]

end Members

/-- Claim C33: under the shipped rule set, with an `eval` that reads the field rule of
`teamId` as the assignment it is and a top-level rule that assigns nothing, an update
(PUT) of an existing record of `members` whose `teamId` is a non-empty string leaves under
that id a record with the same `teamId`, whatever the payload carries for `teamId` and
whether the request is let through or not.  When the top-level rule lets the request
through, neither the record nor the payload holds `null` or has a property named
`__proto__`, and the record has no field named `hasOwnProperty`, the update succeeds and
the record stored has the old `teamId`, the payload's value for every other field that is
no system field, and `_updatedOn` from the clock. -/
theorem teamId_kept_on_update (a : Access) (storage : Collections) (id : String)
    (body : Props) (now : Int) (members : Collection) (rec : Props) (t : String)
    (hset : a.settings = shippedRules)
    (hassign : ∀ user data newData,
      a.ev "newData.teamId = data.teamId" user data newData
        = assignFromData "teamId" data newData)
    (hpure : ∀ user data newData r,
      a.ev "isOwner(user, get('teams', data.teamId))" user data newData = .ok r →
        r.data = data ∧ r.newData = newData)
    (hid : id ≠ "")
    (hcoll : lookup "members" storage = some members) (hrec : lookup id members = some rec)
    (hwf : wfRecord rec = true) (hbody : wfRecord body = true)
    (hteam : getProp rec "teamId" = .str t) (ht : t ≠ "") :
    (∃ rec1, lookup id (records (put a storage "members" [id] body now).storage "members")
        = some rec1 ∧ getProp rec1 "teamId" = .str t) ∧
    (∀ r, nullFreeProps rec = true → nullFreeProps body = true →
      has rec "hasOwnProperty" = false → protoFreeProps rec = true →
      protoFreeProps body = true →
      a.ev "isOwner(user, get('teams', data.teamId))" a.user
        (.obj (setProp rec "_id" (.str id))) (some body) = .ok r →
      truthy r.value = true ∨ a.isAdmin = true →
      ∃ rec1, put a storage "members" [id] body now
          = ⟨mapSet storage "members" (mapSet members id rec1),
              .ok (.obj (setProp rec1 "_id" (.str id)))⟩ ∧
        getProp rec1 "teamId" = .str t ∧
        ∀ k, k ≠ "teamId" → lookup k rec1 =
          if k = "_updatedOn" then some (.num now)
          else if systemProps.contains k && has rec k then lookup k rec
          else lookup k body) := by
  have hl := lookup_of_getProp_str rec "teamId" t hteam
  have hunchanged : ∃ rec1, lookup id (records storage "members") = some rec1 ∧
      getProp rec1 "teamId" = .str t := ⟨rec, by simp [records, hcoll, hrec], hteam⟩
  have hempty : (t == "") = false := by simpa using ht
  -- the access check, on the copy that `get` returns
  have hacc : ∀ (existing : JSValue), existing = .obj (setProp rec "_id" (.str id)) →
      canAccess a .PUT (some "members") existing (some body) =
        match a.ev "isOwner(user, get('teams', data.teamId))" a.user existing (some body) with
        | .error e => .error (.fault e)
        | .ok r =>
          if !truthy r.value && !a.isAdmin then .error credentialError
          else .ok ⟨existing, some (setProp body "teamId" (.str t))⟩ := by
    intro existing hex
    subst hex
    rw [canAccess_eq]
    have hd : dataId (.obj (setProp rec "_id" (.str id))) = .ok (.str id) := by
      simp [dataId, getMember, getProp_setProp]
    simp only [hd, actions, collectionKey, hset, getRule_members_update, topRule]
    cases hr : a.ev "isOwner(user, get('teams', data.teamId))" a.user
        (.obj (setProp rec "_id" (.str id))) (some body) with
    | error e => rfl
    | ok r =>
      obtain ⟨hr1, hr2⟩ := hpure _ _ _ r hr
      simp only []
      split
      · rfl
      · have hm : getMember (.obj (setProp rec "_id" (.str id))) "teamId" = .ok (.str t) := by
          simp [getMember, getProp_setProp, hteam]
        simp [applyPropRules, applyPropRule, hr1, hr2, hassign, assignFromData, hm, truthy,
          hempty, ht, looseEq_bool_false]
  constructor
  · rw [put, update_one]
    cases hg : Storage.get storage (some "members") (some id) with
    | error e => exact hunchanged
    | ok existing =>
      have hg2 := hg
      unfold Storage.get at hg2
      have hid2 : falsy (some id) = false := by simp [falsy_some, hid]
      simp only [show falsy (some "members") = false from by decide, Option.getD_some, hcoll,
        hid2, hrec, Bool.false_eq_true, if_false] at hg2
      cases hc : deepCopyObj rec with
      | error e => simp [hc] at hg2
      | ok copy =>
        have hcopy : copy = rec := deepCopyObj_ok_eq rec copy hc hwf
        have hnf : nullFreeProps rec = true := deepCopyReduce_ok_nullFree rec [] copy hc
        simp only [hc, hcopy, Except.ok.injEq] at hg2
        simp only [hacc existing hg2.symm]
        cases hr : a.ev "isOwner(user, get('teams', data.teamId))" a.user existing
            (some body) with
        | error e => exact hunchanged
        | ok r =>
          simp only []
          by_cases hgate : (!truthy r.value && !a.isAdmin) = true
          · simp only [hgate, if_true]
            exact hunchanged
          · simp only [hgate, Bool.false_eq_true, if_false, Option.getD_some]
            obtain ⟨rec1, h1, h2⟩ := set_field_kept storage "members" id
              (setProp body "teamId" (.str t)) now members rec "teamId" (.str t) hcoll hrec
              hwf hnf (wfRecord_setProp _ _ _ rfl hbody) (by decide)
              (by simp [lookup_setProp]) hl
            refine ⟨rec1, ?_, getProp_of_lookup rec1 "teamId" _ h2⟩
            cases hs : Storage.set storage "members" id (setProp body "teamId" (.str t)) now
              with
            | mk st res =>
              rw [hs] at h1
              cases res <;> exact h1
  · intro r hnr hnb hes _ _ hr hpass
    have hg := get_stored storage "members" id members rec (by decide) hid hcoll hrec hwf hnr
    obtain ⟨rec1, hs, _, hk⟩ := set_spec storage "members" id
      (setProp body "teamId" (.str t)) now members rec hcoll hrec hwf hnr hes
      (wfRecord_setProp _ _ _ rfl hbody) (nullFreeProps_setProp _ _ _ rfl hnb)
    refine ⟨rec1, ?_, ?_, ?_⟩
    · rw [put, update_one, hg]
      simp only [hacc _ rfl, hr]
      have hgate : (!truthy r.value && !a.isAdmin) = false := by
        rcases hpass with h | h <;> simp [h]
      simp only [hgate, Bool.false_eq_true, if_false, Option.getD_some, hs]
    · apply getProp_of_lookup
      rw [hk]
      simp [lookup_setProp, hl]
    · intro k hkne
      rw [hk k, lookup_setProp, if_neg hkne]

/-- Witness for `teamId_kept_on_update`: the payload names another team, the update
succeeds and the record stored keeps the old one. -/
theorem teamId_kept_on_update_witness :
    (∃ rec1, lookup "m1" (records (put
        { user := some [("_id", .str "u1")], isAdmin := false, settings := shippedRules,
          ev := membersEval, toNumber := fun _ => none }
        [("members", [("m1", [("_ownerId", .str "u1"), ("teamId", .str "t1"),
          ("status", .str "member")])])]
        "members" ["m1"] [("teamId", .str "t2"), ("status", .str "pending")] 9).storage
        "members") = some rec1 ∧ getProp rec1 "teamId" = .str "t1") ∧
    (∃ rec1, put
        { user := some [("_id", .str "u1")], isAdmin := false, settings := shippedRules,
          ev := membersEval, toNumber := fun _ => none }
        [("members", [("m1", [("_ownerId", .str "u1"), ("teamId", .str "t1"),
          ("status", .str "member")])])]
        "members" ["m1"] [("teamId", .str "t2"), ("status", .str "pending")] 9
        = ⟨mapSet [("members", [("m1", [("_ownerId", .str "u1"), ("teamId", .str "t1"),
              ("status", .str "member")])])] "members"
            (mapSet [("m1", [("_ownerId", .str "u1"), ("teamId", .str "t1"),
              ("status", .str "member")])] "m1" rec1),
            .ok (.obj (setProp rec1 "_id" (.str "m1")))⟩ ∧
      getProp rec1 "teamId" = .str "t1" ∧
      lookup "status" rec1 = some (.str "pending")) := by
  have h := teamId_kept_on_update
    { user := some [("_id", .str "u1")], isAdmin := false, settings := shippedRules,
      ev := membersEval, toNumber := fun _ => none }
    [("members", [("m1", [("_ownerId", .str "u1"), ("teamId", .str "t1"),
      ("status", .str "member")])])]
    "m1" [("teamId", .str "t2"), ("status", .str "pending")] 9
    [("m1", [("_ownerId", .str "u1"), ("teamId", .str "t1"), ("status", .str "member")])]
    [("_ownerId", .str "u1"), ("teamId", .str "t1"), ("status", .str "member")] "t1"
    rfl (fun _ _ _ => rfl)
    (fun _ data newData r h => by
      simp only [membersEval] at h
      rw [if_neg (by decide)] at h
      cases h
      exact ⟨rfl, rfl⟩)
    (by decide) rfl rfl (by decide) (by decide) rfl (by decide)
  refine ⟨h.1, ?_⟩
  obtain ⟨rec1, h1, h2, h3⟩ := h.2 ⟨.bool true, _, _⟩ (by decide) (by decide) (by decide)
    (by decide) (by decide) rfl (Or.inl rfl)
  exact ⟨rec1, h1, h2, by rw [h3 "status" (by decide)]; rfl⟩

end Crud

/-! ## The pattern of `parseWhere` and connectives inside literals -/

namespace Crud
open Storage Rules

section Chars

theorem toNat_ofNat_lower (n : Nat) (h1 : 65 ≤ n) (h2 : n ≤ 90) :
    (Char.ofNat (n + 32)).toNat = n + 32 := by
  interval_cases n <;> rfl

/-- Folding changes the letters `A` to `Z` only, and maps them to `a` to `z`. -/
theorem foldChar_eq (c x : Char) (hx : ¬ (97 ≤ x.toNat ∧ x.toNat ≤ 122))
    (h : foldChar c = x) : c = x := by
  unfold foldChar at h
  split at h
  · rename_i hc
    have := toNat_ofNat_lower c.toNat hc.1 hc.2
    rw [h] at this
    exact absurd (by omega) hx
  · exact h

theorem foldChar_ne (c x : Char) (hx : ¬ (97 ≤ x.toNat ∧ x.toNat ≤ 122)) (h : c ≠ x) :
    (x == foldChar c) = false := by
  cases hb : x == foldChar c with
  | false => rfl
  | true =>
    have : foldChar c = x := (beq_iff_eq.1 hb).symm
    exact absurd (foldChar_eq c x hx this) h

theorem dotChar_false (c : Char) (h : dotChar c = false) :
    c.toNat = 10 ∨ c.toNat = 13 ∨ c.toNat = 0x2028 ∨ c.toNat = 0x2029 := by
  simp only [dotChar, Bool.not_eq_false', Bool.or_eq_true, beq_iff_eq] at h
  rcases h with ((h | h) | h) | h
  · left
    rw [h]
    rfl
  · right; left
    rw [h]
    rfl
  · right; right; left
    exact h
  · right; right; right
    exact h

theorem dotChar_of_not_space (c : Char) (h : isSpaceJS c = false) : dotChar c = true := by
  cases hd : dotChar c with
  | true => rfl
  | false =>
    have h4 := dotChar_false c hd
    have : isSpaceJS c = true := by
      simp only [isSpaceJS, Bool.or_eq_true, Bool.and_eq_true, decide_eq_true_eq, beq_iff_eq]
      rcases h4 with h4 | h4 | h4 | h4 <;> rw [h4] <;> decide
    rw [h] at this
    cases this

/-- A character that folds to a character matched by `.` is matched by `.`. -/
theorem dotChar_of_fold (c q : Char) (hq : dotChar q = true) (h : foldChar c = q) :
    dotChar c = true := by
  cases hd : dotChar c with
  | true => rfl
  | false =>
    have h4 := dotChar_false c hd
    have hfold : foldChar c = c := by
      unfold foldChar
      have : ¬ (65 ≤ c.toNat ∧ c.toNat ≤ 90) := by
        rcases h4 with h4 | h4 | h4 | h4 <;> omega
      simp [this]
    rw [hfold] at h
    rw [h] at hd
    rw [hq] at hd
    cases hd

end Chars

section Pattern

theorem startsWithFold_cons_ne (q : Char) (qs : List Char) (c : Char) (cs : List Char)
    (h : (q == foldChar c) = false) : startsWithFold (q :: qs) (c :: cs) = false := by
  simp [startsWithFold, h]

/-- A match of fixed text over `s ++ rest` lies within `s`, or reaches the first character
of `rest`. -/
theorem startsWithFold_append (pat s rest : List Char)
    (h : startsWithFold pat (s ++ rest) = true) :
    startsWithFold pat s = true ∨ ∃ r, rest.head? = some r ∧ foldChar r ∈ pat := by
  induction pat generalizing s with
  | nil => exact Or.inl (by cases s <;> rfl)
  | cons q qs ih =>
    cases s with
    | nil =>
      cases rest with
      | nil => simp [startsWithFold] at h
      | cons r rs =>
        simp only [List.nil_append, startsWithFold, Bool.and_eq_true, beq_iff_eq] at h
        exact Or.inr ⟨r, rfl, by simp [h.1]⟩
    | cons c cs =>
      simp only [List.cons_append, startsWithFold, Bool.and_eq_true] at h
      rcases ih cs h.2 with h2 | ⟨r, hr, hm⟩
      · exact Or.inl (by simp [startsWithFold, h.1, h2])
      · exact Or.inr ⟨r, hr, List.mem_cons_of_mem _ hm⟩

theorem foldChar_operator (r : Char) (h : operatorChar r = true) : foldChar r = r := by
  simp only [operatorChar, Bool.or_eq_true, beq_iff_eq] at h
  rcases h with (h | h) | h <;> rw [h] <;> rfl

/-- No operator of the pattern matches where a character of the first group stands that is
no operator character, when neither word operator starts there. -/
theorem matchOperator_none (c : Char) (cs : List Char) (hc : operatorChar c = false)
    (hlike : startsWithFold " like ".data (c :: cs) = false)
    (hin : startsWithFold " in ".data (c :: cs) = false) :
    matchOperator (c :: cs) operatorNames = none := by
  simp only [operatorChar, Bool.or_eq_false_iff, beq_eq_false_iff_ne, ne_eq] at hc
  have h1 : ('<' == foldChar c) = false := foldChar_ne c '<' (by decide) hc.1.1
  have h2 : ('>' == foldChar c) = false := foldChar_ne c '>' (by decide) hc.1.2
  have h3 : ('=' == foldChar c) = false := foldChar_ne c '=' (by decide) hc.2
  have e1 : ("<=" : String).data = ['<', '='] := rfl
  have e2 : ("<" : String).data = ['<'] := rfl
  have e3 : (">=" : String).data = ['>', '='] := rfl
  have e4 : (">" : String).data = ['>'] := rfl
  have e5 : ("=" : String).data = ['='] := rfl
  simp only [operatorNames, matchOperator, e1, e2, e3, e4, e5,
    startsWithFold_cons_ne _ _ c cs h1, startsWithFold_cons_ne _ _ c cs h2,
    startsWithFold_cons_ne _ _ c cs h3, hlike, hin, Bool.false_and, Bool.false_eq_true,
    if_false]

/-- The operator found where a comparison operator stands, followed by a value that is
not empty, holds no line terminator and does not start with `=`. -/
theorem matchOperator_comparison (op : String) (v : List Char)
    (hop : op ∈ ["<=", "<", ">=", ">", "="]) (hne : v ≠ [])
    (hdot : v.all dotChar = true) (hhead : v.head? ≠ some '=') :
    matchOperator (op.data ++ v) operatorNames = some (op, v) := by
  obtain ⟨v0, vs, rfl⟩ := List.exists_cons_of_ne_nil hne
  have hv0 : v0 ≠ '=' := fun e => hhead (by simp [e])
  have h3 : ('=' == foldChar v0) = false := foldChar_ne v0 '=' (by decide) hv0
  have f1 : foldChar '<' = '<' := rfl
  have f2 : foldChar '>' = '>' := rfl
  have f3 : foldChar '=' = '=' := rfl
  have e1 : ("<=" : String).data = ['<', '='] := rfl
  have e2 : ("<" : String).data = ['<'] := rfl
  have e3 : (">=" : String).data = ['>', '='] := rfl
  have e4 : (">" : String).data = ['>'] := rfl
  have e5 : ("=" : String).data = ['='] := rfl
  have l1 : ("<=" : String).length = 2 := rfl
  have l2 : ("<" : String).length = 1 := rfl
  have l3 : (">=" : String).length = 2 := rfl
  have l4 : (">" : String).length = 1 := rfl
  have l5 : ("=" : String).length = 1 := rfl
  have c1 : ('<' == '>') = false := by decide
  have c2 : ('<' == '=') = false := by decide
  have c3 : ('>' == '<') = false := by decide
  have c4 : ('>' == '=') = false := by decide
  have c5 : ('=' == '<') = false := by decide
  have c6 : ('=' == '>') = false := by decide
  simp only [List.mem_cons, List.mem_singleton, List.mem_nil_iff, or_false] at hop
  rcases hop with h | h | h | h | h <;> subst h <;>
    simp only [operatorNames, matchOperator, startsWithFold, e1, e2, e3, e4, e5, l1, l2, l3,
      l4, l5, f1, f2, f3, h3, c1, c2, c3, c4, c5, c6, hdot, List.cons_append,
      List.nil_append, List.drop_succ_cons, List.drop_zero, List.isEmpty_cons, beq_self_eq_true,
      Bool.and_true, Bool.true_and, Bool.and_false, Bool.false_and, Bool.not_false,
      Bool.false_eq_true, if_true, if_false]

theorem containsFold_cons_false (pat : List Char) (c : Char) (cs : List Char)
    (h : containsFold pat (c :: cs) = false) :
    startsWithFold pat (c :: cs) = false ∧ containsFold pat cs = false := by
  simpa [containsFold] using h

theorem execFrom_cons (acc : List Char) (c : Char) (rest : List Char) :
    execFrom acc (c :: rest) =
      if dotChar c then
        match matchOperator rest operatorNames with
        | some (op, value) => some ((c :: acc).reverse, op, value)
        | none => execFrom (c :: acc) rest
      else none := rfl

/-- The first group of the pattern is the text before the first operator: over a first
group `p` that holds no operator character and neither word operator, followed by an
operator character, the match is the one found after `p`. -/
theorem execFrom_first_group (rest : List Char) (r : Char) (hr : rest.head? = some r)
    (hrop : operatorChar r = true) :
    ∀ (p acc : List Char), p ≠ [] → p.all dotChar = true →
      p.all (fun c => !operatorChar c) = true →
      containsFold " like ".data p = false → containsFold " in ".data p = false →
      execFrom acc (p ++ rest) =
        match matchOperator rest operatorNames with
        | some (op, value) => some (acc.reverse ++ p, op, value)
        | none => execFrom (p.reverse ++ acc) rest
  | [], _, h, _, _, _, _ => absurd rfl h
  | [c], acc, _, hd, _, _, _ => by
    simp only [List.all_cons, List.all_nil, Bool.and_true] at hd
    show execFrom acc (c :: rest) = _
    rw [execFrom_cons, hd, if_pos rfl]
    cases hm0 : matchOperator rest operatorNames with
    | none => rfl
    | some m => simp
  | c :: c1 :: p, acc, _, hd, ho, hl, hi => by
    simp only [List.all_cons, Bool.and_eq_true] at hd ho
    obtain ⟨_, hl2⟩ := containsFold_cons_false _ c (c1 :: p) hl
    obtain ⟨_, hi2⟩ := containsFold_cons_false _ c (c1 :: p) hi
    obtain ⟨hl3, _⟩ := containsFold_cons_false _ c1 p hl2
    obtain ⟨hi3, _⟩ := containsFold_cons_false _ c1 p hi2
    have hfr : foldChar r = r := foldChar_operator r hrop
    have hno : ∀ pat : List Char, (∀ q ∈ pat, operatorChar q = false) →
        startsWithFold pat (c1 :: p) = false →
        startsWithFold pat (c1 :: (p ++ rest)) = false := by
      intro pat hpat hsw
      cases hb : startsWithFold pat (c1 :: (p ++ rest)) with
      | false => rfl
      | true =>
        rcases startsWithFold_append pat (c1 :: p) rest hb with h | ⟨r1, hr1, hm⟩
        · rw [hsw] at h
          cases h
        · rw [hr] at hr1
          cases hr1
          rw [hfr] at hm
          have := hpat r hm
          rw [hrop] at this
          cases this
    have hc1 : operatorChar c1 = false := by simpa using ho.2.1
    have hm := matchOperator_none c1 (p ++ rest) hc1
      (hno _ (by decide) hl3) (hno _ (by decide) hi3)
    have ih := execFrom_first_group rest r hr hrop (c1 :: p) (c :: acc)
      (by simp) (by simp [hd.2]) (by simp [ho.2]) hl2 hi2
    show execFrom acc (c :: (c1 :: p ++ rest)) = _
    rw [execFrom_cons, hd.1, if_pos rfl]
    have hm2 : matchOperator (c1 :: p ++ rest) operatorNames = none := hm
    rw [hm2]
    simp only []
    rw [ih]
    cases hm0 : matchOperator rest operatorNames with
    | none => simp
    | some m => simp

end Pattern

/-- Claim C39, as stated, fails: with an empty value the clause `x<=` is read as the
operator `<` followed by the value `=`; a clause with a line terminator is not matched at
all; and the word operators are found in any letter case, so `a IN b=2` is read with the
operator ` in `. -/
theorem operator_tokenisation_counterexample :
    createChecker "x<=" = some ⟨"x", "<", "="⟩ ∧
    createChecker "a\nb=2" = none ∧
    createChecker "a IN b=2" = some ⟨"a", " in ", "b=2"⟩ := by
  decide

/-- Claim C39, amended: for a clause `p OP v` with `OP` one of `<=`, `<`, `>=`, `>`, `=`,
where `p` is not empty, holds no line terminator, no operator character and neither word
operator in any letter case, and `v` is not empty, holds no line terminator and does not
start with `=`, the pattern splits the clause into `trim p`, `OP` and `trim v`. -/
theorem operator_tokenisation (p op v : String)
    (hop : op ∈ ["<=", "<", ">=", ">", "="])
    (hp : p.data ≠ [] ∧ p.data.all dotChar = true ∧
      p.data.all (fun c => !operatorChar c) = true ∧
      containsFold " like ".data p.data = false ∧ containsFold " in ".data p.data = false)
    (hv : v.data ≠ [] ∧ v.data.all dotChar = true ∧ v.data.head? ≠ some '=') :
    createChecker (p ++ op ++ v) = some ⟨trim p, op, trim v⟩ := by
  have hdata : (p ++ op ++ v).data = p.data ++ (op.data ++ v.data) := by
    simp [String.data_append]
  have hm := matchOperator_comparison op v.data hop hv.1 hv.2.1 hv.2.2
  have hhead : ∃ r, (op.data ++ v.data).head? = some r ∧ operatorChar r = true := by
    simp only [List.mem_cons, List.mem_singleton, List.mem_nil_iff, or_false] at hop
    rcases hop with h | h | h | h | h <;> subst h <;> exact ⟨_, rfl, rfl⟩
  obtain ⟨r, hr, hrop⟩ := hhead
  have hex := execFrom_first_group (op.data ++ v.data) r hr hrop p.data [] hp.1 hp.2.1
    hp.2.2.1 hp.2.2.2.1 hp.2.2.2.2
  rw [hm] at hex
  simp only [createChecker, exec, hdata, hex, List.reverse_nil, List.nil_append,
    Option.map_some']

/-- Witness for `operator_tokenisation`: `x<=2` and `x>=2` are read with the operators of
two characters and the value `2`. -/
theorem operator_tokenisation_witness :
    createChecker "x<=2" = some ⟨"x", "<=", "2"⟩ ∧
    createChecker "x>=2" = some ⟨"x", ">=", "2"⟩ :=
  ⟨operator_tokenisation "x" "<=" "2" (by decide) (by decide) (by decide),
    operator_tokenisation "x" ">=" "2" (by decide) (by decide) (by decide)⟩

section Literal

theorem startsWithFold_take_dot : ∀ (pat l : List Char), pat.all dotChar = true →
    startsWithFold pat l = true → (l.take pat.length).all dotChar = true
  | [], _, _, _ => rfl
  | _ :: _, [], _, h => by simp [startsWithFold] at h
  | q :: qs, c :: cs, hp, h => by
    simp only [List.all_cons, Bool.and_eq_true] at hp
    simp only [startsWithFold, Bool.and_eq_true, beq_iff_eq] at h
    simp only [List.length_cons, List.take_succ_cons, List.all_cons, Bool.and_eq_true]
    exact ⟨dotChar_of_fold c q hp.1 h.1.symm, startsWithFold_take_dot qs cs hp.2 h.2⟩

theorem matchOperator_all_dot (rest : List Char) :
    ∀ (ops : List String), (∀ o ∈ ops, o.data.all dotChar = true) →
      ∀ op value, matchOperator rest ops = some (op, value) → rest.all dotChar = true
  | [], _, _, _, h => by simp [matchOperator] at h
  | o :: ops, hops, op, value, h => by
    simp only [matchOperator] at h
    split at h
    · rename_i hc
      simp only [Bool.and_eq_true] at hc
      have h1 := startsWithFold_take_dot o.data rest (hops o (by simp)) hc.1.1
      have h2 : (rest.drop o.length).all dotChar = true := hc.2
      have hlen : o.data.length = o.length := rfl
      rw [hlen] at h1
      rw [← List.take_append_drop o.length rest, List.all_append, h1, h2]
      rfl
    · exact matchOperator_all_dot rest ops (fun o2 ho2 => hops o2 (by simp [ho2])) op value h

/-- The pattern matches texts without line terminator only. -/
theorem execFrom_all_dot : ∀ (l acc : List Char) (m : List Char × String × List Char),
    execFrom acc l = some m → l.all dotChar = true
  | [], _, _, h => by simp [execFrom] at h
  | c :: rest, acc, m, h => by
    rw [execFrom_cons] at h
    cases hd : dotChar c with
    | false => simp [hd] at h
    | true =>
      simp only [hd, if_true] at h
      cases hm : matchOperator rest operatorNames with
      | some found =>
        obtain ⟨op, value⟩ := found
        have := matchOperator_all_dot rest operatorNames (by decide) op value hm
        simp [this, hd]
      | none =>
        simp only [hm] at h
        simp [execFrom_all_dot rest (c :: acc) m h, hd]

theorem splitFoldAux_ne_nil (pat : List Char) :
    ∀ (l : List Char) (k : Nat), splitFoldAux pat k l ≠ []
  | [], k => by cases k <;> simp [splitFoldAux]
  | c :: cs, k + 1 => by
    simp only [splitFoldAux]
    exact splitFoldAux_ne_nil pat cs k
  | c :: cs, 0 => by
    simp only [splitFoldAux]
    split
    · simp
    · split <;> simp

/-- Before the first character that can start an occurrence, `split` cuts nothing. -/
theorem splitFoldAux_after (q : Char) (qs : List Char) (l : List Char) :
    ∀ (pre : List Char), (∀ c ∈ pre, (q == foldChar c) = false) →
      ∃ h t, splitFoldAux (q :: qs) 0 l = h :: t ∧
        splitFoldAux (q :: qs) 0 (pre ++ l) = (pre ++ h) :: t
  | [], _ => by
    obtain ⟨h, t, ht⟩ := List.exists_cons_of_ne_nil (splitFoldAux_ne_nil (q :: qs) l 0)
    exact ⟨h, t, ht, by simpa using ht⟩
  | c :: pre, hpre => by
    obtain ⟨h, t, ht, hsplit⟩ := splitFoldAux_after q qs l pre
      (fun d hd => hpre d (List.mem_cons_of_mem _ hd))
    refine ⟨h, t, ht, ?_⟩
    have hc := hpre c (by simp)
    have happ : pre.append l = pre ++ l := rfl
    simp only [List.cons_append, splitFoldAux, startsWithFold, hc, Bool.false_and,
      Bool.false_eq_true, if_false, happ, hsplit]

theorem containsFold_after (q : Char) (qs : List Char) (l : List Char) :
    ∀ (pre : List Char), (∀ c ∈ pre, (q == foldChar c) = false) →
      containsFold (q :: qs) (pre ++ l) = containsFold (q :: qs) l
  | [], _ => rfl
  | c :: pre, hpre => by
    have hc := hpre c (by simp)
    simp only [List.cons_append, containsFold, startsWithFold, hc, Bool.false_and,
      Bool.false_or]
    exact containsFold_after q qs l pre (fun d hd => hpre d (List.mem_cons_of_mem _ hd))

theorem startsWithFold_append_right : ∀ (pat s t : List Char),
    startsWithFold pat s = true → startsWithFold pat (s ++ t) = true
  | [], _, _, _ => by simp [startsWithFold]
  | _ :: _, [], _, h => by simp [startsWithFold] at h
  | q :: qs, c :: cs, t, h => by
    simp only [startsWithFold, Bool.and_eq_true] at h
    simp only [List.cons_append, startsWithFold, h.1, Bool.true_and]
    exact startsWithFold_append_right qs cs t h.2

theorem containsFold_append_right (q : Char) (qs : List Char) :
    ∀ (s t : List Char), containsFold (q :: qs) s = true →
      containsFold (q :: qs) (s ++ t) = true
  | [], _, h => by simp [containsFold] at h
  | c :: cs, t, h => by
    simp only [containsFold, Bool.or_eq_true] at h
    simp only [List.cons_append, containsFold, Bool.or_eq_true]
    rcases h with h | h
    · exact Or.inl (startsWithFold_append_right _ _ t h)
    · exact Or.inr (containsFold_append_right q qs cs t h)

/-- Where the text holds an occurrence, the first piece of `split` ends at one. -/
theorem splitFoldAux_first (q : Char) (qs : List Char) :
    ∀ (l : List Char), containsFold (q :: qs) l = true →
      ∃ h t rest, splitFoldAux (q :: qs) 0 l = h :: t ∧ l = h ++ rest ∧
        startsWithFold (q :: qs) rest = true
  | [], h => by simp [containsFold] at h
  | c :: cs, h => by
    cases hs : startsWithFold (q :: qs) (c :: cs) with
    | true =>
      exact ⟨[], splitFoldAux (q :: qs) ((q :: qs).length - 1) cs, c :: cs,
        by simp [splitFoldAux, hs], rfl, hs⟩
    | false =>
      have hcs : containsFold (q :: qs) cs = true := by
        simpa [containsFold, hs] using h
      obtain ⟨h1, t1, rest, hsplit, hl, hrest⟩ := splitFoldAux_first q qs cs hcs
      refine ⟨c :: h1, t1, rest, ?_, by rw [hl]; rfl, hrest⟩
      simp only [splitFoldAux, hs, Bool.false_eq_true, if_false, hsplit]

theorem closesString_initial : ∀ (h rest : List Char) (escaped : Bool),
    closesString escaped (h ++ rest) = false → closesString escaped h = false
  | [], _, _, _ => rfl
  | c :: h, rest, escaped, hyp => by
    simp only [List.cons_append, closesString] at hyp ⊢
    cases escaped with
    | true =>
      simp only [if_true] at hyp ⊢
      exact closesString_initial h rest false hyp
    | false =>
      simp only [Bool.false_eq_true, if_false] at hyp ⊢
      by_cases hq : c = '"'
      · simp [hq] at hyp
      · simp only [hq, if_false] at hyp ⊢
        exact closesString_initial h rest _ hyp

theorem dropWhile_concat_ne_nil (p : Char → Bool) (c : Char) (hc : p c = false) :
    ∀ l : List Char, (l ++ [c]).dropWhile p ≠ []
  | [] => by simp [List.dropWhile, hc]
  | x :: l => by
    simp only [List.cons_append, List.dropWhile]
    split
    · exact dropWhile_concat_ne_nil p c hc l
    · simp

/-- Trimming a text that starts with a character that is no white space leaves that
character followed by a prefix of the rest. -/
theorem trimChars_cons (c : Char) (hc : isSpaceJS c = false) (h : List Char) :
    ∃ h1 rest, trimChars (c :: h) = c :: h1 ∧ h = h1 ++ rest := by
  have hd : (c :: h).dropWhile isSpaceJS = c :: h := by simp [List.dropWhile, hc]
  have hpre : trimChars (c :: h) <+: c :: h := by
    unfold trimChars
    rw [hd]
    have := List.dropWhile_suffix isSpaceJS (l := (c :: h).reverse)
    have h2 := List.reverse_prefix.2 this
    simpa using h2
  have hne : trimChars (c :: h) ≠ [] := by
    unfold trimChars
    rw [hd]
    intro e
    have e2 := congrArg List.reverse e
    simp only [List.reverse_reverse, List.reverse_nil, List.reverse_cons] at e2
    exact dropWhile_concat_ne_nil isSpaceJS c hc h.reverse e2
  obtain ⟨x, xs, hx⟩ := List.exists_cons_of_ne_nil hne
  rw [hx] at hpre
  obtain ⟨rest, hrest⟩ := hpre
  simp only [List.cons_append, List.cons.injEq] at hrest
  exact ⟨xs, rest, by rw [hx, hrest.1], hrest.2.symm⟩

end Literal

section Connective

theorem fold_ne_blank (c : Char) (h : isSpaceJS c = false) : (' ' == foldChar c) = false := by
  apply foldChar_ne c ' ' (by decide)
  intro e
  rw [e] at h
  exact absurd h (by decide)

theorem containsFold_false_of_head (q : Char) (qs : List Char) :
    ∀ (l : List Char), (∀ c ∈ l, (q == foldChar c) = false) → containsFold (q :: qs) l = false
  | [], _ => rfl
  | c :: cs, h => by
    simp only [containsFold, startsWithFold, h c (by simp), Bool.false_and, Bool.false_or]
    exact containsFold_false_of_head q qs cs (fun d hd => h d (List.mem_cons_of_mem _ hd))

/-- The checker made of a clause `field="h`, the literal being cut after `h`: none when
`h` holds a line terminator, and otherwise the comparison with `=` whose value is the
opening quote followed by a prefix of `h`. -/
theorem createChecker_cut (field h : List Char)
    (hfield : field ≠ [] ∧ ∀ ch ∈ field, operatorChar ch = false ∧ isSpaceJS ch = false) :
    createChecker (String.mk (field ++ '=' :: '"' :: h)) = none ∨
    ∃ k h1 rest, createChecker (String.mk (field ++ '=' :: '"' :: h)) = some k ∧
      k.operator = "=" ∧ k.value = String.mk ('"' :: h1) ∧ h = h1 ++ rest := by
  have hdot : field.all dotChar = true := by
    rw [List.all_eq_true]
    exact fun c hc => dotChar_of_not_space c (hfield.2 c hc).2
  have hop : field.all (fun c => !operatorChar c) = true := by
    rw [List.all_eq_true]
    intro c hc
    simp [(hfield.2 c hc).1]
  have hblank : ∀ c ∈ field, (' ' == foldChar c) = false :=
    fun c hc => fold_ne_blank c (hfield.2 c hc).2
  have hlike : containsFold " like ".data field = false :=
    containsFold_false_of_head ' ' _ field hblank
  have hin : containsFold " in ".data field = false :=
    containsFold_false_of_head ' ' _ field hblank
  have hex := execFrom_first_group ('=' :: '"' :: h) '=' rfl rfl field [] hfield.1 hdot hop
    hlike hin
  simp only [List.reverse_nil, List.nil_append, List.append_nil] at hex
  cases hall : ('"' :: h).all dotChar with
  | true =>
    right
    have hm := matchOperator_comparison "=" ('"' :: h) (by decide) (by simp) hall (by simp)
    have hm2 : matchOperator ('=' :: '"' :: h) operatorNames = some ("=", '"' :: h) := hm
    rw [hm2] at hex
    obtain ⟨h1, rest, ht, hh⟩ := trimChars_cons '"' (by decide) h
    refine ⟨⟨trim (String.mk field), "=", trim (String.mk ('"' :: h))⟩, h1, rest, ?_, rfl, ?_,
      hh⟩
    · simp only [createChecker, exec, hex, Option.map_some']
    · simp only [trim, ht]
  | false =>
    left
    have hnone : execFrom [] (field ++ '=' :: '"' :: h) = none := by
      cases hr : execFrom [] (field ++ '=' :: '"' :: h) with
      | none => rfl
      | some m =>
        have hd := execFrom_all_dot _ _ m hr
        simp only [List.all_append, List.all_cons, Bool.and_eq_true] at hd
        have : ('"' :: h).all dotChar = true := by
          simp only [List.all_cons, Bool.and_eq_true]
          exact hd.2.2
        rw [hall] at this
        cases this
    simp only [createChecker, exec, hnone, Option.map_none']

theorem createCheckers_cons (c : String) (cs : List String) :
    createCheckers (c :: cs) =
      match createChecker c with
      | none => none
      | some k =>
        match createCheckers cs with
        | none => none
        | some ks => some (k :: ks) := rfl

/-- The clauses of `field="s"` when `s` holds a connective: the first one is `field="h`
for a prefix `h` of `s`. -/
theorem splitClauses_cut (field s : String)
    (hfield : ∀ ch ∈ field.data, isSpaceJS ch = false)
    (hconn : containsFold " and ".data s.data = true ∨
      containsFold " or ".data s.data = true) :
    ∃ conn h rest t, splitClauses (field ++ "=\"" ++ s ++ "\"")
        = (conn, String.mk (field.data ++ '=' :: '"' :: h) :: t) ∧ s.data = h ++ rest := by
  have hdata : (field ++ "=\"" ++ s ++ "\"").data
      = (field.data ++ ['=', '"']) ++ (s.data ++ ['"']) := by
    simp [String.data_append]
  have hpre : ∀ c ∈ field.data ++ ['=', '"'], (' ' == foldChar c) = false := by
    intro c hc
    simp only [List.mem_append, List.mem_cons, List.mem_singleton, List.mem_nil_iff,
      or_false] at hc
    rcases hc with hc | hc | hc
    · exact fold_ne_blank c (hfield c hc)
    · rw [hc]
      rfl
    · rw [hc]
      rfl
  have key : ∀ qs : List Char, containsFold (' ' :: qs) (s.data ++ ['"']) = true →
      ∃ h rest t, splitFoldAux (' ' :: qs) 0 (field ++ "=\"" ++ s ++ "\"").data
          = (field.data ++ '=' :: '"' :: h) :: t ∧ s.data = h ++ rest := by
    intro qs hc
    obtain ⟨h, t, rest, hsplit, hl, hrest⟩ := splitFoldAux_first ' ' qs _ hc
    obtain ⟨h2, t2, ht2, hsplit2⟩ :=
      splitFoldAux_after ' ' qs (s.data ++ ['"']) (field.data ++ ['=', '"']) hpre
    rw [hsplit] at ht2
    cases ht2
    have hne : rest ≠ [] := by
      intro e
      rw [e] at hrest
      simp [startsWithFold] at hrest
    have hs : s.data = h ++ rest.dropLast := by
      have := congrArg List.dropLast hl
      rw [List.dropLast_concat, List.dropLast_append_of_ne_nil _ hne] at this
      exact this
    refine ⟨h, rest.dropLast, t, ?_, hs⟩
    rw [hdata, hsplit2]
    simp
  have hand : (" and " : String).data = ' ' :: ['a', 'n', 'd', ' '] := rfl
  have hor : (" or " : String).data = ' ' :: ['o', 'r', ' '] := rfl
  have hcont : ∀ qs : List Char,
      containsFold (' ' :: qs) (field ++ "=\"" ++ s ++ "\"").data
        = containsFold (' ' :: qs) (s.data ++ ['"']) := by
    intro qs
    rw [hdata]
    exact containsFold_after ' ' qs _ _ hpre
  cases ha : containsFold " and ".data (field ++ "=\"" ++ s ++ "\"").data with
  | true =>
    have ha2 := ha
    rw [hand, hcont] at ha2
    obtain ⟨h, rest, t, hsplit, hs⟩ := key _ ha2
    refine ⟨.all, h, rest, t.map String.mk, ?_, hs⟩
    simp only [splitClauses, ha, if_true, splitFold, hand, hsplit, List.map_cons]
  | false =>
    have hsa : containsFold " and ".data s.data = false := by
      cases hx : containsFold " and ".data s.data with
      | false => rfl
      | true =>
        have := containsFold_append_right ' ' _ s.data ['"'] (by rw [← hand]; exact hx)
        rw [← hcont, ← hand, ha] at this
        cases this
    have hso : containsFold " or ".data s.data = true := by
      rcases hconn with h | h
      · rw [hsa] at h
        cases h
      · exact h
    have ho2 := containsFold_append_right ' ' _ s.data ['"'] (by rw [← hor]; exact hso)
    have ho : containsFold " or ".data (field ++ "=\"" ++ s ++ "\"").data = true := by
      rw [hor, hcont]
      exact ho2
    obtain ⟨h, rest, t, hsplit, hs⟩ := key _ ho2
    refine ⟨.any, h, rest, t.map String.mk, ?_, hs⟩
    simp only [splitClauses, ha, Bool.false_eq_true, if_false, ho, if_true, splitFold, hor,
      hsplit, List.map_cons]

theorem runChecker_eq_error (e : Engine) (k : Clause) (ps : Props) (m : String)
    (hop : k.operator = "=") (hm : e.jsonParse k.value = .error m) :
    runChecker e k (.obj ps) = .error m := by
  unfold runChecker
  rw [hop]
  simp only [show ¬ ("=" = "<=") from by decide, show ¬ ("=" = "<") from by decide,
    show ¬ ("=" = ">=") from by decide, show ¬ ("=" = ">") from by decide, if_false, if_true]
  exact compareChecker_error e _ k.prop k.value ps m hm

/-- The filter `field="s"` on a list that starts with a record, when `s` holds a
connective: it throws, either the error of `parseWhere` or the message with which
`JSON.parse` rejects the literal that was cut. -/
theorem where_cut_literal (e : Engine) (field s : String) (rec0 : Props)
    (others : List JSValue)
    (hfield : field.data ≠ [] ∧
      ∀ ch ∈ field.data, operatorChar ch = false ∧ isSpaceJS ch = false)
    (hs : closesString false s.data = false)
    (hconn : containsFold " and ".data s.data = true ∨
      containsFold " or ".data s.data = true)
    (hjson : ∀ body, closesString false body = false →
      ∃ m, e.jsonParse (String.mk ('"' :: body)) = .error m) :
    ∃ m, whereStage e (field ++ "=\"" ++ s ++ "\"") (.arr (.obj rec0 :: others)) = .error m ∧
      (m = "Could not parse WHERE clause, check your syntax." ∨
        ∃ body, closesString false body = false ∧
          e.jsonParse (String.mk ('"' :: body)) = .error m) := by
  obtain ⟨conn, h, rest, t, hsplit, hsd⟩ :=
    splitClauses_cut field s (fun c hc => (hfield.2 c hc).2) hconn
  have hparseErr : ∀ (hnone : createCheckers
      (String.mk (field.data ++ '=' :: '"' :: h) :: t) = none),
      whereStage e (field ++ "=\"" ++ s ++ "\"") (.arr (.obj rec0 :: others))
        = .error "Could not parse WHERE clause, check your syntax." := by
    intro hnone
    simp only [whereStage, parseWhere, hsplit, hnone]
  rcases createChecker_cut field.data h hfield with hk | ⟨k, h1, rest1, hk, hop, hval, hh⟩
  · exact ⟨_, hparseErr (by rw [createCheckers_cons, hk]), Or.inl rfl⟩
  · cases hks : createCheckers t with
    | none => exact ⟨_, hparseErr (by rw [createCheckers_cons, hk, hks]), Or.inl rfl⟩
    | some ks =>
      have hcl : closesString false h1 = false := by
        apply closesString_initial h1 (rest1 ++ rest)
        rw [← List.append_assoc, ← hh, ← hsd]
        exact hs
      obtain ⟨m, hm⟩ := hjson h1 hcl
      have hrun : runChecker e k (.obj rec0) = .error m :=
        runChecker_eq_error e k rec0 m hop (by rw [hval]; exact hm)
      refine ⟨m, ?_, Or.inr ⟨h1, hcl, hm⟩⟩
      have hcs : createCheckers (String.mk (field.data ++ '=' :: '"' :: h) :: t)
          = some (k :: ks) := by
        rw [createCheckers_cons, hk, hks]
      simp only [whereStage, parseWhere, hsplit, hcs, filterRecords, runCheckers, hrun]

end Connective

/-- Claim C38: a read of an existing collection that holds a record, with the expression
`field="s"` where `field` is a name (not empty, without operator character and white
space) and `s`, the text of a string literal (no closing quote in it), holds ` and ` or
` or ` in any letter case: the read fails, with the BadRequest error of `parseWhere`, or
with the message with which `JSON.parse` rejects the literal cut at the connective (a
BadRequest error as well, unless that message contains `does not exist`); no record is
returned. -/
theorem connective_inside_literal (e : Engine) (a : Access)
    (storage protectedStorage : Collections) (c : String) (tokens : List String)
    (query : Query) (field s : String) (rec0 : Props) (others : List JSValue)
    (hc : c ≠ "") (htok : tokens.length ≤ 1)
    (hq : query.where_ = some (field ++ "=\"" ++ s ++ "\""))
    (hfield : field.data ≠ [] ∧
      ∀ ch ∈ field.data, operatorChar ch = false ∧ isSpaceJS ch = false)
    (hs : closesString false s.data = false)
    (hconn : containsFold " and ".data s.data = true ∨
      containsFold " or ".data s.data = true)
    (hjson : ∀ body, closesString false body = false →
      ∃ m, e.jsonParse (String.mk ('"' :: body)) = .error m)
    (hsrc : Storage.get storage (some c) none = .ok (.arr (.obj rec0 :: others))) :
    (∃ m, get (serverStages e) a storage protectedStorage (some c) tokens query
        = .error (readFailure m) ∧
      (m = "Could not parse WHERE clause, check your syntax." ∨
        ∃ body, closesString false body = false ∧
          e.jsonParse (String.mk ('"' :: body)) = .error m)) ∧
    ((∀ t m, e.jsonParse t = .error m → includes m "does not exist" = false) →
      ∃ m, get (serverStages e) a storage protectedStorage (some c) tokens query
        = .error (requestError m)) := by
  obtain ⟨m, hw, hm⟩ := where_cut_literal e field s rec0 others hfield hs hconn hjson
  have htext : field ++ "=\"" ++ s ++ "\"" ≠ "" := by
    intro h
    have := congrArg String.data h
    simp only [String.data_append] at this
    have hne := hfield.1
    simp [hne] at this
  have hget := get_where e a storage protectedStorage c tokens query _ m _ hc htok hq htext
    hsrc hw
  refine ⟨⟨m, hget, hm⟩, fun hmsg => ⟨m, ?_⟩⟩
  rw [hget]
  rcases hm with hm | ⟨body, _, hb⟩
  · rw [hm]
    decide
  · simp [readFailure, hmsg _ m hb]

section PlainJSON

theorem closesString_of_plain : ∀ (l : List Char),
    l.all (fun c => c != '"' && c != '\\' && decide (32 ≤ c.toNat)) = true →
    closesString false (l ++ ['"']) = true
  | [], _ => by simp [closesString]
  | c :: l, h => by
    simp only [List.all_cons, Bool.and_eq_true, bne_iff_ne, ne_eq, decide_eq_true_eq] at h
    simp only [List.cons_append, closesString, Bool.false_eq_true, if_false, h.1.1.1,
      h.1.1.2, decide_False]
    exact closesString_of_plain l h.2

/-- The function `parseLiteral` rejects a string literal that is not closed. -/
theorem parseLiteral_unclosed (body : List Char) (h : closesString false body = false) :
    parseLiteral (String.mk ('"' :: body)) = .error "Unexpected token in JSON" := by
  obtain ⟨h1, rest, ht, hb⟩ := trimChars_cons '"' (by decide) body
  have hcl : closesString false h1 = false := by
    apply closesString_initial h1 rest
    rw [← hb]
    exact h
  have hscalar : parseScalar ('"' :: h1) = none := by
    unfold parseScalar
    have e1 : ¬ ('"' :: h1 = "true".data) := by
      intro e
      cases e
    have e2 : ¬ ('"' :: h1 = "false".data) := by
      intro e
      cases e
    have e3 : ¬ ('"' :: h1 = "null".data) := by
      intro e
      cases e
    simp only [e1, e2, e3, if_false]
    split
    · rename_i hc
      simp only [Bool.and_eq_true, decide_eq_true_eq] at hc
      have hlast : h1 = h1.dropLast ++ ['"'] := by
        have hne : h1 ≠ [] := by
          intro e
          rw [e] at hc
          simp at hc
        have := List.dropLast_append_getLast hne
        rw [List.getLast?_eq_getLast _ hne] at hc
        rw [← this]
        simp only [Option.some.injEq] at hc
        rw [hc.1]
        simp
      have := closesString_of_plain h1.dropLast hc.2
      rw [← hlast, hcl] at this
      cases this
    · rfl
  unfold parseLiteral
  split
  · rename_i heq
    cases heq
  · show (match parseScalar (trimChars ('"' :: body)) with
      | some v => Except.ok v
      | none => Except.error "Unexpected token in JSON") = _
    rw [ht, hscalar]

end PlainJSON

/-- Witness for `connective_inside_literal`: the record whose title is `salt and pepper`
is not returned by `title="salt and pepper"`. -/
theorem connective_inside_literal_witness :
    ∃ m, get (serverStages plainEngine) (requestOf none false [])
        [("recipes", [("r1", [("title", .str "salt and pepper")])])] []
        (some "recipes") [] { where_ := some "title=\"salt and pepper\"" }
      = .error (readFailure m) :=
  ((connective_inside_literal plainEngine (requestOf none false [])
    [("recipes", [("r1", [("title", .str "salt and pepper")])])] []
    "recipes" [] { where_ := some "title=\"salt and pepper\"" } "title" "salt and pepper"
    [("title", .str "salt and pepper"), ("_id", .str "r1")] []
    (by decide) (by decide) rfl (by decide) (by decide) (by decide)
    (fun body hb => ⟨"Unexpected token in JSON", parseLiteral_unclosed body hb⟩) rfl).1).imp
    (fun _ h => h.1)

end Crud
